import Mathlib

/-!
# Generators and analyzers of the skills collection

Shallow embeddings of six utilities of the repository and the properties of
them that the specification states: the Kubernetes manifest generator
(`kubernetes-manifest-generator/src/index.js`, namespace `K8s`), the security
scanner (`security-scanner/src/index.js`, namespace `SecurityScanner`), the
entry point of the log analyzer (`log-analyzer-debugger/src/index.js`,
namespace `LogAnalyzer`), the prompt optimizer
(`ai-prompt-optimizer/src/index.js`, namespace `PromptOptimizer`), the
recruiter assistant (`recruiter-assistant/src/index.js`, namespace
`RecruiterAssistant`) and the dependency upgrade assistant
(`dependency-upgrade-assistant/src/index.js`, namespace
`DependencyUpgradeAssistant`).

* JavaScript values are an inductive type. An object is the list of its own
  enumerable properties in the order `Object.entries` lists them; a property
  that is absent reads as `undefined`.
* Strings are lists of characters. The numbers of the data model (ports,
  replica counts, the scores of the analysers) are integers. Where the code
  multiplies or adds fractions (the cost estimate, the weighted scores of the
  prompt optimizer and of the recruiter assistant) and where it reads a version
  component with `Number`, the numbers are IEEE-754 doubles (section `Double`):
  a finite double is the rational it stands for, and every product, sum and
  difference is rounded to the nearest double, ties to even.
* A call that throws returns `Except.error`; the code modelled can only throw a
  `TypeError`, by reading a property of, or enumerating, `null` or `undefined`,
  or by calling what is not a function.

The file has the embeddings first (the doubles, then for the manifest
generator: values, `formatValue`, `toYAML`, `buildConfig`, the resource
builders, the advisory generators, `generate`, then the vocabulary of the
specification and the example inputs), then the lemmas and the theorems.
-/

/-!
# Double-precision numbers

The numbers the cost estimate and the weighted scores are computed with. A
finite double is held as the rational number it denotes; every operation is
the exact operation followed by the rounding of IEEE 754 (to the nearest
double, a tie to the one with an even significand, overflow to an infinity).
The sign of a zero is not held: no result modelled here depends on it.
-/

/-- A JavaScript number: a finite double, an infinity or `NaN`. -/
inductive Double
  | finite (value : ℚ)
  | infinity (negative : Bool)
  | nan
  deriving DecidableEq

namespace Double

/-- The integer nearest a rational, a tie going to the even one. -/
def roundHalfEven (x : ℚ) : Int :=
  let f := ⌊x⌋
  let r := x - f
  if r < 1 / 2 then f else if 1 / 2 < r then f + 1 else if f % 2 = 0 then f else f + 1

/-- The number of halvings that bring `n` below 2, at most `fuel` of them. -/
def log2Fuel : Nat → Nat → Nat
  | 0, _ => 0
  | fuel + 1, n => if n < 2 then 0 else log2Fuel fuel (n / 2) + 1

/-- The integer part of the binary logarithm of a positive integer. -/
def log2 (n : Nat) : Nat := log2Fuel n n

/-- The binary exponent of a positive rational `q`: the `e` with
`2 ^ e ≤ q < 2 ^ (e + 1)`. The difference of the logarithms of numerator and
denominator is `e` or `e + 1`. -/
def exponentOf (q : ℚ) : Int :=
  let e0 : Int := (log2 q.num.natAbs : Int) - (log2 q.den : Int)
  if q < 2 ^ e0 then e0 - 1 else e0

/-- The double nearest a rational: the significand has 53 bits (fewer below
`2 ^ -1022`, where the spacing stays `2 ^ -1074`), and a result of `2 ^ 1024`
or more in size is an infinity. -/
def ofRat (q : ℚ) : Double :=
  if q = 0 then .finite 0
  else
    let p := max (exponentOf |q| - 52) (-1074)
    let r := (roundHalfEven (q / 2 ^ p) : ℚ) * 2 ^ p
    if (2 : ℚ) ^ (1024 : Int) ≤ |r| then .infinity (decide (q < 0)) else .finite r

/-- The number of an integer. -/
def ofInt (n : Int) : Double := ofRat n

/-- The operator unary `-`. -/
def neg : Double → Double
  | .finite a => .finite (-a)
  | .infinity s => .infinity (!s)
  | .nan => .nan

/-- The operator `+`. -/
def add : Double → Double → Double
  | .finite a, .finite b => ofRat (a + b)
  | .finite _, .infinity s => .infinity s
  | .infinity s, .finite _ => .infinity s
  | .infinity s, .infinity t => if s = t then .infinity s else .nan
  | _, _ => .nan

/-- The operator binary `-`. -/
def sub (a b : Double) : Double := add a (neg b)

/-- The operator `*`. -/
def mul : Double → Double → Double
  | .finite a, .finite b => ofRat (a * b)
  | .finite a, .infinity s => if a = 0 then .nan else .infinity (s != decide (a < 0))
  | .infinity s, .finite b => if b = 0 then .nan else .infinity (s != decide (b < 0))
  | .infinity s, .infinity t => .infinity (s != t)
  | _, _ => .nan

/-- The operator `/`; a zero divisor is taken as `+0`. -/
def div : Double → Double → Double
  | .finite a, .finite b =>
    if b = 0 then (if a = 0 then .nan else .infinity (decide (a < 0))) else ofRat (a / b)
  | .finite _, .infinity _ => .finite 0
  | .infinity s, .finite b => .infinity (s != decide (b < 0))
  | _, _ => .nan

/-- The comparison `a < b`, false when one side is `NaN`. -/
def lt : Double → Double → Bool
  | .finite a, .finite b => decide (a < b)
  | .finite _, .infinity s => !s
  | .infinity s, .finite _ => s
  | .infinity s, .infinity t => s && !t
  | _, _ => false

/-- The comparison `a >= b`, false when one side is `NaN`. -/
def ge : Double → Double → Bool
  | .nan, _ => false
  | _, .nan => false
  | a, b => !lt a b

/-- The function `Math.min` of two numbers. -/
def mathMin : Double → Double → Double
  | .nan, _ => .nan
  | _, .nan => .nan
  | a, b => if lt b a then b else a

/-- The function `Math.round`: the nearest integer, a tie going up. -/
def mathRound : Double → Double
  | .finite q => .finite ⌊q + 1 / 2⌋
  | x => x

/-! ## The text of a number -/

/-- The digits without the zeros at their end. -/
def stripZeros (ds : List Char) : List Char := (ds.reverse.dropWhile fun c => c == '0').reverse

/-- The search of `Number::toString` for the shortest digits that read back as
the double `v`, an integer of `n` digits: with `k` digits the candidates are
the multiples of `10 ^ (n - k)` next to `v`; the first `k` with a candidate that
rounds to `v` is taken, and of two candidates the one nearer `v`. -/
def shortestFuel : Nat → Nat → Nat → Nat → Nat
  | 0, v, _, _ => v
  | fuel + 1, v, n, k =>
    let step := 10 ^ (n - k)
    let low := v / step * step
    let high := low + step
    let lowFits := decide (ofRat low = .finite v)
    let highFits := decide (ofRat high = .finite v)
    if lowFits && highFits then
      if v - low < high - v then low
      else if high - v < v - low then high
      else if (v / step) % 2 = 0 then low else high
    else if lowFits then low
    else if highFits then high
    else shortestFuel fuel v n (k + 1)

/-- The integer whose digits `Number::toString` prints for a double that is
the integer `v`: the shortest digits that read back as `v`, then zeros. -/
def shortest (v : Nat) : Nat := shortestFuel 17 v (Nat.toDigits 10 v).length 1

/-- The text `Number::toString` gives for a double that is the integer `v`, of
`10 ^ 21` or more: one digit, the further digits after a point, and the exponent. -/
def exponentText (v : Nat) : List Char :=
  let ds := Nat.toDigits 10 (shortest v)
  let digits := stripZeros ds
  digits.take 1 ++ (if digits.length > 1 then '.' :: digits.drop 1 else [])
    ++ "e+".data ++ Nat.toDigits 10 (ds.length - 1)

/-- The text of a double that is the integer `n`, as a template literal gives
it. An integer up to `2 ^ 53` in size is printed digit by digit (it is a double
and no shorter digits read back as it); a larger one below `10 ^ 21` as its
shortest digits followed by zeros; from `10 ^ 21` on in the exponent form. -/
def integerText (n : Int) : List Char :=
  (if n < 0 then ['-'] else []) ++
    (if n.natAbs ≤ 2 ^ 53 then Nat.toDigits 10 n.natAbs
     else if n.natAbs < 10 ^ 21 then Nat.toDigits 10 (shortest n.natAbs)
     else exponentText n.natAbs)

/-- The text of `Math.round(x)` in a template literal. -/
def roundedText : Double → List Char
  | .finite q => integerText ⌊q + 1 / 2⌋
  | .infinity false => "Infinity".data
  | .infinity true => "-Infinity".data
  | .nan => "NaN".data

/-! ## Vocabulary of the specification -/

/-- The number is finite and within `ε` of the rational `a`. -/
def Near (x : Double) (a ε : ℚ) : Prop := ∃ r, x = .finite r ∧ |r - a| ≤ ε

end Double

namespace K8s

/-- JavaScript strings, held as lists of characters. -/
abbrev Str := List Char

/-- JavaScript values. `obj kvs` lists the own enumerable properties of an
object in enumeration order; `arr xs` is an array without holes. -/
inductive JsVal
  | undefined
  | null
  | bool (b : Bool)
  | num (n : Int)
  | str (s : Str)
  | arr (xs : List JsVal)
  | obj (kvs : List (Str × JsVal))

/-- The only exception the generator can raise: a `TypeError` from reading a
property of, or enumerating, `null` or `undefined`. -/
inductive JsError
  | typeError
  deriving DecidableEq, Repr

instance instDecidableEqExcept {ε α : Type} [DecidableEq ε] [DecidableEq α] :
    DecidableEq (Except ε α)
  | .ok a, .ok b =>
    if h : a = b then isTrue (congrArg Except.ok h)
    else isFalse (fun h2 => h (Except.ok.inj h2))
  | .error a, .error b =>
    if h : a = b then isTrue (congrArg Except.error h)
    else isFalse (fun h2 => h (Except.error.inj h2))
  | .ok _, .error _ => isFalse (fun h => Except.noConfusion h)
  | .error _, .ok _ => isFalse (fun h => Except.noConfusion h)

/-- A string literal as a JavaScript string value. -/
def lit (s : String) : JsVal := .str s.data

/-- One property `key: value` of an object literal. -/
def prop (k : String) (v : JsVal) : Str × JsVal := (k.data, v)

/-! ## Core JavaScript semantics used by the generator -/

/-- JavaScript truthiness (`ToBoolean`). -/
def truthy : JsVal → Bool
  | .undefined => false
  | .null => false
  | .bool b => b
  | .num n => n != 0
  | .str s => !s.isEmpty
  | .arr _ => true
  | .obj _ => true

/-- The value of `a || b` when evaluating `b` cannot throw. -/
def jsOr (a b : JsVal) : JsVal := if truthy a then a else b

/-- The value of `a && b` when evaluating `b` cannot throw. -/
def jsAnd (a b : JsVal) : JsVal := if truthy a then b else a

/-- Holds for `null` and `undefined`. -/
def isNullish : JsVal → Bool
  | .undefined => true
  | .null => true
  | _ => false

/-- Decimal rendering of an integer, as `String(n)` gives for a safe integer. -/
def intToStr : Int → Str
  | .ofNat k => Nat.toDigits 10 k
  | .negSucc k => '-' :: Nat.toDigits 10 (k + 1)

mutual
/-- JavaScript `ToString`, as applied by a template literal. -/
def jsToString : JsVal → Str
  | .undefined => "undefined".data
  | .null => "null".data
  | .bool true => "true".data
  | .bool false => "false".data
  | .num n => intToStr n
  | .str s => s
  | .arr xs => joinItems xs
  | .obj _ => "[object Object]".data
/-- The text of `Array.prototype.join` with a comma: `null` and `undefined`
elements give the empty string. -/
def joinItems : List JsVal → Str
  | [] => []
  | x :: rest =>
    let h : Str := match x with
      | .undefined => []
      | .null => []
      | y => jsToString y
    match rest with
    | [] => h
    | _ :: _ => h ++ ',' :: joinItems rest
end

/-- The pairs of `Object.entries` for an array: index keys `0, 1, ...`. -/
def indexed (i : Nat) : List JsVal → List (Str × JsVal)
  | [] => []
  | x :: rest => (Nat.toDigits 10 i, x) :: indexed (i + 1) rest

/-- The result of `Object.entries(v)`: throws on `null` and `undefined`, lists
nothing for booleans and numbers, the indexed characters of a string, the
indexed elements of an array, the own properties of an object. -/
def objectEntries : JsVal → Except JsError (List (Str × JsVal))
  | .undefined => .error .typeError
  | .null => .error .typeError
  | .bool _ => .ok []
  | .num _ => .ok []
  | .str s => .ok (indexed 0 (s.map fun c => JsVal.str [c]))
  | .arr xs => .ok (indexed 0 xs)
  | .obj kvs => .ok kvs

/-- The result of `Object.keys(v)`. -/
def objectKeys (v : JsVal) : Except JsError (List Str) :=
  (objectEntries v).map fun es => es.map Prod.fst

/-- A property read `v.k` for the property names the generator reads
(`replicas`, `resources`, `healthCheckConfig`, `requests`, `cpu`, `memory`):
throws on `null` and `undefined`, looks the name up in an object, and is
`undefined` on every other value. -/
def getProp (v : JsVal) (k : Str) : Except JsError JsVal :=
  match v with
  | .undefined => .error .typeError
  | .null => .error .typeError
  | .obj kvs => .ok ((kvs.lookup k).getD .undefined)
  | _ => .ok .undefined

/-- The strict comparison `v === s` against a string literal. -/
def strictEqStr (v : JsVal) (s : Str) : Bool :=
  match v with
  | .str t => t == s
  | _ => false

/-! ## formatValue -/

/-- The canonical form under which the `i` flag compares characters: a
lowercase ASCII letter becomes its capital, every other character stays (no
character outside ASCII is folded onto an ASCII one). -/
def canonicalize (c : Char) : Char :=
  if 97 ≤ c.toNat ∧ c.toNat ≤ 122 then Char.ofNat (c.toNat - 32) else c

/-- A whole-string, case-insensitive match of a literal alternative. -/
def matchLiteral : Str → Str → Bool
  | [], [] => true
  | p :: ps, c :: cs => canonicalize p == canonicalize c && matchLiteral ps cs
  | _, _ => false

/-- The class `[0-9]`. -/
def isDigit (c : Char) : Bool := 48 ≤ c.toNat && c.toNat ≤ 57

/-- A whole-string match of `[0-9]+`. -/
def matchDigits : Str → Bool
  | [] => false
  | [c] => isDigit c
  | c :: cs => isDigit c && matchDigits cs

/-- The test `/^(true|false|null|[0-9]+)$/i.test(value)`. -/
def regexTest (value : Str) : Bool :=
  matchLiteral "true".data value || matchLiteral "false".data value
    || matchLiteral "null".data value || matchDigits value

/-- The method `String.prototype.includes` for a one-character argument. -/
def includes (value : Str) (c : Char) : Bool := value.contains c

/-- The method `formatValue`. -/
def formatValue (value : JsVal) : JsVal :=
  match value with
  | .str s =>
    if regexTest s || includes s ':' || includes s '#' then
      .str ('"' :: s ++ ['"'])
    else value
  | _ => value

/-! ## toYAML -/

/-- The string `'  '.repeat(indent)`. -/
def spaces (indent : Nat) : Str := List.replicate (2 * indent) ' '

/-- A line terminator, after which `^` matches under the `m` flag. -/
def isLineTerminator (c : Char) : Bool :=
  c == '\n' || c == '\r' || c.toNat == 0x2028 || c.toNat == 0x2029

/-- The scan of `text.replace(new RegExp('^' + pat, 'gm'), rep)` for a non-empty
literal `pat` without line terminators: `skip` counts the characters of a match
still to be dropped, `atStart` says whether `^` matches here. -/
def replaceScan (pat rep : Str) : Nat → Bool → Str → Str
  | _, _, [] => []
  | skip + 1, _, _ :: t => replaceScan pat rep skip false t
  | 0, atStart, c :: t =>
    if atStart && pat.isPrefixOf (c :: t) then
      rep ++ replaceScan pat rep (pat.length - 1) false t
    else c :: replaceScan pat rep 0 (isLineTerminator c) t

/-- The call `.replace(new RegExp('^' + '  '.repeat(indent + 1), 'gm'), spaces + '  ')`
of `toYAML`. -/
def reindent (indent : Nat) (text : Str) : Str :=
  replaceScan (spaces (indent + 1)) (spaces indent ++ "  ".data) 0 true text

/-- The line `spaces key: formatValue(value)` of the last branch of `toYAML`. -/
def scalarLine (indent : Nat) (key : Str) (value : JsVal) : Str :=
  spaces indent ++ key ++ ": ".data ++ jsToString (formatValue value) ++ "\n".data

mutual
/-- The loop of `toYAML` over the properties of an object. -/
def toYAMLProps : List (Str × JsVal) → Nat → Except JsError Str
  | [], _ => .ok []
  | (key, value) :: rest, indent => do
    let line ← toYAMLEntry key value indent
    let more ← toYAMLProps rest indent
    pure (line ++ more)
/-- The loop of `toYAML` over the entries of an array passed as `obj`: the
keys are the indices from `i` on. -/
def toYAMLIndexed : Nat → List JsVal → Nat → Except JsError Str
  | _, [], _ => .ok []
  | i, value :: rest, indent => do
    let line ← toYAMLEntry (Nat.toDigits 10 i) value indent
    let more ← toYAMLIndexed (i + 1) rest indent
    pure (line ++ more)
/-- The inner loop of `toYAML` over the items of an array value. -/
def toYAMLItems : List JsVal → Nat → Except JsError Str
  | [], _ => .ok []
  | item :: rest, indent => do
    let line ← (match item with
      | .null => .error .typeError
      | .arr xs => do
        let sub ← toYAMLIndexed 0 xs (indent + 1)
        pure (spaces indent ++ "- \n".data ++ reindent indent sub)
      | .obj kvs => do
        let sub ← toYAMLProps kvs (indent + 1)
        pure (spaces indent ++ "- \n".data ++ reindent indent sub)
      | v => pure (spaces indent ++ "- ".data ++ jsToString (formatValue v) ++ "\n".data))
    let more ← toYAMLItems rest indent
    pure (line ++ more)
/-- The body of the loop of `toYAML` for one entry `[key, value]`. -/
def toYAMLEntry : Str → JsVal → Nat → Except JsError Str
  | _, .undefined, _ => .ok []
  | _, .null, _ => .ok []
  | key, .arr xs, indent => do
    let items ← toYAMLItems xs indent
    pure (spaces indent ++ key ++ ":\n".data ++ items)
  | key, .obj kvs, indent => do
    let sub ← toYAMLProps kvs (indent + 1)
    pure (spaces indent ++ key ++ ":\n".data ++ sub)
  | key, .bool b, indent => .ok (scalarLine indent key (.bool b))
  | key, .num n, indent => .ok (scalarLine indent key (.num n))
  | key, .str s, indent => .ok (scalarLine indent key (.str s))
end

/-- The method `toYAML(obj, indent)`. -/
def toYAML (obj : JsVal) (indent : Nat) : Except JsError Str :=
  match obj with
  | .undefined => .error .typeError
  | .null => .error .typeError
  | .bool _ => .ok []
  | .num _ => .ok []
  | .str s => .ok (((indexed 0 (s.map fun c => JsVal.str [c])).map
      fun kv => scalarLine indent kv.1 kv.2).flatten)
  | .arr xs => toYAMLIndexed 0 xs indent
  | .obj kvs => toYAMLProps kvs indent

/-! ## Configuration -/

/-- The raw options object passed to `generate`; a property that is absent
reads as `undefined`. -/
structure Options where
  appName : JsVal := .undefined
  image : JsVal := .undefined
  port : JsVal := .undefined
  environment : JsVal := .undefined
  namespace_ : JsVal := .undefined
  replicas : JsVal := .undefined
  serviceType : JsVal := .undefined
  enableIngress : JsVal := .undefined
  ingressHost : JsVal := .undefined
  enableTLS : JsVal := .undefined
  enableAutoscaling : JsVal := .undefined
  minReplicas : JsVal := .undefined
  maxReplicas : JsVal := .undefined
  envVars : JsVal := .undefined
  secrets : JsVal := .undefined
  healthCheckPath : JsVal := .undefined
  readinessCheckPath : JsVal := .undefined
  resources : JsVal := .undefined

/-- The config object the builders read; a property that is absent reads as
`undefined`. -/
structure Config where
  appName : JsVal := .undefined
  image : JsVal := .undefined
  port : JsVal := .undefined
  environment : JsVal := .undefined
  namespace_ : JsVal := .undefined
  replicas : JsVal := .undefined
  serviceType : JsVal := .undefined
  enableIngress : JsVal := .undefined
  ingressHost : JsVal := .undefined
  enableTLS : JsVal := .undefined
  enableAutoscaling : JsVal := .undefined
  minReplicas : JsVal := .undefined
  maxReplicas : JsVal := .undefined
  envVars : JsVal := .undefined
  secrets : JsVal := .undefined
  healthCheckPath : JsVal := .undefined
  readinessCheckPath : JsVal := .undefined
  resources : JsVal := .undefined
  healthCheckConfig : JsVal := .undefined

/-- One tier of the table built by the constructor. -/
def tierDefaults (replicas : Int) (reqCpu reqMem limCpu limMem : String)
    (initialDelay period timeout failure : Int) : JsVal :=
  .obj [
    prop "replicas" (.num replicas),
    prop "resources" (.obj [
      prop "requests" (.obj [prop "cpu" (lit reqCpu), prop "memory" (lit reqMem)]),
      prop "limits" (.obj [prop "cpu" (lit limCpu), prop "memory" (lit limMem)])]),
    prop "healthCheckConfig" (.obj [
      prop "initialDelaySeconds" (.num initialDelay),
      prop "periodSeconds" (.num period),
      prop "timeoutSeconds" (.num timeout),
      prop "failureThreshold" (.num failure)])]

/-- The table `this.environmentDefaults`. -/
def environmentDefaults : List (Str × JsVal) := [
  prop "dev" (tierDefaults 1 "100m" "256Mi" "200m" "512Mi" 10 30 5 5),
  prop "staging" (tierDefaults 2 "200m" "512Mi" "400m" "1Gi" 20 15 5 3),
  prop "production" (tierDefaults 3 "250m" "512Mi" "500m" "1Gi" 30 10 5 3)]

/-- The property names every plain object inherits from `Object.prototype`. -/
def objectPrototypeNames : List Str := [
  "constructor".data, "__defineGetter__".data, "__defineSetter__".data,
  "hasOwnProperty".data, "__lookupGetter__".data, "__lookupSetter__".data,
  "isPrototypeOf".data, "propertyIsEnumerable".data, "toString".data,
  "valueOf".data, "__proto__".data, "toLocaleString".data]

/-- The read `this.environmentDefaults[key]`: a tier of the table, or a member
inherited from `Object.prototype` (held here as an object without properties:
only `replicas`, `resources` and `healthCheckConfig` are read from it, and it
has none of them), or `undefined`. -/
def lookupEnvironmentDefaults (key : JsVal) : JsVal :=
  match environmentDefaults.lookup (jsToString key) with
  | some tier => tier
  | none => if jsToString key ∈ objectPrototypeNames then .obj [] else .undefined

/-- The expression `raw || envDefaults.name`, which reads the default only
when the raw value is falsy. -/
def orDefault (raw envDefaults : JsVal) (name : String) : Except JsError JsVal :=
  if truthy raw then .ok raw else getProp envDefaults name.data

/-- The method `buildConfig`. -/
def buildConfig (options : Options) : Except JsError Config := do
  let envDefaults := lookupEnvironmentDefaults (jsOr options.environment (lit "dev"))
  let replicas ← orDefault options.replicas envDefaults "replicas"
  let resources ← orDefault options.resources envDefaults "resources"
  let healthCheckConfig ← getProp envDefaults "healthCheckConfig".data
  pure {
    appName := options.appName
    image := options.image
    port := options.port
    environment := jsOr options.environment (lit "dev")
    namespace_ := jsOr options.namespace_ (lit "default")
    replicas := replicas
    serviceType := jsOr options.serviceType (lit "ClusterIP")
    enableIngress := jsOr options.enableIngress (.bool false)
    ingressHost := options.ingressHost
    enableTLS := .bool (match options.enableTLS with
      | .bool false => false
      | _ => true)
    enableAutoscaling := jsOr options.enableAutoscaling (.bool false)
    minReplicas := jsOr options.minReplicas (.num 2)
    maxReplicas := jsOr options.maxReplicas (.num 10)
    envVars := jsOr options.envVars (.obj [])
    secrets := jsOr options.secrets (.obj [])
    healthCheckPath := jsOr options.healthCheckPath (lit "/health")
    readinessCheckPath := jsOr options.readinessCheckPath (lit "/ready")
    resources := resources
    healthCheckConfig := healthCheckConfig }

/-! ## Object literals with a spread -/

/-- The value of a digit string. -/
def digitsValue (ds : Str) : Nat := ds.foldl (fun acc c => 10 * acc + (c.toNat - 48)) 0

/-- The array index a property key denotes, if it is one: a canonical decimal
numeral below `2^32 - 1`. Such keys are enumerated first, in ascending order. -/
def arrayIndex (k : Str) : Option Nat :=
  match k with
  | [] => none
  | c :: cs =>
    if (c :: cs).all isDigit && (c != '0' || cs.isEmpty) && digitsValue (c :: cs) < 4294967295
    then some (digitsValue (c :: cs)) else none

/-- Adds a property under the index key `i`: it goes before the first key that
is a larger index or no index at all. -/
def insertIndexed (i : Nat) (k : Str) (v : JsVal) : List (Str × JsVal) → List (Str × JsVal)
  | [] => [(k, v)]
  | (k2, v2) :: rest =>
    match arrayIndex k2 with
    | some j => if j < i then (k2, v2) :: insertIndexed i k v rest else (k, v) :: (k2, v2) :: rest
    | none => (k, v) :: (k2, v2) :: rest

/-- Replaces the value of the property `k`, keeping its place. -/
def replaceValue (k : Str) (v : JsVal) : List (Str × JsVal) → List (Str × JsVal)
  | [] => []
  | (k2, v2) :: rest => if k2 = k then (k2, v) :: rest else (k2, v2) :: replaceValue k v rest

/-- Defines the property `k` on an object: an existing property keeps its
place, a new index key is sorted among the indices, any other new key goes last. -/
def setProp (kvs : List (Str × JsVal)) (k : Str) (v : JsVal) : List (Str × JsVal) :=
  if (kvs.lookup k).isSome then replaceValue k v kvs
  else match arrayIndex k with
    | some i => insertIndexed i k v kvs
    | none => kvs ++ [(k, v)]

/-- The object literal `{ ...base, ...v }`: spreading `null` or `undefined`
adds nothing. -/
def spreadInto (base : List (Str × JsVal)) (v : JsVal) : List (Str × JsVal) :=
  match objectEntries v with
  | .ok es => es.foldl (fun acc kv => setProp acc kv.1 kv.2) base
  | .error _ => base

/-! ## Resource builders -/

/-- The template literal of a config value followed by a fixed suffix. -/
def withSuffix (v : JsVal) (suffix : String) : JsVal := .str (jsToString v ++ suffix.data)

/-- The entry `buildEnvVars` pushes for a key of `envVars`. -/
def configMapRef (config : Config) (key : Str) : JsVal :=
  .obj [
    prop "name" (.str key),
    prop "valueFrom" (.obj [
      prop "configMapKeyRef" (.obj [
        prop "name" (withSuffix config.appName "-config"),
        prop "key" (.str key)])])]

/-- The entry `buildEnvVars` pushes for a key of `secrets`. -/
def secretRef (config : Config) (key : Str) : JsVal :=
  .obj [
    prop "name" (.str key),
    prop "valueFrom" (.obj [
      prop "secretKeyRef" (.obj [
        prop "name" (withSuffix config.appName "-secrets"),
        prop "key" (.str key)])])]

/-- The first loop of `buildEnvVars`, over the entries of `envVars`: each
turn tests `Object.keys(config.envVars).length > 0` and pushes a reference, or
else the inline value. -/
def configMapLoop (config : Config) : List (Str × JsVal) → Except JsError (List JsVal)
  | [] => .ok []
  | (key, value) :: rest => do
    let keys ← objectKeys config.envVars
    let entry := if keys.length > 0 then configMapRef config key
      else JsVal.obj [prop "name" (.str key), prop "value" value]
    let more ← configMapLoop config rest
    pure (entry :: more)

/-- The method `buildEnvVars`. -/
def buildEnvVars (config : Config) : Except JsError (List JsVal) := do
  let entries ← objectEntries config.envVars
  let fromConfigMap ← configMapLoop config entries
  let secretKeys ← objectKeys config.secrets
  pure (fromConfigMap ++ secretKeys.map fun key => secretRef config key)

/-- The object `labels` of `generateDeployment`. -/
def deploymentLabels (config : Config) : JsVal :=
  .obj [
    prop "app" config.appName,
    prop "environment" config.environment,
    prop "version" (lit "v1.0.0")]

/-- The properties of the single element of `containers` in the object
`deployment`, given the list `buildEnvVars` returned. -/
def containerProps (config : Config) (env : List JsVal) : List (Str × JsVal) := [
  prop "name" config.appName,
  prop "image" config.image,
  prop "imagePullPolicy" (lit "IfNotPresent"),
  prop "ports" (.arr [.obj [
    prop "containerPort" config.port,
    prop "name" (lit "http"),
    prop "protocol" (lit "TCP")]]),
  prop "env" (.arr env),
  prop "resources" config.resources,
  prop "livenessProbe" (.obj (spreadInto
    [prop "httpGet" (.obj [
      prop "path" config.healthCheckPath,
      prop "port" config.port])]
    config.healthCheckConfig)),
  prop "readinessProbe" (.obj [
    prop "httpGet" (.obj [
      prop "path" config.readinessCheckPath,
      prop "port" config.port]),
    prop "initialDelaySeconds" (.num 10),
    prop "periodSeconds" (.num 5),
    prop "timeoutSeconds" (.num 3),
    prop "failureThreshold" (.num 2)]),
  prop "securityContext" (.obj [
    prop "allowPrivilegeEscalation" (.bool false),
    prop "readOnlyRootFilesystem" (.bool true),
    prop "capabilities" (.obj [
      prop "drop" (.arr [lit "ALL"])])])]

/-- The object `deployment` of `generateDeployment`. -/
def deploymentObject (config : Config) : Except JsError JsVal := do
  let labels := deploymentLabels config
  let env ← buildEnvVars config
  pure (.obj [
    prop "apiVersion" (lit "apps/v1"),
    prop "kind" (lit "Deployment"),
    prop "metadata" (.obj [
      prop "name" config.appName,
      prop "namespace" config.namespace_,
      prop "labels" labels]),
    prop "spec" (.obj [
      prop "replicas" config.replicas,
      prop "strategy" (.obj [
        prop "type" (lit "RollingUpdate"),
        prop "rollingUpdate" (.obj [
          prop "maxSurge" (.num 1),
          prop "maxUnavailable" (.num 0)])]),
      prop "selector" (.obj [
        prop "matchLabels" (.obj [prop "app" config.appName])]),
      prop "template" (.obj [
        prop "metadata" (.obj [prop "labels" labels]),
        prop "spec" (.obj [
          prop "securityContext" (.obj [
            prop "runAsNonRoot" (.bool true),
            prop "runAsUser" (.num 1000),
            prop "fsGroup" (.num 1000)]),
          prop "containers" (.arr [.obj (containerProps config env)])])])])])

/-- The method `generateDeployment`. -/
def generateDeployment (config : Config) : Except JsError Str := do
  let deployment ← deploymentObject config
  toYAML deployment 0

/-- The object `service` of `generateService`. -/
def serviceObject (config : Config) : JsVal :=
  .obj [
    prop "apiVersion" (lit "v1"),
    prop "kind" (lit "Service"),
    prop "metadata" (.obj [
      prop "name" config.appName,
      prop "namespace" config.namespace_,
      prop "labels" (.obj [prop "app" config.appName])]),
    prop "spec" (.obj [
      prop "type" config.serviceType,
      prop "selector" (.obj [prop "app" config.appName]),
      prop "ports" (.arr [.obj [
        prop "name" (lit "http"),
        prop "port" (.num 80),
        prop "targetPort" config.port,
        prop "protocol" (lit "TCP")]]),
      prop "sessionAffinity" (lit "None")])]

/-- The method `generateService`. -/
def generateService (config : Config) : Except JsError Str :=
  toYAML (serviceObject config) 0

/-- The object `configMap` of `generateConfigMap`. -/
def configMapObject (config : Config) : JsVal :=
  .obj [
    prop "apiVersion" (lit "v1"),
    prop "kind" (lit "ConfigMap"),
    prop "metadata" (.obj [
      prop "name" (withSuffix config.appName "-config"),
      prop "namespace" config.namespace_,
      prop "labels" (.obj [prop "app" config.appName])]),
    prop "data" config.envVars]

/-- The method `generateConfigMap`. -/
def generateConfigMap (config : Config) : Except JsError Str :=
  toYAML (configMapObject config) 0

/-- The object `secret` of `generateSecret`. -/
def secretObject (config : Config) : JsVal :=
  .obj [
    prop "apiVersion" (lit "v1"),
    prop "kind" (lit "Secret"),
    prop "metadata" (.obj [
      prop "name" (withSuffix config.appName "-secrets"),
      prop "namespace" config.namespace_,
      prop "labels" (.obj [prop "app" config.appName])]),
    prop "type" (lit "Opaque"),
    prop "stringData" config.secrets]

/-- The method `generateSecret`. -/
def generateSecret (config : Config) : Except JsError Str :=
  toYAML (secretObject config) 0

/-- The object `annotations` of `generateIngress`, after the conditional
assignment of the issuer. -/
def ingressAnnotations (config : Config) : JsVal :=
  .obj ([
    prop "nginx.ingress.kubernetes.io/ssl-redirect" (lit "true"),
    prop "nginx.ingress.kubernetes.io/rate-limit" (lit "100")] ++
    if truthy config.enableTLS then
      [prop "cert-manager.io/cluster-issuer"
        (if strictEqStr config.environment "production".data then lit "letsencrypt-prod"
         else lit "letsencrypt-staging")]
    else [])

/-- The object `ingress` of `generateIngress`, after the conditional
assignment of `spec.tls`. -/
def ingressObject (config : Config) : JsVal :=
  .obj [
    prop "apiVersion" (lit "networking.k8s.io/v1"),
    prop "kind" (lit "Ingress"),
    prop "metadata" (.obj [
      prop "name" config.appName,
      prop "namespace" config.namespace_,
      prop "labels" (.obj [prop "app" config.appName]),
      prop "annotations" (ingressAnnotations config)]),
    prop "spec" (.obj ([
      prop "ingressClassName" (lit "nginx"),
      prop "rules" (.arr [.obj [
        prop "host" config.ingressHost,
        prop "http" (.obj [
          prop "paths" (.arr [.obj [
            prop "path" (lit "/"),
            prop "pathType" (lit "Prefix"),
            prop "backend" (.obj [
              prop "service" (.obj [
                prop "name" config.appName,
                prop "port" (.obj [prop "number" (.num 80)])])])]])])]])] ++
      if truthy (jsAnd config.enableTLS config.ingressHost) then
        [prop "tls" (.arr [.obj [
          prop "hosts" (.arr [config.ingressHost]),
          prop "secretName" (withSuffix config.appName "-tls")]])]
      else []))]

/-- The method `generateIngress`. -/
def generateIngress (config : Config) : Except JsError Str :=
  toYAML (ingressObject config) 0

/-- One entry of `metrics` in `generateHPA`. -/
def resourceMetric (name : String) (utilization : Int) : JsVal :=
  .obj [
    prop "type" (lit "Resource"),
    prop "resource" (.obj [
      prop "name" (lit name),
      prop "target" (.obj [
        prop "type" (lit "Utilization"),
        prop "averageUtilization" (.num utilization)])])]

/-- One entry of a `policies` list in `generateHPA`. -/
def scalingPolicy (type : String) (value period : Int) : JsVal :=
  .obj [
    prop "type" (lit type),
    prop "value" (.num value),
    prop "periodSeconds" (.num period)]

/-- The object `hpa` of `generateHPA`. -/
def hpaObject (config : Config) : JsVal :=
  .obj [
    prop "apiVersion" (lit "autoscaling/v2"),
    prop "kind" (lit "HorizontalPodAutoscaler"),
    prop "metadata" (.obj [
      prop "name" config.appName,
      prop "namespace" config.namespace_,
      prop "labels" (.obj [prop "app" config.appName])]),
    prop "spec" (.obj [
      prop "scaleTargetRef" (.obj [
        prop "apiVersion" (lit "apps/v1"),
        prop "kind" (lit "Deployment"),
        prop "name" config.appName]),
      prop "minReplicas" config.minReplicas,
      prop "maxReplicas" config.maxReplicas,
      prop "metrics" (.arr [resourceMetric "cpu" 70, resourceMetric "memory" 80]),
      prop "behavior" (.obj [
        prop "scaleDown" (.obj [
          prop "stabilizationWindowSeconds" (.num 300),
          prop "policies" (.arr [scalingPolicy "Percent" 50 60])]),
        prop "scaleUp" (.obj [
          prop "stabilizationWindowSeconds" (.num 0),
          prop "policies" (.arr [scalingPolicy "Percent" 100 30, scalingPolicy "Pods" 2 30]),
          prop "selectPolicy" (lit "Max")])])])]

/-- The method `generateHPA`. -/
def generateHPA (config : Config) : Except JsError Str :=
  toYAML (hpaObject config) 0

/-! ## Advisory generators -/

/-- The manifest set: the properties of the object `manifests`, in the order
they were assigned. -/
abbrev Manifests := List (Str × Str)

/-- JavaScript white space and line terminators, as `trim` and `parseInt` strip them. -/
def isWhiteSpace (c : Char) : Bool :=
  let n := c.toNat
  (9 ≤ n && n ≤ 13) || n == 0x20 || n == 0xA0 || n == 0x1680 || (0x2000 ≤ n && n ≤ 0x200A)
    || n == 0x2028 || n == 0x2029 || n == 0x202F || n == 0x205F || n == 0x3000 || n == 0xFEFF

/-- The method `trim`. -/
def trim (s : Str) : Str :=
  ((s.dropWhile isWhiteSpace).reverse.dropWhile isWhiteSpace).reverse

/-- The method `toUpperCase` on the ASCII letters (the manifest keys it is
applied to are ASCII). -/
def toUpperCase (s : Str) : Str := s.map canonicalize

/-- The call `.replace(/([A-Z])/g, ' $1')`: a space goes before every capital. -/
def spaceCapitals : Str → Str
  | [] => []
  | c :: t =>
    if 65 ≤ c.toNat && c.toNat ≤ 90 then ' ' :: c :: spaceCapitals t else c :: spaceCapitals t

/-- The display name `generateSummary` derives from a manifest key. -/
def resourceLabel (key : Str) : Str :=
  toUpperCase (key.take 1) ++ trim (spaceCapitals (key.drop 1))

/-- The longest run of decimal digits a string starts with. -/
def leadingDigits : Str → Str
  | [] => []
  | c :: t => if isDigit c then c :: leadingDigits t else []

/-- The value of a hexadecimal digit. -/
def hexValue (c : Char) : Option Nat :=
  let n := c.toNat
  if 48 ≤ n ∧ n ≤ 57 then some (n - 48)
  else if 97 ≤ n ∧ n ≤ 102 then some (n - 87)
  else if 65 ≤ n ∧ n ≤ 70 then some (n - 55)
  else none

/-- The values of the longest run of hexadecimal digits a string starts with. -/
def leadingHex : Str → List Nat
  | [] => []
  | c :: t =>
    match hexValue c with
    | some d => d :: leadingHex t
    | none => []

/-- The magnitude `parseInt` reads after the sign: hexadecimal after `0x`,
decimal otherwise; `none` is `NaN`. -/
def parseMagnitude (s : Str) : Option Nat :=
  match s with
  | '0' :: 'x' :: t | '0' :: 'X' :: t =>
    match leadingHex t with
    | [] => none
    | ds => some (ds.foldl (fun acc d => 16 * acc + d) 0)
  | _ =>
    match leadingDigits s with
    | [] => none
    | ds => some (digitsValue ds)

/-- The function `parseInt(v)` with no radix, on the string form of `v`; `none`
is `NaN`. -/
def parseInt (v : JsVal) : Option Int :=
  match (jsToString v).dropWhile isWhiteSpace with
  | '-' :: t => (parseMagnitude t).map fun n => -(n : Int)
  | '+' :: t => (parseMagnitude t).map fun n => (n : Int)
  | s => (parseMagnitude s).map fun n => (n : Int)

/-- The digits of a literal after `0x`, `0o` or `0b`: a number when there is
at least one and each is a digit of the radix. -/
def radixLiteral (radix : Nat) (t : Str) : Double :=
  if !t.isEmpty && t.all (fun c => match hexValue c with
    | some digit => decide (digit < radix)
    | none => false)
  then .ofRat ((t.foldl (fun acc c => radix * acc + (hexValue c).getD 0) 0 : Nat) : ℚ)
  else .nan

/-- The exponent part that ends a decimal literal: nothing, or `e` or `E`,
an optional sign and at least one digit; `none` when the text is neither. -/
def exponentPart : Str → Option Int
  | [] => some 0
  | c :: t =>
    if c == 'e' || c == 'E' then
      match t with
      | '-' :: ds => if !ds.isEmpty && ds.all isDigit then some (-(digitsValue ds : Int)) else none
      | '+' :: ds => if !ds.isEmpty && ds.all isDigit then some (digitsValue ds : Int) else none
      | ds => if !ds.isEmpty && ds.all isDigit then some (digitsValue ds : Int) else none
    else none

/-- The number of an unsigned decimal literal: `Infinity`, or digits with an
optional fraction (one of the two may be empty, not both) and an optional
exponent part; `NaN` for any other text. -/
def unsignedDecimal (t : Str) : Double :=
  if t = "Infinity".data then .infinity false
  else
    let whole := t.takeWhile isDigit
    let rest := t.dropWhile isDigit
    let fraction := match rest with
      | '.' :: u => u.takeWhile isDigit
      | _ => []
    let tail := match rest with
      | '.' :: u => u.dropWhile isDigit
      | _ => rest
    if whole.isEmpty && fraction.isEmpty then .nan
    else
      match exponentPart tail with
      | some e =>
        .ofRat ((digitsValue (whole ++ fraction) : ℚ) * 10 ^ (e - (fraction.length : Int)))
      | none => .nan

/-- The function `Number` on a string: white space is trimmed, a blank is 0, a
literal after `0x`, `0o` or `0b` is read in its radix, anything else as a
signed decimal literal; the value is rounded to the nearest double. -/
def stringToNumber (s : Str) : Double :=
  match trim s with
  | [] => .finite 0
  | '0' :: 'x' :: t | '0' :: 'X' :: t => radixLiteral 16 t
  | '0' :: 'o' :: t | '0' :: 'O' :: t => radixLiteral 8 t
  | '0' :: 'b' :: t | '0' :: 'B' :: t => radixLiteral 2 t
  | '-' :: t => Double.neg (unsignedDecimal t)
  | '+' :: t => unsignedDecimal t
  | t => unsignedDecimal t

/-- JavaScript `ToNumber`. -/
def toNumber : JsVal → Double
  | .undefined => .nan
  | .null => .finite 0
  | .bool true => .finite 1
  | .bool false => .finite 0
  | .num n => .ofInt n
  | .str s => stringToNumber s
  | .arr xs => stringToNumber (joinItems xs)
  | .obj _ => .nan

/-- The number `parseInt` returns: the double nearest the integer read, or `NaN`. -/
def parsedNumber (v : JsVal) : Double :=
  match parseInt v with
  | some n => .ofInt n
  | none => .nan

/-- The amount `totalCost` of `generateSummary`:
`(parseInt(cpu) * 0.04 + parseInt(memory) * 0.005) * replicas`, each product
and the sum rounded to a double. -/
def totalCost (cpu memory replicas : JsVal) : Double :=
  let cpuCost := Double.mul (parsedNumber cpu) (.ofRat 0.04)
  let memCost := Double.mul (parsedNumber memory) (.ofRat 0.005)
  Double.mul (Double.add cpuCost memCost) (toNumber replicas)

/-- The object `generateSummary` returns. -/
structure Summary where
  appName : JsVal
  environment : JsVal
  namespace_ : JsVal
  replicas : JsVal
  resourcesGenerated : List Str
  estimatedCost : Str

/-- The method `generateSummary`. -/
def generateSummary (config : Config) (manifests : Manifests) : Except JsError Summary := do
  let resourcesGenerated := manifests.map fun kv => resourceLabel kv.1
  let requests ← getProp config.resources "requests".data
  let cpu ← getProp requests "cpu".data
  let requests2 ← getProp config.resources "requests".data
  let memory ← getProp requests2 "memory".data
  let totalCost := totalCost cpu memory config.replicas
  let estimatedCost := "$".data ++ Double.roundedText totalCost ++ "-".data
    ++ Double.roundedText (Double.mul totalCost (.finite 3)) ++ "/month".data
  pure {
    appName := config.appName
    environment := config.environment
    namespace_ := config.namespace_
    replicas := config.replicas
    resourcesGenerated := resourcesGenerated
    estimatedCost := estimatedCost }

/-- One entry of the list `generateDeploymentCommands` returns. -/
structure Command where
  description : Str
  command : Str
  deriving DecidableEq

/-- The strict comparison `a !== 'default'` of `generateDeploymentCommands`. -/
def notDefault (v : JsVal) : Bool := !strictEqStr v "default".data

/-- The test `if (manifests[resource])`: the manifest is there and not empty. -/
def hasManifest (manifests : Manifests) (resource : Str) : Bool :=
  match manifests.lookup resource with
  | some text => !text.isEmpty
  | none => false

/-- The list `applyOrder`. -/
def applyOrder : List Str :=
  ["configMap".data, "secret".data, "deployment".data, "service".data, "ingress".data, "hpa".data]

/-- The method `generateDeploymentCommands`. -/
def generateDeploymentCommands (config : Config) (manifests : Manifests) : List Command :=
  (if notDefault config.namespace_ then
    [{ description := "Create namespace".data,
       command := "kubectl create namespace ".data ++ jsToString config.namespace_ }]
   else []) ++
  ((applyOrder.filter fun resource => hasManifest manifests resource).map fun resource =>
    { description := "Apply ".data ++ resource,
      command := "kubectl apply -f ".data ++ resource ++ ".yaml".data }) ++
  [{ description := "Check deployment status".data,
     command := "kubectl rollout status deployment/".data ++ jsToString config.appName
       ++ " -n ".data ++ jsToString config.namespace_ },
   { description := "Get pods".data,
     command := "kubectl get pods -n ".data ++ jsToString config.namespace_
       ++ " -l app=".data ++ jsToString config.appName }] ++
  (if truthy config.enableIngress then
    [{ description := "Get ingress".data,
       command := "kubectl get ingress -n ".data ++ jsToString config.namespace_ }]
   else [])

/-- One entry of the list `generateBestPractices` returns. -/
structure Practice where
  category : Str
  recommendation : Str
  implemented : JsVal

/-- The method `generateBestPractices`. -/
def generateBestPractices (config : Config) : List Practice := [
  { category := "Security".data,
    recommendation := "Non-root containers with read-only root filesystem".data,
    implemented := .bool true },
  { category := "Security".data,
    recommendation := "Dropped all capabilities except required".data,
    implemented := .bool true },
  { category := "Reliability".data,
    recommendation := "Liveness and readiness probes configured".data,
    implemented := .bool true },
  { category := "Reliability".data,
    recommendation := "Rolling update strategy with zero downtime".data,
    implemented := .bool true },
  { category := "Scalability".data,
    recommendation := "Horizontal Pod Autoscaler for dynamic scaling".data,
    implemented := config.enableAutoscaling },
  { category := "Networking".data,
    recommendation := "Ingress with TLS for secure external access".data,
    implemented := jsAnd config.enableIngress config.enableTLS },
  { category := "Observability".data,
    recommendation := "Comprehensive labels for filtering and monitoring".data,
    implemented := .bool true },
  { category := "Cost Optimization".data,
    recommendation := "Resource requests and limits defined".data,
    implemented := .bool true },
  { category := "Production Readiness".data,
    recommendation := "Consider PodDisruptionBudget for high availability".data,
    implemented := .bool false },
  { category := "Production Readiness".data,
    recommendation := "Consider NetworkPolicy for network segmentation".data,
    implemented := .bool false }]

/-! ## generate -/

/-- The object `generate` returns. -/
structure Result where
  manifests : Manifests
  summary : Summary
  deploymentCommands : List Command
  bestPractices : List Practice

/-- The guard `config.x && Object.keys(config.x).length > 0` of `generate`. -/
def hasKeys (v : JsVal) : Except JsError Bool :=
  if truthy v then (objectKeys v).map fun keys => decide (keys.length > 0) else .ok false

/-- An optional resource of `generate`: built and assigned under `key` when
the guard holds. -/
def optionalManifest (guard : Bool) (key : String) (build : Except JsError Str) :
    Except JsError Manifests :=
  if guard then build.map fun text => [(key.data, text)] else .ok []

/-- The method `generate`. -/
def generate (options : Options) : Except JsError Result := do
  let config ← buildConfig options
  let deployment ← generateDeployment config
  let service ← generateService config
  let wantConfigMap ← hasKeys config.envVars
  let configMap ← optionalManifest wantConfigMap "configMap" (generateConfigMap config)
  let wantSecret ← hasKeys config.secrets
  let secret ← optionalManifest wantSecret "secret" (generateSecret config)
  let ingress ← optionalManifest (truthy config.enableIngress) "ingress" (generateIngress config)
  let hpa ← optionalManifest (truthy config.enableAutoscaling) "hpa" (generateHPA config)
  let manifests : Manifests :=
    [("deployment".data, deployment), ("service".data, service)]
      ++ configMap ++ secret ++ ingress ++ hpa
  let summary ← generateSummary config manifests
  let deploymentCommands := generateDeploymentCommands config manifests
  let bestPractices := generateBestPractices config
  pure {
    manifests := manifests
    summary := summary
    deploymentCommands := deploymentCommands
    bestPractices := bestPractices }

/-! ## Vocabulary of the specification -/

/-- The environment is absent or names one of the three tiers. -/
def RecognisedEnvironment (v : JsVal) : Prop :=
  v = .undefined ∨ v = lit "dev" ∨ v = lit "staging" ∨ v = lit "production"

/-- The number of keys a raw option value has; an absent value has none. -/
def keyCount (v : JsVal) : Nat :=
  match objectKeys v with
  | .ok keys => keys.length
  | .error _ => 0

/-- The value at a path of property names inside nested objects; `undefined`
where a step is missing. -/
def getPath (v : JsVal) : List String → JsVal
  | [] => v
  | key :: rest =>
    match v with
    | .obj kvs =>
      match kvs.lookup key.data with
      | some w => getPath w rest
      | none => .undefined
    | _ => .undefined

/-- The value is absent or a mapping from names to strings, as the data model
types `envVars` and `secrets`. -/
def StringValued (v : JsVal) : Prop :=
  v = .undefined ∨ ∃ kvs : List (Str × JsVal), v = .obj kvs ∧ ∀ kv ∈ kvs, ∃ s, kv.2 = .str s

/-- The manifest set has a property named `key`. -/
def HasManifest (manifests : Manifests) (key : String) : Prop :=
  key.data ∈ manifests.map Prod.fst

/-- The lowercase form of an ASCII capital; every other character stays. -/
def lowerAscii (c : Char) : Char :=
  if 65 ≤ c.toNat ∧ c.toNat ≤ 90 then Char.ofNat (c.toNat + 32) else c

/-- The strings the specification says are quoted: `true`, `false` or `null`
in any letter case, a non-empty run of decimal digits, or a string with a colon
or a `#`. -/
def NeedsQuotes (s : Str) : Prop :=
  s.map lowerAscii = "true".data ∨ s.map lowerAscii = "false".data
    ∨ s.map lowerAscii = "null".data
    ∨ (s ≠ [] ∧ ∀ c ∈ s, c ∈ "0123456789".data)
    ∨ ':' ∈ s ∨ '#' ∈ s

instance instDecidableNeedsQuotes (s : Str) : Decidable (NeedsQuotes s) := by
  delta NeedsQuotes
  infer_instance

/-- The text `formatValue` gives for a string: the string itself, or the
string between double quotes when it is one the specification says is quoted. -/
def rendered (s : Str) : Str := if NeedsQuotes s then '"' :: s ++ ['"'] else s

/-- The resources block of a tier: CPU and memory requests, CPU and memory limits. -/
def resourcesOf (reqCpu reqMem limCpu limMem : String) : JsVal :=
  .obj [
    ("requests".data, .obj [("cpu".data, lit reqCpu), ("memory".data, lit reqMem)]),
    ("limits".data, .obj [("cpu".data, lit limCpu), ("memory".data, lit limMem)])]

/-- The liveness-probe timing of a tier: initial delay, period, timeout,
failure threshold. -/
def timingOf (initialDelay period timeout failure : Int) : JsVal :=
  .obj [
    ("initialDelaySeconds".data, .num initialDelay),
    ("periodSeconds".data, .num period),
    ("timeoutSeconds".data, .num timeout),
    ("failureThreshold".data, .num failure)]

/-- The default replica count of the tier an environment value selects: 3 for
production, 2 for staging, 1 for dev and for an absent environment. -/
def tierReplicas (environment : JsVal) : Int :=
  if strictEqStr environment "production".data then 3
  else if strictEqStr environment "staging".data then 2
  else 1

/-- The default resources of the tier an environment value selects. -/
def tierResources (environment : JsVal) : JsVal :=
  if strictEqStr environment "production".data then resourcesOf "250m" "512Mi" "500m" "1Gi"
  else if strictEqStr environment "staging".data then resourcesOf "200m" "512Mi" "400m" "1Gi"
  else resourcesOf "100m" "256Mi" "200m" "512Mi"

/-- The value `raw || fallback`: the raw value when it is truthy (so not
`undefined`, `null`, `false`, `0` or the empty string), the fallback otherwise. -/
def truthyOr (raw fallback : JsVal) : JsVal := if truthy raw = true then raw else fallback

/-- Every optional field of the config is the raw value when that value is
truthy, and its default otherwise: the tier default for `replicas` and
`resources`, the literal default for the others. -/
def ResolvedByTruthiness (options : Options) (config : Config) : Prop :=
  config.replicas = truthyOr options.replicas (.num (tierReplicas options.environment)) ∧
  config.resources = truthyOr options.resources (tierResources options.environment) ∧
  config.namespace_ = truthyOr options.namespace_ (lit "default") ∧
  config.serviceType = truthyOr options.serviceType (lit "ClusterIP") ∧
  config.minReplicas = truthyOr options.minReplicas (.num 2) ∧
  config.maxReplicas = truthyOr options.maxReplicas (.num 10) ∧
  config.healthCheckPath = truthyOr options.healthCheckPath (lit "/health") ∧
  config.readinessCheckPath = truthyOr options.readinessCheckPath (lit "/ready") ∧
  config.envVars = truthyOr options.envVars (.obj []) ∧
  config.secrets = truthyOr options.secrets (.obj [])

/-- Every reference in the env list of the Deployment resolves inside the
result. The `deployment` manifest is the rendering for the config built from
the options, with the env list of `buildEnvVars`; a `configMapKeyRef` (resp. `secretKeyRef`) with a given `name` and `key`
comes with a `configMap` (resp. `secret`) manifest in the same result, which is
the rendering of an object whose `metadata.name` is that name and whose `data`
(resp. `stringData`) block holds that key, rendered as a line of the text. -/
def ReferencesResolve (options : Options) (result : Result) : Prop :=
  ∃ config env deployment, buildConfig options = .ok config ∧
    buildEnvVars config = .ok env ∧
    result.manifests.lookup "deployment".data = some deployment ∧
    generateDeployment config = .ok deployment ∧
    (∀ e ∈ env, ∀ (name : JsVal) (key : Str),
      getPath e ["valueFrom", "configMapKeyRef"]
        = .obj [("name".data, name), ("key".data, .str key)] →
      ∃ text value, result.manifests.lookup "configMap".data = some text ∧
        generateConfigMap config = .ok text ∧
        getPath (configMapObject config) ["metadata", "name"] = name ∧
        (∃ data, getPath (configMapObject config) ["data"] = .obj data ∧
          (key, JsVal.str value) ∈ data) ∧
        scalarLine 1 key (.str value) <:+: text) ∧
    (∀ e ∈ env, ∀ (name : JsVal) (key : Str),
      getPath e ["valueFrom", "secretKeyRef"]
        = .obj [("name".data, name), ("key".data, .str key)] →
      ∃ text value, result.manifests.lookup "secret".data = some text ∧
        generateSecret config = .ok text ∧
        getPath (secretObject config) ["metadata", "name"] = name ∧
        (∃ data, getPath (secretObject config) ["stringData"] = .obj data ∧
          (key, JsVal.str value) ∈ data) ∧
        scalarLine 1 key (.str value) <:+: text)

/-- The liveness-probe timing of the tier an environment value selects, as
(initial delay, period, timeout, failure threshold). -/
def tierTiming (environment : JsVal) : Int × Int × Int × Int :=
  if strictEqStr environment "production".data then (30, 10, 5, 3)
  else if strictEqStr environment "staging".data then (20, 15, 5, 3)
  else (10, 30, 5, 5)

/-- The config has numeric autoscaling bounds with `minReplicas <= maxReplicas`. -/
def BoundsOrdered (config : Config) : Prop :=
  ∃ a b : Int, config.minReplicas = .num a ∧ config.maxReplicas = .num b ∧ a ≤ b

/-- The lines of `spec` after the two bounds, which depend on no config. -/
def hpaSpecTail : Str :=
  ("  metrics:\n  - \n    type: Resource\n    resource:\n      name: cpu\n      target:\n"
  ++ "        type: Utilization\n        averageUtilization: 70\n"
  ++ "  - \n    type: Resource\n    resource:\n      name: memory\n      target:\n"
  ++ "        type: Utilization\n        averageUtilization: 80\n"
  ++ "  behavior:\n    scaleDown:\n      stabilizationWindowSeconds: 300\n      policies:\n"
  ++ "      - \n        type: Percent\n        value: 50\n        periodSeconds: 60\n"
  ++ "    scaleUp:\n      stabilizationWindowSeconds: 0\n      policies:\n"
  ++ "      - \n        type: Percent\n        value: 100\n        periodSeconds: 30\n"
  ++ "      - \n        type: Pods\n        value: 2\n        periodSeconds: 30\n"
  ++ "      selectPolicy: Max\n").data

/-- The first four lines of a manifest: `apiVersion`, `kind`, `metadata:` and
the name as `formatValue` renders it. -/
def headLines (apiVersion kind : String) (name : Str) : Str :=
  "apiVersion: ".data ++ apiVersion.data ++ "\nkind: ".data ++ kind.data
    ++ "\nmetadata:\n  name: ".data ++ rendered name ++ "\n".data

/-- Every manifest text of the config begins with its head lines: the kind
requested, and the name `name`, `name-config` or `name-secrets`. -/
def ManifestHeads (config : Config) (name : Str) : Prop :=
  (∀ text, generateDeployment config = .ok text →
    headLines "apps/v1" "Deployment" name <+: text) ∧
  (∀ text, generateService config = .ok text →
    headLines "v1" "Service" name <+: text) ∧
  (∀ text, generateConfigMap config = .ok text →
    headLines "v1" "ConfigMap" (name ++ "-config".data) <+: text) ∧
  (∀ text, generateSecret config = .ok text →
    headLines "v1" "Secret" (name ++ "-secrets".data) <+: text) ∧
  (∀ text, generateIngress config = .ok text →
    headLines "networking.k8s.io/v1" "Ingress" name <+: text) ∧
  (∀ text, generateHPA config = .ok text →
    headLines "autoscaling/v2" "HorizontalPodAutoscaler" name <+: text)

/-- Reading a rendered scalar back: a pair of surrounding double quotes is
removed. -/
def unquote (s : Str) : Str :=
  match s with
  | '"' :: t => if t.getLast? = some '"' then t.dropLast else s
  | _ => s

/-- The value is a scalar of the data model: a boolean, a number or a string. -/
def isScalar : JsVal → Bool
  | .bool _ => true
  | .num _ => true
  | .str _ => true
  | _ => false

/-- The value is a mapping. -/
def isMapping : JsVal → Bool
  | .obj _ => true
  | _ => false

/-- The rendering of the elements of a sequence as the specification words
it: a scalar element is the line `- value` at the level of the parent key, a
mapping element is the marker line `- ` at that level followed by
`toYAML(element, indent + 1)`. -/
def renderSequence (indent : Nat) : List JsVal → Except JsError Str
  | [] => .ok []
  | item :: rest => do
    let first ← (match item with
      | .obj kvs =>
        (toYAML (.obj kvs) (indent + 1)).map fun entries =>
          spaces indent ++ "- \n".data ++ entries
      | scalar =>
        pure (spaces indent ++ "- ".data ++ jsToString (formatValue scalar) ++ "\n".data))
    let more ← renderSequence indent rest
    pure (first ++ more)

/-- The single container of a Deployment object: the first element of
`spec.template.spec.containers`. -/
def firstContainer (deployment : JsVal) : JsVal :=
  match getPath deployment ["spec", "template", "spec", "containers"] with
  | .arr (container :: _) => container
  | _ => .undefined

/-- The fixed rolling-update strategy: one pod of surge, none unavailable. -/
def fixedStrategy : JsVal :=
  .obj [
    ("type".data, lit "RollingUpdate"),
    ("rollingUpdate".data, .obj [
      ("maxSurge".data, .num 1),
      ("maxUnavailable".data, .num 0)])]

/-- The fixed security context of the pod. -/
def podSecurity : JsVal :=
  .obj [
    ("runAsNonRoot".data, .bool true),
    ("runAsUser".data, .num 1000),
    ("fsGroup".data, .num 1000)]

/-- The fixed security context of the container. -/
def containerSecurity : JsVal :=
  .obj [
    ("allowPrivilegeEscalation".data, .bool false),
    ("readOnlyRootFilesystem".data, .bool true),
    ("capabilities".data, .obj [("drop".data, .arr [lit "ALL"])])]

/-- The Deployment of the config carries the fixed hardening and rollout
settings, in the object that is rendered and in the text. -/
def Hardened (config : Config) (text : Str) : Prop :=
  ∃ deployment, deploymentObject config = .ok deployment ∧
    toYAML deployment 0 = .ok text ∧
    getPath deployment ["spec", "strategy"] = fixedStrategy ∧
    getPath deployment ["spec", "template", "spec", "securityContext"] = podSecurity ∧
    getPath (firstContainer deployment) ["securityContext"] = containerSecurity ∧
    ("  strategy:\n    type: RollingUpdate\n    rollingUpdate:\n      maxSurge: 1\n"
      ++ "      maxUnavailable: 0\n").data <:+: text ∧
    ("      securityContext:\n        runAsNonRoot: true\n        runAsUser: 1000\n"
      ++ "        fsGroup: 1000\n").data <:+: text ∧
    ("        securityContext:\n          allowPrivilegeEscalation: false\n"
      ++ "          readOnlyRootFilesystem: true\n          capabilities:\n"
      ++ "            drop:\n            - ALL\n").data <:+ text

/-- The timing of a probe object: initial delay, period, timeout and failure
threshold. -/
def probeTiming (probe : JsVal) : JsVal × JsVal × JsVal × JsVal :=
  (getPath probe ["initialDelaySeconds"], getPath probe ["periodSeconds"],
    getPath probe ["timeoutSeconds"], getPath probe ["failureThreshold"])

/-- The two probes of the Deployment built for the options: the readiness
probe has the fixed timing (10, 5, 3, 2), the liveness probe the timing of the
tier, which is at least the readiness timing in every field and larger in one. -/
def ProbesDiffer (options : Options) : Prop :=
  ∃ config deployment, buildConfig options = .ok config ∧
    deploymentObject config = .ok deployment ∧
    probeTiming (getPath (firstContainer deployment) ["readinessProbe"])
      = (.num 10, .num 5, .num 3, .num 2) ∧
    probeTiming (getPath (firstContainer deployment) ["livenessProbe"])
      = (.num (tierTiming options.environment).1, .num (tierTiming options.environment).2.1,
          .num (tierTiming options.environment).2.2.1,
          .num (tierTiming options.environment).2.2.2) ∧
    10 ≤ (tierTiming options.environment).1 ∧ 5 ≤ (tierTiming options.environment).2.1 ∧
    3 ≤ (tierTiming options.environment).2.2.1 ∧ 2 ≤ (tierTiming options.environment).2.2.2 ∧
    (10 < (tierTiming options.environment).1 ∨ 5 < (tierTiming options.environment).2.1 ∨
      3 < (tierTiming options.environment).2.2.1 ∨ 2 < (tierTiming options.environment).2.2.2)

/-- The Service of the config: its type, its single port entry and its
selector, in the object `generateService` renders; how they agree with the
Deployment object of the same config; and the `spec:` block that ends the text
when the type and the name are strings and the port is a number. -/
def ServiceMatches (config : Config) : Prop :=
  getPath (serviceObject config) ["spec", "type"] = config.serviceType ∧
  getPath (serviceObject config) ["spec", "ports"] = .arr [.obj [
    ("name".data, lit "http"), ("port".data, .num 80),
    ("targetPort".data, config.port), ("protocol".data, lit "TCP")]] ∧
  getPath (serviceObject config) ["spec", "selector"] = .obj [("app".data, config.appName)] ∧
  (∀ deployment, deploymentObject config = .ok deployment →
    getPath deployment ["spec", "selector", "matchLabels"]
      = getPath (serviceObject config) ["spec", "selector"] ∧
    (∃ labels, getPath deployment ["spec", "template", "metadata", "labels"] = .obj labels ∧
      ("app".data, config.appName) ∈ labels) ∧
    getPath (firstContainer deployment) ["ports"] = .arr [.obj [
      ("containerPort".data, config.port), ("name".data, lit "http"),
      ("protocol".data, lit "TCP")]]) ∧
  (∀ (type name text : Str) (port : Int), config.serviceType = .str type →
    config.appName = .str name → config.port = .num port →
    generateService config = .ok text →
    ("spec:\n  type: ".data ++ rendered type ++ "\n  selector:\n    app: ".data
      ++ rendered name ++ "\n  ports:\n  - \n    name: http\n    port: 80\n    targetPort: ".data
      ++ intToStr port ++ "\n    protocol: TCP\n  sessionAffinity: None\n".data) <:+ text)

/-- The `tls` section of the Ingress of the config: it is the last property
of `spec`, with the host and the secret `<appName>-tls`, exactly when
`enableTLS` and `ingressHost` are both truthy; with it the text ends with the
`tls:` block, without it the text ends with the `http:` block of the rule. -/
def IngressTls (config : Config) : Prop :=
  (∃ spec, getPath (ingressObject config) ["spec"] = .obj spec ∧
    ("tls".data ∈ spec.map Prod.fst ↔
      (truthy config.enableTLS = true ∧ truthy config.ingressHost = true))) ∧
  (truthy config.enableTLS = true ∧ truthy config.ingressHost = true →
    getPath (ingressObject config) ["spec", "tls"] = .arr [.obj [
      ("hosts".data, .arr [config.ingressHost]),
      ("secretName".data, .str (jsToString config.appName ++ "-tls".data))]]) ∧
  (¬ (truthy config.enableTLS = true ∧ truthy config.ingressHost = true) →
    getPath (ingressObject config) ["spec", "tls"] = .undefined) ∧
  (∀ name host text : Str, config.appName = .str name → config.ingressHost = .str host →
    truthy config.enableTLS = true → truthy config.ingressHost = true →
    generateIngress config = .ok text →
    ("  tls:\n  - \n    hosts:\n    - ".data ++ rendered host ++ "\n    secretName: ".data
      ++ rendered (name ++ "-tls".data) ++ "\n".data) <:+ text) ∧
  (∀ name text : Str, config.appName = .str name →
    ¬ (truthy config.enableTLS = true ∧ truthy config.ingressHost = true) →
    generateIngress config = .ok text →
    ("    http:\n      paths:\n      - \n        path: /\n        pathType: Prefix\n".data
      ++ "        backend:\n          service:\n            name: ".data ++ rendered name
      ++ "\n            port:\n              number: 80\n".data) <:+ text)

/-- A scaling policy: its type, its value and its period in seconds. -/
def policyOf (type : String) (value period : Int) : JsVal :=
  .obj [("type".data, lit type), ("value".data, .num value),
    ("periodSeconds".data, .num period)]

/-- A resource metric with a target average utilization. -/
def metricOf (name : String) (utilization : Int) : JsVal :=
  .obj [
    ("type".data, lit "Resource"),
    ("resource".data, .obj [
      ("name".data, lit name),
      ("target".data, .obj [
        ("type".data, lit "Utilization"),
        ("averageUtilization".data, .num utilization)])])]

/-- The autoscaler of the config: its target, its bounds, its two metrics and
its behaviour, in the object `generateHPA` renders; the scale-down window
exceeds the scale-up window; and the `spec:` block that ends the text when the
name is a string and the bounds are numbers. -/
def HpaShape (config : Config) : Prop :=
  getPath (hpaObject config) ["spec", "scaleTargetRef"] = .obj [
    ("apiVersion".data, lit "apps/v1"), ("kind".data, lit "Deployment"),
    ("name".data, config.appName)] ∧
  getPath (hpaObject config) ["spec", "minReplicas"] = config.minReplicas ∧
  getPath (hpaObject config) ["spec", "maxReplicas"] = config.maxReplicas ∧
  getPath (hpaObject config) ["spec", "metrics"]
    = .arr [metricOf "cpu" 70, metricOf "memory" 80] ∧
  getPath (hpaObject config) ["spec", "behavior", "scaleDown"] = .obj [
    ("stabilizationWindowSeconds".data, .num 300),
    ("policies".data, .arr [policyOf "Percent" 50 60])] ∧
  getPath (hpaObject config) ["spec", "behavior", "scaleUp"] = .obj [
    ("stabilizationWindowSeconds".data, .num 0),
    ("policies".data, .arr [policyOf "Percent" 100 30, policyOf "Pods" 2 30]),
    ("selectPolicy".data, lit "Max")] ∧
  (∃ down up : Int,
    getPath (hpaObject config) ["spec", "behavior", "scaleDown", "stabilizationWindowSeconds"]
      = .num down ∧
    getPath (hpaObject config) ["spec", "behavior", "scaleUp", "stabilizationWindowSeconds"]
      = .num up ∧ up < down) ∧
  (∀ (name text : Str) (a b : Int), config.appName = .str name →
    config.minReplicas = .num a → config.maxReplicas = .num b →
    generateHPA config = .ok text →
    ("spec:\n  scaleTargetRef:\n    apiVersion: apps/v1\n    kind: Deployment\n    name: ".data
      ++ rendered name ++ "\n  minReplicas: ".data ++ intToStr a
      ++ "\n  maxReplicas: ".data ++ intToStr b ++ "\n".data ++ hpaSpecTail) <:+ text)

/-- The command that applies the manifest of a resource. -/
def applyCommand (resource : String) : Str :=
  "kubectl apply -f ".data ++ resource.data ++ ".yaml".data

/-- The apply command of a resource if the manifest set has it, nothing otherwise. -/
def applyIfPresent (manifests : Manifests) (resource : String) : List Str :=
  if resource.data ∈ manifests.map Prod.fst then [applyCommand resource] else []

/-- The command that creates the namespace of the config. -/
def namespaceCommand (config : Config) : Str :=
  "kubectl create namespace ".data ++ jsToString config.namespace_

/-- The apply commands that come before the Deployment is applied: the
ConfigMap, then the Secret. -/
def commandsBefore (manifests : Manifests) : List Str :=
  applyIfPresent manifests "configMap" ++ applyIfPresent manifests "secret"

/-- The commands from the Deployment on: Deployment, Service, Ingress and
autoscaler if present, the rollout status, the pod listing, and the ingress
listing if `enableIngress` is set. -/
def commandsFrom (config : Config) (manifests : Manifests) : List Str :=
  applyIfPresent manifests "deployment" ++ applyIfPresent manifests "service"
  ++ applyIfPresent manifests "ingress" ++ applyIfPresent manifests "hpa"
  ++ ["kubectl rollout status deployment/".data ++ jsToString config.appName
        ++ " -n ".data ++ jsToString config.namespace_,
      "kubectl get pods -n ".data ++ jsToString config.namespace_
        ++ " -l app=".data ++ jsToString config.appName]
  ++ (if truthy config.enableIngress = true
      then ["kubectl get ingress -n ".data ++ jsToString config.namespace_] else [])

/-- The list of commands the specification describes for a config and a
manifest set. -/
def CommandsAsSpecified (config : Config) (manifests : Manifests) (commands : List Str) : Prop :=
  (config.namespace_ = lit "default" →
    commands = commandsBefore manifests ++ commandsFrom config manifests) ∧
  (config.namespace_ ≠ lit "default" →
    commands = namespaceCommand config
      :: (commandsBefore manifests ++ commandsFrom config manifests)) ∧
  applyCommand "configMap" ∉ commandsFrom config manifests ∧
  applyCommand "secret" ∉ commandsFrom config manifests ∧
  applyCommand "deployment" ∉ commandsBefore manifests ∧
  applyCommand "deployment" ≠ namespaceCommand config

/-- The ten recommendations of the checklist, each with its category, in the
order of the list. -/
def practiceTitles : List (String × String) := [
  ("Security", "Non-root containers with read-only root filesystem"),
  ("Security", "Dropped all capabilities except required"),
  ("Reliability", "Liveness and readiness probes configured"),
  ("Reliability", "Rolling update strategy with zero downtime"),
  ("Scalability", "Horizontal Pod Autoscaler for dynamic scaling"),
  ("Networking", "Ingress with TLS for secure external access"),
  ("Observability", "Comprehensive labels for filtering and monitoring"),
  ("Cost Optimization", "Resource requests and limits defined"),
  ("Production Readiness", "Consider PodDisruptionBudget for high availability"),
  ("Production Readiness", "Consider NetworkPolicy for network segmentation")]

/-- The value of `implemented` of the item with the recommendation given. -/
def implementedOf (practices : List Practice) (recommendation : String) : Option JsVal :=
  (practices.find? fun p => p.recommendation == recommendation.data).map fun p => p.implemented

/-- The checklist of the config: the ten items in their order; which of them
are always true and always false; the autoscaler item, equal to
`enableAutoscaling`; the Ingress item, the value of
`enableIngress && enableTLS`, truthy exactly when both flags are; and, when the
three flags are booleans, every `implemented` a boolean. -/
def PracticesAsSpecified (config : Config) : Prop :=
  (generateBestPractices config).map (fun p => (String.mk p.category, String.mk p.recommendation))
    = practiceTitles ∧
  (∀ title ∈ ["Non-root containers with read-only root filesystem",
      "Dropped all capabilities except required",
      "Liveness and readiness probes configured",
      "Rolling update strategy with zero downtime",
      "Comprehensive labels for filtering and monitoring",
      "Resource requests and limits defined"],
    implementedOf (generateBestPractices config) title = some (.bool true)) ∧
  (∀ title ∈ ["Consider PodDisruptionBudget for high availability",
      "Consider NetworkPolicy for network segmentation"],
    implementedOf (generateBestPractices config) title = some (.bool false)) ∧
  implementedOf (generateBestPractices config) "Horizontal Pod Autoscaler for dynamic scaling"
    = some config.enableAutoscaling ∧
  (∃ both, implementedOf (generateBestPractices config)
      "Ingress with TLS for secure external access" = some both ∧
    (truthy both = true ↔ truthy config.enableIngress = true ∧ truthy config.enableTLS = true) ∧
    ∀ ingress tls : Bool, config.enableIngress = .bool ingress → config.enableTLS = .bool tls →
      both = .bool (ingress && tls)) ∧
  (∀ autoscaling ingress tls : Bool, config.enableAutoscaling = .bool autoscaling →
    config.enableIngress = .bool ingress → config.enableTLS = .bool tls →
    ∀ p ∈ generateBestPractices config, ∃ b : Bool, p.implemented = .bool b)

/-- The lines of the two annotations every Ingress carries. -/
def annotationLines : Str :=
  ("  annotations:\n    nginx.ingress.kubernetes.io/ssl-redirect: \"true\"\n"
    ++ "    nginx.ingress.kubernetes.io/rate-limit: \"100\"\n").data

/-- The value of the annotation `cert-manager.io/cluster-issuer` in the object
`generateIngress` renders; `undefined` when the annotation is absent. -/
def issuerOf (config : Config) : JsVal :=
  getPath (ingressObject config) ["metadata", "annotations", "cert-manager.io/cluster-issuer"]

/-- The issuer annotation of the Ingress of the config: it is among the
annotations exactly when `enableTLS` is truthy; its value is `letsencrypt-prod`
when the environment is `production` and `letsencrypt-staging` otherwise; in
the text the annotation block, which ends where `spec:` starts, has the issuer
line as its third line with TLS and only the two fixed lines without. -/
def IssuerAnnotation (config : Config) : Prop :=
  (∃ annotations, getPath (ingressObject config) ["metadata", "annotations"] = .obj annotations ∧
    ("cert-manager.io/cluster-issuer".data ∈ annotations.map Prod.fst
      ↔ truthy config.enableTLS = true)) ∧
  (truthy config.enableTLS = true → config.environment = lit "production" →
    issuerOf config = lit "letsencrypt-prod") ∧
  (truthy config.enableTLS = true → config.environment ≠ lit "production" →
    issuerOf config = lit "letsencrypt-staging") ∧
  (truthy config.enableTLS = false → issuerOf config = .undefined) ∧
  (∀ text, generateIngress config = .ok text →
    (truthy config.enableTLS = true → config.environment = lit "production" →
      (annotationLines ++ "    cert-manager.io/cluster-issuer: letsencrypt-prod\nspec:\n".data)
        <:+: text) ∧
    (truthy config.enableTLS = true → config.environment ≠ lit "production" →
      (annotationLines
        ++ "    cert-manager.io/cluster-issuer: letsencrypt-staging\nspec:\n".data)
        <:+: text) ∧
    (truthy config.enableTLS = false → (annotationLines ++ "spec:\n".data) <:+: text))

/-- The lines of a `stringData` block: one for each key, in the order of the
keys, holding the key and the value in clear, as `formatValue` renders it. -/
def clearLines (kvs : List (Str × JsVal)) : Str :=
  (kvs.map fun kv =>
    "  ".data ++ kv.1 ++ ": ".data ++ jsToString (formatValue kv.2) ++ "\n".data).flatten

/-- The Secret of a config whose secrets are the properties `kvs`: a `v1`
Secret of type Opaque with the properties `apiVersion`, `kind`, `metadata`,
`type` and `stringData` and no other, so no `data`; every text
`generateSecret` returns starts with the `apiVersion`, `kind` and `metadata:`
lines and ends with the `type` line and the `stringData` block in clear; and
for a string name and namespace the text is returned and is exactly the head
lines, the namespace, the label, the `type` line and that block. -/
def SecretAsSpecified (config : Config) (kvs : List (Str × JsVal)) : Prop :=
  getPath (secretObject config) ["apiVersion"] = lit "v1" ∧
  getPath (secretObject config) ["kind"] = lit "Secret" ∧
  getPath (secretObject config) ["type"] = lit "Opaque" ∧
  getPath (secretObject config) ["stringData"] = .obj kvs ∧
  getPath (secretObject config) ["data"] = .undefined ∧
  objectKeys (secretObject config) = .ok ["apiVersion".data, "kind".data, "metadata".data,
    "type".data, "stringData".data] ∧
  (∀ text, generateSecret config = .ok text →
    "apiVersion: v1\nkind: Secret\nmetadata:\n".data <+: text ∧
    ("type: Opaque\nstringData:\n".data ++ clearLines kvs) <:+ text) ∧
  (∀ name ns : Str, config.appName = .str name → config.namespace_ = .str ns →
    generateSecret config = .ok (headLines "v1" "Secret" (name ++ "-secrets".data)
      ++ "  namespace: ".data ++ rendered ns ++ "\n  labels:\n    app: ".data ++ rendered name
      ++ "\ntype: Opaque\nstringData:\n".data ++ clearLines kvs))

/-- Holds when the value is the number given. -/
def isNum (v : JsVal) (n : Int) : Bool :=
  match v with
  | .num m => m == n
  | _ => false

/-- Holds when the value is there and is the boolean `true`. -/
def isImplemented (v : Option JsVal) : Bool :=
  match v with
  | some (.bool true) => true
  | _ => false

/-- The six manifest keys with the kind each manifest is of. -/
def manifestKinds : List (String × String) := [
  ("deployment", "Deployment"), ("service", "Service"), ("configMap", "ConfigMap"),
  ("secret", "Secret"), ("ingress", "Ingress"), ("hpa", "HorizontalPodAutoscaler")]

/-- What the integration example asks of a result: the six manifests, each of
its kind; three replicas and six resources in the summary; the step that lists
the ingress among the commands; the autoscaling and the TLS-ingress items of
the checklist implemented. -/
def IntegrationResult (result : Result) : Prop :=
  result.manifests.map (fun kv => String.mk kv.1) = manifestKinds.map Prod.fst ∧
  (∀ entry ∈ manifestKinds, ∃ text, result.manifests.lookup entry.1.data = some text ∧
    ("\nkind: " ++ entry.2 ++ "\n").data <:+: text) ∧
  result.summary.replicas = .num 3 ∧
  result.summary.resourcesGenerated.length = 6 ∧
  (∃ step ∈ result.deploymentCommands, step.description = "Get ingress".data ∧
    step.command = "kubectl get ingress -n default".data) ∧
  implementedOf result.bestPractices "Horizontal Pod Autoscaler for dynamic scaling"
    = some (.bool true) ∧
  implementedOf result.bestPractices "Ingress with TLS for secure external access"
    = some (.bool true)

/-- The text `$<low>-<high>/month`. -/
def costRange (low high : Int) : Str :=
  "$".data ++ intToStr low ++ "-".data ++ intToStr high ++ "/month".data

/-- The text of an integer: decimal digits after an optional minus sign. -/
def isIntegerText (s : Str) : Bool :=
  match s with
  | '-' :: t => !t.isEmpty && t.all isDigit
  | t => !t.isEmpty && t.all isDigit

/-- The text is a well-formed `$<number>-<number>/month`. -/
def WellFormedCost (s : Str) : Prop :=
  ∃ low high : Str, isIntegerText low = true ∧ isIntegerText high = true ∧
    s = "$".data ++ low ++ "-".data ++ high ++ "/month".data

/-- The request `config.resources.requests[name]`; `undefined` where a step
is missing. -/
def requestOf (config : Config) (name : String) : JsVal :=
  getPath config.resources ["requests", name]

/-- The unrounded estimate of the config, as `generateSummary` computes it. -/
def estimateOf (config : Config) : Double :=
  totalCost (requestOf config "cpu") (requestOf config "memory") config.replicas

/-- The integer `Math.round` gives for a rational. -/
def nearestInteger (q : ℚ) : Int := ⌊q + 1 / 2⌋

/-- The estimate of the config in exact arithmetic, for requests that read as
the integers `c` and `m` and `r` replicas. -/
def exactEstimate (c m r : Int) : ℚ := ((c : ℚ) * (4 / 100) + (m : ℚ) * (5 / 1000)) * r

/-- Requests and a replica count of a size for which the estimate stays far
below the numbers that doubles no longer tell apart: up to a million for each
request and ten thousand replicas. -/
def ModestSizes (c m r : Int) : Prop :=
  |c| ≤ 1000000 ∧ |m| ≤ 1000000 ∧ |r| ≤ 10000

/-- What `generateSummary` does with the cost: it throws when `resources` has
no `requests`, and returns a summary otherwise. A request that cannot be parsed
makes the estimate `NaN`, and the cost text `$NaN-NaN/month`. When both
requests start with an integer, `replicas` is an integer and the three are of
modest size, the estimate is a finite double within a hundred-thousandth of
the exact value, and the cost is the well-formed text of the estimate, rounded,
and of three times the estimate, rounded. -/
def SummaryCost (config : Config) (manifests : Manifests) : Prop :=
  (isNullish (getPath config.resources ["requests"]) = true →
    generateSummary config manifests = .error .typeError) ∧
  (isNullish (getPath config.resources ["requests"]) = false →
    ∃ summary, generateSummary config manifests = .ok summary ∧
      (estimateOf config = .nan →
        summary.estimatedCost = "$NaN-NaN/month".data ∧
        ¬ WellFormedCost summary.estimatedCost) ∧
      (∀ c m r : Int, parseInt (requestOf config "cpu") = some c →
        parseInt (requestOf config "memory") = some m → config.replicas = .num r →
        ModestSizes c m r →
        ∃ q q3, estimateOf config = .finite q ∧
          Double.mul (.finite q) (.finite 3) = .finite q3 ∧
          |q - exactEstimate c m r| ≤ 1 / 100000 ∧
          summary.estimatedCost = costRange (nearestInteger q) (nearestInteger q3) ∧
          WellFormedCost summary.estimatedCost)) ∧
  (parseInt (requestOf config "cpu") = none ∨ parseInt (requestOf config "memory") = none →
    estimateOf config = .nan)

/-- The monthly estimate in dollars that prices a vCPU at $0.04 and a GB at
$0.005, for `n` millicores, `m` mebibytes and `r` replicas. -/
def pricedEstimate (n m r : ℚ) : ℚ := (n / 1000 * (4 / 100) + m / 1024 * (5 / 1000)) * r

mutual
/-- The value can be rendered as the value of a property: no array in it, at
any depth, has `null` as an item. -/
def renderable : JsVal → Bool
  | .arr xs => renderableItems xs
  | .obj kvs => renderableProps kvs
  | _ => true
/-- The values can be rendered as the items of an array. -/
def renderableItems : List JsVal → Bool
  | [] => true
  | item :: rest =>
    (match item with
      | .null => false
      | .arr xs => renderableEntries xs
      | .obj kvs => renderableProps kvs
      | _ => true) && renderableItems rest
/-- The values can be rendered as the entries of an array passed to `toYAML`. -/
def renderableEntries : List JsVal → Bool
  | [] => true
  | value :: rest => renderable value && renderableEntries rest
/-- The properties can be rendered. -/
def renderableProps : List (Str × JsVal) → Bool
  | [] => true
  | (_, value) :: rest => renderable value && renderableProps rest
end

/-- The value is absent or a scalar: `undefined`, `null`, a boolean, a number
or a string. -/
def isLeaf : JsVal → Bool
  | .arr _ => false
  | .obj _ => false
  | _ => true

/-- The options are typed as the data model types them: each scalar field is
absent or a scalar, and `envVars` and `secrets` hold nothing that `toYAML`
cannot render. -/
def TypedOptions (options : Options) : Prop :=
  isLeaf options.appName = true ∧ isLeaf options.image = true ∧ isLeaf options.port = true ∧
  isLeaf options.namespace_ = true ∧ isLeaf options.replicas = true ∧
  isLeaf options.serviceType = true ∧ isLeaf options.ingressHost = true ∧
  isLeaf options.minReplicas = true ∧ isLeaf options.maxReplicas = true ∧
  isLeaf options.healthCheckPath = true ∧ isLeaf options.readinessCheckPath = true ∧
  renderable options.envVars = true ∧ renderable options.secrets = true

/-- The first lines of a manifest whose `metadata` has no `name` line: the
`namespace` line follows `metadata:` directly. -/
def headWithoutName (apiVersion kind : String) (ns : JsVal) : Str :=
  "apiVersion: ".data ++ apiVersion.data ++ "\nkind: ".data ++ kind.data
    ++ "\nmetadata:\n".data ++ scalarLine 1 "namespace".data ns

/-- The `ports` block of the container when no port is given: the item has no
`containerPort` line. -/
def portsWithoutPort : Str :=
  "        ports:\n        - \n          name: http\n          protocol: TCP\n".data

/-- The `ports` block of the Service when no port is given: the item has no
`targetPort` line. -/
def servicePortsWithoutTarget : Str :=
  "  ports:\n  - \n    name: http\n    port: 80\n    protocol: TCP\n".data

/-- What `generate` does without validation: it returns a result with the
Deployment and the Service among the manifests, ten best practices and a
non-empty command list; and for each of `appName`, `image` and `port` that is
absent the manifests lack the line: `metadata:` is followed directly by the
`namespace` line, the container's `name` entry is followed directly by
`imagePullPolicy`, and the port items have no `containerPort` and no
`targetPort` line. -/
def NoValidation (options : Options) : Prop :=
  ∃ result deployment service,
    generate options = .ok result ∧
    result.manifests.lookup "deployment".data = some deployment ∧
    result.manifests.lookup "service".data = some service ∧
    result.bestPractices.length = 10 ∧
    result.deploymentCommands ≠ [] ∧
    (options.appName = .undefined →
      headWithoutName "apps/v1" "Deployment" (jsOr options.namespace_ (lit "default"))
        <+: deployment ∧
      headWithoutName "v1" "Service" (jsOr options.namespace_ (lit "default")) <+: service) ∧
    (options.image = .undefined →
      ∃ nameLine, toYAMLEntry "name".data options.appName 4 = .ok nameLine ∧
        (nameLine ++ "        imagePullPolicy: IfNotPresent\n".data) <:+: deployment) ∧
    (options.port = .undefined →
      portsWithoutPort <:+: deployment ∧ servicePortsWithoutTarget <:+: service)

/-! ## Example inputs -/

/-- The options of the test `should generate ConfigMap when env vars provided`,
with ingress enabled. -/
def optionsWithEnvVars : Options := {
  appName := lit "test-app"
  image := lit "myregistry/test-app:1.0.0"
  port := .num 3000
  envVars := .obj [prop "API_URL" (lit "https://api.example.com")]
  enableIngress := .bool true
  ingressHost := lit "app.example.com" }

/-- A config with two configuration values and one secret. -/
def configWithSecrets : Config := {
  appName := lit "web-api"
  image := lit "web-api"
  port := .num 3000
  environment := lit "production"
  namespace_ := lit "default"
  replicas := .num 3
  envVars := .obj [prop "NODE_ENV" (lit "production"), prop "LOG_LEVEL" (lit "info")]
  secrets := .obj [prop "API_KEY" (lit "secret-key-12345")]
  healthCheckPath := lit "/health"
  readinessCheckPath := lit "/ready"
  resources := .obj []
  healthCheckConfig := .obj [] }

/-- The options of the example of the specification, with every optional
resource switched on. -/
def optionsFull : Options := {
  appName := lit "web-api"
  image := lit "reg/web-api:1.0.0"
  port := .num 3000
  environment := lit "production"
  enableIngress := .bool true
  ingressHost := lit "api.example.com"
  enableTLS := .bool true
  enableAutoscaling := .bool true
  minReplicas := .num 3
  maxReplicas := .num 10
  envVars := .obj [prop "NODE_ENV" (lit "production")]
  secrets := .obj [prop "API_KEY" (lit "x")] }

/-- The options of the test `should generate complete manifest set`. -/
def basicOptions : Options := {
  appName := lit "test-app"
  image := lit "myregistry/test-app:1.0.0"
  port := .num 3000 }

/-- The config `buildConfig` returns for `basicOptions`. -/
def basicConfig : Config := {
  appName := lit "test-app"
  image := lit "myregistry/test-app:1.0.0"
  port := .num 3000
  environment := lit "dev"
  namespace_ := lit "default"
  replicas := .num 1
  serviceType := lit "ClusterIP"
  enableIngress := .bool false
  ingressHost := .undefined
  enableTLS := .bool true
  enableAutoscaling := .bool false
  minReplicas := .num 2
  maxReplicas := .num 10
  envVars := .obj []
  secrets := .obj []
  healthCheckPath := lit "/health"
  readinessCheckPath := lit "/ready"
  resources := .obj [
    prop "requests" (.obj [prop "cpu" (lit "100m"), prop "memory" (lit "256Mi")]),
    prop "limits" (.obj [prop "cpu" (lit "200m"), prop "memory" (lit "512Mi")])]
  healthCheckConfig := .obj [
    prop "initialDelaySeconds" (.num 10),
    prop "periodSeconds" (.num 30),
    prop "timeoutSeconds" (.num 5),
    prop "failureThreshold" (.num 5)] }

/-- The config of the test `should generate valid Deployment YAML`, with the
empty `envVars` and `secrets` that `buildConfig` supplies (without them
`buildEnvVars` throws). -/
def nginxConfig : Config := {
  appName := lit "test-app"
  image := lit "nginx:latest"
  port := .num 80
  namespace_ := lit "default"
  replicas := .num 2
  environment := lit "production"
  resources := .obj [
    prop "requests" (.obj [prop "cpu" (lit "100m"), prop "memory" (lit "128Mi")]),
    prop "limits" (.obj [prop "cpu" (lit "200m"), prop "memory" (lit "256Mi")])]
  healthCheckPath := lit "/health"
  readinessCheckPath := lit "/ready"
  healthCheckConfig := .obj [
    prop "initialDelaySeconds" (.num 30),
    prop "periodSeconds" (.num 10),
    prop "timeoutSeconds" (.num 5),
    prop "failureThreshold" (.num 3)]
  envVars := .obj []
  secrets := .obj [] }

/-- The config of the test `should generate ConfigMap with env vars`. -/
def configMapTestConfig : Config := {
  appName := lit "app"
  namespace_ := lit "default"
  envVars := .obj [
    prop "LOG_LEVEL" (lit "info"),
    prop "API_URL" (lit "https://api.example.com")] }

/-- Options naming an environment that is no tier. -/
def qaOptions : Options := {
  appName := lit "test"
  image := lit "test:1.0.0"
  port := .num 8080
  environment := lit "qa" }

/-- Options for production that ask for zero replicas, the empty namespace
and an autoscaler that may scale to zero. -/
def zeroOptions : Options := {
  appName := lit "test"
  image := lit "test:1.0.0"
  port := .num 8080
  environment := lit "production"
  replicas := .num 0
  namespace_ := lit ""
  minReplicas := .num 0 }

/-- The options of the test `should apply environment defaults`. -/
def productionOptions : Options := {
  appName := lit "test"
  image := lit "test:1.0.0"
  port := .num 8080
  environment := lit "production" }

/-- Options that switch the autoscaler on and set only the lower bound, above
the default upper bound. -/
def minOnlyOptions : Options := {
  appName := lit "test-app"
  image := lit "myregistry/test-app:1.0.0"
  port := .num 3000
  enableAutoscaling := .bool true
  minReplicas := .num 20 }

/-- The config of the test `should generate valid Service YAML`. -/
def serviceTestConfig : Config := {
  appName := lit "test-app"
  port := .num 3000
  namespace_ := lit "default"
  serviceType := lit "ClusterIP" }

/-- A sequence with a string, a number and a mapping. -/
def mixedSequence : List JsVal :=
  [lit "ALL", .num 80, .obj [prop "name" (lit "http"), prop "port" (.num 80)]]

/-- The config of the test `should include TLS configuration when enabled`. -/
def tlsTestConfig : Config := {
  appName := lit "app"
  namespace_ := lit "default"
  ingressHost := lit "secure.example.com"
  environment := lit "production"
  enableTLS := .bool true }

/-- The config of the test `should generate HorizontalPodAutoscaler`. -/
def hpaTestConfig : Config := {
  appName := lit "app"
  namespace_ := lit "default"
  minReplicas := .num 2
  maxReplicas := .num 10 }

/-- The config of the test `should provide kubectl commands`. -/
def commandsTestConfig : Config := {
  appName := lit "app"
  namespace_ := lit "production"
  enableIngress := .bool true }

/-- A manifest set with a ConfigMap, a Deployment, a Service and an Ingress. -/
def commandsTestManifests : Manifests :=
  [("deployment".data, "yaml".data), ("service".data, "yaml".data),
    ("configMap".data, "yaml".data), ("ingress".data, "yaml".data)]

/-- The config of the test `should list implemented best practices`. -/
def practicesTestConfig : Config := {
  enableAutoscaling := .bool true
  enableIngress := .bool true
  enableTLS := .bool true }

/-- The config of the test `should include TLS configuration when enabled`,
for the staging tier. -/
def stagingTlsConfig : Config := {
  appName := lit "app"
  namespace_ := lit "default"
  ingressHost := lit "secure.example.com"
  environment := lit "staging"
  enableTLS := .bool true }

/-- The config of the test `should generate Secret manifest`. -/
def secretTestConfig : Config := {
  appName := lit "app"
  namespace_ := lit "default"
  secrets := .obj [prop "DB_PASSWORD" (lit "secret123"), prop "API_KEY" (lit "key456")] }

/-- The config of the test `should provide deployment summary`. -/
def summaryTestConfig : Config := {
  appName := lit "my-app"
  environment := lit "production"
  namespace_ := lit "prod"
  replicas := .num 3
  resources := .obj [
    prop "requests" (.obj [prop "cpu" (lit "250m"), prop "memory" (lit "512Mi")])] }

/-- The manifest set of the test `should provide deployment summary`. -/
def summaryTestManifests : Manifests :=
  [("deployment".data, "yaml".data), ("service".data, "yaml".data)]

/-- A config whose CPU request is no number. -/
def malformedConfig : Config := {
  appName := lit "my-app"
  environment := lit "production"
  namespace_ := lit "prod"
  replicas := .num 3
  resources := .obj [
    prop "requests" (.obj [prop "cpu" (lit "half"), prop "memory" (lit "512Mi")])] }

/-- A config whose resources have limits and no requests. -/
def limitsOnlyConfig : Config := {
  appName := lit "my-app"
  environment := lit "production"
  namespace_ := lit "prod"
  replicas := .num 3
  resources := .obj [
    prop "limits" (.obj [prop "cpu" (lit "500m"), prop "memory" (lit "1Gi")])] }

/-- Options that switch the Ingress on and give no host; `enableTLS` is left
to its default. -/
def ingressNoHostOptions : Options := {
  appName := lit "test-app"
  image := lit "myregistry/test-app:1.0.0"
  port := .num 3000
  enableIngress := .bool true }

/-- Options that name the tier and nothing else. -/
def bareOptions : Options := {
  environment := lit "staging" }

/-- A config with five replicas of 60 millicores and 60 mebibytes. -/
def sixtyConfig : Config := {
  appName := lit "my-app"
  environment := lit "production"
  namespace_ := lit "prod"
  replicas := .num 5
  resources := .obj [
    prop "requests" (.obj [prop "cpu" (lit "60m"), prop "memory" (lit "60Mi")])] }

/-- A config whose CPU request is a number of 24 digits. -/
def hugeConfig : Config := {
  appName := lit "my-app"
  environment := lit "production"
  namespace_ := lit "prod"
  replicas := .num 1
  resources := .obj [
    prop "requests" (.obj [prop "cpu" (lit "100000000000000000000000m"),
      prop "memory" (lit "512Mi")])] }

/-- The config of the test `should generate valid Deployment YAML` as the
test writes it, without `envVars` and `secrets`. -/
def nginxBareConfig : Config := {
  appName := lit "test-app"
  image := lit "nginx:latest"
  port := .num 80
  namespace_ := lit "default"
  replicas := .num 2
  environment := lit "production"
  resources := .obj [
    prop "requests" (.obj [prop "cpu" (lit "100m"), prop "memory" (lit "128Mi")]),
    prop "limits" (.obj [prop "cpu" (lit "200m"), prop "memory" (lit "256Mi")])]
  healthCheckPath := lit "/health"
  readinessCheckPath := lit "/ready"
  healthCheckConfig := .obj [
    prop "initialDelaySeconds" (.num 30),
    prop "periodSeconds" (.num 10),
    prop "timeoutSeconds" (.num 5),
    prop "failureThreshold" (.num 3)] }

end K8s

/-!
# Security scanner

A shallow embedding of `security-scanner/src/index.js`. Source texts are lists
of characters, counts and scores are integers. The regular expressions of the
pattern table are terms of a small expression type, matched by a backtracking
matcher with the greedy, leftmost semantics of JavaScript; `matchAll` lists the
start indices of the successive matches.
-/

namespace SecurityScanner

open K8s (Str JsVal JsError)

/-! ## Regular expressions -/

/-- The regular expressions the pattern table is written with. -/
inductive Regex
  | eps
  | chars (p : Char → Bool)
  | boundary
  | cat (a b : Regex)
  | alt (a b : Regex)
  | star (a : Regex)

/-- The word characters of `\b`: letters, digits and the underscore. -/
def isWordChar (c : Char) : Bool :=
  let n := c.toNat
  (48 ≤ n && n ≤ 57) || (65 ≤ n && n ≤ 90) || (97 ≤ n && n ≤ 122) || n == 95

/-- Holds when the optional character is a word character. -/
def isWordAt : Option Char → Bool
  | some c => isWordChar c
  | none => false

/-- The characters `.` matches: all but the line terminators. -/
def isDot (c : Char) : Bool := !K8s.isLineTerminator c

/-- The backtracking matcher. `run fuel r prev s k` matches `r` at the head of
`s`, where `prev` is the character before it, and hands the last character read
and the rest of the text to the continuation `k`; alternatives are tried from
the left and `star` takes as many rounds as it can before it gives one back.
Every call spends one unit of fuel. -/
def run : Nat → Regex → Option Char → Str → (Option Char → Str → Option Str) → Option Str
  | 0, _, _, _, _ => none
  | fuel + 1, r, prev, s, k =>
    match r with
    | .eps => k prev s
    | .chars p =>
      match s with
      | c :: t => if p c then k (some c) t else none
      | [] => none
    | .boundary => if isWordAt prev != isWordAt s.head? then k prev s else none
    | .cat a b => run fuel a prev s fun prev2 s2 => run fuel b prev2 s2 k
    | .alt a b =>
      match run fuel a prev s k with
      | some rest => some rest
      | none => run fuel b prev s k
    | .star a =>
      match run fuel a prev s fun prev2 s2 =>
          if s2.length < s.length then run fuel (.star a) prev2 s2 k else none with
      | some rest => some rest
      | none => k prev s

/-- The size of an expression. -/
def Regex.size : Regex → Nat
  | .eps => 1
  | .chars _ => 1
  | .boundary => 1
  | .cat a b => a.size + b.size + 1
  | .alt a b => a.size + b.size + 1
  | .star a => a.size + 1

/-- The text left after the match of `r` at the head of `s`, when there is one. -/
def matchHead (r : Regex) (prev : Option Char) (s : Str) : Option Str :=
  run ((s.length + 2) * (r.size + 1)) r prev s fun _ rest => some rest

/-- The scan of `matchAll`: the start indices of the successive matches from
index `idx` on, where `skip` characters still belong to the match before. A
match that reads nothing lets the scan move on by one character. -/
def scanFrom (r : Regex) : Option Char → Nat → Nat → Str → List Nat
  | _, _, _, [] => []
  | prev, idx, skip, c :: t =>
    if skip > 0 then scanFrom r (some c) (idx + 1) (skip - 1) t
    else
      match matchHead r prev (c :: t) with
      | some rest => idx :: scanFrom r (some c) (idx + 1) ((c :: t).length - rest.length - 1) t
      | none => scanFrom r (some c) (idx + 1) 0 t

/-- The values of `match.index` for `[...code.matchAll(pattern)]`. -/
def matchAll (r : Regex) (code : Str) : List Nat := scanFrom r none 0 0 code

/-- The expression for a literal text. -/
def text (s : String) : Regex :=
  s.data.foldr (fun c r => .cat (.chars fun d => d == c) r) .eps

/-- The expression for a literal text under the flag `i`. -/
def textAnyCase (s : String) : Regex :=
  s.data.foldr (fun c r => .cat (.chars fun d => K8s.canonicalize d == K8s.canonicalize c) r) .eps

/-- The expression `\s*`. -/
def spacesOpt : Regex := .star (.chars K8s.isWhiteSpace)

/-- The expression `.*`. -/
def anything : Regex := .star (.chars isDot)

/-- The two quote characters, `'` and `"`. -/
def isQuote (c : Char) : Bool := c.toNat == 39 || c.toNat == 34

/-- The expression `['"]`. -/
def quote : Regex := .chars isQuote

/-- The sequence of the expressions of a list. -/
def seq (rs : List Regex) : Regex := rs.foldr .cat .eps

/-! ## The pattern table -/

/-- One entry of the pattern table. -/
structure PatternConfig where
  pattern : Regex
  message : Str
  cwe : Str
  category : Str

/-- The table `this.patterns`, in the order `Object.entries` lists it. -/
def patterns : List (Str × List (Str × PatternConfig)) := [
  ("critical".data, [
    ("eval".data, {
      pattern := seq [.boundary, text "eval", spacesOpt, text "("]
      message := "Code injection via eval()".data
      cwe := "CWE-95".data
      category := "code-injection".data }),
    ("exec".data, {
      pattern := seq [.boundary, text "exec", spacesOpt, text "("]
      message := "Code injection via exec()".data
      cwe := "CWE-95".data
      category := "code-injection".data }),
    ("hardcodedPassword".data, {
      pattern := seq [
        .alt (textAnyCase "password") (.alt (textAnyCase "passwd") (textAnyCase "pwd")),
        spacesOpt, text "=", spacesOpt, quote,
        .chars (fun c => !isQuote c),
        .star (.chars fun c => !isQuote c), quote]
      message := "Hardcoded password".data
      cwe := "CWE-798".data
      category := "hardcoded-secrets".data }),
    ("sqlInjection".data, {
      pattern :=
        .alt (seq [text "f", quote, text "SELECT", anything, text "\x7b"])
          (.alt (seq [quote, text "SELECT", anything, text "+", anything, text "+"])
            (seq [quote, text "SELECT", anything, text "%"]))
      message := "SQL injection vulnerability".data
      cwe := "CWE-89".data
      category := "injection".data }),
    ("commandInjection".data, {
      pattern :=
        .alt (text "os.system(")
          (seq [text "subprocess", anything, text "shell", spacesOpt, text "=", spacesOpt,
            text "True"])
      message := "Command injection risk".data
      cwe := "CWE-78".data
      category := "injection".data })]),
  ("high".data, [
    ("md5".data, {
      pattern :=
        .alt (text "hashlib.md5(") (seq [text "crypto.createHash(", quote, text "md5", quote,
          text ")"])
      message := "Weak cryptography: MD5".data
      cwe := "CWE-327".data
      category := "weak-crypto".data }),
    ("sha1".data, {
      pattern :=
        .alt (text "hashlib.sha1(") (seq [text "crypto.createHash(", quote, text "sha1", quote,
          text ")"])
      message := "Weak cryptography: SHA1".data
      cwe := "CWE-327".data
      category := "weak-crypto".data }),
    ("mathRandom".data, {
      pattern := .alt (text "Math.random()") (text "random.random()")
      message := "Weak random number generation".data
      cwe := "CWE-338".data
      category := "weak-crypto".data }),
    ("sslVerifyFalse".data, {
      pattern :=
        .alt (seq [text "verify", spacesOpt, text "=", spacesOpt, text "False"])
          (seq [text "rejectUnauthorized", spacesOpt, text ":", spacesOpt, text "false"])
      message := "SSL verification disabled".data
      cwe := "CWE-295".data
      category := "insecure-config".data })]),
  ("medium".data, [
    ("innerHTML".data, {
      pattern := seq [text ".innerHTML", spacesOpt, text "="]
      message := "XSS risk via innerHTML".data
      cwe := "CWE-79".data
      category := "xss".data }),
    ("todoSecurity".data, {
      pattern :=
        .alt (seq [textAnyCase "TODO", anything, textAnyCase "security"])
          (.alt (seq [textAnyCase "FIXME", anything, textAnyCase "security"])
            (seq [textAnyCase "XXX", anything, textAnyCase "security"]))
      message := "Security TODO comment".data
      cwe := "CWE-1266".data
      category := "code-quality".data })])]

/-! ## scan -/

/-- One entry of `findings`. -/
structure Finding where
  id : Str
  title : Str
  severity : Str
  category : Str
  lineNumber : Nat
  code : Str
  description : Str
  impact : Str
  remediation : Str
  cwe : Str

/-- The object `groupBySeverity` returns, and `calculateSecurityScore` reads. -/
structure IssuesBySeverity where
  critical : Int
  high : Int
  medium : Int
  low : Int

/-- The object `scan` returns. -/
structure ScanResult where
  securityScore : Int
  totalIssues : Nat
  issuesBySeverity : IssuesBySeverity
  findings : List Finding
  riskLevel : Str
  recommendations : List Str
  language : JsVal

/-- The method `split` with a one-character separator. -/
def splitOn (sep : Char) : Str → List Str
  | [] => [[]]
  | c :: t =>
    if c == sep then [] :: splitOn sep t
    else
      match splitOn sep t with
      | h :: rest => (c :: h) :: rest
      | [] => [[c]]

/-- The method `padStart(width, fill)`. -/
def padStart (width : Nat) (fill : Char) (s : Str) : Str :=
  List.replicate (width - s.length) fill ++ s

/-- The method `detectLanguage`. -/
def detectLanguage (code : Str) : Str :=
  if "def ".data <:+: code || "import ".data <:+: code then "python".data
  else if "function ".data <:+: code || "const ".data <:+: code then "javascript".data
  else "unknown".data

/-- The method `getLineNumber`. -/
def getLineNumber (code : Str) (index : Nat) : Nat :=
  (splitOn '\n' (code.take index)).length

/-- The method `getLineCode`. -/
def getLineCode (code : Str) (lineNumber : Nat) : Str :=
  ((splitOn '\n' code).get? (lineNumber - 1)).getD []

/-- The method `groupBySeverity`. -/
def groupBySeverity (findings : List Finding) : IssuesBySeverity := {
  critical := (findings.filter fun f => f.severity == "CRITICAL".data).length
  high := (findings.filter fun f => f.severity == "HIGH".data).length
  medium := (findings.filter fun f => f.severity == "MEDIUM".data).length
  low := (findings.filter fun f => f.severity == "LOW".data).length }

/-- The method `calculateSecurityScore`. -/
def calculateSecurityScore (issuesBySeverity : IssuesBySeverity) : Int :=
  let score := 100 - (
    (issuesBySeverity.critical * 30) +
    (issuesBySeverity.high * 15) +
    (issuesBySeverity.medium * 5) +
    (issuesBySeverity.low * 1))
  max 0 (min 100 score)

/-- The method `getRiskLevel`. -/
def getRiskLevel (score : Int) (issues : IssuesBySeverity) : Str :=
  if issues.critical > 0 then "CRITICAL".data
  else if score < 50 then "HIGH".data
  else if score < 75 then "MEDIUM".data
  else if score < 90 then "LOW".data
  else "SAFE".data

/-- The method `severityWeight`, on the severities a finding can have (a name
that the table inherits from `Object.prototype` is no such severity). -/
def severityWeight (severity : Str) : Nat :=
  if severity = "CRITICAL".data then 4
  else if severity = "HIGH".data then 3
  else if severity = "MEDIUM".data then 2
  else if severity = "LOW".data then 1
  else 0

/-- The method `getDescription`. -/
def getDescription (category : Str) : Str :=
  (([("code-injection", "Allows execution of arbitrary code"),
    ("injection", "Enables injection of malicious commands or queries"),
    ("hardcoded-secrets", "Credentials exposed in source code"),
    ("weak-crypto", "Uses cryptographically weak algorithms"),
    ("xss", "Cross-site scripting vulnerability"),
    ("insecure-config", "Insecure configuration weakens security"),
    ("code-quality", "Security-related code quality issue")].lookup (String.mk category)).getD
      "Security issue detected").data

/-- The method `getImpact`. -/
def getImpact (severity : Str) : Str :=
  (([("critical", "Complete system compromise, data breach, or unauthorized access"),
    ("high", "Significant security weakness that could lead to exploitation"),
    ("medium", "Moderate security concern that should be addressed"),
    ("low", "Minor issue with limited security impact")].lookup (String.mk severity)).getD
      "Security impact").data

/-- The method `getRemediation`. -/
def getRemediation (category : Str) : Str :=
  (([("code-injection", "Never use eval() or exec() with user input. Use safe alternatives."),
    ("injection", "Use parameterized queries and input validation"),
    ("hardcoded-secrets", "Move credentials to environment variables or secrets management"),
    ("weak-crypto", "Use strong cryptographic algorithms (e.g., SHA-256, bcrypt)"),
    ("xss", "Sanitize user input and use secure DOM methods"),
    ("insecure-config", "Enable security features and use secure defaults"),
    ("code-quality", "Address security TODOs before deployment")].lookup
      (String.mk category)).getD "Review and fix security issue").data

/-- The method `generateRecommendations`. -/
def generateRecommendations (findings : List Finding) : List Str :=
  let criticalFindings := findings.filter fun f => f.severity == "CRITICAL".data
  let highFindings := findings.filter fun f => f.severity == "HIGH".data
  let recommendations :=
    ((criticalFindings.take 3).map fun f =>
      "FIX IMMEDIATELY: ".data ++ f.title ++ " (Line ".data ++ Nat.toDigits 10 f.lineNumber
        ++ ")".data) ++
    ((highFindings.take 2).map fun f =>
      "HIGH PRIORITY: ".data ++ f.title ++ " (Line ".data ++ Nat.toDigits 10 f.lineNumber
        ++ ")".data)
  let recommendations :=
    if recommendations.length = 0 ∧ findings.length > 0 then
      recommendations ++ ["Address all identified issues before deployment".data]
    else recommendations
  if recommendations.length = 0 then
    recommendations ++ ["No critical security issues detected".data]
  else recommendations

/-- The matches of the nested loops of `scan`, in the order they are visited:
the severity key, the table entry and the index of each match. -/
def hits (code : Str) : List (Str × PatternConfig × Nat) :=
  patterns.flatMap fun group =>
    group.2.flatMap fun entry =>
      (matchAll entry.2.pattern code).map fun index => (group.1, entry.2, index)

/-- The finding `scan` pushes for a match, when the counter `id` has the
value given. -/
def findingOf (code : Str) (id : Nat) (hit : Str × PatternConfig × Nat) : Finding :=
  let lineNumber := getLineNumber code hit.2.2
  let lineCode := getLineCode code lineNumber
  { id := "SEC-".data ++ padStart 3 '0' (Nat.toDigits 10 id)
    title := hit.2.1.message
    severity := K8s.toUpperCase hit.1
    category := hit.2.1.category
    lineNumber := lineNumber
    code := K8s.trim lineCode
    description := getDescription hit.2.1.category
    impact := getImpact hit.1
    remediation := getRemediation hit.2.1.category
    cwe := hit.2.1.cwe }

/-- The list `findings` after the loops of `scan`: the counter `id` starts at
1 and grows by one with every finding pushed. -/
def collectFindings (code : Str) : List Finding :=
  (hits code).enum.map fun numbered => findingOf code (numbered.1 + 1) numbered.2

/-- The order the comparator `severityWeight(b.severity) - severityWeight(a.severity)`
asks for: `a` may stand before `b`. -/
def bySeverity (a b : Finding) : Prop := severityWeight b.severity ≤ severityWeight a.severity

instance instDecidableRelBySeverity : DecidableRel bySeverity :=
  fun a b => inferInstanceAs (Decidable (severityWeight b.severity ≤ severityWeight a.severity))

/-- The call `findings.sort(...)`: the sort is stable, so a finding goes before
the first finding whose weight is not larger than its own. -/
def sortFindings (findings : List Finding) : List Finding :=
  findings.insertionSort bySeverity

/-- The method `scan`; `options` is the second argument, `undefined` when it is
left out. -/
def scan (code : Str) (options : JsVal) : Except JsError ScanResult := do
  let options := match options with
    | .undefined => JsVal.obj []
    | other => other
  let given ← K8s.getProp options "language".data
  let language := K8s.jsOr given (.str (detectLanguage code))
  let findings := collectFindings code
  let issuesBySeverity := groupBySeverity findings
  let securityScore := calculateSecurityScore issuesBySeverity
  let riskLevel := getRiskLevel securityScore issuesBySeverity
  let recommendations := generateRecommendations findings
  pure {
    securityScore := securityScore
    totalIssues := findings.length
    issuesBySeverity := issuesBySeverity
    findings := sortFindings findings
    riskLevel := riskLevel
    recommendations := recommendations
    language := language }

/-! ## Vocabulary of the specification -/

/-- The id of the finding pushed when the counter has the value `k`: `SEC-`
and the decimal form of `k`, padded with zeros to three digits. -/
def idOf (k : Nat) : Str := "SEC-".data ++ padStart 3 '0' (Nat.toDigits 10 k)

/-- The test `^SEC-\d{3}$`. -/
def isThreeDigitId (s : Str) : Bool :=
  match s with
  | ['S', 'E', 'C', '-', a, b, c] => K8s.isDigit a && K8s.isDigit b && K8s.isDigit c
  | _ => false

/-- The ids of the findings of a result: no two findings share an id; each id
is that of a counter value from 1 to the number of findings; and the ids of the
first 999 counter values have exactly three digits. -/
def IdsAsSpecified (result : ScanResult) : Prop :=
  (result.findings.map fun f => f.id).Nodup ∧
  (∀ f ∈ result.findings, ∃ k, 1 ≤ k ∧ k ≤ result.totalIssues ∧ f.id = idOf k) ∧
  (∀ k, 1 ≤ k → k ≤ result.totalIssues → ∃ f ∈ result.findings, f.id = idOf k) ∧
  (∀ k, k < 1000 → isThreeDigitId (idOf k) = true) ∧
  (result.totalIssues < 1000 → ∀ f ∈ result.findings, isThreeDigitId f.id = true)

/-! ## Example inputs -/

/-- The source text of the test `should sort findings by severity`. -/
def sortTestCode : Str :=
  "\n        element.innerHTML = x;\n        hashlib.md5(password);\n        eval(userInput);\n      ".data

/-- A source text with a thousand calls of `os.system`. -/
def thousandCalls : Str := (List.replicate 1000 "os.system(".data).flatten

/-- The source text of the test `should format finding IDs correctly`. -/
def idTestCode : Str := "eval(x); eval(y); eval(z)".data

end SecurityScanner

/-!
# Log analyzer

A shallow embedding of the entry point of `log-analyzer-debugger/src/index.js`.
A method call `this.name(...)` looks the name up among the methods of the
class and throws a `TypeError` when there is none of that name.
-/

namespace LogAnalyzer

open K8s (Str JsVal JsError)

/-- The bodies of the methods that `analyze` calls on the parsed entries, as
functions of their arguments. No claim depends on what they compute, so the
embedding leaves them open. -/
structure Bodies where
  parseLog : JsVal → JsVal → Except JsError JsVal
  detectPatterns : JsVal → JsVal → Except JsError JsVal
  analyzeRootCauses : JsVal → JsVal → Except JsError JsVal
  generateDebuggingSteps : JsVal → JsVal → Except JsError JsVal
  generateTimeline : JsVal → Except JsError JsVal
  detectAnomalies : JsVal → Except JsError JsVal
  generateSummary : JsVal → JsVal → Except JsError JsVal

/-- The object `analyze` returns. -/
structure Analysis where
  patterns : JsVal
  rootCauses : JsVal
  debuggingSteps : JsVal
  timeline : JsVal
  anomalies : JsVal
  summary : JsVal

/-- The method `detectFormat`: `logs.trim()` throws unless `logs` is a string. -/
def detectFormat (logs : JsVal) : Except JsError JsVal :=
  match logs with
  | .str s =>
    if (K8s.trim s).head? = some '{' then .ok (K8s.lit "json")
    else if "[INFO]".data <:+: s || "[ERROR]".data <:+: s then .ok (K8s.lit "text")
    else .ok (K8s.lit "text")
  | _ => .error .typeError

/-- The argument at a position of a call; `undefined` when it is left out. -/
def argument (args : List JsVal) (i : Nat) : JsVal := (args.get? i).getD .undefined

/-- The methods of the class `LogAnalyzerDebugger` that take part in `analyze`,
by name; the class has no other method or field that `analyze` names. -/
def methodNamed (bodies : Bodies) (name : String) :
    Option (List JsVal → Except JsError JsVal) :=
  if name = "detectFormat" then some fun args => detectFormat (argument args 0)
  else if name = "parseLog" then some fun args => bodies.parseLog (argument args 0) (argument args 1)
  else if name = "detectPatterns" then
    some fun args => bodies.detectPatterns (argument args 0) (argument args 1)
  else if name = "analyzeRootCauses" then
    some fun args => bodies.analyzeRootCauses (argument args 0) (argument args 1)
  else if name = "generateDebuggingSteps" then
    some fun args => bodies.generateDebuggingSteps (argument args 0) (argument args 1)
  else if name = "generateTimeline" then some fun args => bodies.generateTimeline (argument args 0)
  else if name = "detectAnomalies" then some fun args => bodies.detectAnomalies (argument args 0)
  else if name = "generateSummary" then
    some fun args => bodies.generateSummary (argument args 0) (argument args 1)
  else none

/-- The call `this.name(...args)`: a `TypeError` when `this.name` is not a
function. -/
def callMethod (bodies : Bodies) (name : String) (args : List JsVal) : Except JsError JsVal :=
  match methodNamed bodies name with
  | some method => method args
  | none => .error .typeError

/-- The method `analyze`; `options` is the second argument, `undefined` when it
is left out. -/
def analyze (bodies : Bodies) (logs options : JsVal) : Except JsError Analysis := do
  let options := match options with
    | .undefined => JsVal.obj []
    | other => other
  let given ← K8s.getProp options "logFormat".data
  let logFormat ←
    if K8s.strictEqStr given "auto".data then callMethod bodies "detectFormat" [logs]
    else pure given
  let entries ← callMethod bodies "parseLogslog" [logs, logFormat]
  let analysisGoal ← K8s.getProp options "analysisGoal".data
  let patterns ← callMethod bodies "detectPatterns" [entries, analysisGoal]
  let rootCauses ← callMethod bodies "analyzeRootCauses" [patterns, entries]
  let debuggingSteps ← callMethod bodies "generateDebuggingSteps" [rootCauses, patterns]
  let includeTimeline ← K8s.getProp options "includeTimeline".data
  let timeline ←
    if K8s.truthy includeTimeline then callMethod bodies "generateTimeline" [entries]
    else pure JsVal.null
  let anomalies ← callMethod bodies "detectAnomalies" [entries]
  let summary ← callMethod bodies "generateSummary" [patterns, rootCauses]
  pure {
    patterns := patterns
    rootCauses := rootCauses
    debuggingSteps := debuggingSteps
    timeline := timeline
    anomalies := anomalies
    summary := summary }

/-! ## Example inputs -/

/-- The text `sampleLogs` of the tests of `analyze`. -/
def sampleLogs : JsVal :=
  K8s.lit ("2024-01-01 10:00:00 [INFO] Application started\n"
    ++ "2024-01-01 10:01:00 [ERROR] Database connection failed\n"
    ++ "2024-01-01 10:02:00 [ERROR] Database connection failed")

end LogAnalyzer

/-!
# Prompt optimizer

A shallow embedding of `ai-prompt-optimizer/src/index.js`. A prompt is a list
of characters; the five category scores are integers, as every step of the
analysers adds or subtracts a whole number; the weighted overall score is a
double, each product and each sum rounded as the code rounds it. The built-in
`toLowerCase` is a parameter of the analysers: every statement holds for
whatever function stands for it.
-/

namespace PromptOptimizer

open K8s (Str)

/-! ## String methods -/

/-- The method `String.prototype.includes`. -/
def includes : Str → Str → Bool
  | [], term => term.isEmpty
  | c :: t, term => term.isPrefixOf (c :: t) || includes t term

/-- The scan of `split(/\s+/)`: `inRun` says that the character before was
white space, `piece` holds the characters of the piece being read, last first. -/
def splitRuns : Str → Bool → Str → List Str
  | [], _, piece => [piece.reverse]
  | c :: t, inRun, piece =>
    if K8s.isWhiteSpace c then
      if inRun then splitRuns t true piece else piece.reverse :: splitRuns t true []
    else splitRuns t false (c :: piece)

/-- The call `prompt.split(/\s+/)`. -/
def splitWhitespace (prompt : Str) : List Str := splitRuns prompt false []

/-! ## The analysers -/

/-- The five category scores. -/
structure Scores where
  clarity : Int
  conciseness : Int
  tone : Int
  specificity : Int
  context : Int
  deriving DecidableEq

/-- The table `this.weights`. -/
structure Weights where
  clarity : ℚ
  specificity : ℚ
  context : ℚ
  conciseness : ℚ
  tone : ℚ

/-- The weights the constructor sets. -/
def weights : Weights := {
  clarity := 0.30
  specificity := 0.25
  context := 0.20
  conciseness := 0.15
  tone := 0.10 }

/-- The count `terms.filter(term => prompt.toLowerCase().includes(term)).length`. -/
def countIncluded (toLowerCase : Str → Str) (prompt : Str) (terms : List String) : Int :=
  ((terms.filter fun term => includes (toLowerCase prompt) term.data).length : Nat)

/-- The test `terms.some(term => prompt.toLowerCase().includes(term))`. -/
def someIncluded (toLowerCase : Str → Str) (prompt : Str) (terms : List String) : Bool :=
  terms.any fun term => includes (toLowerCase prompt) term.data

/-- The method `analyzeClarity`. -/
def analyzeClarity (toLowerCase : Str → Str) (prompt : Str) : Int :=
  let vagueCount := countIncluded toLowerCase prompt
    ["something", "anything", "stuff", "things", "somehow", "kind of", "sort of"]
  let score : Int := 70 - vagueCount * 15
  let score := if (SecurityScanner.splitOn ' ' prompt).length < 5 then score - 30 else score
  let hasSpecificVerb := someIncluded toLowerCase prompt
    ["create", "analyze", "implement", "debug", "optimize", "refactor"]
  let score := if hasSpecificVerb then score + 10 else score
  let score := if includes prompt "?".data then score + 5 else score
  max 0 (min 100 score)

/-- The method `analyzeConciseness`. -/
def analyzeConciseness (toLowerCase : Str → Str) (prompt : Str) : Int :=
  let wordCount : Int := ((splitWhitespace prompt).length : Nat)
  let score : Int := 100
  let score :=
    if wordCount < 10 then score - (10 - wordCount) * 2
    else if wordCount > 50 then score - (wordCount - 50) * 1
    else score
  let redundancyCount := countIncluded toLowerCase prompt
    ["in order to", "due to the fact that", "at this point in time"]
  let score := score - redundancyCount * 10
  max 0 (min 100 score)

/-- The method `analyzeTone`. -/
def analyzeTone (toLowerCase : Str → Str) (prompt : Str) : Int :=
  let score : Int := 80
  let hasPolite := someIncluded toLowerCase prompt ["please", "could you", "would you", "thank"]
  let score := if hasPolite then score + 10 else score
  let aggressiveCount := countIncluded toLowerCase prompt
    ["must", "need to", "have to", "asap", "urgent", "!!!"]
  let score := score - aggressiveCount * 15
  max 0 (min 100 score)

/-- The method `analyzeSpecificity`. -/
def analyzeSpecificity (toLowerCase : Str → Str) (prompt : Str) : Int :=
  let score : Int := 50
  let hasNumbers := prompt.any K8s.isDigit
  let score := if hasNumbers then score + 15 else score
  let techCount := countIncluded toLowerCase prompt
    ["function", "api", "database", "algorithm", "component", "method", "class", "array",
      "object", "string"]
  let score := score + techCount * 10
  let genericCount := countIncluded toLowerCase prompt
    ["help", "fix", "do", "make", "get", "thing"]
  let score := score - genericCount * 8
  let score :=
    if includes prompt "example".data || includes prompt "format".data then score + 10 else score
  max 0 (min 100 score)

/-- The method `analyzeContext`. -/
def analyzeContext (toLowerCase : Str → Str) (prompt : Str) : Int :=
  let score : Int := 40
  let wordCount := (splitWhitespace prompt).length
  let score := if wordCount > 20 then score + 20 else score
  let score := if wordCount > 40 then score + 15 else score
  let contextCount := countIncluded toLowerCase prompt
    ["because", "since", "background", "currently", "previously", "environment", "using",
      "platform"]
  let score := score + contextCount * 10
  let score :=
    if includes (toLowerCase prompt) "require".data
        || includes (toLowerCase prompt) "constraint".data
        || includes (toLowerCase prompt) "must".data then score + 10
    else score
  max 0 (min 100 score)

/-- The method `calculateOverallScore`: the five products are added from the
left, each product and each sum rounded to a double. -/
def calculateOverallScore (scores : Scores) : Double :=
  Double.add (Double.add (Double.add (Double.add
    (Double.mul (.ofInt scores.clarity) (.ofRat weights.clarity))
    (Double.mul (.ofInt scores.specificity) (.ofRat weights.specificity)))
    (Double.mul (.ofInt scores.context) (.ofRat weights.context)))
    (Double.mul (.ofInt scores.conciseness) (.ofRat weights.conciseness)))
    (Double.mul (.ofInt scores.tone) (.ofRat weights.tone))

/-- The numbers of the object `analyze` returns. The fields `issues`,
`refinedPrompt` and `improvements`, which are texts derived from the prompt
and the scores and feed no number, are not part of this record. -/
structure Analysis where
  overallScore : Double
  scores : Scores
  scoreImprovement : Double
  deriving DecidableEq

/-- The method `analyze`, for a string prompt. The five scores are integers,
which `roundScores` leaves as they are. -/
def analyze (toLowerCase : Str → Str) (prompt : Str) : Analysis :=
  let scores : Scores := {
    clarity := analyzeClarity toLowerCase prompt
    conciseness := analyzeConciseness toLowerCase prompt
    tone := analyzeTone toLowerCase prompt
    specificity := analyzeSpecificity toLowerCase prompt
    context := analyzeContext toLowerCase prompt }
  let overallScore := calculateOverallScore scores
  let refinedScores : Scores := {
    clarity := min 100 (scores.clarity + 20)
    conciseness := min 100 (scores.conciseness + 10)
    tone := scores.tone
    specificity := min 100 (scores.specificity + 30)
    context := min 100 (scores.context + 25) }
  let refinedOverallScore := calculateOverallScore refinedScores
  { overallScore := Double.mathRound overallScore
    scores := scores
    scoreImprovement := Double.mathRound (Double.sub refinedOverallScore overallScore) }

/-! ## Vocabulary of the specification -/

/-- The weighted sum of the scores in exact arithmetic. -/
def exactOverallScore (scores : Scores) : ℚ :=
  scores.clarity * weights.clarity +
  scores.specificity * weights.specificity +
  scores.context * weights.context +
  scores.conciseness * weights.conciseness +
  scores.tone * weights.tone

/-- Each of the five scores lies in [0, 100]. -/
def InRange (scores : Scores) : Prop :=
  (0 ≤ scores.clarity ∧ scores.clarity ≤ 100) ∧
  (0 ≤ scores.conciseness ∧ scores.conciseness ≤ 100) ∧
  (0 ≤ scores.tone ∧ scores.tone ≤ 100) ∧
  (0 ≤ scores.specificity ∧ scores.specificity ≤ 100) ∧
  (0 ≤ scores.context ∧ scores.context ≤ 100)

/-! ## Example inputs -/

/-- The method `toLowerCase` on texts of ASCII characters. -/
def lowerCaseAscii (s : Str) : Str := s.map K8s.lowerAscii

/-- The prompt of the test `should improve score with refined prompt`. -/
def fixPrompt : Str := "fix my code".data

/-- A prompt for which the difference of the two overall scores is
18.499999999999993 in doubles and 18.5 in exact arithmetic. -/
def createPrompt : Str := "create in order to help fix why?".data

end PromptOptimizer

/-!
# Recruiter assistant

A shallow embedding of `recruiter-assistant/src/index.js`. A résumé is a list
of characters; the scores of a candidate are doubles, each quotient, product
and sum rounded as the code rounds it. The built-in `toLowerCase` and the year
`new Date().getFullYear()` are parameters of the methods that use them.
-/

namespace RecruiterAssistant

open K8s (Str)
open SecurityScanner (Regex textAnyCase seq matchAll)
open PromptOptimizer (includes)

/-! ## Data -/

/-- The table `this.weights`. -/
structure Weights where
  skillsMatch : ℚ
  experienceRelevance : ℚ
  educationMatch : ℚ
  yearsExperience : ℚ
  location : ℚ

/-- The weights the constructor sets. -/
def weights : Weights := {
  skillsMatch := 0.40
  experienceRelevance := 0.30
  educationMatch := 0.15
  yearsExperience := 0.10
  location := 0.05 }

/-- The job requirements object; a property that is absent is `none`. -/
structure JobRequirements where
  requiredSkills : Option (List Str) := none
  preferredSkills : Option (List Str) := none
  minYearsExperience : Option Int := none
  educationLevel : Option Str := none

/-- One entry of the list `extractEducation` returns (its `year` is `null`). -/
structure Education where
  degree : Str
  institution : Str
  deriving DecidableEq

/-- The object `scores` of `analyzeCandidate`, over the numbers `α`: doubles
where the code computes it, rationals where the formula is read exactly. -/
structure Scores (α : Type) where
  skillsMatch : α
  experienceRelevance : α
  educationMatch : α
  yearsExperience : α
  deriving DecidableEq

/-! ## Extraction -/

/-- The list `commonSkills`. -/
def commonSkills : List String := [
  "Python", "JavaScript", "Java", "C++", "Ruby", "Go", "TypeScript",
  "Django", "Flask", "React", "Angular", "Vue", "Node.js", "Express",
  "SQL", "PostgreSQL", "MySQL", "MongoDB", "Redis",
  "Docker", "Kubernetes", "AWS", "GCP", "Azure",
  "Git", "CI/CD", "Jenkins", "GitLab",
  "Leadership", "Communication", "Teamwork", "Problem-solving"]

/-- The method `extractSkills`. -/
def extractSkills (toLowerCase : Str → Str) (resumeText : Str) : List Str :=
  (commonSkills.filter fun skill =>
    includes (toLowerCase resumeText) (toLowerCase skill.data)).map fun skill => skill.data

/-- The expression `\d{4}`. -/
def fourDigits : Regex :=
  seq [.chars K8s.isDigit, .chars K8s.isDigit, .chars K8s.isDigit, .chars K8s.isDigit]

/-- The matches of `resumeText.match(/\d{4}/g)`: the texts of the successive
matches, each four characters from its start index. -/
def matchYears (resumeText : Str) : List Str :=
  (matchAll fourDigits resumeText).map fun index => (resumeText.drop index).take 4

/-- The call `Math.min(...years)` on a list that is not empty. -/
def mathMin : List Int → Int
  | [] => 0
  | y :: rest => rest.foldl min y

/-- The method `extractYearsExperience`; `parseInt` of a run of four digits is
its decimal value, and the order `sort` leaves the years in feeds nothing. -/
def extractYearsExperience (currentYear : Int) (resumeText : Str) : Int :=
  let yearMatches := matchYears resumeText
  if yearMatches.length < 2 then 0
  else
    let years := yearMatches.map fun y => (K8s.digitsValue y : Int)
    let earliestYear := mathMin years
    min (currentYear - earliestYear) 30

/-- The expression `r?`. -/
def optional (r : Regex) : Regex := .alt r .eps

/-- The expression `\.`. -/
def dot : Regex := .chars fun c => c == '.'

/-- The list `degreePatterns`. -/
def degreePatterns : List (Regex × String) := [
  (.alt (seq [textAnyCase "Ph", optional dot, textAnyCase "D", optional dot])
    (textAnyCase "Doctorate"), "PhD"),
  (.alt (textAnyCase "Master") (.alt (textAnyCase "M.S.") (.alt (textAnyCase "M.A.")
    (textAnyCase "MBA"))), "Master"),
  (.alt (textAnyCase "Bachelor") (.alt (textAnyCase "B.S.") (textAnyCase "B.A.")), "Bachelor"),
  (.alt (textAnyCase "Associate") (.alt (textAnyCase "A.S.") (textAnyCase "A.A.")), "Associate")]

/-- The method `RegExp.prototype.test`. -/
def test (pattern : Regex) (s : Str) : Bool := !(matchAll pattern s).isEmpty

/-- The method `extractEducation`: the level of the first pattern that matches. -/
def extractEducation (resumeText : Str) : List Education :=
  match degreePatterns.find? fun entry => test entry.1 resumeText with
  | some entry => [{ degree := entry.2.data, institution := "Unknown".data }]
  | none => []

/-! ## Scores -/

/-- The test `extractedSkills.some(skill => skill.toLowerCase() === name.toLowerCase())`. -/
def hasSkill (toLowerCase : Str → Str) (extractedSkills : List Str) (name : Str) : Bool :=
  extractedSkills.any fun skill => toLowerCase skill == toLowerCase name

/-- The method `calculateSkillsMatch`. -/
def calculateSkillsMatch (toLowerCase : Str → Str) (extractedSkills : List Str)
    (jobRequirements : JobRequirements) : Int :=
  match jobRequirements.requiredSkills with
  | none => 50
  | some requiredSkills =>
    let preferredSkills := jobRequirements.preferredSkills.getD []
    let matched : Int :=
      ((requiredSkills.filter fun required =>
        hasSkill toLowerCase extractedSkills required).length : Nat)
    let score : Int := 20 * matched
    let preferredMatched : Int :=
      ((preferredSkills.filter fun preferred =>
        hasSkill toLowerCase extractedSkills preferred).length : Nat)
    let score := score + 10 * preferredMatched
    let missingRequired : Int := (requiredSkills.length : Nat) - matched
    let score := score - missingRequired * 15
    max 0 (min 100 score)

/-- The method `calculateExperienceRelevance`. -/
def calculateExperienceRelevance (toLowerCase : Str → Str) (resumeText : Str)
    (jobRequirements : JobRequirements) : Double :=
  let keywords := jobRequirements.requiredSkills.getD []
  let mentionCount := (keywords.filter fun keyword =>
    includes (toLowerCase resumeText) (toLowerCase keyword)).length
  let score := Double.add (.finite 60)
    (Double.mul (Double.div (.ofInt mentionCount) (.ofInt (max keywords.length 1 : Nat)))
      (.finite 40))
  Double.mathMin (.finite 100) score

/-- The table `levels`. -/
def levels : List (String × Int) := [
  ("High School", 1), ("Associate", 2), ("Bachelor", 3), ("Master", 4), ("PhD", 5)]

/-- The value `levels[name] || fallback` as a number: the level of the table,
the fallback for a name the object does not have, and `none` for a name the
object inherits from `Object.prototype`, whose member is no number (every
comparison with it is false). -/
def levelOr (name : Str) (fallback : Int) : Option Int :=
  match (levels.map fun entry => (entry.1.data, entry.2)).lookup name with
  | some level => some level
  | none => if name ∈ K8s.objectPrototypeNames then none else some fallback

/-- The method `calculateEducationMatch`. -/
def calculateEducationMatch (education : List Education) (requiredLevel : Str) : Int :=
  match education with
  | [] => 30
  | first :: _ =>
    match levelOr first.degree 0, levelOr requiredLevel 3 with
    | some candidateLevel, some requiredLevelNum =>
      if candidateLevel ≥ requiredLevelNum then 100
      else if candidateLevel = requiredLevelNum - 1 then 60
      else 30
    | _, _ => 30

/-- The method `calculateYearsScore`. -/
def calculateYearsScore (yearsOfExperience minRequired : Int) : Int :=
  if yearsOfExperience ≥ minRequired then 100
  else if yearsOfExperience ≥ minRequired - 1 then 80
  else if yearsOfExperience ≥ minRequired - 2 then 60
  else 40

/-- The weighted sum `calculateOverallScore` stands for, in exact arithmetic. -/
def calculateOverallScore (scores : Scores ℚ) : ℚ :=
  scores.skillsMatch * weights.skillsMatch +
  scores.experienceRelevance * weights.experienceRelevance +
  scores.educationMatch * weights.educationMatch +
  scores.yearsExperience * weights.yearsExperience

/-- The value `this.calculateOverallScore(scores)` as the code computes it: the
four products are added from the left, each product and each sum rounded to a
double. -/
def overallFitScore (scores : Scores Double) : Double :=
  Double.add (Double.add (Double.add
    (Double.mul scores.skillsMatch (.ofRat weights.skillsMatch))
    (Double.mul scores.experienceRelevance (.ofRat weights.experienceRelevance)))
    (Double.mul scores.educationMatch (.ofRat weights.educationMatch)))
    (Double.mul scores.yearsExperience (.ofRat weights.yearsExperience))

/-- The method `getRecommendation`. -/
def getRecommendation (score : Double) : Str :=
  if Double.ge score (.finite 85) then "STRONG_HIRE".data
  else if Double.ge score (.finite 70) then "INTERVIEW".data
  else if Double.ge score (.finite 50) then "MAYBE".data
  else "PASS".data

/-- The expression `jobRequirements.educationLevel || 'Bachelor'`. -/
def educationLevelOf (jobRequirements : JobRequirements) : Str :=
  match jobRequirements.educationLevel with
  | some level => if level.isEmpty then "Bachelor".data else level
  | none => "Bachelor".data

/-- The object `scores` that `analyzeCandidate` builds. -/
def scoresOf (toLowerCase : Str → Str) (currentYear : Int) (resumeText : Str)
    (jobRequirements : JobRequirements) : Scores Double := {
  skillsMatch := .ofInt (calculateSkillsMatch toLowerCase (extractSkills toLowerCase resumeText)
    jobRequirements)
  experienceRelevance := calculateExperienceRelevance toLowerCase resumeText jobRequirements
  educationMatch := .ofInt (calculateEducationMatch (extractEducation resumeText)
    (educationLevelOf jobRequirements))
  yearsExperience := .ofInt (calculateYearsScore (extractYearsExperience currentYear resumeText)
    (jobRequirements.minYearsExperience.getD 0)) }

/-- The method `roundScores`. -/
def roundScores (scores : Scores Double) : Scores Double := {
  skillsMatch := Double.mathRound scores.skillsMatch
  experienceRelevance := Double.mathRound scores.experienceRelevance
  educationMatch := Double.mathRound scores.educationMatch
  yearsExperience := Double.mathRound scores.yearsExperience }

/-- The fields of the object `analyzeCandidate` returns that the scores feed.
The fields `candidateInfo`, `gaps`, `strengths` and `summary`, which are texts
read from the résumé, are not part of this record. -/
structure CandidateAnalysis where
  overallFitScore : Double
  scoreBreakdown : Scores Double
  extractedSkills : List Str
  yearsOfExperience : Int
  education : List Education
  recommendation : Str
  deriving DecidableEq

/-- The method `analyzeCandidate`, for a string résumé and a requirements object. -/
def analyzeCandidate (toLowerCase : Str → Str) (currentYear : Int) (resumeText : Str)
    (jobRequirements : JobRequirements) : CandidateAnalysis :=
  let extractedSkills := extractSkills toLowerCase resumeText
  let yearsOfExperience := extractYearsExperience currentYear resumeText
  let education := extractEducation resumeText
  let scores := scoresOf toLowerCase currentYear resumeText jobRequirements
  let overallFitScore := overallFitScore scores
  let recommendation := getRecommendation overallFitScore
  { overallFitScore := Double.mathRound overallFitScore
    scoreBreakdown := roundScores scores
    extractedSkills := extractedSkills
    yearsOfExperience := yearsOfExperience
    education := education
    recommendation := recommendation }

/-! ## Vocabulary of the specification -/

/-- The number of preferred skills of the requirements that the candidate has. -/
def preferredMatched (toLowerCase : Str → Str) (extractedSkills : List Str)
    (jobRequirements : JobRequirements) : Nat :=
  ((jobRequirements.preferredSkills.getD []).filter fun preferred =>
    hasSkill toLowerCase extractedSkills preferred).length

/-- The unrounded score is a number less than a half below one of the
thresholds 85, 70 and 50. -/
def JustBelowThreshold (score : Double) : Prop :=
  match score with
  | .finite q => (84.5 ≤ q ∧ q < 85) ∨ (69.5 ≤ q ∧ q < 70) ∨ (49.5 ≤ q ∧ q < 50)
  | _ => False

/-! ## Example inputs -/

/-- The extracted skills of the tests of `calculateSkillsMatch`. -/
def testSkills : List Str := ["Python".data, "Django".data, "React".data, "PostgreSQL".data]

/-- The requirements of the test `should score 100 for all required skills matched`. -/
def testRequirements : JobRequirements := {
  requiredSkills := some ["Python".data, "Django".data]
  preferredSkills := some [] }

/-- A contact line with a postal code and a telephone number. -/
def contactLine : Str := "Seattle, WA 98105 | 555-9876".data

/-- A résumé with two years. -/
def twoYearsText : Str := "Engineer 2018-2020".data

/-- A résumé that names five skills and no degree. -/
def fiveSkillsText : Str := "Jane Roe\nPython, Django, React, Docker, Git".data

/-- Requirements that ask for these five skills. -/
def fiveSkillsRequirements : JobRequirements := {
  requiredSkills := some ["Python".data, "Django".data, "React".data, "Docker".data, "Git".data] }

/-- A résumé that names one skill. -/
def oneSkillText : Str := "Sam\nPython".data

/-- Requirements that ask for three skills and three years. -/
def threeSkillsRequirements : JobRequirements := {
  requiredSkills := some ["Python".data, "Rust".data, "Haskell".data]
  minYearsExperience := some 3 }

end RecruiterAssistant

/-!
# Dependency upgrade assistant

A shallow embedding of `checkOutdated` and `getUpdateType` of
`dependency-upgrade-assistant/src/index.js`. Names and versions are lists of
characters; a version component read by `Number` is a double.
-/

namespace DependencyUpgradeAssistant

open K8s (Str JsError)

/-- One element of the list `checkOutdated` takes. -/
structure Dependency where
  name : Str
  version : Str
  deriving DecidableEq

/-- The fields `package`, `current`, `latest`, `updateType` and
`breakingChanges` of an entry `checkOutdated` pushes. The fields `cves`,
`hasCVE` and `recommendation`, which `checkVulnerabilities` feeds, are not part
of this record. -/
structure Outdated where
  package : Str
  current : Str
  latest : Str
  updateType : Str
  breakingChanges : Bool
  deriving DecidableEq

/-- The table `this.latestVersions`. -/
def latestVersions : List (String × String) := [
  ("lodash", "4.17.21"),
  ("axios", "0.27.2"),
  ("react", "18.2.0"),
  ("express", "4.18.2"),
  ("jest", "29.5.0")]

/-- The numbers `version.split('.').map(Number)`. -/
def numberParts (version : Str) : List Double :=
  (SecurityScanner.splitOn '.' version).map K8s.stringToNumber

/-- The comparison `a > b` of two array elements: false when one of them is
missing (`undefined`) or `NaN`. -/
def exceeds (a b : Option Double) : Bool :=
  match a, b with
  | some x, some y => Double.lt y x
  | _, _ => false

/-- The method `getUpdateType`, for two strings. -/
def getUpdateType (current latest : Str) : Str :=
  let currentParts := numberParts current
  let latestParts := numberParts latest
  if exceeds (latestParts.get? 0) (currentParts.get? 0) then "major".data
  else if exceeds (latestParts.get? 1) (currentParts.get? 1) then "minor".data
  else if exceeds (latestParts.get? 2) (currentParts.get? 2) then "patch".data
  else "patch".data

/-- The turn of the loop of `checkOutdated` for one dependency: the entry it
pushes, if any. For a name the table inherits from `Object.prototype` the value
read is no string, and the call `latest.split` in `getUpdateType` throws. -/
def checkOne (dep : Dependency) : Except JsError (List Outdated) :=
  match (latestVersions.map fun entry => (entry.1.data, entry.2.data)).lookup dep.name with
  | some latest =>
    if latest ≠ dep.version then
      let updateType := getUpdateType dep.version latest
      .ok [{ package := dep.name
             current := dep.version
             latest := latest
             updateType := updateType
             breakingChanges := updateType == "major".data }]
    else .ok []
  | none => if dep.name ∈ K8s.objectPrototypeNames then .error .typeError else .ok []

/-- The method `checkOutdated`. -/
def checkOutdated : List Dependency → Except JsError (List Outdated)
  | [] => .ok []
  | dep :: rest => do
    let entry ← checkOne dep
    let more ← checkOutdated rest
    pure (entry ++ more)

/-! ## Vocabulary of the specification -/

/-- The order of versions by major, then minor, then patch number. -/
def lowerVersion (a b : Int × Int × Int) : Prop :=
  a.1 < b.1 ∨ (a.1 = b.1 ∧ (a.2.1 < b.2.1 ∨ (a.2.1 = b.2.1 ∧ a.2.2 < b.2.2)))

/-- The component of a version at a position is a number below the integer
`x`: it is there, it is not `NaN`, and it is below `x`. -/
def componentBelow (parts : List Double) (position : Nat) (x : Int) : Bool :=
  match parts.get? position with
  | some (.finite q) => decide (q < x)
  | some (.infinity negative) => negative
  | _ => false

/-- The highest-order component in which two versions differ. -/
def firstDifference (current latest : Int × Int × Int) : Str :=
  if latest.1 ≠ current.1 then "major".data
  else if latest.2.1 ≠ current.2.1 then "minor".data
  else "patch".data

/-- What holds of an entry of the result for the dependency list: it stands
for a dependency of the list whose name is in the table, with the version of
the table as `latest`, and `current` is not the same text as `latest`. The
latest version reads as three integers, and `updateType` is `major` when the
first component of `current` is a number below the first of `latest`, else
`minor` when the second is a number below the second, else `patch`; that is the
highest-order component in which the versions differ when `current` reads as
three integers and is the lower version. -/
def EntryAsSpecified (dependencies : List Dependency) (entry : Outdated) : Prop :=
  (∃ dep ∈ dependencies, entry.package = dep.name ∧ entry.current = dep.version) ∧
  (latestVersions.map fun row => (row.1.data, row.2.data)).lookup entry.package
    = some entry.latest ∧
  entry.current ≠ entry.latest ∧
  ∃ x y z : Int,
    numberParts entry.latest = [.finite x, .finite y, .finite z] ∧
    entry.updateType =
      (if componentBelow (numberParts entry.current) 0 x then "major".data
       else if componentBelow (numberParts entry.current) 1 y then "minor".data
       else "patch".data) ∧
    ∀ a b c : Int,
      numberParts entry.current = [.finite a, .finite b, .finite c] →
      lowerVersion (a, b, c) (x, y, z) →
      entry.updateType = firstDifference (a, b, c) (x, y, z)

/-! ## Example inputs -/

/-- A dependency list with a version of react above the one of the table. -/
def newerReact : List Dependency := [{ name := "react".data, version := "19.0.0".data }]

/-- The dependencies of the demo. -/
def demoDependencies : List Dependency := [
  { name := "lodash".data, version := "4.17.20".data },
  { name := "react".data, version := "17.0.2".data },
  { name := "express".data, version := "4.17.1".data }]

end DependencyUpgradeAssistant

namespace Double

/-! ## The rounding error of a double -/

theorem roundHalfEven_near (x : ℚ) :
    x - 1 / 2 ≤ (roundHalfEven x : ℚ) ∧ (roundHalfEven x : ℚ) ≤ x + 1 / 2 := by
  have h1 : (⌊x⌋ : ℚ) ≤ x := Int.floor_le x
  have h2 : x < (⌊x⌋ : ℚ) + 1 := Int.lt_floor_add_one x
  unfold roundHalfEven
  simp only
  split_ifs with ha hb hc
  · constructor <;> linarith
  · push_cast
    constructor <;> linarith
  · constructor <;> linarith
  · push_cast
    constructor <;> linarith

theorem log2Fuel_le : ∀ (fuel n : Nat), 0 < n → n ≤ fuel → 2 ^ log2Fuel fuel n ≤ n
  | 0, n, hn, hf => by omega
  | fuel + 1, n, hn, hf => by
    rw [log2Fuel]
    split_ifs with h
    · simpa using hn
    · have ih := log2Fuel_le fuel (n / 2) (Nat.div_pos (by omega) (by decide)) (by omega)
      rw [pow_succ]
      have := Nat.div_mul_le_self n 2
      omega

theorem log2Fuel_lt : ∀ (fuel n : Nat), n ≤ fuel → n < 2 ^ (log2Fuel fuel n + 1)
  | 0, n, hf => by
    have : n = 0 := by omega
    subst this
    simp
  | fuel + 1, n, hf => by
    rw [log2Fuel]
    split_ifs with h
    · simpa using h
    · have ih := log2Fuel_lt fuel (n / 2) (by omega)
      rw [pow_succ]
      have := Nat.lt_succ_iff.2 (Nat.le_refl (n / 2))
      have hdiv : n < (n / 2 + 1) * 2 := by omega
      calc n < (n / 2 + 1) * 2 := hdiv
        _ ≤ 2 ^ (log2Fuel fuel (n / 2) + 1) * 2 := Nat.mul_le_mul_right 2 ih

theorem log2_le (n : Nat) (h : 0 < n) : 2 ^ log2 n ≤ n := log2Fuel_le n n h (le_refl n)

theorem log2_lt (n : Nat) : n < 2 ^ (log2 n + 1) := log2Fuel_lt n n (le_refl n)

/-- The exponent of a positive rational is not above its binary logarithm. -/
theorem exponentOf_le (q : ℚ) (h : 0 < q) : (2 : ℚ) ^ exponentOf q ≤ q := by
  unfold exponentOf
  simp only
  split_ifs with hlt
  · have hnum : 0 < q.num := Rat.num_pos.2 h
    have hden : 0 < q.den := q.den_pos
    have hn : ((2 ^ log2 q.num.natAbs : Nat) : ℚ) ≤ (q.num.natAbs : ℚ) := by
      exact_mod_cast log2_le q.num.natAbs (Int.natAbs_pos.2 (ne_of_gt hnum))
    have hd : ((q.den : Nat) : ℚ) ≤ ((2 ^ (log2 q.den + 1) : Nat) : ℚ) := by
      exact_mod_cast le_of_lt (log2_lt q.den)
    have hq : q = (q.num.natAbs : ℚ) / (q.den : ℚ) := by
      have hcast : ((q.num.natAbs : Int) : ℚ) = (q.num : ℚ) := by
        rw [Int.natAbs_of_nonneg (le_of_lt hnum)]
      rw [← Int.cast_natCast q.num.natAbs, hcast]
      exact (Rat.num_div_den q).symm
    have hpow : (2 : ℚ) ^ ((log2 q.num.natAbs : Int) - (log2 q.den : Int) - 1)
        = (2 : ℚ) ^ (log2 q.num.natAbs) / (2 : ℚ) ^ (log2 q.den + 1) := by
      rw [show ((log2 q.num.natAbs : Int) - (log2 q.den : Int) - 1)
        = (log2 q.num.natAbs : Int) - ((log2 q.den + 1 : Nat) : Int) by push_cast; ring]
      rw [zpow_sub₀ (by norm_num), zpow_natCast, zpow_natCast]
    rw [hpow]
    have hdpos : (0 : ℚ) < (q.den : ℚ) := by exact_mod_cast hden
    have hppos : (0 : ℚ) < (2 : ℚ) ^ (log2 q.den + 1) := by positivity
    rw [div_le_iff₀ hppos]
    calc (2 : ℚ) ^ log2 q.num.natAbs ≤ (q.num.natAbs : ℚ) := by exact_mod_cast hn
      _ = q * (q.den : ℚ) := ((eq_div_iff (ne_of_gt hdpos)).1 hq).symm
      _ ≤ q * (2 : ℚ) ^ (log2 q.den + 1) := by
        apply mul_le_mul_of_nonneg_left _ (le_of_lt h)
        exact_mod_cast hd
  · exact not_lt.1 hlt

/-- The double nearest a rational below `2 ^ 1023` in size is finite, and its
distance from the rational is at most the `2 ^ -53` part of the size, or
`2 ^ -1075` below the normal range. -/
theorem ofRat_near (q : ℚ) (h : |q| ≤ 2 ^ (1023 : Int)) :
    ∃ r, ofRat q = .finite r ∧ |r - q| ≤ |q| * 2 ^ (-53 : Int) + 2 ^ (-1075 : Int) := by
  by_cases hq : q = 0
  · subst hq
    refine ⟨0, rfl, ?_⟩
    simp only [sub_zero, abs_zero, zero_mul, zero_add]
    positivity
  · have ha : 0 < |q| := abs_pos.2 hq
    have he := exponentOf_le |q| ha
    have hbound : ∀ p : Int, p = max (exponentOf |q| - 52) (-1074) →
        (2 : ℚ) ^ p / 2 ≤ |q| * 2 ^ (-53 : Int) + 2 ^ (-1075 : Int) := by
      intro p hp
      have htiny : (0 : ℚ) < 2 ^ (-1075 : Int) := by positivity
      have hsmall : (0 : ℚ) ≤ |q| * 2 ^ (-53 : Int) := by positivity
      rcases le_total (exponentOf |q| - 52) (-1074) with hle | hle
      · rw [max_eq_right hle] at hp
        rw [hp]
        have : (2 : ℚ) ^ (-1074 : Int) / 2 = 2 ^ (-1075 : Int) := by
          rw [show (-1074 : Int) = -1075 + 1 by norm_num, zpow_add₀ (by norm_num)]
          norm_num
        rw [this]
        linarith
      · rw [max_eq_left hle] at hp
        rw [hp]
        have : (2 : ℚ) ^ (exponentOf |q| - 52) / 2
            = 2 ^ exponentOf |q| * 2 ^ (-53 : Int) := by
          rw [show exponentOf |q| - 52 = exponentOf |q| + (-53) + 1 by ring,
            zpow_add₀ (by norm_num), zpow_add₀ (by norm_num)]
          norm_num
        rw [this]
        have : (2 : ℚ) ^ exponentOf |q| * 2 ^ (-53 : Int) ≤ |q| * 2 ^ (-53 : Int) :=
          mul_le_mul_of_nonneg_right he (by positivity)
        linarith
    generalize hp : max (exponentOf |q| - 52) (-1074) = p at hbound
    have hb := hbound p rfl
    have hpos : (0 : ℚ) < 2 ^ p := by positivity
    have hnear := roundHalfEven_near (q / 2 ^ p)
    have herr : |(roundHalfEven (q / 2 ^ p) : ℚ) * 2 ^ p - q| ≤ 2 ^ p / 2 := by
      have hx : q = q / 2 ^ p * 2 ^ p := by field_simp
      rw [abs_le]
      constructor
      · have := mul_le_mul_of_nonneg_right hnear.1 (le_of_lt hpos)
        nlinarith [hx]
      · have := mul_le_mul_of_nonneg_right hnear.2 (le_of_lt hpos)
        nlinarith [hx]
    have hfin : ¬ (2 : ℚ) ^ (1024 : Int) ≤ |(roundHalfEven (q / 2 ^ p) : ℚ) * 2 ^ p| := by
      intro hbig
      have h1 : |(roundHalfEven (q / 2 ^ p) : ℚ) * 2 ^ p|
          ≤ |q| + |(roundHalfEven (q / 2 ^ p) : ℚ) * 2 ^ p - q| := by
        have := abs_add q ((roundHalfEven (q / 2 ^ p) : ℚ) * 2 ^ p - q)
        simpa using this
      have h2 : (2 : ℚ) ^ (1024 : Int) = 2 * 2 ^ (1023 : Int) := by
        rw [show (1024 : Int) = 1 + 1023 by norm_num, zpow_add₀ (by norm_num)]
        norm_num
      have h3 : (2 : ℚ) ^ (-53 : Int) ≤ 1 / 4 := by
        rw [show (-53 : Int) = -(53 : Int) by norm_num, zpow_neg]
        norm_num
      have h4 : (2 : ℚ) ^ (-1075 : Int) ≤ 1 := by
        rw [show (-1075 : Int) = -(1075 : Int) by norm_num, zpow_neg]
        apply inv_le_one_of_one_le₀
        exact one_le_zpow₀ (by norm_num) (by norm_num)
      have h5 : (1 : ℚ) ≤ 2 ^ (1023 : Int) := one_le_zpow₀ (by norm_num) (by norm_num)
      have h6 : |q| * 2 ^ (-53 : Int) ≤ |q| * (1 / 4) :=
        mul_le_mul_of_nonneg_left h3 (le_of_lt ha)
      linarith
    refine ⟨(roundHalfEven (q / 2 ^ p) : ℚ) * 2 ^ p, ?_, le_trans herr hb⟩
    unfold ofRat
    rw [if_neg hq]
    simp only [hp]
    rw [if_neg hfin]

/-- The double nearest a rational of size at most `2 ^ k`, for `k` up to 1000,
is within `2 ^ k / 2 ^ 52` of it. -/
theorem near_ofRat (q : ℚ) (k : Nat) (hk : k ≤ 1000) (h : |q| ≤ 2 ^ k) :
    Near (ofRat q) q (2 ^ k / 2 ^ 52) := by
  have hpow : (2 : ℚ) ^ k ≤ 2 ^ (1023 : Int) := by
    rw [← zpow_natCast]
    exact zpow_le_zpow_right₀ (by norm_num) (by omega)
  obtain ⟨r, hr, herr⟩ := ofRat_near q (le_trans h hpow)
  refine ⟨r, hr, le_trans herr ?_⟩
  have h1 : |q| * (2 : ℚ) ^ (-53 : Int) ≤ 2 ^ k * 2 ^ (-53 : Int) :=
    mul_le_mul_of_nonneg_right h (by positivity)
  have h2 : (2 : ℚ) ^ (-1075 : Int) ≤ 2 ^ k * 2 ^ (-53 : Int) := by
    have h3 : (2 : ℚ) ^ (-1075 : Int) ≤ 2 ^ (-53 : Int) :=
      zpow_le_zpow_right₀ (by norm_num) (by norm_num)
    have h4 : (1 : ℚ) ≤ 2 ^ k := one_le_pow₀ (by norm_num)
    have h5 : (0 : ℚ) < 2 ^ (-53 : Int) := by positivity
    nlinarith
  have h6 : (2 : ℚ) ^ k / 2 ^ 52 = 2 ^ k * 2 ^ (-53 : Int) + 2 ^ k * 2 ^ (-53 : Int) := by
    rw [show (-53 : Int) = -(53 : Int) by norm_num, zpow_neg]
    norm_num
    ring
  rw [h6]
  linarith

theorem near_finite (a : ℚ) : Near (.finite a) a 0 := ⟨a, rfl, by simp⟩

theorem Near.mono {x : Double} {a ε δ : ℚ} (h : Near x a ε) (hle : ε ≤ δ) : Near x a δ := by
  obtain ⟨r, hr, herr⟩ := h
  exact ⟨r, hr, le_trans herr hle⟩

/-- The error of a product of two approximations. -/
theorem abs_mul_sub_le {r s a b εa εb A B : ℚ} (ha : |r - a| ≤ εa) (hb : |s - b| ≤ εb)
    (hA : |a| ≤ A) (hB : |b| ≤ B) : |r * s - a * b| ≤ εa * (B + εb) + A * εb := by
  have hεa : 0 ≤ εa := le_trans (abs_nonneg _) ha
  have hεb : 0 ≤ εb := le_trans (abs_nonneg _) hb
  have hA0 : 0 ≤ A := le_trans (abs_nonneg _) hA
  have hs : |s| ≤ B + εb := by
    have := abs_add b (s - b)
    rw [show b + (s - b) = s by ring] at this
    linarith
  have h1 : r * s - a * b = (r - a) * s + a * (s - b) := by ring
  rw [h1]
  have h2 := abs_add ((r - a) * s) (a * (s - b))
  rw [abs_mul, abs_mul] at h2
  have h3 : |r - a| * |s| ≤ εa * (B + εb) :=
    mul_le_mul ha hs (abs_nonneg _) hεa
  have h4 : |a| * |s - b| ≤ A * εb := mul_le_mul hA hb (abs_nonneg _) hA0
  linarith

/-- The rounded product of two approximations. -/
theorem Near.mul {x y : Double} {a b εa εb A B : ℚ} (k : Nat) (hk : k ≤ 1000)
    (hx : Near x a εa) (hy : Near y b εb) (hA : |a| ≤ A) (hB : |b| ≤ B)
    (hsize : (A + εa) * (B + εb) ≤ 2 ^ k) :
    Near (Double.mul x y) (a * b) (εa * (B + εb) + A * εb + 2 ^ k / 2 ^ 52) := by
  obtain ⟨r, rfl, hr⟩ := hx
  obtain ⟨s, rfl, hs⟩ := hy
  have hεa : 0 ≤ εa := le_trans (abs_nonneg _) hr
  have hεb : 0 ≤ εb := le_trans (abs_nonneg _) hs
  have hrb : |r| ≤ A + εa := by
    have := abs_add a (r - a)
    rw [show a + (r - a) = r by ring] at this
    linarith
  have hsb : |s| ≤ B + εb := by
    have := abs_add b (s - b)
    rw [show b + (s - b) = s by ring] at this
    linarith
  have hprod : |r * s| ≤ 2 ^ k := by
    rw [abs_mul]
    exact le_trans (mul_le_mul hrb hsb (abs_nonneg _) (le_trans (abs_nonneg _) hrb)) hsize
  obtain ⟨t, ht, herr⟩ := near_ofRat (r * s) k hk hprod
  refine ⟨t, ht, ?_⟩
  have h1 := abs_mul_sub_le hr hs hA hB
  have h2 := abs_add (t - r * s) (r * s - a * b)
  rw [show t - r * s + (r * s - a * b) = t - a * b by ring] at h2
  linarith

/-- The rounded sum of two approximations. -/
theorem Near.add {x y : Double} {a b εa εb : ℚ} (k : Nat) (hk : k ≤ 1000)
    (hx : Near x a εa) (hy : Near y b εb) (hsize : |a| + |b| + εa + εb ≤ 2 ^ k) :
    Near (Double.add x y) (a + b) (εa + εb + 2 ^ k / 2 ^ 52) := by
  obtain ⟨r, rfl, hr⟩ := hx
  obtain ⟨s, rfl, hs⟩ := hy
  have hsum : |r + s| ≤ 2 ^ k := by
    have h1 := abs_add (a + b) ((r - a) + (s - b))
    rw [show a + b + (r - a + (s - b)) = r + s by ring] at h1
    have h2 := abs_add a b
    have h3 := abs_add (r - a) (s - b)
    linarith
  obtain ⟨t, ht, herr⟩ := near_ofRat (r + s) k hk hsum
  refine ⟨t, ht, ?_⟩
  have h2 := abs_add (t - (r + s)) ((r - a) + (s - b))
  rw [show t - (r + s) + (r - a + (s - b)) = t - (a + b) by ring] at h2
  have h3 := abs_add (r - a) (s - b)
  linarith

/-- The rounded difference of two approximations. -/
theorem Near.sub {x y : Double} {a b εa εb : ℚ} (k : Nat) (hk : k ≤ 1000)
    (hx : Near x a εa) (hy : Near y b εb) (hsize : |a| + |b| + εa + εb ≤ 2 ^ k) :
    Near (Double.sub x y) (a - b) (εa + εb + 2 ^ k / 2 ^ 52) := by
  have hneg : Near (Double.neg y) (-b) εb := by
    obtain ⟨s, rfl, hs⟩ := hy
    refine ⟨-s, rfl, ?_⟩
    rw [show -s - -b = -(s - b) by ring, abs_neg]
    exact hs
  have h := Near.add k hk hx hneg (by rw [abs_neg]; exact hsize)
  rw [show a + -b = a - b by ring] at h
  exact h

/-- The integer `Math.round` gives for an approximation. -/
theorem Near.mathRound {x : Double} {a ε : ℚ} (h : Near x a ε) :
    ∃ n : Int, Double.mathRound x = .finite n ∧ a - ε - 1 / 2 ≤ n ∧ (n : ℚ) ≤ a + ε + 1 / 2 := by
  obtain ⟨r, rfl, hr⟩ := h
  refine ⟨⌊r + 1 / 2⌋, rfl, ?_, ?_⟩
  · have h1 := Int.lt_floor_add_one (r + 1 / 2)
    have h2 := (abs_le.1 hr).1
    linarith
  · have h1 := Int.floor_le (r + 1 / 2)
    have h2 := (abs_le.1 hr).2
    linarith

end Double

namespace Double

/-! ## The grid of the doubles -/

/-- A positive rational is below the power of two after its exponent. -/
theorem lt_exponentOf (q : ℚ) (h : 0 < q) : q < (2 : ℚ) ^ (exponentOf q + 1) := by
  unfold exponentOf
  simp only
  split_ifs with hlt
  · simpa using hlt
  · have hnum : 0 < q.num := Rat.num_pos.2 h
    have hden : 0 < q.den := q.den_pos
    have hn : (q.num.natAbs : ℚ) < ((2 ^ (log2 q.num.natAbs + 1) : Nat) : ℚ) := by
      exact_mod_cast log2_lt q.num.natAbs
    have hd : ((2 ^ log2 q.den : Nat) : ℚ) ≤ ((q.den : Nat) : ℚ) := by
      exact_mod_cast log2_le q.den hden
    have hq : q = (q.num.natAbs : ℚ) / (q.den : ℚ) := by
      have hcast : ((q.num.natAbs : Int) : ℚ) = (q.num : ℚ) := by
        rw [Int.natAbs_of_nonneg (le_of_lt hnum)]
      rw [← Int.cast_natCast q.num.natAbs, hcast]
      exact (Rat.num_div_den q).symm
    have hpow : (2 : ℚ) ^ ((log2 q.num.natAbs : Int) - (log2 q.den : Int) + 1)
        = (2 : ℚ) ^ (log2 q.num.natAbs + 1) / (2 : ℚ) ^ (log2 q.den) := by
      rw [show ((log2 q.num.natAbs : Int) - (log2 q.den : Int) + 1)
        = ((log2 q.num.natAbs + 1 : Nat) : Int) - ((log2 q.den : Nat) : Int) by push_cast; ring]
      rw [zpow_sub₀ (by norm_num), zpow_natCast, zpow_natCast]
    rw [hpow]
    have hdpos : (0 : ℚ) < (q.den : ℚ) := by exact_mod_cast hden
    have hppos : (0 : ℚ) < (2 : ℚ) ^ (log2 q.den) := by positivity
    rw [lt_div_iff₀ hppos]
    have h1 : q * (q.den : ℚ) = (q.num.natAbs : ℚ) := (eq_div_iff (ne_of_gt hdpos)).1 hq
    have h2 : q * (2 : ℚ) ^ (log2 q.den) ≤ q * (q.den : ℚ) := by
      apply mul_le_mul_of_nonneg_left _ (le_of_lt h)
      exact_mod_cast hd
    have h3 : (q.num.natAbs : ℚ) < (2 : ℚ) ^ (log2 q.num.natAbs + 1) := by exact_mod_cast hn
    linarith

/-- The exponent of a positive rational below `2 ^ k` is below `k`. -/
theorem exponentOf_lt (q : ℚ) (k : Int) (h : 0 < q) (hk : q < 2 ^ k) : exponentOf q < k := by
  have h1 := exponentOf_le q h
  have h2 : (2 : ℚ) ^ exponentOf q < 2 ^ k := lt_of_le_of_lt h1 hk
  exact (zpow_lt_zpow_iff_right₀ (by norm_num)).1 h2

/-- The rounding of a rational is not below an integer the rational is not below. -/
theorem le_roundHalfEven (x : ℚ) (k : Int) (h : (k : ℚ) ≤ x) : k ≤ roundHalfEven x := by
  have hf : k ≤ ⌊x⌋ := Int.le_floor.2 h
  unfold roundHalfEven
  simp only
  split_ifs <;> omega

/-- The rounding of a rational is not above an integer the rational is not above. -/
theorem roundHalfEven_le (x : ℚ) (k : Int) (h : x ≤ (k : ℚ)) : roundHalfEven x ≤ k := by
  have h1 : (⌊x⌋ : ℚ) ≤ x := Int.floor_le x
  have hf : ⌊x⌋ ≤ k := by exact_mod_cast le_trans h1 h
  unfold roundHalfEven
  simp only
  split_ifs with ha hb hc
  · exact hf
  · rcases lt_or_eq_of_le hf with hlt | heq
    · omega
    · exfalso
      rw [heq] at hb
      linarith
  · exact hf
  · rcases lt_or_eq_of_le hf with hlt | heq
    · omega
    · exfalso
      rw [heq] at ha hb
      have : x - (k : ℚ) ≤ 0 := by linarith
      linarith

/-- A finite double that `ofRat` gives is the rounded multiple of the spacing
at the rational. -/
theorem ofRat_finite (y q : ℚ) (h : ofRat y = .finite q) :
    q = (roundHalfEven (y / 2 ^ max (exponentOf |y| - 52) (-1074)) : ℚ)
      * 2 ^ max (exponentOf |y| - 52) (-1074) := by
  unfold ofRat at h
  by_cases hy : y = 0
  · rw [if_pos hy] at h
    have hq : q = 0 := by
      injection h with h
      exact h.symm
    rw [hq, hy]
    simp [roundHalfEven]
  · rw [if_neg hy] at h
    simp only at h
    split_ifs at h
    injection h with h
    exact h.symm

/-- The significand of the double nearest a rational has at most 53 bits. -/
theorem significand_le (y : ℚ) (hy : y ≠ 0) :
    |(roundHalfEven (y / 2 ^ max (exponentOf |y| - 52) (-1074)) : ℚ)| ≤ 2 ^ 53 := by
  have ha : 0 < |y| := abs_pos.2 hy
  have hlt := lt_exponentOf |y| ha
  generalize hp : max (exponentOf |y| - 52) (-1074) = p
  have hpe : exponentOf |y| - 52 ≤ p := by
    rw [← hp]
    exact le_max_left _ _
  have hpos : (0 : ℚ) < 2 ^ p := by positivity
  have hpow : (2 : ℚ) ^ (exponentOf |y| + 1) ≤ 2 ^ (53 : Int) * 2 ^ p := by
    rw [← zpow_add₀ (by norm_num)]
    exact zpow_le_zpow_right₀ (by norm_num) (by omega)
  have hsize : |y / 2 ^ p| ≤ 2 ^ (53 : Int) := by
    rw [abs_div, abs_of_pos hpos, div_le_iff₀ hpos]
    linarith
  have h53 : ((2 : ℚ) ^ (53 : Int)) = (((2 : Int) ^ 53 : Int) : ℚ) := by norm_num
  obtain ⟨hlow, hhigh⟩ := abs_le.1 hsize
  have h1 : roundHalfEven (y / 2 ^ p) ≤ (2 : Int) ^ 53 :=
    roundHalfEven_le _ _ (by rw [← h53]; exact hhigh)
  have h2 : -((2 : Int) ^ 53) ≤ roundHalfEven (y / 2 ^ p) :=
    le_roundHalfEven _ _ (by push_cast; rw [h53] at hlow; push_cast at hlow; linarith)
  rw [abs_le]
  constructor
  · have : ((-((2 : Int) ^ 53) : Int) : ℚ) ≤ (roundHalfEven (y / 2 ^ p) : ℚ) := by
      exact_mod_cast h2
    push_cast at this
    linarith
  · have : (roundHalfEven (y / 2 ^ p) : ℚ) ≤ (((2 : Int) ^ 53 : Int) : ℚ) := by
      exact_mod_cast h1
    push_cast at this
    linarith

/-- Half an integer is a multiple of every spacing of a half or less. -/
theorem half_on_grid (a p : Int) (hp : p ≤ -1) : ∃ k : Int, (a : ℚ) / 2 = (k : ℚ) * 2 ^ p := by
  refine ⟨a * 2 ^ (-1 - p).toNat, ?_⟩
  have hnat : (((-1 - p).toNat : Nat) : Int) = -1 - p := Int.toNat_of_nonneg (by omega)
  have hpow : ((2 : ℚ) ^ (-1 - p).toNat) = (2 : ℚ) ^ (-1 - p) := by
    rw [← zpow_natCast, hnat]
  push_cast
  rw [hpow, mul_assoc, ← zpow_add₀ (by norm_num)]
  rw [show -1 - p + p = -1 by ring]
  norm_num
  ring

/-- The multiple of a spacing nearest a rational is within half the spacing. -/
theorem grid_near (x : ℚ) (p : Int) :
    |(roundHalfEven (x / 2 ^ p) : ℚ) * 2 ^ p - x| ≤ 2 ^ p / 2 := by
  have hpos : (0 : ℚ) < 2 ^ p := by positivity
  have hnear := roundHalfEven_near (x / 2 ^ p)
  have hx : x = x / 2 ^ p * 2 ^ p := by field_simp
  rw [abs_le]
  constructor
  · have := mul_le_mul_of_nonneg_right hnear.1 (le_of_lt hpos)
    nlinarith [hx]
  · have := mul_le_mul_of_nonneg_right hnear.2 (le_of_lt hpos)
    nlinarith [hx]

/-- The multiple of a spacing nearest a rational is not below a multiple the
rational is not below. -/
theorem le_grid (x : ℚ) (p k : Int) (h : (k : ℚ) * 2 ^ p ≤ x) :
    (k : ℚ) * 2 ^ p ≤ (roundHalfEven (x / 2 ^ p) : ℚ) * 2 ^ p := by
  have hpos : (0 : ℚ) < 2 ^ p := by positivity
  have hk : (k : ℚ) ≤ x / 2 ^ p := (le_div_iff₀ hpos).2 h
  have := le_roundHalfEven _ _ hk
  have hc : (k : ℚ) ≤ (roundHalfEven (x / 2 ^ p) : ℚ) := by exact_mod_cast this
  exact mul_le_mul_of_nonneg_right hc (le_of_lt hpos)

/-- The two amounts of a range: when `q` is the double nearest a rational of
modest size and `q3` the double nearest `q * 3`, `Math.round` of `q3` is three
times `Math.round` of `q`, or one less, or one more. The double next to `q`
towards the half-integer above it is too far for its triple to round there. -/
theorem round_triple (y q q3 : ℚ) (hy : |y| ≤ 2 ^ 40) (hq : ofRat y = .finite q)
    (hq3 : mul (.finite q) (.finite 3) = .finite q3) :
    3 * ⌊q + 1 / 2⌋ - 1 ≤ ⌊q3 + 1 / 2⌋ ∧ ⌊q3 + 1 / 2⌋ ≤ 3 * ⌊q + 1 / 2⌋ + 1 := by
  have hx3 : ofRat (q * 3) = .finite q3 := hq3
  have hL1 : (⌊q + 1 / 2⌋ : ℚ) ≤ q + 1 / 2 := Int.floor_le _
  have hL2 : q + 1 / 2 < (⌊q + 1 / 2⌋ : ℚ) + 1 := Int.lt_floor_add_one _
  by_cases hq0 : q = 0
  · subst hq0
    have h3 : q3 = 0 := by
      have h : ofRat (0 * 3) = .finite 0 := by
        rw [zero_mul]
        rfl
      rw [h] at hx3
      injection hx3 with h
      exact h.symm
    subst h3
    norm_num
  · have hy0 : y ≠ 0 := by
      intro h
      rw [h] at hq
      have h2 : ofRat 0 = .finite 0 := rfl
      rw [h2] at hq
      injection hq with h
      exact hq0 h.symm
    have hqn := ofRat_finite y q hq
    have hsig := significand_le y hy0
    have hq3m := ofRat_finite (q * 3) q3 hx3
    have hya : 0 < |y| := abs_pos.2 hy0
    have hey : exponentOf |y| < 41 := by
      apply exponentOf_lt _ _ hya
      have : (2 : ℚ) ^ (40 : Nat) < 2 ^ (41 : Int) := by norm_num
      linarith
    generalize hpy : max (exponentOf |y| - 52) (-1074) = py at hqn hsig
    have hpy1 : py ≤ -12 := by
      rw [← hpy]
      exact max_le (by omega) (by norm_num)
    have hpy2 : -1074 ≤ py := by
      rw [← hpy]
      exact le_max_right _ _
    generalize hn : roundHalfEven (y / 2 ^ py) = n at hqn hsig
    have hpypos : (0 : ℚ) < 2 ^ py := by positivity
    have hxa : 0 < |q * 3| := abs_pos.2 (mul_ne_zero hq0 (by norm_num))
    have hxsize : |q * 3| < 2 ^ (py + 55) := by
      rw [abs_mul, hqn, abs_mul, abs_of_pos hpypos, show |(3 : ℚ)| = 3 by norm_num]
      have h1 : |(n : ℚ)| * 2 ^ py ≤ 2 ^ 53 * 2 ^ py :=
        mul_le_mul_of_nonneg_right hsig (le_of_lt hpypos)
      have h2 : (2 : ℚ) ^ (py + 55) = 2 ^ py * 2 ^ (55 : Int) := zpow_add₀ (by norm_num) _ _
      rw [h2]
      have h3 : (2 : ℚ) ^ (55 : Int) = 36028797018963968 := by norm_num
      have h4 : (2 : ℚ) ^ 53 = 9007199254740992 := by norm_num
      rw [h3]
      rw [h4] at h1
      nlinarith
    have hex := exponentOf_lt _ _ hxa hxsize
    generalize hpx : max (exponentOf |q * 3| - 52) (-1074) = px at hq3m
    have hpx1 : px ≤ py + 2 := by
      rw [← hpx]
      exact max_le (by omega) (by omega)
    have hpxpos : (0 : ℚ) < 2 ^ px := by positivity
    have hgrid := grid_near (q * 3) px
    rw [← hq3m] at hgrid
    obtain ⟨hg1, hg2⟩ := abs_le.1 hgrid
    constructor
    · obtain ⟨k, hk⟩ := half_on_grid (6 * ⌊q + 1 / 2⌋ - 3) px (by omega)
      have hle : (k : ℚ) * 2 ^ px ≤ q * 3 := by
        rw [← hk]
        push_cast
        linarith
      have hlow := le_grid (q * 3) px k hle
      rw [← hq3m, ← hk] at hlow
      push_cast at hlow
      have h5 : ((3 * ⌊q + 1 / 2⌋ - 1 : Int) : ℚ) ≤ q3 + 1 / 2 := by
        push_cast
        linarith
      exact Int.le_floor.2 h5
    · obtain ⟨k, hk⟩ := half_on_grid (2 * ⌊q + 1 / 2⌋ + 1) py (by omega)
      have hgap : (0 : ℚ) < ((k - n : Int) : ℚ) * 2 ^ py := by
        push_cast
        rw [sub_mul, ← hk, ← hqn]
        push_cast
        linarith
      have hj : (0 : ℚ) < ((k - n : Int) : ℚ) := by
        by_contra hneg
        have := mul_nonpos_of_nonpos_of_nonneg (not_lt.1 hneg) (le_of_lt hpypos)
        linarith
      have hj1 : (1 : Int) ≤ k - n := by
        have : (0 : Int) < k - n := by exact_mod_cast hj
        omega
      have hj2 : (1 : ℚ) ≤ ((k - n : Int) : ℚ) := by exact_mod_cast hj1
      have hstep : (2 : ℚ) ^ py ≤ (⌊q + 1 / 2⌋ : ℚ) + 1 / 2 - q := by
        have h6 : (1 : ℚ) * 2 ^ py ≤ ((k - n : Int) : ℚ) * 2 ^ py :=
          mul_le_mul_of_nonneg_right hj2 (le_of_lt hpypos)
        have h7 : ((k - n : Int) : ℚ) * 2 ^ py = (⌊q + 1 / 2⌋ : ℚ) + 1 / 2 - q := by
          push_cast
          rw [sub_mul, ← hk, ← hqn]
          push_cast
          ring
        linarith
      have hspacing : (2 : ℚ) ^ px ≤ 4 * 2 ^ py := by
        have h8 : (2 : ℚ) ^ px ≤ 2 ^ (py + 2) := zpow_le_zpow_right₀ (by norm_num) hpx1
        have h9 : (2 : ℚ) ^ (py + 2) = 2 ^ py * 2 ^ (2 : Int) := zpow_add₀ (by norm_num) _ _
        rw [h9] at h8
        norm_num at h8
        linarith
      have h10 : q3 + 1 / 2 < ((3 * ⌊q + 1 / 2⌋ + 2 : Int) : ℚ) := by
        push_cast
        linarith
      have h11 : ⌊q3 + 1 / 2⌋ < 3 * ⌊q + 1 / 2⌋ + 2 := Int.floor_lt.2 h10
      omega

end Double

namespace K8s

/-! ## Helper lemmas -/

theorem bind_eq_ok {α β : Type} {x : Except JsError α} {f : α → Except JsError β} {b : β}
    (h : (x >>= f) = .ok b) : ∃ a, x = .ok a ∧ f a = .ok b := by
  cases x with
  | error e => cases h
  | ok a => exact ⟨a, rfl, h⟩

theorem map_eq_ok {α β : Type} {x : Except JsError α} {f : α → β} {b : β}
    (h : x.map f = .ok b) : ∃ a, x = .ok a ∧ f a = b := by
  cases x with
  | error e => cases h
  | ok a => exact ⟨a, rfl, by simpa [Except.map] using h⟩

theorem ok_of_toBool {α : Type} {x : Except JsError α} (h : x.toBool = true) :
    ∃ a, x = .ok a := by
  cases x with
  | error e => cases h
  | ok a => exact ⟨a, rfl⟩

theorem exists_of_map_decide {x : Except JsError Str} {P : Str → Prop} [DecidablePred P]
    (h : x.map (fun text => decide (P text)) = .ok true) : ∃ text, x = .ok text ∧ P text := by
  obtain ⟨text, hx, hp⟩ := map_eq_ok h
  exact ⟨text, hx, of_decide_eq_true hp⟩

theorem optionalManifest_ok {guard : Bool} {key : String} {build : Except JsError Str}
    {m : Manifests} (h : optionalManifest guard key build = .ok m) :
    (guard = false ∧ m = []) ∨ (guard = true ∧ ∃ text, build = .ok text ∧ m = [(key.data, text)]) := by
  unfold optionalManifest at h
  cases guard with
  | false => left; simp at h; exact ⟨rfl, h⟩
  | true =>
    right
    simp only [if_true] at h
    obtain ⟨t, ht, hm⟩ := map_eq_ok h
    exact ⟨rfl, t, ht, hm.symm⟩

theorem hasKeys_jsOr (v : JsVal) :
    hasKeys (jsOr v (.obj [])) = .ok (decide (0 < keyCount v)) := by
  cases v with
  | undefined => rfl
  | null => rfl
  | bool b => cases b <;> rfl
  | num n =>
    by_cases h : n = 0
    · subst h; rfl
    · simp [hasKeys, jsOr, truthy, h, keyCount, objectKeys, objectEntries, Except.map]
  | str s =>
    cases s with
    | nil => rfl
    | cons c t => simp [hasKeys, jsOr, truthy, keyCount, objectKeys, objectEntries, Except.map]
  | arr xs => simp [hasKeys, jsOr, truthy, keyCount, objectKeys, objectEntries, Except.map]
  | obj kvs => simp [hasKeys, jsOr, truthy, keyCount, objectKeys, objectEntries, Except.map]

theorem truthy_jsOr_false (v : JsVal) : truthy (jsOr v (.bool false)) = truthy v := by
  unfold jsOr
  split
  · rfl
  · rename_i h
    have h2 : truthy v = false := by simpa using h
    rw [h2]; rfl

/-- The steps of a call of `generate` that returns. -/
theorem generate_ok_parts {options : Options} {result : Result}
    (h : generate options = .ok result) :
    ∃ config deployment service configMap secret ingress hpa summary,
      buildConfig options = .ok config ∧
      generateDeployment config = .ok deployment ∧
      generateService config = .ok service ∧
      optionalManifest (decide (0 < keyCount options.envVars)) "configMap"
        (generateConfigMap config) = .ok configMap ∧
      optionalManifest (decide (0 < keyCount options.secrets)) "secret"
        (generateSecret config) = .ok secret ∧
      optionalManifest (truthy options.enableIngress) "ingress"
        (generateIngress config) = .ok ingress ∧
      optionalManifest (truthy options.enableAutoscaling) "hpa"
        (generateHPA config) = .ok hpa ∧
      generateSummary config result.manifests = .ok summary ∧
      result = {
        manifests := [("deployment".data, deployment), ("service".data, service)]
          ++ configMap ++ secret ++ ingress ++ hpa
        summary := summary
        deploymentCommands := generateDeploymentCommands config result.manifests
        bestPractices := generateBestPractices config } := by
  unfold generate at h
  obtain ⟨config, hc, h⟩ := bind_eq_ok h
  obtain ⟨deployment, hd, h⟩ := bind_eq_ok h
  obtain ⟨service, hsv, h⟩ := bind_eq_ok h
  obtain ⟨wantConfigMap, hwc, h⟩ := bind_eq_ok h
  obtain ⟨configMap, hcm, h⟩ := bind_eq_ok h
  obtain ⟨wantSecret, hws, h⟩ := bind_eq_ok h
  obtain ⟨secret, hsec, h⟩ := bind_eq_ok h
  obtain ⟨ingress, hing, h⟩ := bind_eq_ok h
  obtain ⟨hpa, hhpa, h⟩ := bind_eq_ok h
  obtain ⟨summary, hsum, h⟩ := bind_eq_ok h
  cases h
  have hc2 := hc
  unfold buildConfig at hc2
  obtain ⟨replicas, _, hc2⟩ := bind_eq_ok hc2
  obtain ⟨resources, _, hc2⟩ := bind_eq_ok hc2
  obtain ⟨hcc, _, hc2⟩ := bind_eq_ok hc2
  cases hc2
  simp only [hasKeys_jsOr] at hwc hws
  cases hwc; cases hws
  simp only [truthy_jsOr_false] at hing hhpa
  exact ⟨_, deployment, service, configMap, secret, ingress, hpa, summary,
    hc, hd, hsv, hcm, hsec, hing, hhpa, hsum, rfl⟩

/-- The keys of the manifest set `generate` returns. -/
theorem generate_manifest_keys {options : Options} {result : Result}
    (h : generate options = .ok result) :
    result.manifests.map Prod.fst =
      ["deployment".data, "service".data]
        ++ (if 0 < keyCount options.envVars then ["configMap".data] else [])
        ++ (if 0 < keyCount options.secrets then ["secret".data] else [])
        ++ (if truthy options.enableIngress then ["ingress".data] else [])
        ++ (if truthy options.enableAutoscaling then ["hpa".data] else []) := by
  obtain ⟨config, deployment, service, configMap, secret, ingress, hpa, summary,
    _, _, _, hcm, hsec, hing, hhpa, _, hr⟩ := generate_ok_parts h
  have hm : result.manifests = [("deployment".data, deployment), ("service".data, service)]
      ++ configMap ++ secret ++ ingress ++ hpa := by
    rw [hr]
  rw [hm]
  rcases optionalManifest_ok hcm with ⟨g1, rfl⟩ | ⟨g1, t1, _, rfl⟩ <;>
  rcases optionalManifest_ok hsec with ⟨g2, rfl⟩ | ⟨g2, t2, _, rfl⟩ <;>
  rcases optionalManifest_ok hing with ⟨g3, rfl⟩ | ⟨g3, t3, _, rfl⟩ <;>
  rcases optionalManifest_ok hhpa with ⟨g4, rfl⟩ | ⟨g4, t4, _, rfl⟩ <;>
  simp at g1 g2 <;> simp [g1, g2, g3, g4]

/-! ## The indentation rewrite of `toYAML` changes nothing -/

theorem replaceScan_skip (pat rep : Str) (k : Nat) :
    ∀ (b : Bool) (s : Str),
      replaceScan pat rep (k + 1) b s = replaceScan pat rep 0 false (s.drop (k + 1)) := by
  induction k with
  | zero =>
    intro b s
    cases s with
    | nil => simp [replaceScan]
    | cons c t => simp [replaceScan]
  | succ k ih =>
    intro b s
    cases s with
    | nil => simp [replaceScan]
    | cons c t =>
      rw [replaceScan, ih false t]
      simp

theorem replaceScan_same (p : Char) (ps : Str) :
    ∀ (n : Nat) (s : Str) (b : Bool), s.length ≤ n →
      replaceScan (p :: ps) (p :: ps) 0 b s = s := by
  intro n
  induction n with
  | zero =>
    intro s b hs
    have : s = [] := List.length_eq_zero.mp (Nat.le_zero.mp hs)
    subst this
    simp [replaceScan]
  | succ n ih =>
    intro s b hs
    cases s with
    | nil => simp [replaceScan]
    | cons c t =>
      have ht : t.length ≤ n := by simpa using hs
      rw [replaceScan]
      split
      · rename_i hcond
        have hpre : (p :: ps).isPrefixOf (c :: t) = true := by
          simp only [Bool.and_eq_true] at hcond
          exact hcond.2
        rw [List.isPrefixOf_iff_prefix] at hpre
        obtain ⟨rest, hrest⟩ := hpre
        have hc : p = c := by
          have := congrArg List.head? hrest
          simpa using this
        have htl : ps ++ rest = t := by
          have := congrArg List.tail hrest
          simpa using this
        have hlen : (p :: ps).length - 1 = ps.length := by simp
        rw [hlen]
        cases hps : ps.length with
        | zero =>
          have : ps = [] := List.length_eq_zero.mp hps
          subst this
          rw [ih t false ht]
          simp [hc]
        | succ k =>
          rw [replaceScan_skip, ← hps]
          have hdrop : t.drop ps.length = rest := by
            rw [← htl]; simp
          rw [hdrop, ih rest false]
          · rw [← htl, hc]; simp
          · rw [← htl] at ht
            simp at ht
            omega
      · rw [ih t _ ht]

theorem spaces_succ (n : Nat) : spaces (n + 1) = ' ' :: ' ' :: spaces n := by
  unfold spaces
  have : 2 * (n + 1) = 2 * n + 1 + 1 := by ring
  rw [this, List.replicate_succ, List.replicate_succ]

theorem spaces_append_two (n : Nat) : spaces n ++ "  ".data = spaces (n + 1) := by
  unfold spaces
  have : 2 * (n + 1) = 2 * n + 2 := by ring
  rw [this, List.replicate_add]
  rfl

/-- The rewrite `toYAML` applies to a rendered array element replaces each
leading run of `indent + 1` indentation units by the same run: it is the
identity on every text. -/
theorem reindent_id (indent : Nat) (text : Str) : reindent indent text = text := by
  unfold reindent
  rw [spaces_append_two, spaces_succ]
  exact replaceScan_same _ _ text.length text true (le_refl _)

/-! ## What a rendered text contains -/

theorem toYAMLProps_cons_ok {key : Str} {value : JsVal} {rest : List (Str × JsVal)}
    {indent : Nat} {text : Str} (h : toYAMLProps ((key, value) :: rest) indent = .ok text) :
    ∃ line more, toYAMLEntry key value indent = .ok line ∧
      toYAMLProps rest indent = .ok more ∧ text = line ++ more := by
  rw [toYAMLProps] at h
  obtain ⟨line, hl, h⟩ := bind_eq_ok h
  obtain ⟨more, hm, h⟩ := bind_eq_ok h
  cases h
  exact ⟨line, more, hl, hm, rfl⟩

/-- Every property of a rendered object is rendered, and its text is part of
the text of the object. -/
theorem toYAMLProps_mem {kvs : List (Str × JsVal)} {indent : Nat} {text : Str}
    (h : toYAMLProps kvs indent = .ok text) {key : Str} {value : JsVal}
    (hmem : (key, value) ∈ kvs) :
    ∃ line, toYAMLEntry key value indent = .ok line ∧ line <:+: text := by
  induction kvs generalizing text with
  | nil => cases hmem
  | cons kv rest ih =>
    obtain ⟨k, v⟩ := kv
    obtain ⟨line, more, hl, hm, rfl⟩ := toYAMLProps_cons_ok h
    rcases List.mem_cons.mp hmem with heq | hin
    · cases heq
      exact ⟨line, hl, (List.prefix_append line more).isInfix⟩
    · obtain ⟨l2, hl2, hin2⟩ := ih hm hin
      exact ⟨l2, hl2, hin2.trans (List.suffix_append line more).isInfix⟩

/-- A property holding an object is rendered as its key line followed by the
rendering of the object one level deeper. -/
theorem toYAMLEntry_obj {key : Str} {kvs : List (Str × JsVal)} {indent : Nat} {line : Str}
    (h : toYAMLEntry key (.obj kvs) indent = .ok line) :
    ∃ sub, toYAMLProps kvs (indent + 1) = .ok sub ∧
      line = spaces indent ++ key ++ ":\n".data ++ sub := by
  rw [toYAMLEntry] at h
  obtain ⟨sub, hs, h⟩ := bind_eq_ok h
  cases h
  exact ⟨sub, hs, rfl⟩

/-- A property holding an array is rendered as its key line followed by the
rendering of the items at the same level. -/
theorem toYAMLEntry_arr {key : Str} {xs : List JsVal} {indent : Nat} {line : Str}
    (h : toYAMLEntry key (.arr xs) indent = .ok line) :
    ∃ items, toYAMLItems xs indent = .ok items ∧
      line = spaces indent ++ key ++ ":\n".data ++ items := by
  rw [toYAMLEntry] at h
  obtain ⟨items, hs, h⟩ := bind_eq_ok h
  cases h
  exact ⟨items, hs, rfl⟩

/-- A property holding a string is rendered as one line. -/
theorem toYAMLEntry_str (key s : Str) (indent : Nat) :
    toYAMLEntry key (.str s) indent = .ok (scalarLine indent key (.str s)) := by
  rw [toYAMLEntry]

theorem toYAMLItems_cons_obj {kvs : List (Str × JsVal)} {rest : List JsVal} {indent : Nat}
    {text : Str} (h : toYAMLItems (.obj kvs :: rest) indent = .ok text) :
    ∃ sub more, toYAMLProps kvs (indent + 1) = .ok sub ∧ toYAMLItems rest indent = .ok more ∧
      text = spaces indent ++ "- \n".data ++ sub ++ more := by
  rw [toYAMLItems] at h
  obtain ⟨line, hl, h⟩ := bind_eq_ok h
  obtain ⟨more, hm, h⟩ := bind_eq_ok h
  obtain ⟨sub, hs, hl⟩ := bind_eq_ok hl
  cases h
  cases hl
  exact ⟨sub, more, hs, hm, by rw [reindent_id]⟩

/-- The nesting of an object property: the rendering of the inner object is
part of the rendering of the outer one. -/
theorem toYAMLProps_sub {kvs : List (Str × JsVal)} {indent : Nat} {text : Str}
    (h : toYAMLProps kvs indent = .ok text) (key : Str) (inner : List (Str × JsVal))
    (hmem : (key, JsVal.obj inner) ∈ kvs) :
    ∃ sub, toYAMLProps inner (indent + 1) = .ok sub ∧ sub <:+: text := by
  obtain ⟨line, hl, hin⟩ := toYAMLProps_mem h hmem
  obtain ⟨sub, hs, rfl⟩ := toYAMLEntry_obj hl
  exact ⟨sub, hs, (List.suffix_append _ sub).isInfix.trans hin⟩

/-- The nesting of a one-object array property: the rendering of the object
is part of the rendering of the outer one. -/
theorem toYAMLProps_item {kvs : List (Str × JsVal)} {indent : Nat} {text : Str}
    (h : toYAMLProps kvs indent = .ok text) (key : Str) (inner : List (Str × JsVal))
    (rest : List JsVal) (hmem : (key, JsVal.arr (.obj inner :: rest)) ∈ kvs) :
    ∃ sub, toYAMLProps inner (indent + 1) = .ok sub ∧ sub <:+: text := by
  obtain ⟨line, hl, hin⟩ := toYAMLProps_mem h hmem
  obtain ⟨items, hs, rfl⟩ := toYAMLEntry_arr hl
  obtain ⟨sub, more, hsub, _, rfl⟩ := toYAMLItems_cons_obj hs
  refine ⟨sub, hsub, List.IsInfix.trans ?_ hin⟩
  refine List.IsInfix.trans ?_ (List.suffix_append _ _).isInfix
  exact (List.suffix_append _ sub).isInfix.trans (List.prefix_append _ more).isInfix

/-- A string property of a rendered object appears as its line. -/
theorem toYAMLProps_line {kvs : List (Str × JsVal)} {indent : Nat} {text : Str}
    (h : toYAMLProps kvs indent = .ok text) {key s : Str}
    (hmem : (key, JsVal.str s) ∈ kvs) :
    scalarLine indent key (.str s) <:+: text := by
  obtain ⟨line, hl, hin⟩ := toYAMLProps_mem h hmem
  rw [toYAMLEntry_str] at hl
  cases hl
  exact hin

/-! ## buildEnvVars -/

theorem objectEntries_of_keys {v : JsVal} {keys : List Str}
    (h : objectKeys v = .ok keys) :
    ∃ entries, objectEntries v = .ok entries ∧ entries.map Prod.fst = keys := by
  unfold objectKeys at h
  exact map_eq_ok h

theorem configMapLoop_ok {config : Config} {keys : List Str}
    (hk : objectKeys config.envVars = .ok keys) (hpos : 0 < keys.length) :
    ∀ entries : List (Str × JsVal),
      configMapLoop config entries = .ok (entries.map fun kv => configMapRef config kv.1) := by
  intro entries
  induction entries with
  | nil => rfl
  | cons kv rest ih =>
    obtain ⟨key, value⟩ := kv
    rw [configMapLoop, hk, ih]
    show Except.ok ((if keys.length > 0 then _ else _) :: _) = _
    rw [if_pos hpos]
    rfl

/-- The loop over `envVars` pushes a ConfigMap reference for every key (the
branch that would push an inline value is never taken), and the loop over
`secrets` a Secret reference for every key. -/
theorem buildEnvVars_ok {config : Config} {keys secretKeys : List Str}
    (hk : objectKeys config.envVars = .ok keys)
    (hs : objectKeys config.secrets = .ok secretKeys) :
    buildEnvVars config =
      .ok (keys.map (fun key => configMapRef config key)
        ++ secretKeys.map (fun key => secretRef config key)) := by
  obtain ⟨entries, he, rfl⟩ := objectEntries_of_keys hk
  unfold buildEnvVars
  rw [he, hs]
  have hloop : configMapLoop config entries
      = .ok (entries.map fun kv => configMapRef config kv.1) := by
    cases entries with
    | nil => rfl
    | cons kv rest => exact configMapLoop_ok hk (by simp) _
  show (configMapLoop config entries >>= fun fromConfigMap => _) = _
  rw [hloop]
  show Except.ok _ = _
  rw [List.map_map]
  rfl

theorem buildEnvVars_error_left {config : Config}
    (hk : objectKeys config.envVars = .error .typeError) :
    buildEnvVars config = .error .typeError := by
  unfold objectKeys at hk
  unfold buildEnvVars
  cases he : objectEntries config.envVars with
  | error e => cases e; rfl
  | ok es => rw [he] at hk; cases hk

theorem buildEnvVars_error_right {config : Config}
    (hs : objectKeys config.secrets = .error .typeError) :
    buildEnvVars config = .error .typeError := by
  unfold buildEnvVars
  rw [hs]
  cases he : objectEntries config.envVars with
  | error e => cases e; rfl
  | ok es =>
    show (configMapLoop config es >>= fun fromConfigMap => _) = _
    cases hm : configMapLoop config es with
    | error e => cases e; rfl
    | ok l => rfl

/-- The env list depends on the config only through `appName` and the keys
of `envVars` and `secrets`. -/
theorem buildEnvVars_congr {c1 c2 : Config} (hname : c1.appName = c2.appName)
    (hk : objectKeys c1.envVars = objectKeys c2.envVars)
    (hs : objectKeys c1.secrets = objectKeys c2.secrets) :
    buildEnvVars c1 = buildEnvVars c2 := by
  cases h1 : objectKeys c1.envVars with
  | error e =>
    cases e
    rw [buildEnvVars_error_left h1, buildEnvVars_error_left (hk ▸ h1)]
  | ok keys =>
    cases h2 : objectKeys c1.secrets with
    | error e =>
      cases e
      rw [buildEnvVars_error_right h2, buildEnvVars_error_right (hs ▸ h2)]
    | ok secretKeys =>
      rw [buildEnvVars_ok h1 h2, buildEnvVars_ok (hk ▸ h1) (hs ▸ h2)]
      simp [configMapRef, secretRef, hname]

/-- Properties holding `null` or `undefined` leave no trace in the rendering
of an object. -/
theorem toYAMLProps_filter (kvs : List (Str × JsVal)) (indent : Nat) :
    toYAMLProps kvs indent = toYAMLProps (kvs.filter fun kv => !isNullish kv.2) indent := by
  induction kvs with
  | nil => rfl
  | cons kv rest ih =>
    obtain ⟨key, value⟩ := kv
    have hskip : ∀ v : JsVal, isNullish v = true →
        toYAMLProps ((key, v) :: rest) indent = toYAMLProps rest indent := by
      intro v hv
      have hline : toYAMLEntry key v indent = .ok [] := by
        cases v <;> first | rfl | cases hv
      rw [toYAMLProps, hline]
      cases toYAMLProps rest indent <;> rfl
    by_cases hn : isNullish value = true
    · rw [hskip value hn, List.filter_cons_of_neg (by simpa using hn), ih]
    · rw [List.filter_cons_of_pos (by simpa using hn), toYAMLProps, toYAMLProps, ih]

end K8s

namespace K8s

/-! ## formatValue -/

theorem toNat_ofNat_small (k : Nat) (h1 : 48 ≤ k) (h2 : k ≤ 122) : (Char.ofNat k).toNat = k := by
  interval_cases k <;> rfl

theorem ofNat_eq_iff (k : Nat) (c : Char) (h1 : 48 ≤ k) (h2 : k ≤ 122) :
    Char.ofNat k = c ↔ k = c.toNat := by
  constructor
  · intro h; rw [← h, toNat_ofNat_small k h1 h2]
  · intro h; rw [h, Char.ofNat_toNat]

theorem char_eq_iff (c p : Char) : c = p ↔ c.toNat = p.toNat := by
  constructor
  · intro h; rw [h]
  · intro h
    have := congrArg Char.ofNat h
    simpa using this

/-- Comparing canonical forms against a lowercase letter of the pattern is
comparing the lowercase form of the input character with that letter. -/
theorem canonicalize_eq_iff (p c : Char) (hp : 97 ≤ p.toNat ∧ p.toNat ≤ 122) :
    (canonicalize p == canonicalize c) = true ↔ lowerAscii c = p := by
  rw [beq_iff_eq]
  unfold canonicalize lowerAscii
  rw [if_pos hp]
  by_cases h1 : 97 ≤ c.toNat ∧ c.toNat ≤ 122
  · have h2 : ¬ (65 ≤ c.toNat ∧ c.toNat ≤ 90) := by omega
    rw [if_pos h1, if_neg h2, ofNat_eq_iff _ _ (by omega) (by omega),
      toNat_ofNat_small _ (by omega) (by omega), char_eq_iff]
    omega
  · rw [if_neg h1]
    by_cases h2 : 65 ≤ c.toNat ∧ c.toNat ≤ 90
    · rw [if_pos h2, ofNat_eq_iff _ _ (by omega) (by omega),
        ofNat_eq_iff _ _ (by omega) (by omega)]
      omega
    · rw [if_neg h2, ofNat_eq_iff _ _ (by omega) (by omega), char_eq_iff]
      omega

theorem matchLiteral_iff (p : Str) (hp : ∀ x ∈ p, 97 ≤ x.toNat ∧ x.toNat ≤ 122) :
    ∀ s : Str, matchLiteral p s = true ↔ s.map lowerAscii = p := by
  induction p with
  | nil =>
    intro s
    cases s with
    | nil => simp [matchLiteral]
    | cons c cs => simp [matchLiteral]
  | cons x xs ih =>
    intro s
    cases s with
    | nil => simp [matchLiteral]
    | cons c cs =>
      rw [matchLiteral, Bool.and_eq_true,
        canonicalize_eq_iff x c (hp x (List.mem_cons_self x xs)),
        ih (fun y hy => hp y (List.mem_cons_of_mem x hy)) cs]
      simp

theorem isDigit_iff (c : Char) : isDigit c = true ↔ c ∈ "0123456789".data := by
  unfold isDigit
  rw [Bool.and_eq_true, decide_eq_true_iff, decide_eq_true_iff]
  constructor
  · rintro ⟨h1, h2⟩
    have hc : c = Char.ofNat c.toNat := (Char.ofNat_toNat c).symm
    rw [hc]
    generalize c.toNat = n at h1 h2
    interval_cases n <;> decide
  · intro h
    have h2 : c = '0' ∨ c = '1' ∨ c = '2' ∨ c = '3' ∨ c = '4' ∨ c = '5' ∨ c = '6'
        ∨ c = '7' ∨ c = '8' ∨ c = '9' := by
      simpa using h
    rcases h2 with h | h | h | h | h | h | h | h | h | h <;> subst h <;> decide

theorem matchDigits_iff (s : Str) :
    matchDigits s = true ↔ s ≠ [] ∧ ∀ c ∈ s, c ∈ "0123456789".data := by
  induction s with
  | nil => simp [matchDigits]
  | cons c cs ih =>
    cases cs with
    | nil =>
      rw [matchDigits, isDigit_iff]
      simp
    | cons d ds =>
      show (isDigit c && matchDigits (d :: ds)) = true ↔ _
      rw [Bool.and_eq_true, ih, isDigit_iff]
      constructor
      · rintro ⟨hc, _, hrest⟩
        refine ⟨List.cons_ne_nil _ _, ?_⟩
        intro x hx
        rcases List.mem_cons.mp hx with h | h
        · rw [h]; exact hc
        · exact hrest x h
      · rintro ⟨_, hall⟩
        exact ⟨hall c (List.mem_cons_self _ _), List.cons_ne_nil _ _,
          fun x hx => hall x (List.mem_cons_of_mem _ hx)⟩

/-- The test of `formatValue` holds exactly for the strings the specification
lists. -/
theorem needsQuotes_iff (s : Str) :
    (regexTest s || includes s ':' || includes s '#') = true ↔ NeedsQuotes s := by
  unfold regexTest includes NeedsQuotes
  simp only [Bool.or_eq_true]
  rw [matchLiteral_iff "true".data (by decide), matchLiteral_iff "false".data (by decide),
    matchLiteral_iff "null".data (by decide), matchDigits_iff]
  simp only [List.contains, List.elem_eq_mem, decide_eq_true_eq, or_assoc]

theorem jsToString_formatValue_str (s : Str) :
    jsToString (formatValue (.str s)) = rendered s := by
  unfold formatValue rendered
  by_cases h : NeedsQuotes s
  · simp only [if_pos h, if_pos ((needsQuotes_iff s).mpr h)]
    rfl
  · have h2 : ¬ ((regexTest s || includes s ':' || includes s '#') = true) :=
      fun hc => h ((needsQuotes_iff s).mp hc)
    simp only [if_neg h, if_neg h2]
    rfl

/-- The line of a string property, without its indentation. -/
theorem scalarLine_str_within (indent : Nat) (key s : Str) :
    (key ++ ": ".data ++ rendered s ++ "\n".data) <:+: scalarLine indent key (.str s) := by
  unfold scalarLine
  rw [jsToString_formatValue_str]
  refine ⟨spaces indent, [], ?_⟩
  simp

end K8s

namespace K8s

/-! ## The container of the Deployment -/

/-- The rendering of the container is part of the Deployment text, eight
spaces deep. -/
theorem generateDeployment_container {config : Config} {text : Str}
    (h : generateDeployment config = .ok text) :
    ∃ env sub, buildEnvVars config = .ok env ∧
      toYAMLProps (containerProps config env) 4 = .ok sub ∧ sub <:+: text := by
  unfold generateDeployment deploymentObject at h
  obtain ⟨d, hd, h⟩ := bind_eq_ok h
  obtain ⟨env, henv, hd⟩ := bind_eq_ok hd
  cases hd
  obtain ⟨s1, h1, i1⟩ := toYAMLProps_sub h "spec".data _
    (List.mem_cons_of_mem _ (List.mem_cons_of_mem _ (List.mem_cons_of_mem _
      (List.mem_cons_self _ _))))
  obtain ⟨s2, h2, i2⟩ := toYAMLProps_sub h1 "template".data _
    (List.mem_cons_of_mem _ (List.mem_cons_of_mem _ (List.mem_cons_of_mem _
      (List.mem_cons_self _ _))))
  obtain ⟨s3, h3, i3⟩ := toYAMLProps_sub h2 "spec".data _
    (List.mem_cons_of_mem _ (List.mem_cons_self _ _))
  obtain ⟨s4, h4, i4⟩ := toYAMLProps_item h3 "containers".data _ _
    (List.mem_cons_of_mem _ (List.mem_cons_self _ _))
  exact ⟨env, s4, henv, h4, ((i4.trans i3).trans i2).trans i1⟩

end K8s

namespace K8s

/-! ## buildConfig -/

/-- The config `buildConfig` returns when the environment selects an object
of the table: raw values win when truthy, the defaults fill the rest. -/
theorem buildConfig_of_tier (options : Options) (tier : List (Str × JsVal))
    (hl : lookupEnvironmentDefaults (jsOr options.environment (lit "dev")) = .obj tier) :
    buildConfig options = .ok {
      appName := options.appName
      image := options.image
      port := options.port
      environment := jsOr options.environment (lit "dev")
      namespace_ := jsOr options.namespace_ (lit "default")
      replicas := jsOr options.replicas ((tier.lookup "replicas".data).getD .undefined)
      serviceType := jsOr options.serviceType (lit "ClusterIP")
      enableIngress := jsOr options.enableIngress (.bool false)
      ingressHost := options.ingressHost
      enableTLS := .bool (match options.enableTLS with
        | .bool false => false
        | _ => true)
      enableAutoscaling := jsOr options.enableAutoscaling (.bool false)
      minReplicas := jsOr options.minReplicas (.num 2)
      maxReplicas := jsOr options.maxReplicas (.num 10)
      envVars := jsOr options.envVars (.obj [])
      secrets := jsOr options.secrets (.obj [])
      healthCheckPath := jsOr options.healthCheckPath (lit "/health")
      readinessCheckPath := jsOr options.readinessCheckPath (lit "/ready")
      resources := jsOr options.resources ((tier.lookup "resources".data).getD .undefined)
      healthCheckConfig := (tier.lookup "healthCheckConfig".data).getD .undefined } := by
  unfold buildConfig
  rw [hl]
  unfold orDefault jsOr getProp
  by_cases h1 : truthy options.replicas = true <;>
  by_cases h2 : truthy options.resources = true <;>
  simp only [h1, h2, if_true, if_false] <;> rfl

/-- A string that names no tier and no member of `Object.prototype` selects
nothing in the table. -/
theorem lookupEnvironmentDefaults_unknown (env : Str)
    (hdev : env ≠ "dev".data) (hstaging : env ≠ "staging".data)
    (hproduction : env ≠ "production".data) (hproto : env ∉ objectPrototypeNames) :
    lookupEnvironmentDefaults (.str env) = .undefined := by
  unfold lookupEnvironmentDefaults
  have h1 : (env == "dev".data) = false := beq_eq_false_iff_ne.mpr hdev
  have h2 : (env == "staging".data) = false := beq_eq_false_iff_ne.mpr hstaging
  have h3 : (env == "production".data) = false := beq_eq_false_iff_ne.mpr hproduction
  have hl : environmentDefaults.lookup (jsToString (.str env)) = none := by
    simp only [environmentDefaults, prop, jsToString, List.lookup, h1, h2, h3]
  rw [hl]
  simp only [jsToString]
  rw [if_neg hproto]

/-- Without a tier object `buildConfig` throws, whatever the raw values. -/
theorem buildConfig_of_undefined (options : Options)
    (hl : lookupEnvironmentDefaults (jsOr options.environment (lit "dev")) = .undefined) :
    buildConfig options = .error .typeError := by
  unfold buildConfig
  rw [hl]
  unfold orDefault getProp
  by_cases h1 : truthy options.replicas = true <;>
  by_cases h2 : truthy options.resources = true <;>
  simp only [h1, h2, if_true, if_false] <;> rfl

end K8s

namespace K8s

/-! ## Rendering of typed properties -/

theorem ok_bind {α β : Type} (a : α) (f : α → Except JsError β) :
    (Except.ok a >>= f) = f a := rfl

theorem exists_of_map_true {α : Type} {x : Except JsError α} {p : α → Bool}
    (h : x.map p = .ok true) : ∃ a, x = .ok a ∧ p a = true :=
  map_eq_ok h

theorem toYAMLProps_nil (indent : Nat) : toYAMLProps [] indent = .ok [] := by
  rw [toYAMLProps]

theorem toYAMLProps_cons (key : Str) (value : JsVal) (rest : List (Str × JsVal)) (indent : Nat) :
    toYAMLProps ((key, value) :: rest) indent =
      (toYAMLEntry key value indent >>= fun line =>
        toYAMLProps rest indent >>= fun more => pure (line ++ more)) := by
  rw [toYAMLProps]

/-- A number property is rendered as one line holding its decimal form. -/
theorem toYAMLEntry_num (key : Str) (n : Int) (indent : Nat) :
    toYAMLEntry key (.num n) indent
      = .ok (spaces indent ++ key ++ ": ".data ++ intToStr n ++ "\n".data) := by
  rw [toYAMLEntry]
  rfl

/-- A string property is rendered as one line holding the string, between
double quotes if it is one of those that are quoted. -/
theorem toYAMLEntry_rendered (key s : Str) (indent : Nat) :
    toYAMLEntry key (.str s) indent
      = .ok (spaces indent ++ key ++ ": ".data ++ rendered s ++ "\n".data) := by
  rw [toYAMLEntry, scalarLine, jsToString_formatValue_str]

/-- A property holding an object is rendered as its key line followed by the
properties of the object one level deeper. -/
theorem toYAMLEntry_obj_eq (key : Str) (kvs : List (Str × JsVal)) (indent : Nat) :
    toYAMLEntry key (.obj kvs) indent =
      (toYAMLProps kvs (indent + 1) >>= fun sub =>
        pure (spaces indent ++ key ++ ":\n".data ++ sub)) := by
  rw [toYAMLEntry]

/-- A property holding an array is rendered as its key line followed by the
items at the same level. -/
theorem toYAMLEntry_arr_eq (key : Str) (xs : List JsVal) (indent : Nat) :
    toYAMLEntry key (.arr xs) indent =
      (toYAMLItems xs indent >>= fun items =>
        pure (spaces indent ++ key ++ ":\n".data ++ items)) := by
  rw [toYAMLEntry]

theorem toYAMLItems_nil (indent : Nat) : toYAMLItems [] indent = .ok [] := by
  rw [toYAMLItems]

/-- An item that is an object is rendered as a marker line followed by its
properties one level deeper. -/
theorem toYAMLItems_obj (kvs : List (Str × JsVal)) (rest : List JsVal) (indent : Nat) :
    toYAMLItems (.obj kvs :: rest) indent =
      (toYAMLProps kvs (indent + 1) >>= fun sub =>
        toYAMLItems rest indent >>= fun more =>
          pure (spaces indent ++ "- \n".data ++ sub ++ more)) := by
  rw [toYAMLItems]
  cases toYAMLProps kvs (indent + 1) with
  | error e => rfl
  | ok sub =>
    show (toYAMLItems rest indent >>= fun more =>
      pure (spaces indent ++ "- \n".data ++ reindent indent sub ++ more)) = _
    rw [reindent_id]
    rfl

/-- An item that is a string is rendered as one line. -/
theorem toYAMLItems_str (s : Str) (rest : List JsVal) (indent : Nat) :
    toYAMLItems (.str s :: rest) indent =
      (toYAMLItems rest indent >>= fun more =>
        pure (spaces indent ++ "- ".data ++ rendered s ++ "\n".data ++ more)) := by
  rw [toYAMLItems, jsToString_formatValue_str]
  · rfl
  · intro h; cases h
  · intro xs h; cases h
  · intro kvs h; cases h

/-- The last property of a rendered object ends the text. -/
theorem toYAMLProps_last (kvs : List (Str × JsVal)) (key : Str) (value : JsVal) (indent : Nat)
    {text : Str} (h : toYAMLProps (kvs ++ [(key, value)]) indent = .ok text) :
    ∃ line, toYAMLEntry key value indent = .ok line ∧ line <:+ text := by
  induction kvs generalizing text with
  | nil =>
    obtain ⟨line, more, hl, hm, rfl⟩ := toYAMLProps_cons_ok h
    rw [toYAMLProps_nil] at hm
    cases hm
    exact ⟨line, hl, by simp⟩
  | cons kv rest ih =>
    obtain ⟨k, v⟩ := kv
    obtain ⟨l1, more, _, hm, rfl⟩ := toYAMLProps_cons_ok h
    obtain ⟨line, hl, hsuf⟩ := ih hm
    exact ⟨line, hl, hsuf.trans (List.suffix_append l1 more)⟩

/-- The rendering of an object is the rendering of its first properties
followed by the rendering of the others. -/
theorem toYAMLProps_append (front back : List (Str × JsVal)) (indent : Nat) {text : Str}
    (h : toYAMLProps (front ++ back) indent = .ok text) :
    ∃ a b, toYAMLProps front indent = .ok a ∧ toYAMLProps back indent = .ok b ∧
      text = a ++ b := by
  induction front generalizing text with
  | nil => exact ⟨[], text, toYAMLProps_nil indent, h, rfl⟩
  | cons kv rest ih =>
    obtain ⟨k, v⟩ := kv
    obtain ⟨line, more, hl, hm, rfl⟩ := toYAMLProps_cons_ok h
    obtain ⟨a, b, ha, hb, rfl⟩ := ih hm
    refine ⟨line ++ a, b, ?_, hb, by simp⟩
    rw [toYAMLProps_cons, hl, ha]
    rfl

end K8s

namespace K8s

/-! ## The fields of a built config -/

/-- The fields of a config that do not depend on the tier. -/
theorem buildConfig_fields {options : Options} {config : Config}
    (h : buildConfig options = .ok config) :
    config.appName = options.appName ∧ config.image = options.image ∧
    config.port = options.port ∧
    config.environment = jsOr options.environment (lit "dev") ∧
    config.namespace_ = jsOr options.namespace_ (lit "default") ∧
    config.serviceType = jsOr options.serviceType (lit "ClusterIP") ∧
    config.enableIngress = jsOr options.enableIngress (.bool false) ∧
    config.ingressHost = options.ingressHost ∧
    config.enableAutoscaling = jsOr options.enableAutoscaling (.bool false) ∧
    config.minReplicas = jsOr options.minReplicas (.num 2) ∧
    config.maxReplicas = jsOr options.maxReplicas (.num 10) ∧
    config.envVars = jsOr options.envVars (.obj []) ∧
    config.secrets = jsOr options.secrets (.obj []) ∧
    config.healthCheckPath = jsOr options.healthCheckPath (lit "/health") ∧
    config.readinessCheckPath = jsOr options.readinessCheckPath (lit "/ready") := by
  unfold buildConfig at h
  obtain ⟨replicas, _, h⟩ := bind_eq_ok h
  obtain ⟨resources, _, h⟩ := bind_eq_ok h
  obtain ⟨hcc, _, h⟩ := bind_eq_ok h
  cases h
  exact ⟨rfl, rfl, rfl, rfl, rfl, rfl, rfl, rfl, rfl, rfl, rfl, rfl, rfl, rfl, rfl⟩

/-- A recognised environment selects its tier of the table. -/
theorem lookup_recognised (v : JsVal) (h : RecognisedEnvironment v) :
    ∃ tier, lookupEnvironmentDefaults (jsOr v (lit "dev")) = .obj tier ∧
      tier.lookup "replicas".data = some (.num (tierReplicas v)) ∧
      tier.lookup "resources".data = some (tierResources v) ∧
      tier.lookup "healthCheckConfig".data = some (timingOf (tierTiming v).1 (tierTiming v).2.1
        (tierTiming v).2.2.1 (tierTiming v).2.2.2) := by
  rcases h with h | h | h | h <;> subst h <;> exact ⟨_, rfl, rfl, rfl, rfl⟩

/-- With a recognised environment `buildConfig` returns, and the fields that
depend on the tier are the raw value if truthy (replicas, resources) and the
default of the tier otherwise. -/
theorem buildConfig_recognised (options : Options)
    (henv : RecognisedEnvironment options.environment) :
    ∃ config, buildConfig options = .ok config ∧
      config.replicas = jsOr options.replicas (.num (tierReplicas options.environment)) ∧
      config.resources = jsOr options.resources (tierResources options.environment) ∧
      config.healthCheckConfig = timingOf (tierTiming options.environment).1
        (tierTiming options.environment).2.1 (tierTiming options.environment).2.2.1
        (tierTiming options.environment).2.2.2 := by
  obtain ⟨tier, hl, h1, h2, h3⟩ := lookup_recognised options.environment henv
  refine ⟨_, buildConfig_of_tier options tier hl, ?_, ?_, ?_⟩
  · show jsOr _ ((tier.lookup "replicas".data).getD .undefined) = _
    rw [h1]; rfl
  · show jsOr _ ((tier.lookup "resources".data).getD .undefined) = _
    rw [h2]; rfl
  · show (tier.lookup "healthCheckConfig".data).getD .undefined = _
    rw [h3]; rfl

/-- The summary repeats the replica count of the config. -/
theorem generateSummary_replicas {config : Config} {manifests : Manifests} {summary : Summary}
    (h : generateSummary config manifests = .ok summary) :
    summary.replicas = config.replicas ∧ summary.appName = config.appName ∧
    summary.environment = config.environment ∧ summary.namespace_ = config.namespace_ := by
  unfold generateSummary at h
  obtain ⟨requests, _, h⟩ := bind_eq_ok h
  obtain ⟨cpu, _, h⟩ := bind_eq_ok h
  obtain ⟨requests2, _, h⟩ := bind_eq_ok h
  obtain ⟨memory, _, h⟩ := bind_eq_ok h
  cases h
  exact ⟨rfl, rfl, rfl, rfl⟩

/-- The rendering of the `spec` block is part of the Deployment text, after
its key line. -/
theorem generateDeployment_spec {config : Config} {text : Str}
    (h : generateDeployment config = .ok text) :
    ∃ rest sub, toYAMLProps ((prop "replicas" config.replicas) :: rest) 1 = .ok sub ∧
      ("spec:\n".data ++ sub) <:+ text := by
  unfold generateDeployment deploymentObject at h
  obtain ⟨d, hd, h⟩ := bind_eq_ok h
  obtain ⟨env, henv, hd⟩ := bind_eq_ok hd
  cases hd
  obtain ⟨line, hl, hsuf⟩ := toYAMLProps_last
    [prop "apiVersion" (lit "apps/v1"), prop "kind" (lit "Deployment"),
      prop "metadata" (.obj [prop "name" config.appName, prop "namespace" config.namespace_,
        prop "labels" (deploymentLabels config)])] "spec".data _ 0 h
  obtain ⟨sub, hsub, rfl⟩ := toYAMLEntry_obj hl
  exact ⟨_, sub, hsub, hsuf⟩

end K8s

namespace K8s

/-! ## The `spec` block of the autoscaler -/

theorem hpa_tail_rendering :
    toYAMLProps [
      prop "metrics" (.arr [resourceMetric "cpu" 70, resourceMetric "memory" 80]),
      prop "behavior" (.obj [
        prop "scaleDown" (.obj [
          prop "stabilizationWindowSeconds" (.num 300),
          prop "policies" (.arr [scalingPolicy "Percent" 50 60])]),
        prop "scaleUp" (.obj [
          prop "stabilizationWindowSeconds" (.num 0),
          prop "policies" (.arr [scalingPolicy "Percent" 100 30, scalingPolicy "Pods" 2 30]),
          prop "selectPolicy" (lit "Max")])])] 1 = .ok hpaSpecTail := by
  decide!

/-- The text of the autoscaler ends with its `spec` block: the target, the two
bounds of the config, and the fixed metrics and behaviour. -/
theorem generateHPA_spec {config : Config} {text name : Str} {a b : Int}
    (hname : config.appName = .str name)
    (hmin : config.minReplicas = .num a) (hmax : config.maxReplicas = .num b)
    (h : generateHPA config = .ok text) :
    ("spec:\n  scaleTargetRef:\n    apiVersion: apps/v1\n    kind: Deployment\n    name: ".data
      ++ rendered name ++ "\n  minReplicas: ".data ++ intToStr a
      ++ "\n  maxReplicas: ".data ++ intToStr b ++ "\n".data ++ hpaSpecTail) <:+ text := by
  unfold generateHPA toYAML hpaObject at h
  simp only at h
  obtain ⟨line, hl, hsuf⟩ := toYAMLProps_last
    [prop "apiVersion" (lit "autoscaling/v2"), prop "kind" (lit "HorizontalPodAutoscaler"),
      prop "metadata" (.obj [prop "name" config.appName, prop "namespace" config.namespace_,
        prop "labels" (.obj [prop "app" config.appName])])] "spec".data _ 0 h
  obtain ⟨sub, hsub, rfl⟩ := toYAMLEntry_obj hl
  obtain ⟨front, back, hfront, hback, rfl⟩ := toYAMLProps_append
    [prop "scaleTargetRef" (.obj [prop "apiVersion" (lit "apps/v1"),
        prop "kind" (lit "Deployment"), prop "name" config.appName]),
      prop "minReplicas" config.minReplicas, prop "maxReplicas" config.maxReplicas] _ 1 hsub
  rw [hpa_tail_rendering] at hback
  cases hback
  rw [hname, hmin, hmax] at hfront
  simp only [prop, lit, toYAMLEntry_obj_eq, toYAMLProps_cons, toYAMLEntry_rendered,
    toYAMLEntry_num, ok_bind, toYAMLProps_nil] at hfront
  cases hfront
  refine List.IsSuffix.trans ?_ hsuf
  have r1 : rendered "apps/v1".data = "apps/v1".data := by decide
  have r2 : rendered "Deployment".data = "Deployment".data := by decide
  refine ⟨[], ?_⟩
  simp only [r1, r2, spaces, pure, Except.pure]
  simp

end K8s

namespace K8s

/-! ## The head lines of a manifest -/

/-- An object that starts with `apiVersion`, `kind` and a `metadata` whose
first property is a string `name` is rendered with these four lines first. -/
theorem manifest_head (apiVersion kind : String) (name : Str)
    (hv : rendered apiVersion.data = apiVersion.data) (hk : rendered kind.data = kind.data)
    (metadata rest : List (Str × JsVal)) {text : Str}
    (h : toYAMLProps (prop "apiVersion" (lit apiVersion) :: prop "kind" (lit kind)
      :: prop "metadata" (.obj (prop "name" (.str name) :: metadata)) :: rest) 0 = .ok text) :
    headLines apiVersion kind name <+: text := by
  obtain ⟨l1, m1, h1, hm1, rfl⟩ := toYAMLProps_cons_ok h
  obtain ⟨l2, m2, h2, hm2, rfl⟩ := toYAMLProps_cons_ok hm1
  obtain ⟨l3, m3, h3, _, rfl⟩ := toYAMLProps_cons_ok hm2
  obtain ⟨sub, hsub, rfl⟩ := toYAMLEntry_obj h3
  obtain ⟨l4, m4, h4, _, rfl⟩ := toYAMLProps_cons_ok hsub
  rw [lit, toYAMLEntry_rendered, hv] at h1
  rw [lit, toYAMLEntry_rendered, hk] at h2
  rw [toYAMLEntry_rendered] at h4
  cases h1
  cases h2
  cases h4
  refine ⟨m4 ++ m3, ?_⟩
  simp [headLines, spaces]

/-- Removing the quotes gives back a name that does not start with one. -/
theorem unquote_rendered (name : Str) (h : name.head? ≠ some '"') :
    unquote (rendered name) = name := by
  unfold rendered
  by_cases hq : NeedsQuotes name
  · rw [if_pos hq]
    show (if (name ++ ['"']).getLast? = some '"' then (name ++ ['"']).dropLast
      else '"' :: (name ++ ['"'])) = name
    simp
  · rw [if_neg hq]
    cases name with
    | nil => rfl
    | cons c t =>
      have hc : c ≠ '"' := by simpa using h
      unfold unquote
      split
      · rename_i t2 heq
        exact absurd (List.cons.inj heq).1 hc
      · rfl

end K8s

namespace K8s

/-! ## The cost text -/

theorem isDigit_digitChar (n : Nat) (h : n < 10) : isDigit (Nat.digitChar n) = true := by
  interval_cases n <;> rfl

theorem toDigitsCore_digits (fuel : Nat) :
    ∀ (n : Nat) (ds : Str), (∀ c ∈ ds, isDigit c = true) →
      ∀ c ∈ Nat.toDigitsCore 10 fuel n ds, isDigit c = true := by
  induction fuel with
  | zero => intro n ds h; simpa [Nat.toDigitsCore] using h
  | succ fuel ih =>
    intro n ds h
    have hd : ∀ c ∈ Nat.digitChar (n % 10) :: ds, isDigit c = true := by
      intro c hc
      rcases List.mem_cons.1 hc with rfl | hc
      · exact isDigit_digitChar _ (Nat.mod_lt _ (by decide))
      · exact h c hc
    unfold Nat.toDigitsCore
    simp only
    split
    · exact hd
    · exact ih _ _ hd

theorem toDigitsCore_ne_nil (fuel : Nat) :
    ∀ (n : Nat) (ds : Str), ds ≠ [] → Nat.toDigitsCore 10 fuel n ds ≠ [] := by
  induction fuel with
  | zero => intro n ds h; simpa [Nat.toDigitsCore] using h
  | succ fuel ih =>
    intro n ds _
    unfold Nat.toDigitsCore
    simp only
    split
    · exact List.cons_ne_nil _ _
    · exact ih _ _ (List.cons_ne_nil _ _)

theorem toDigits_digits (n : Nat) : (Nat.toDigits 10 n).all isDigit = true := by
  rw [List.all_eq_true]
  exact toDigitsCore_digits _ _ _ (fun c hc => absurd hc (List.not_mem_nil c))

theorem toDigits_ne_nil (n : Nat) : Nat.toDigits 10 n ≠ [] := by
  unfold Nat.toDigits Nat.toDigitsCore
  simp only
  split
  · exact List.cons_ne_nil _ _
  · exact toDigitsCore_ne_nil _ _ _ (List.cons_ne_nil _ _)

theorem isIntegerText_digits (ds : Str) (hne : ds ≠ []) (h : ds.all isDigit = true) :
    isIntegerText ds = true ∧ isIntegerText ('-' :: ds) = true := by
  have hempty : ds.isEmpty = false := by
    cases ds with
    | nil => exact absurd rfl hne
    | cons c t => rfl
  constructor
  · cases ds with
    | nil => exact absurd rfl hne
    | cons c t =>
      have hc : isDigit c = true := (List.all_eq_true.1 h) c (List.mem_cons_self _ _)
      have hcm : c ≠ '-' := by
        intro hc2
        rw [hc2] at hc
        exact absurd hc (by decide)
      unfold isIntegerText
      split
      · rename_i t2 heq
        exact absurd (List.cons.inj heq).1 hcm
      · simp [h]
  · show (!ds.isEmpty && ds.all isDigit) = true
    rw [hempty, h]
    rfl

/-- The decimal form of an integer is the text of an integer. -/
theorem isIntegerText_intToStr (n : Int) : isIntegerText (intToStr n) = true := by
  cases n with
  | ofNat k => exact (isIntegerText_digits _ (toDigits_ne_nil k) (toDigits_digits k)).1
  | negSucc k =>
    exact (isIntegerText_digits _ (toDigits_ne_nil (k + 1)) (toDigits_digits (k + 1))).2

theorem wellFormed_costRange (low high : Int) : WellFormedCost (costRange low high) :=
  ⟨intToStr low, intToStr high, isIntegerText_intToStr low, isIntegerText_intToStr high, rfl⟩

/-- The text with `NaN` for both numbers is not well-formed. -/
theorem nan_not_wellFormed : ¬ WellFormedCost "$NaN-NaN/month".data := by
  rintro ⟨low, high, hl, _, h⟩
  cases low with
  | nil => exact absurd hl (by decide)
  | cons c t =>
    have hc : c = 'N' := by
      have h2 := (List.cons.inj h).2
      exact ((List.cons.inj h2).1).symm
    rw [hc] at hl
    have hn : isIntegerText ('N' :: t) = false := by
      unfold isIntegerText
      split
      · rename_i t2 heq
        exact absurd (List.cons.inj heq).1 (by decide)
      · simp [isDigit]
    rw [hn] at hl
    cases hl

theorem getPath_of_nullish (v : JsVal) (h : isNullish v = true) (path : List String) :
    getPath v path = (match path with | [] => v | _ :: _ => .undefined) := by
  cases v with
  | undefined => cases path <;> rfl
  | null => cases path <;> rfl
  | bool b => cases h
  | num n => cases h
  | str s => cases h
  | arr xs => cases h
  | obj kvs => cases h

theorem getPath_cons (v : JsVal) (key : String) (rest : List String) :
    getPath v (key :: rest) = getPath (getPath v [key]) rest := by
  cases v with
  | obj kvs =>
    show (match kvs.lookup key.data with
      | some w => getPath w rest
      | none => .undefined) = getPath (match kvs.lookup key.data with
      | some w => getPath w []
      | none => .undefined) rest
    cases kvs.lookup key.data with
    | some w => rfl
    | none => cases rest <;> rfl
  | undefined => cases rest <;> rfl
  | null => cases rest <;> rfl
  | bool b => cases rest <;> rfl
  | num n => cases rest <;> rfl
  | str s => cases rest <;> rfl
  | arr xs => cases rest <;> rfl

/-- A property read on a value that is neither `null` nor `undefined` gives
the value at the path of that one name. -/
theorem getProp_eq_getPath (v : JsVal) (key : String) (h : isNullish v = false) :
    getProp v key.data = .ok (getPath v [key]) := by
  cases v with
  | obj kvs =>
    show Except.ok ((kvs.lookup key.data).getD .undefined) = .ok (match kvs.lookup key.data with
      | some w => getPath w []
      | none => .undefined)
    cases kvs.lookup key.data <;> rfl
  | undefined => cases h
  | null => cases h
  | bool b => rfl
  | num n => rfl
  | str s => rfl
  | arr xs => rfl

theorem getProp_of_nullish (v : JsVal) (key : Str) (h : isNullish v = true) :
    getProp v key = .error .typeError := by
  cases v with
  | undefined => rfl
  | null => rfl
  | bool b => cases h
  | num n => cases h
  | str s => cases h
  | arr xs => cases h
  | obj kvs => cases h

theorem resources_not_nullish (config : Config)
    (h : isNullish (getPath config.resources ["requests"]) = false) :
    isNullish config.resources = false := by
  cases hr : isNullish config.resources with
  | false => rfl
  | true =>
    rw [getPath_of_nullish _ hr] at h
    cases h

/-- When `resources` has no `requests`, `generateSummary` throws. -/
theorem generateSummary_throws (config : Config) (manifests : Manifests)
    (h : isNullish (getPath config.resources ["requests"]) = true) :
    generateSummary config manifests = .error .typeError := by
  unfold generateSummary
  cases hr : isNullish config.resources with
  | true =>
    rw [getProp_of_nullish _ _ hr]
    rfl
  | false =>
    rw [getProp_eq_getPath config.resources "requests" hr]
    simp only [ok_bind]
    rw [getProp_of_nullish _ _ h]
    rfl

/-- When `resources` has `requests`, `generateSummary` returns, with the cost
text made of the two rounded amounts. -/
theorem generateSummary_returns (config : Config) (manifests : Manifests)
    (h : isNullish (getPath config.resources ["requests"]) = false) :
    generateSummary config manifests = .ok {
      appName := config.appName
      environment := config.environment
      namespace_ := config.namespace_
      replicas := config.replicas
      resourcesGenerated := manifests.map fun kv => resourceLabel kv.1
      estimatedCost := "$".data ++ Double.roundedText (estimateOf config) ++ "-".data
        ++ Double.roundedText (Double.mul (estimateOf config) (.finite 3))
        ++ "/month".data } := by
  unfold generateSummary
  rw [getProp_eq_getPath config.resources "requests" (resources_not_nullish config h)]
  simp only [ok_bind]
  rw [getProp_eq_getPath _ "cpu" h, getProp_eq_getPath _ "memory" h]
  simp only [ok_bind]
  rw [← getPath_cons, ← getPath_cons]
  rfl

/-- A request that starts with an integer is read from a `requests` that is
there. -/
theorem requests_of_parsed (config : Config) (name : String) (n : Int)
    (h : parseInt (requestOf config name) = some n) :
    isNullish (getPath config.resources ["requests"]) = false := by
  cases hr : isNullish (getPath config.resources ["requests"]) with
  | false => rfl
  | true =>
    unfold requestOf at h
    rw [getPath_cons, getPath_of_nullish _ hr] at h
    have hnone : parseInt JsVal.undefined = none := by decide
    rw [show parseInt (match [name] with
      | [] => getPath config.resources ["requests"]
      | _ :: _ => JsVal.undefined) = parseInt JsVal.undefined from rfl, hnone] at h
    cases h

/-! ## The estimate in double arithmetic -/

/-- An integer up to `2 ^ 53` in size is printed digit by digit. -/
theorem integerText_small (n : Int) (h : n.natAbs ≤ 2 ^ 53) :
    Double.integerText n = intToStr n := by
  unfold Double.integerText
  rw [if_pos h]
  cases n with
  | ofNat k => simp [intToStr]
  | negSucc k => simp [intToStr, Int.negSucc_lt_zero]

/-- The text of `Math.round` of a finite double of modest size. -/
theorem roundedText_finite (q : ℚ) (h : (nearestInteger q).natAbs ≤ 2 ^ 53) :
    Double.roundedText (.finite q) = intToStr (nearestInteger q) :=
  integerText_small _ h

/-- The price 0.04 as a double. -/
theorem near_cpu_price : Double.Near (Double.ofRat 0.04) (4 / 100) (1 / 2 ^ 59) := by
  have h : Double.ofRat 0.04 = .finite (5764607523034235 / 144115188075855872) := by decide!
  rw [h]
  refine ⟨_, rfl, ?_⟩
  rw [abs_le]
  constructor <;> norm_num

/-- The price 0.005 as a double. -/
theorem near_memory_price : Double.Near (Double.ofRat 0.005) (5 / 1000) (1 / 2 ^ 62) := by
  have h : Double.ofRat 0.005 = .finite (5764607523034235 / 1152921504606846976) := by decide!
  rw [h]
  refine ⟨_, rfl, ?_⟩
  rw [abs_le]
  constructor <;> norm_num

theorem abs_cast_le (n : Int) (bound : Nat) (h : |n| ≤ bound) : |(n : ℚ)| ≤ bound := by
  rw [← Int.cast_abs]
  exact_mod_cast h

/-- For integer requests and an integer replica count of modest size, the
estimate of the code is a finite double within a hundred-thousandth of the
exact value. -/
theorem totalCost_near (cpu memory replicas : JsVal) (c m r : Int)
    (hc : parseInt cpu = some c) (hm : parseInt memory = some m) (hr : replicas = .num r)
    (hsize : ModestSizes c m r) :
    Double.Near (totalCost cpu memory replicas) (exactEstimate c m r) (1 / 100000) := by
  obtain ⟨h1, h2, h3⟩ := hsize
  have hc1 : |(c : ℚ)| ≤ 1000000 := by exact_mod_cast abs_cast_le c 1000000 (by exact_mod_cast h1)
  have hm1 : |(m : ℚ)| ≤ 1000000 := by exact_mod_cast abs_cast_le m 1000000 (by exact_mod_cast h2)
  have hr1 : |(r : ℚ)| ≤ 10000 := by exact_mod_cast abs_cast_le r 10000 (by exact_mod_cast h3)
  have nc := Double.near_ofRat (c : ℚ) 20 (by norm_num) (le_trans hc1 (by norm_num))
  have nm := Double.near_ofRat (m : ℚ) 20 (by norm_num) (le_trans hm1 (by norm_num))
  have nr := Double.near_ofRat (r : ℚ) 14 (by norm_num) (le_trans hr1 (by norm_num))
  have hcpu := (Double.Near.mul 16 (by norm_num) nc near_cpu_price hc1
    (show |(4 / 100 : ℚ)| ≤ 4 / 100 by rw [abs_le]; constructor <;> norm_num)
    (by norm_num)).mono (show _ ≤ (1 / 10000000000 : ℚ) by norm_num)
  have hmem := (Double.Near.mul 13 (by norm_num) nm near_memory_price hm1
    (show |(5 / 1000 : ℚ)| ≤ 5 / 1000 by rw [abs_le]; constructor <;> norm_num)
    (by norm_num)).mono (show _ ≤ (1 / 10000000000 : ℚ) by norm_num)
  have hcb : |(c : ℚ) * (4 / 100)| ≤ 40000 := by
    rw [abs_mul, show |(4 / 100 : ℚ)| = 4 / 100 by rw [abs_of_pos]; norm_num]
    linarith [abs_nonneg (c : ℚ)]
  have hmb : |(m : ℚ) * (5 / 1000)| ≤ 5000 := by
    rw [abs_mul, show |(5 / 1000 : ℚ)| = 5 / 1000 by rw [abs_of_pos]; norm_num]
    linarith [abs_nonneg (m : ℚ)]
  have hsum := (Double.Near.add 16 (by norm_num) hcpu hmem (by norm_num; linarith)).mono
    (show _ ≤ (3 / 10000000000 : ℚ) by norm_num)
  have hsb : |(c : ℚ) * (4 / 100) + (m : ℚ) * (5 / 1000)| ≤ 45000 :=
    le_trans (abs_add _ _) (by linarith)
  have htotal := (Double.Near.mul 29 (by norm_num) hsum nr hsb hr1 (by norm_num)).mono
    (show _ ≤ (1 / 100000 : ℚ) by norm_num)
  unfold totalCost parsedNumber
  rw [hc, hm, hr]
  exact htotal

/-- For integer requests and an integer replica count of modest size, the
estimate of the code is the double nearest the exact product of two doubles,
the sum of the two costs and the replica count, and that product is below
`2 ^ 40` in size. -/
theorem totalCost_rounded (cpu memory replicas : JsVal) (c m r : Int)
    (hc : parseInt cpu = some c) (hm : parseInt memory = some m) (hr : replicas = .num r)
    (hsize : ModestSizes c m r) :
    ∃ y : ℚ, |y| ≤ 2 ^ 40 ∧ totalCost cpu memory replicas = Double.ofRat y := by
  obtain ⟨h1, h2, h3⟩ := hsize
  have hc1 : |(c : ℚ)| ≤ 1000000 := by exact_mod_cast abs_cast_le c 1000000 (by exact_mod_cast h1)
  have hm1 : |(m : ℚ)| ≤ 1000000 := by exact_mod_cast abs_cast_le m 1000000 (by exact_mod_cast h2)
  have hr1 : |(r : ℚ)| ≤ 10000 := by exact_mod_cast abs_cast_le r 10000 (by exact_mod_cast h3)
  have nc := Double.near_ofRat (c : ℚ) 20 (by norm_num) (le_trans hc1 (by norm_num))
  have nm := Double.near_ofRat (m : ℚ) 20 (by norm_num) (le_trans hm1 (by norm_num))
  have nr := Double.near_ofRat (r : ℚ) 14 (by norm_num) (le_trans hr1 (by norm_num))
  have hcpu := (Double.Near.mul 16 (by norm_num) nc near_cpu_price hc1
    (show |(4 / 100 : ℚ)| ≤ 4 / 100 by rw [abs_le]; constructor <;> norm_num)
    (by norm_num)).mono (show _ ≤ (1 / 10000000000 : ℚ) by norm_num)
  have hmem := (Double.Near.mul 13 (by norm_num) nm near_memory_price hm1
    (show |(5 / 1000 : ℚ)| ≤ 5 / 1000 by rw [abs_le]; constructor <;> norm_num)
    (by norm_num)).mono (show _ ≤ (1 / 10000000000 : ℚ) by norm_num)
  have hcb : |(c : ℚ) * (4 / 100)| ≤ 40000 := by
    rw [abs_mul, show |(4 / 100 : ℚ)| = 4 / 100 by rw [abs_of_pos]; norm_num]
    linarith [abs_nonneg (c : ℚ)]
  have hmb : |(m : ℚ) * (5 / 1000)| ≤ 5000 := by
    rw [abs_mul, show |(5 / 1000 : ℚ)| = 5 / 1000 by rw [abs_of_pos]; norm_num]
    linarith [abs_nonneg (m : ℚ)]
  have hsum := (Double.Near.add 16 (by norm_num) hcpu hmem (by norm_num; linarith)).mono
    (show _ ≤ (3 / 10000000000 : ℚ) by norm_num)
  have hsb : |(c : ℚ) * (4 / 100) + (m : ℚ) * (5 / 1000)| ≤ 45000 :=
    le_trans (abs_add _ _) (by linarith)
  obtain ⟨s, hs, hserr⟩ := hsum
  obtain ⟨t, ht, hterr⟩ := nr
  have hsa : |s| ≤ 45001 := by
    have := abs_add ((c : ℚ) * (4 / 100) + (m : ℚ) * (5 / 1000))
      (s - ((c : ℚ) * (4 / 100) + (m : ℚ) * (5 / 1000)))
    rw [show (c : ℚ) * (4 / 100) + (m : ℚ) * (5 / 1000)
      + (s - ((c : ℚ) * (4 / 100) + (m : ℚ) * (5 / 1000))) = s by ring] at this
    linarith
  have hta : |t| ≤ 10001 := by
    have := abs_add (r : ℚ) (t - r)
    rw [show (r : ℚ) + (t - r) = t by ring] at this
    have h4 : ((2 : ℚ) ^ 14 / 2 ^ 52) ≤ 1 := by norm_num
    linarith
  refine ⟨s * t, ?_, ?_⟩
  · rw [abs_mul]
    calc |s| * |t| ≤ 45001 * 10001 := mul_le_mul hsa hta (abs_nonneg _) (by norm_num)
      _ ≤ 2 ^ 40 := by norm_num
  · have key : totalCost cpu memory replicas = Double.mul (.finite s) (.finite t) := by
      unfold totalCost parsedNumber
      rw [hc, hm, hr]
      exact congrArg₂ Double.mul hs ht
    rw [key]
    rfl

/-- The size of the exact estimate for modest requests. -/
theorem exactEstimate_le (c m r : Int) (hsize : ModestSizes c m r) :
    |exactEstimate c m r| ≤ 450000000 := by
  obtain ⟨h1, h2, h3⟩ := hsize
  have hc1 : |(c : ℚ)| ≤ 1000000 := by exact_mod_cast abs_cast_le c 1000000 (by exact_mod_cast h1)
  have hm1 : |(m : ℚ)| ≤ 1000000 := by exact_mod_cast abs_cast_le m 1000000 (by exact_mod_cast h2)
  have hr1 : |(r : ℚ)| ≤ 10000 := by exact_mod_cast abs_cast_le r 10000 (by exact_mod_cast h3)
  unfold exactEstimate
  rw [abs_mul]
  have hs : |(c : ℚ) * (4 / 100) + (m : ℚ) * (5 / 1000)| ≤ 45000 := by
    refine le_trans (abs_add _ _) ?_
    rw [abs_mul, abs_mul, show |(4 / 100 : ℚ)| = 4 / 100 by rw [abs_of_pos]; norm_num,
      show |(5 / 1000 : ℚ)| = 5 / 1000 by rw [abs_of_pos]; norm_num]
    linarith
  calc |(c : ℚ) * (4 / 100) + (m : ℚ) * (5 / 1000)| * |(r : ℚ)|
      ≤ 45000 * 10000 := mul_le_mul hs hr1 (abs_nonneg _) (by norm_num)
    _ = 450000000 := by norm_num

/-- The integer `Math.round` gives is of modest size when the number is. -/
theorem nearestInteger_small (q : ℚ) (h : |q| ≤ 2000000000) :
    (nearestInteger q).natAbs ≤ 2 ^ 53 := by
  have h1 := Int.floor_le (q + 1 / 2)
  have h2 := Int.lt_floor_add_one (q + 1 / 2)
  obtain ⟨h3, h4⟩ := abs_le.1 h
  have h5 : (⌊q + 1 / 2⌋ : ℚ) ≤ 2000000001 := by linarith
  have h6 : (-2000000001 : ℚ) ≤ (⌊q + 1 / 2⌋ : ℚ) := by linarith
  have h7 : ⌊q + 1 / 2⌋ ≤ 2000000001 := by exact_mod_cast h5
  have h8 : -2000000001 ≤ ⌊q + 1 / 2⌋ := by exact_mod_cast h6
  unfold nearestInteger
  have h9 : (2 : Nat) ^ 53 = 9007199254740992 := by norm_num
  omega

/-- For integer requests and an integer replica count of modest size: the
estimate is a finite double near the exact value, three times it is a finite
double, and the cost text is that of the two rounded to integers. -/
theorem estimate_modest (config : Config) (c m r : Int)
    (hc : parseInt (requestOf config "cpu") = some c)
    (hm : parseInt (requestOf config "memory") = some m) (hr : config.replicas = .num r)
    (hsize : ModestSizes c m r) :
    ∃ q q3, estimateOf config = .finite q ∧
      Double.mul (.finite q) (.finite 3) = .finite q3 ∧
      |q - exactEstimate c m r| ≤ 1 / 100000 ∧ |q3 - q * 3| ≤ 1 / 100000 ∧
      "$".data ++ Double.roundedText (estimateOf config) ++ "-".data
        ++ Double.roundedText (Double.mul (estimateOf config) (.finite 3)) ++ "/month".data
        = costRange (nearestInteger q) (nearestInteger q3) := by
  obtain ⟨q, hq, herr⟩ := totalCost_near _ _ _ c m r hc hm hr hsize
  have hexact := exactEstimate_le c m r hsize
  have hqb : |q| ≤ 450000001 := by
    have := abs_add (exactEstimate c m r) (q - exactEstimate c m r)
    rw [show exactEstimate c m r + (q - exactEstimate c m r) = q by ring] at this
    linarith
  have h3 := (Double.Near.mul 31 (by norm_num) (Double.near_finite q) (Double.near_finite 3)
    hqb (show |(3 : ℚ)| ≤ 3 by rw [abs_of_pos]; norm_num) (by norm_num)).mono
    (show _ ≤ (1 / 100000 : ℚ) by norm_num)
  obtain ⟨q3, hq3, herr3⟩ := h3
  have hq3b : |q3| ≤ 2000000000 := by
    have := abs_add (q * 3) (q3 - q * 3)
    rw [show q * 3 + (q3 - q * 3) = q3 by ring] at this
    have h4 : |q * 3| = |q| * 3 := by rw [abs_mul, show |(3 : ℚ)| = 3 by rw [abs_of_pos]; norm_num]
    linarith
  have hest : estimateOf config = .finite q := hq
  refine ⟨q, q3, hest, hq3, herr, herr3, ?_⟩
  rw [hest, hq3, roundedText_finite q (nearestInteger_small q (le_trans hqb (by norm_num))),
    roundedText_finite q3 (nearestInteger_small q3 hq3b)]
  rfl

/-- A request that cannot be parsed makes the estimate `NaN`. -/
theorem estimate_nan (config : Config)
    (h : parseInt (requestOf config "cpu") = none ∨ parseInt (requestOf config "memory") = none) :
    estimateOf config = .nan := by
  unfold estimateOf totalCost parsedNumber
  rcases h with h | h
  · rw [h]
    cases parseInt (requestOf config "memory") <;> rfl
  · rw [h]
    cases (Double.mul (match parseInt (requestOf config "cpu") with
      | some n => Double.ofInt n
      | none => Double.nan) (Double.ofRat 0.04)) <;> rfl

end K8s

namespace K8s

/-! ## When `toYAML` returns -/

mutual
theorem toYAMLProps_total : ∀ (kvs : List (Str × JsVal)) (indent : Nat),
    renderableProps kvs = true → ∃ text, toYAMLProps kvs indent = .ok text
  | [], indent, _ => ⟨[], by rw [toYAMLProps]⟩
  | (key, value) :: rest, indent, h => by
    rw [renderableProps, Bool.and_eq_true] at h
    obtain ⟨line, hl⟩ := toYAMLEntry_total key value indent h.1
    obtain ⟨more, hm⟩ := toYAMLProps_total rest indent h.2
    exact ⟨line ++ more, by rw [toYAMLProps, hl, hm]; rfl⟩
theorem toYAMLIndexed_total : ∀ (i : Nat) (xs : List JsVal) (indent : Nat),
    renderableEntries xs = true → ∃ text, toYAMLIndexed i xs indent = .ok text
  | _, [], indent, _ => ⟨[], by rw [toYAMLIndexed]⟩
  | i, value :: rest, indent, h => by
    rw [renderableEntries, Bool.and_eq_true] at h
    obtain ⟨line, hl⟩ := toYAMLEntry_total (Nat.toDigits 10 i) value indent h.1
    obtain ⟨more, hm⟩ := toYAMLIndexed_total (i + 1) rest indent h.2
    exact ⟨line ++ more, by rw [toYAMLIndexed, hl, hm]; rfl⟩
theorem toYAMLItems_total : ∀ (xs : List JsVal) (indent : Nat),
    renderableItems xs = true → ∃ text, toYAMLItems xs indent = .ok text
  | [], indent, _ => ⟨[], by rw [toYAMLItems]⟩
  | .null :: rest, indent, h => by
    simp [renderableItems] at h
  | .arr xs :: rest, indent, h => by
    have h2 : renderableEntries xs = true ∧ renderableItems rest = true := by
      simpa [renderableItems] using h
    obtain ⟨more, hm⟩ := toYAMLItems_total rest indent h2.2
    obtain ⟨sub, hs⟩ := toYAMLIndexed_total 0 xs (indent + 1) h2.1
    exact ⟨spaces indent ++ "- \n".data ++ reindent indent sub ++ more,
      by rw [toYAMLItems, hs, hm]; rfl⟩
  | .obj kvs :: rest, indent, h => by
    have h2 : renderableProps kvs = true ∧ renderableItems rest = true := by
      simpa [renderableItems] using h
    obtain ⟨more, hm⟩ := toYAMLItems_total rest indent h2.2
    obtain ⟨sub, hs⟩ := toYAMLProps_total kvs (indent + 1) h2.1
    exact ⟨spaces indent ++ "- \n".data ++ reindent indent sub ++ more,
      by rw [toYAMLItems, hs, hm]; rfl⟩
  | .undefined :: rest, indent, h => by
    have h2 : renderableItems rest = true := by simpa [renderableItems] using h
    obtain ⟨more, hm⟩ := toYAMLItems_total rest indent h2
    exact ⟨spaces indent ++ "- ".data ++ jsToString (formatValue .undefined) ++ "\n".data
      ++ more, by rw [toYAMLItems, hm] <;> first | rfl | (intros; simp_all)⟩
  | .bool b :: rest, indent, h => by
    have h2 : renderableItems rest = true := by simpa [renderableItems] using h
    obtain ⟨more, hm⟩ := toYAMLItems_total rest indent h2
    exact ⟨spaces indent ++ "- ".data ++ jsToString (formatValue (.bool b)) ++ "\n".data
      ++ more, by rw [toYAMLItems, hm] <;> first | rfl | (intros; simp_all)⟩
  | .num n :: rest, indent, h => by
    have h2 : renderableItems rest = true := by simpa [renderableItems] using h
    obtain ⟨more, hm⟩ := toYAMLItems_total rest indent h2
    exact ⟨spaces indent ++ "- ".data ++ jsToString (formatValue (.num n)) ++ "\n".data
      ++ more, by rw [toYAMLItems, hm] <;> first | rfl | (intros; simp_all)⟩
  | .str s :: rest, indent, h => by
    have h2 : renderableItems rest = true := by simpa [renderableItems] using h
    obtain ⟨more, hm⟩ := toYAMLItems_total rest indent h2
    exact ⟨spaces indent ++ "- ".data ++ jsToString (formatValue (.str s)) ++ "\n".data
      ++ more, by rw [toYAMLItems, hm] <;> first | rfl | (intros; simp_all)⟩
theorem toYAMLEntry_total : ∀ (key : Str) (value : JsVal) (indent : Nat),
    renderable value = true → ∃ text, toYAMLEntry key value indent = .ok text
  | _, .undefined, _, _ => ⟨[], by rw [toYAMLEntry]⟩
  | _, .null, _, _ => ⟨[], by rw [toYAMLEntry]⟩
  | key, .arr xs, indent, h => by
    rw [renderable] at h
    obtain ⟨items, hi⟩ := toYAMLItems_total xs indent h
    exact ⟨_, by rw [toYAMLEntry, hi]; rfl⟩
  | key, .obj kvs, indent, h => by
    rw [renderable] at h
    obtain ⟨sub, hs⟩ := toYAMLProps_total kvs (indent + 1) h
    exact ⟨_, by rw [toYAMLEntry, hs]; rfl⟩
  | key, .bool b, indent, _ => ⟨_, by rw [toYAMLEntry]⟩
  | key, .num n, indent, _ => ⟨_, by rw [toYAMLEntry]⟩
  | key, .str s, indent, _ => ⟨_, by rw [toYAMLEntry]⟩
end

/-- The method `toYAML` returns on an object whose properties can be rendered. -/
theorem toYAML_total (kvs : List (Str × JsVal)) (h : renderableProps kvs = true) :
    ∃ text, toYAML (.obj kvs) 0 = .ok text :=
  toYAMLProps_total kvs 0 h

theorem renderable_of_leaf {v : JsVal} (h : isLeaf v = true) : renderable v = true := by
  cases v with
  | arr xs => cases h
  | obj kvs => cases h
  | undefined => rfl
  | null => rfl
  | bool b => rfl
  | num n => rfl
  | str s => rfl

theorem isLeaf_jsOr {a b : JsVal} (ha : isLeaf a = true) (hb : isLeaf b = true) :
    isLeaf (jsOr a b) = true := by
  unfold jsOr
  split
  · exact ha
  · exact hb

theorem renderable_jsOr {a b : JsVal} (ha : renderable a = true) (hb : renderable b = true) :
    renderable (jsOr a b) = true := by
  unfold jsOr
  split
  · exact ha
  · exact hb

theorem jsOr_of_nullish {a : JsVal} (b : JsVal) (h : isNullish a = true) : jsOr a b = b := by
  cases a with
  | undefined => rfl
  | null => rfl
  | bool c => cases h
  | num n => cases h
  | str s => cases h
  | arr xs => cases h
  | obj kvs => cases h

/-- A leaf that stands as the item of an array when it is truthy. -/
theorem renderableItems_truthy_leaf {v : JsVal} (h : isLeaf v = true) (ht : truthy v = true) :
    renderableItems [v] = true := by
  cases v with
  | arr xs => cases h
  | obj kvs => cases h
  | undefined => cases ht
  | null => cases ht
  | bool b => simp [renderableItems]
  | num n => simp [renderableItems]
  | str s => simp [renderableItems]

theorem renderableItems_append (xs ys : List JsVal) :
    renderableItems (xs ++ ys) = (renderableItems xs && renderableItems ys) := by
  induction xs with
  | nil => simp [renderableItems]
  | cons x rest ih =>
    cases x <;> simp [renderableItems, ih, Bool.and_assoc]

theorem renderableItems_objects (xs : List JsVal)
    (h : ∀ x ∈ xs, ∃ kvs, x = .obj kvs ∧ renderableProps kvs = true) :
    renderableItems xs = true := by
  induction xs with
  | nil => rw [renderableItems]
  | cons x rest ih =>
    obtain ⟨kvs, rfl, hk⟩ := h x (List.mem_cons_self _ _)
    rw [renderableItems, ih fun y hy => h y (List.mem_cons_of_mem _ hy)]
    simp [hk]

/-- The references `buildEnvVars` returns can be rendered. -/
theorem renderableItems_refs (config : Config) (keys secretKeys : List Str) :
    renderableItems (keys.map (fun key => configMapRef config key)
      ++ secretKeys.map (fun key => secretRef config key)) = true := by
  apply renderableItems_objects
  intro x hx
  rcases List.mem_append.1 hx with h | h
  · obtain ⟨key, _, rfl⟩ := List.mem_map.1 h
    exact ⟨_, rfl, by simp [renderableProps, renderable, prop, withSuffix]⟩
  · obtain ⟨key, _, rfl⟩ := List.mem_map.1 h
    exact ⟨_, rfl, by simp [renderableProps, renderable, prop, withSuffix]⟩

theorem toYAMLEntry_of_nullish (key : Str) {v : JsVal} (indent : Nat)
    (h : isNullish v = true) : toYAMLEntry key v indent = .ok [] := by
  cases v <;> first | rfl | cases h

theorem toYAMLEntry_of_scalar (key : Str) {v : JsVal} (indent : Nat)
    (h : isScalar v = true) : toYAMLEntry key v indent = .ok (scalarLine indent key v) := by
  cases v with
  | bool b => rw [toYAMLEntry]
  | num n => rw [toYAMLEntry]
  | str s => rw [toYAMLEntry]
  | undefined => cases h
  | null => cases h
  | arr xs => cases h
  | obj inner => cases h

/-- A fallback for a leaf gives a scalar when the fallback is one. -/
theorem isScalar_jsOr {a b : JsVal} (ha : isLeaf a = true) (hb : isScalar b = true) :
    isScalar (jsOr a b) = true := by
  unfold jsOr
  split
  · rename_i ht
    cases a with
    | arr xs => cases ha
    | obj kvs => cases ha
    | undefined => cases ht
    | null => cases ht
    | bool c => rfl
    | num n => rfl
    | str s => rfl
  · exact hb

theorem renderableProps_append (front back : List (Str × JsVal)) :
    renderableProps (front ++ back) = (renderableProps front && renderableProps back) := by
  induction front with
  | nil => simp [renderableProps]
  | cons kv rest ih =>
    obtain ⟨key, value⟩ := kv
    rw [List.cons_append, renderableProps, renderableProps, ih, Bool.and_assoc]

theorem renderable_obj (kvs : List (Str × JsVal)) : renderable (.obj kvs) = renderableProps kvs := by
  rw [renderable]

theorem renderable_arr (xs : List JsVal) : renderable (.arr xs) = renderableItems xs := by
  rw [renderable]

theorem renderable_str (s : Str) : renderable (.str s) = true := rfl

theorem renderable_num (n : Int) : renderable (.num n) = true := rfl

theorem renderable_bool (b : Bool) : renderable (.bool b) = true := rfl

theorem optionalManifest_of_ok (guard : Bool) (key : String) (text : Str) :
    optionalManifest guard key (.ok text) = .ok (if guard then [(key.data, text)] else []) := by
  cases guard <;> rfl

end K8s


namespace SecurityScanner

open K8s (Str JsVal JsError)

theorem hit_severity (code : Str) (hit : Str × PatternConfig × Nat) (h : hit ∈ hits code) :
    hit.1 = "critical".data ∨ hit.1 = "high".data ∨ hit.1 = "medium".data := by
  unfold hits at h
  obtain ⟨group, hg, h⟩ := List.mem_flatMap.1 h
  obtain ⟨entry, _, h⟩ := List.mem_flatMap.1 h
  obtain ⟨index, _, h⟩ := List.mem_map.1 h
  subst h
  simp only [patterns, List.mem_cons, List.mem_singleton, List.not_mem_nil, or_false] at hg
  rcases hg with hg | hg | hg <;> subst hg
  · exact Or.inl rfl
  · exact Or.inr (Or.inl rfl)
  · exact Or.inr (Or.inr rfl)

theorem finding_severity (code : Str) (f : Finding) (h : f ∈ collectFindings code) :
    f.severity = "CRITICAL".data ∨ f.severity = "HIGH".data ∨ f.severity = "MEDIUM".data := by
  unfold collectFindings at h
  obtain ⟨numbered, hn, h⟩ := List.mem_map.1 h
  subst h
  have hm : numbered.2 ∈ hits code := by
    obtain ⟨hlt, heq⟩ := List.mem_enum (i := numbered.1) hn
    rw [heq]
    exact List.getElem_mem hlt
  rcases hit_severity code _ hm with hs | hs | hs
  · exact Or.inl (by simp only [findingOf, hs]; decide)
  · exact Or.inr (Or.inl (by simp only [findingOf, hs]; decide))
  · exact Or.inr (Or.inr (by simp only [findingOf, hs]; decide))

theorem grouped_total (findings : List Finding)
    (h : ∀ f ∈ findings, f.severity = "CRITICAL".data ∨ f.severity = "HIGH".data
      ∨ f.severity = "MEDIUM".data) :
    (findings.length : Int) = (groupBySeverity findings).critical
      + (groupBySeverity findings).high + (groupBySeverity findings).medium
      + (groupBySeverity findings).low := by
  induction findings with
  | nil => rfl
  | cons f rest ih =>
    have ih2 := ih fun g hg => h g (List.mem_cons_of_mem _ hg)
    simp only [groupBySeverity] at ih2 ⊢
    rcases h f (List.mem_cons_self _ _) with hs | hs | hs
    all_goals
      simp only [List.filter_cons, hs, List.length_cons]
      simp only [show ("CRITICAL".data == "CRITICAL".data) = true from by decide,
        show ("HIGH".data == "HIGH".data) = true from by decide,
        show ("MEDIUM".data == "MEDIUM".data) = true from by decide,
        show ("CRITICAL".data == "HIGH".data) = false from by decide,
        show ("CRITICAL".data == "MEDIUM".data) = false from by decide,
        show ("CRITICAL".data == "LOW".data) = false from by decide,
        show ("HIGH".data == "CRITICAL".data) = false from by decide,
        show ("HIGH".data == "MEDIUM".data) = false from by decide,
        show ("HIGH".data == "LOW".data) = false from by decide,
        show ("MEDIUM".data == "CRITICAL".data) = false from by decide,
        show ("MEDIUM".data == "HIGH".data) = false from by decide,
        show ("MEDIUM".data == "LOW".data) = false from by decide,
        if_true, List.length_cons]
      push_cast
      omega

theorem scan_ok (code : Str) (options : JsVal) (hopt : options ≠ .null) :
    ∃ language, scan code options = .ok {
      securityScore := calculateSecurityScore (groupBySeverity (collectFindings code))
      totalIssues := (collectFindings code).length
      issuesBySeverity := groupBySeverity (collectFindings code)
      findings := sortFindings (collectFindings code)
      riskLevel := getRiskLevel (calculateSecurityScore (groupBySeverity (collectFindings code)))
        (groupBySeverity (collectFindings code))
      recommendations := generateRecommendations (collectFindings code)
      language := language } := by
  cases options with
  | null => exact absurd rfl hopt
  | undefined => exact ⟨_, rfl⟩
  | bool b => exact ⟨_, rfl⟩
  | num n => exact ⟨_, rfl⟩
  | str s => exact ⟨_, rfl⟩
  | arr xs => exact ⟨_, rfl⟩
  | obj kvs => exact ⟨_, rfl⟩

theorem sortFindings_chain (findings : List Finding) :
    List.Chain' (fun f g => severityWeight f.severity ≥ severityWeight g.severity)
      (sortFindings findings) := by
  haveI : IsTotal Finding bySeverity := ⟨fun a b => Nat.le_total _ _⟩
  haveI : IsTrans Finding bySeverity := ⟨fun a b c hab hbc => Nat.le_trans hbc hab⟩
  exact (List.sorted_insertionSort bySeverity findings).chain'

end SecurityScanner

namespace SecurityScanner

open K8s (Str JsVal JsError)

/-! ## Lemmas on the ids -/

theorem digitChar_value (n : Nat) (h : n < 10) : (Nat.digitChar n).toNat - 48 = n := by
  interval_cases n <;> rfl

/-- Reading the digits `toDigitsCore` puts before `ds` continues from `n`. -/
theorem toDigitsCore_value (fuel : Nat) :
    ∀ (n : Nat) (ds : Str), n < fuel →
      (Nat.toDigitsCore 10 fuel n ds).foldl (fun acc c => 10 * acc + (c.toNat - 48)) 0
        = ds.foldl (fun acc c => 10 * acc + (c.toNat - 48)) n := by
  induction fuel with
  | zero => intro n ds h; exact absurd h (Nat.not_lt_zero n)
  | succ fuel ih =>
    intro n ds h
    unfold Nat.toDigitsCore
    simp only
    have hd := digitChar_value (n % 10) (Nat.mod_lt _ (by decide))
    split
    · rename_i h0
      rw [List.foldl_cons, hd]
      have : n % 10 = n := by omega
      simp [this]
    · rename_i h0
      rw [ih (n / 10) _ (by omega), List.foldl_cons, hd]
      have : 10 * (n / 10) + n % 10 = n := Nat.div_add_mod n 10
      rw [this]

theorem digitsValue_toDigits (n : Nat) : K8s.digitsValue (Nat.toDigits 10 n) = n := by
  unfold K8s.digitsValue Nat.toDigits
  rw [toDigitsCore_value (n + 1) n [] (Nat.lt_succ_self n)]
  rfl

theorem digitsValue_zeros (m : Nat) (ds : Str) :
    K8s.digitsValue (List.replicate m '0' ++ ds) = K8s.digitsValue ds := by
  unfold K8s.digitsValue
  induction m with
  | zero => rfl
  | succ m ih =>
    rw [List.replicate_succ, List.cons_append, List.foldl_cons]
    exact ih

/-- The counter value can be read back from an id. -/
theorem idOf_value (k : Nat) : K8s.digitsValue ((idOf k).drop 4) = k := by
  show K8s.digitsValue (padStart 3 '0' (Nat.toDigits 10 k)) = k
  unfold padStart
  rw [digitsValue_zeros, digitsValue_toDigits]

theorem idOf_injective : Function.Injective idOf := by
  intro a b h
  rw [← idOf_value a, ← idOf_value b, h]

theorem findingOf_id (code : Str) (k : Nat) (hit : Str × PatternConfig × Nat) :
    (findingOf code k hit).id = idOf k := rfl

theorem idOf_three_digits : ∀ k, k < 1000 → isThreeDigitId (idOf k) = true := by
  decide!

/-- The ids of the findings collected, in the order of the loops. -/
theorem collectFindings_ids (code : Str) :
    (collectFindings code).map (fun f => f.id)
      = (List.range (hits code).length).map fun i => idOf (i + 1) := by
  unfold collectFindings
  rw [List.map_map, ← List.enum_map_fst (hits code), List.map_map]
  rfl

theorem collectFindings_length (code : Str) :
    (collectFindings code).length = (hits code).length := by
  unfold collectFindings
  rw [List.length_map, List.enum_length]

theorem sortFindings_ids_perm (findings : List Finding) :
    ((sortFindings findings).map fun f => f.id).Perm (findings.map fun f => f.id) :=
  (List.perm_insertionSort bySeverity findings).map _

/-- The finding pushed at a counter value is in the result of `scan`. -/
theorem scan_finding_with_id (code : Str) (options : JsVal) (hopt : options ≠ .null) (k : Nat)
    (hk1 : 1 ≤ k) (hk2 : k ≤ (hits code).length) :
    ∃ result, scan code options = .ok result ∧ ∃ f ∈ result.findings, f.id = idOf k := by
  obtain ⟨language, h⟩ := scan_ok code options hopt
  refine ⟨_, h, ?_⟩
  have hlt : k - 1 < (hits code).length := by omega
  refine ⟨findingOf code k ((hits code).get ⟨k - 1, hlt⟩), ?_, rfl⟩
  show _ ∈ sortFindings (collectFindings code)
  rw [sortFindings, List.mem_insertionSort]
  unfold collectFindings
  refine List.mem_map.2 ⟨(k - 1, (hits code).get ⟨k - 1, hlt⟩), ?_, ?_⟩
  · rw [List.mk_mem_enum_iff_getElem?]
    exact List.getElem?_eq_getElem hlt
  · show findingOf code (k - 1 + 1) _ = findingOf code k _
    rw [Nat.sub_add_cancel hk1]

end SecurityScanner

namespace K8s

/-! ## Claims -/

/-- C1: for every options object whose environment is absent or one of
dev, staging, production, the manifests returned by `generate` contain
`deployment` and `service`; they contain `configMap` exactly when `envVars` has
at least one key, `secret` exactly when `secrets` has at least one key,
`ingress` exactly when `enableIngress` is set and `hpa` exactly when
`enableAutoscaling` is set. -/
theorem generate_manifests_present (options : Options) (result : Result)
    (_henv : RecognisedEnvironment options.environment)
    (hgen : generate options = .ok result) :
    HasManifest result.manifests "deployment" ∧
    HasManifest result.manifests "service" ∧
    (HasManifest result.manifests "configMap" ↔ 0 < keyCount options.envVars) ∧
    (HasManifest result.manifests "secret" ↔ 0 < keyCount options.secrets) ∧
    (HasManifest result.manifests "ingress" ↔ truthy options.enableIngress = true) ∧
    (HasManifest result.manifests "hpa" ↔ truthy options.enableAutoscaling = true) := by
  unfold HasManifest
  rw [generate_manifest_keys hgen]
  by_cases h1 : 0 < keyCount options.envVars <;>
  by_cases h2 : 0 < keyCount options.secrets <;>
  by_cases h3 : truthy options.enableIngress = true <;>
  by_cases h4 : truthy options.enableAutoscaling = true <;>
  simp [h1, h2, h3, h4]

/-- Witness of C1: the options above give a result with deployment, service,
configMap and ingress, and without secret and hpa. -/
theorem generate_manifests_present_witness :
    ∃ result, generate optionsWithEnvVars = .ok result ∧
      HasManifest result.manifests "deployment" ∧
      HasManifest result.manifests "service" ∧
      (HasManifest result.manifests "configMap" ↔ 0 < keyCount optionsWithEnvVars.envVars) ∧
      (HasManifest result.manifests "secret" ↔ 0 < keyCount optionsWithEnvVars.secrets) ∧
      (HasManifest result.manifests "ingress"
        ↔ truthy optionsWithEnvVars.enableIngress = true) ∧
      (HasManifest result.manifests "hpa"
        ↔ truthy optionsWithEnvVars.enableAutoscaling = true) := by
  obtain ⟨result, hgen⟩ := ok_of_toBool (rfl : (generate optionsWithEnvVars).toBool = true)
  exact ⟨result, hgen,
    generate_manifests_present optionsWithEnvVars result (Or.inl rfl) hgen⟩

/-- C2: for every config (whose `envVars` and `secrets` can be enumerated),
`buildEnvVars` returns one entry per key of `envVars`, in key order, followed
by one entry per key of `secrets`; each entry has `name` equal to the key and a
`valueFrom` reference, `configMapKeyRef` named `<appName>-config` for a key of
`envVars` and `secretKeyRef` named `<appName>-secrets` for a key of `secrets`,
each with `key` equal to the key; no entry has a property `value`. -/
theorem buildEnvVars_references (config : Config) (keys secretKeys : List Str)
    (hk : objectKeys config.envVars = .ok keys)
    (hs : objectKeys config.secrets = .ok secretKeys) :
    ∃ env, buildEnvVars config = .ok env ∧
      env = keys.map (fun key => JsVal.obj [
          ("name".data, .str key),
          ("valueFrom".data, .obj [
            ("configMapKeyRef".data, .obj [
              ("name".data, .str (jsToString config.appName ++ "-config".data)),
              ("key".data, .str key)])])])
        ++ secretKeys.map (fun key => JsVal.obj [
          ("name".data, .str key),
          ("valueFrom".data, .obj [
            ("secretKeyRef".data, .obj [
              ("name".data, .str (jsToString config.appName ++ "-secrets".data)),
              ("key".data, .str key)])])]) ∧
      ∀ e ∈ env, getProp e "value".data = .ok .undefined := by
  refine ⟨_, buildEnvVars_ok hk hs, rfl, ?_⟩
  intro e he
  rcases List.mem_append.mp he with h | h
  · obtain ⟨key, _, rfl⟩ := List.mem_map.mp h
    rfl
  · obtain ⟨key, _, rfl⟩ := List.mem_map.mp h
    rfl

/-- Witness of C2 on the config above. -/
theorem buildEnvVars_references_witness :
    ∃ env, buildEnvVars configWithSecrets = .ok env ∧
      env = ["NODE_ENV".data, "LOG_LEVEL".data].map (fun key => JsVal.obj [
          ("name".data, .str key),
          ("valueFrom".data, .obj [
            ("configMapKeyRef".data, .obj [
              ("name".data, .str (jsToString configWithSecrets.appName ++ "-config".data)),
              ("key".data, .str key)])])])
        ++ ["API_KEY".data].map (fun key => JsVal.obj [
          ("name".data, .str key),
          ("valueFrom".data, .obj [
            ("secretKeyRef".data, .obj [
              ("name".data, .str (jsToString configWithSecrets.appName ++ "-secrets".data)),
              ("key".data, .str key)])])]) ∧
      ∀ e ∈ env, getProp e "value".data = .ok .undefined :=
  buildEnvVars_references configWithSecrets ["NODE_ENV".data, "LOG_LEVEL".data]
    ["API_KEY".data] rfl rfl

/-- C3: for two configs that differ only in the values (not the keys) stored
in `envVars` and `secrets`, `generateDeployment` gives the same outcome: the
Deployment text does not depend on any secret or config value. -/
theorem generateDeployment_ignores_values (config : Config)
    (envVars1 secrets1 envVars2 secrets2 : JsVal)
    (hk : objectKeys envVars1 = objectKeys envVars2)
    (hs : objectKeys secrets1 = objectKeys secrets2) :
    generateDeployment { config with envVars := envVars1, secrets := secrets1 }
      = generateDeployment { config with envVars := envVars2, secrets := secrets2 } := by
  have henv : buildEnvVars { config with envVars := envVars1, secrets := secrets1 }
      = buildEnvVars { config with envVars := envVars2, secrets := secrets2 } :=
    buildEnvVars_congr rfl hk hs
  unfold generateDeployment deploymentObject
  rw [henv]
  rfl

/-- Witness of C3: changing the secret and a configuration value of the
config above leaves the Deployment text, which is returned, the same. -/
theorem generateDeployment_ignores_values_witness :
    (generateDeployment { configWithSecrets with
        envVars := .obj [prop "NODE_ENV" (lit "production"), prop "LOG_LEVEL" (lit "info")],
        secrets := .obj [prop "API_KEY" (lit "secret-key-12345")] }).toBool = true ∧
    generateDeployment { configWithSecrets with
        envVars := .obj [prop "NODE_ENV" (lit "production"), prop "LOG_LEVEL" (lit "info")],
        secrets := .obj [prop "API_KEY" (lit "secret-key-12345")] }
      = generateDeployment { configWithSecrets with
        envVars := .obj [prop "NODE_ENV" (lit "staging"), prop "LOG_LEVEL" (lit "debug")],
        secrets := .obj [prop "API_KEY" (lit "another-key")] } :=
  ⟨rfl, generateDeployment_ignores_values configWithSecrets _ _ _ _ rfl rfl⟩

end K8s

namespace K8s

/-- C4: in every result of `generate` with string-valued `envVars` and
`secrets`, each ConfigMap reference and each Secret reference in the env list
of the Deployment points to a manifest present in the same result, whose
`metadata.name` is the referenced name and whose `data` (resp. `stringData`)
block has the referenced key, which is rendered as a line of the manifest. -/
theorem generate_references_resolve (options : Options) (result : Result)
    (hgen : generate options = .ok result)
    (henv : StringValued options.envVars) (hsec : StringValued options.secrets) :
    ReferencesResolve options result := by
  obtain ⟨config, deployment, service, configMap, secret, ingress, hpa, summary,
    hc, hd, _, hcm, hsc, _, _, _, hr⟩ := generate_ok_parts hgen
  have hm : result.manifests = [("deployment".data, deployment), ("service".data, service)]
      ++ configMap ++ secret ++ ingress ++ hpa := by
    rw [hr]
  -- the config keeps the raw maps
  have hc2 := hc
  unfold buildConfig at hc2
  obtain ⟨replicas, _, hc2⟩ := bind_eq_ok hc2
  obtain ⟨resources, _, hc2⟩ := bind_eq_ok hc2
  obtain ⟨hcc, _, hc2⟩ := bind_eq_ok hc2
  have hee : config.envVars = jsOr options.envVars (.obj []) := by cases hc2; rfl
  have hss : config.secrets = jsOr options.secrets (.obj []) := by cases hc2; rfl
  -- both maps are objects
  obtain ⟨envs, hE, hEraw, hEstr⟩ : ∃ envs : List (Str × JsVal), config.envVars = .obj envs ∧
      keyCount options.envVars = envs.length ∧ ∀ kv ∈ envs, ∃ s, kv.2 = .str s := by
    rcases henv with h | ⟨kvs, h, hs⟩
    · exact ⟨[], by rw [hee, h]; rfl, by rw [h]; rfl, by simp⟩
    · exact ⟨kvs, by rw [hee, h]; rfl, by rw [h]; simp [keyCount, objectKeys, objectEntries, Except.map], hs⟩
  obtain ⟨secs, hS, hSraw, hSstr⟩ : ∃ secs : List (Str × JsVal), config.secrets = .obj secs ∧
      keyCount options.secrets = secs.length ∧ ∀ kv ∈ secs, ∃ s, kv.2 = .str s := by
    rcases hsec with h | ⟨kvs, h, hs⟩
    · exact ⟨[], by rw [hss, h]; rfl, by rw [h]; rfl, by simp⟩
    · exact ⟨kvs, by rw [hss, h]; rfl, by rw [h]; simp [keyCount, objectKeys, objectEntries, Except.map], hs⟩
  have hkE : objectKeys config.envVars = .ok (envs.map Prod.fst) := by rw [hE]; rfl
  have hkS : objectKeys config.secrets = .ok (secs.map Prod.fst) := by rw [hS]; rfl
  refine ⟨config, _, deployment, hc, buildEnvVars_ok hkE hkS, by rw [hm]; rfl, hd, ?_, ?_⟩
  · intro e he name key hpath
    rcases List.mem_append.mp he with h | h
    · obtain ⟨k, hk, rfl⟩ := List.mem_map.mp h
      have hpath2 : JsVal.obj [("name".data, withSuffix config.appName "-config"),
          ("key".data, .str k)] = .obj [("name".data, name), ("key".data, .str key)] := hpath
      injection hpath2 with hpath2
      simp only [List.cons.injEq, Prod.mk.injEq, JsVal.str.injEq, true_and, and_true] at hpath2
      obtain ⟨hname, hkey⟩ := hpath2
      subst hkey
      obtain ⟨kv, hkv, hfst⟩ := List.mem_map.mp hk
      obtain ⟨k2, v⟩ := kv
      simp only at hfst
      subst hfst
      obtain ⟨value, hv⟩ := hEstr _ hkv
      simp only at hv
      subst hv
      have hpos : 0 < keyCount options.envVars := by
        rw [hEraw]; exact List.length_pos_of_mem hkv
      rcases optionalManifest_ok hcm with ⟨g, _⟩ | ⟨_, text, htext, rfl⟩
      · simp [hpos] at g
      · refine ⟨text, value, by rw [hm]; rfl, htext, hname, ⟨envs, by rw [← hE]; rfl, hkv⟩, ?_⟩
        unfold generateConfigMap toYAML configMapObject at htext
        simp only at htext
        rw [hE] at htext
        obtain ⟨sub, hsub, hin⟩ := toYAMLProps_sub htext "data".data envs (by simp [prop])
        exact (toYAMLProps_line hsub hkv).trans hin
    · obtain ⟨k, hk, rfl⟩ := List.mem_map.mp h
      cases hpath
  · intro e he name key hpath
    rcases List.mem_append.mp he with h | h
    · obtain ⟨k, hk, rfl⟩ := List.mem_map.mp h
      cases hpath
    · obtain ⟨k, hk, rfl⟩ := List.mem_map.mp h
      have hpath2 : JsVal.obj [("name".data, withSuffix config.appName "-secrets"),
          ("key".data, .str k)] = .obj [("name".data, name), ("key".data, .str key)] := hpath
      injection hpath2 with hpath2
      simp only [List.cons.injEq, Prod.mk.injEq, JsVal.str.injEq, true_and, and_true] at hpath2
      obtain ⟨hname, hkey⟩ := hpath2
      subst hkey
      obtain ⟨kv, hkv, hfst⟩ := List.mem_map.mp hk
      obtain ⟨k2, v⟩ := kv
      simp only at hfst
      subst hfst
      obtain ⟨value, hv⟩ := hSstr _ hkv
      simp only at hv
      subst hv
      have hpos : 0 < keyCount options.secrets := by
        rw [hSraw]; exact List.length_pos_of_mem hkv
      rcases optionalManifest_ok hsc with ⟨g, _⟩ | ⟨_, text, htext, rfl⟩
      · simp [hpos] at g
      · refine ⟨text, value, ?_, htext, hname, ⟨secs, by rw [← hS]; rfl, hkv⟩, ?_⟩
        · rw [hm]
          rcases optionalManifest_ok hcm with ⟨_, rfl⟩ | ⟨_, t1, _, rfl⟩ <;> rfl
        · unfold generateSecret toYAML secretObject at htext
          simp only at htext
          rw [hS] at htext
          obtain ⟨sub, hsub, hin⟩ := toYAMLProps_sub htext "stringData".data secs
            (by simp [prop])
          exact (toYAMLProps_line hsub hkv).trans hin

/-- Witness of C4: the example of the specification returns a result, in
which the references to `web-api-config` and `web-api-secrets` resolve. -/
theorem generate_references_resolve_witness :
    ∃ result, generate optionsFull = .ok result ∧ ReferencesResolve optionsFull result := by
  obtain ⟨result, hgen⟩ := ok_of_toBool (rfl : (generate optionsFull).toBool = true)
  refine ⟨result, hgen, generate_references_resolve optionsFull result hgen ?_ ?_⟩
  · exact Or.inr ⟨_, rfl, by simp [prop, lit]⟩
  · exact Or.inr ⟨_, rfl, by simp [prop, lit]⟩

end K8s

namespace K8s

/-- C5: `formatValue` wraps a string in double quotes exactly when the string
is `true`, `false` or `null` in any letter case, consists only of decimal
digits, or contains a colon or a `#`; every other string, and every value that
is not a string, is returned unchanged. -/
theorem formatValue_quotes (value : JsVal) :
    formatValue value =
      match value with
      | .str s => if NeedsQuotes s then .str ('"' :: s ++ ['"']) else .str s
      | other => other := by
  cases value with
  | str s =>
    unfold formatValue
    by_cases h : NeedsQuotes s
    · simp only [if_pos h, if_pos ((needsQuotes_iff s).mpr h)]
    · have h2 : ¬ ((regexTest s || includes s ':' || includes s '#') = true) :=
        fun hc => h ((needsQuotes_iff s).mp hc)
      simp only [if_neg h, if_neg h2]
  | undefined => rfl
  | null => rfl
  | bool b => rfl
  | num n => rfl
  | arr xs => rfl
  | obj kvs => rfl

end K8s

namespace K8s

/-- C6, counterexample: an empty string, an empty mapping and an empty
sequence each leave a line in the rendering (only the `null` entry leaves
none), and the Deployment of the basic config, which has no `envVars` and no
`secrets`, has an `env:` line. -/
theorem toYAML_renders_empty_values :
    toYAML (.obj [prop "a" (lit ""), prop "b" (.obj []), prop "c" (.arr []), prop "d" .null]) 0
      = .ok "a: \nb:\nc:\n".data ∧
    ∃ text, generateDeployment basicConfig = .ok text ∧ "        env:\n".data <:+: text :=
  ⟨by decide, exists_of_map_decide (by decide!)⟩

/-- C6, amended: `toYAML` emits no line for a property holding `null` or
`undefined` (the rendering is that of the object without those properties); a
property holding the empty string is rendered as `key: `, one holding an empty
mapping or an empty sequence as the bare line `key:`; the Deployment of a
config whose `envVars` and `secrets` are empty has the bare line `env:`. -/
theorem toYAML_omits_only_nullish (kvs : List (Str × JsVal)) (key : Str) (indent : Nat)
    (config : Config) (text : Str)
    (henv : config.envVars = .obj []) (hsec : config.secrets = .obj [])
    (hgen : generateDeployment config = .ok text) :
    toYAML (.obj kvs) indent = toYAML (.obj (kvs.filter fun kv => !isNullish kv.2)) indent ∧
    toYAML (.obj [(key, .str [])]) indent = .ok (spaces indent ++ key ++ ": \n".data) ∧
    toYAML (.obj [(key, .obj [])]) indent = .ok (spaces indent ++ key ++ ":\n".data) ∧
    toYAML (.obj [(key, .arr [])]) indent = .ok (spaces indent ++ key ++ ":\n".data) ∧
    (spaces 4 ++ "env:\n".data) <:+: text := by
  refine ⟨toYAMLProps_filter kvs indent, ?_, ?_, ?_, ?_⟩
  · simp [toYAML, toYAMLProps, toYAMLEntry, scalarLine, formatValue, regexTest, matchLiteral,
      matchDigits, includes, jsToString, bind, Except.bind, pure, Except.pure]
  · simp [toYAML, toYAMLProps, toYAMLEntry, bind, Except.bind, pure, Except.pure]
  · simp [toYAML, toYAMLProps, toYAMLEntry, toYAMLItems, bind, Except.bind, pure, Except.pure]
  · obtain ⟨env, sub, hb, hsub, hin⟩ := generateDeployment_container hgen
    have hk : objectKeys config.envVars = .ok [] := by rw [henv]; rfl
    have hs : objectKeys config.secrets = .ok [] := by rw [hsec]; rfl
    rw [buildEnvVars_ok hk hs] at hb
    cases hb
    obtain ⟨line, hl, hlin⟩ := toYAMLProps_mem hsub
      (List.mem_cons_of_mem _ (List.mem_cons_of_mem _ (List.mem_cons_of_mem _
        (List.mem_cons_of_mem _ (List.mem_cons_self _ _)))))
    obtain ⟨items, hi, rfl⟩ := toYAMLEntry_arr hl
    cases hi
    have : spaces 4 ++ "env:\n".data = spaces 4 ++ "env".data ++ ":\n".data ++ [] := by
      simp
    rw [this]
    exact hlin.trans hin

/-- Witness of C6 (amended) on the basic config. -/
theorem toYAML_omits_only_nullish_witness :
    ∃ text, generateDeployment basicConfig = .ok text ∧
      toYAML (.obj [prop "a" .null, prop "b" (.num 1)]) 0
        = toYAML (.obj ([prop "a" .null, prop "b" (.num 1)].filter
            fun kv => !isNullish kv.2)) 0 ∧
      toYAML (.obj [("k".data, .str [])]) 0 = .ok (spaces 0 ++ "k".data ++ ": \n".data) ∧
      toYAML (.obj [("k".data, .obj [])]) 0 = .ok (spaces 0 ++ "k".data ++ ":\n".data) ∧
      toYAML (.obj [("k".data, .arr [])]) 0 = .ok (spaces 0 ++ "k".data ++ ":\n".data) ∧
      (spaces 4 ++ "env:\n".data) <:+: text := by
  obtain ⟨text, hgen⟩ := ok_of_toBool (rfl : (generateDeployment basicConfig).toBool = true)
  exact ⟨text, hgen,
    toYAML_omits_only_nullish [prop "a" .null, prop "b" (.num 1)] "k".data 0 basicConfig text
      rfl rfl hgen⟩

end K8s

namespace K8s

/-- C7, the code at the config of the test `should generate valid Deployment
YAML`: for the image `nginx:latest` the Deployment text does not contain
`image: nginx:latest`, which the test expects; the image stands between double
quotes. On the config as the test writes it, without `envVars`, the call
throws. -/
theorem generateDeployment_image_quoted :
    (∃ text, generateDeployment nginxConfig = .ok text ∧
      (¬ "image: nginx:latest".data <:+: text ∧ "image: \"nginx:latest\"\n".data <:+: text)) ∧
    generateDeployment nginxBareConfig = .error .typeError :=
  ⟨exists_of_map_decide (by decide!), by decide!⟩

/-- The image line in general: for every config whose image is a string, the
text returned by `generateDeployment` contains the line `image: ` followed by the image as
`formatValue` renders it: exactly as given when the image is not one of the
strings that are quoted, and between double quotes when it is (a colon, as in
`nginx:latest`, makes it one). -/
theorem generateDeployment_image_line (config : Config) (text image : Str)
    (himg : config.image = .str image)
    (hgen : generateDeployment config = .ok text) :
    ("image: ".data ++ rendered image ++ "\n".data) <:+: text ∧
    (¬ NeedsQuotes image → ("image: ".data ++ image ++ "\n".data) <:+: text) ∧
    (NeedsQuotes image → ("image: \"".data ++ image ++ "\"\n".data) <:+: text) := by
  obtain ⟨env, sub, _, hsub, hin⟩ := generateDeployment_container hgen
  have hmem : ("image".data, JsVal.str image) ∈ containerProps config env := by
    unfold containerProps
    rw [himg]
    exact List.mem_cons_of_mem _ (List.mem_cons_self _ _)
  have hline : ("image: ".data ++ rendered image ++ "\n".data) <:+: text :=
    ((scalarLine_str_within 4 "image".data image).trans (toYAMLProps_line hsub hmem)).trans hin
  refine ⟨hline, ?_, ?_⟩
  · intro hq
    simpa [rendered, hq] using hline
  · intro hq
    simpa [rendered, hq] using hline

/-- The image line of the config of the test. -/
theorem generateDeployment_image_line_witness :
    ∃ text, generateDeployment nginxConfig = .ok text ∧
      ("image: ".data ++ rendered "nginx:latest".data ++ "\n".data) <:+: text ∧
      (¬ NeedsQuotes "nginx:latest".data →
        ("image: ".data ++ "nginx:latest".data ++ "\n".data) <:+: text) ∧
      (NeedsQuotes "nginx:latest".data →
        ("image: \"".data ++ "nginx:latest".data ++ "\"\n".data) <:+: text) := by
  obtain ⟨text, hgen⟩ := ok_of_toBool (rfl : (generateDeployment nginxConfig).toBool = true)
  exact ⟨text, hgen,
    generateDeployment_image_line nginxConfig text "nginx:latest".data rfl hgen⟩

/-- C8, the code at the config of the test `should generate ConfigMap with
env vars`: for the entry `API_URL` the ConfigMap text does not contain
`API_URL: https://api.example.com`, which the test expects; the value stands
between double quotes. -/
theorem generateConfigMap_value_quoted :
    ∃ text, generateConfigMap configMapTestConfig = .ok text ∧
      (¬ "API_URL: https://api.example.com".data <:+: text ∧
        "API_URL: \"https://api.example.com\"\n".data <:+: text) :=
  exists_of_map_decide (by decide!)

/-- The line of an entry in general: for every config and every entry `(K, V)`
of `envVars` whose value is a string, the text returned by `generateConfigMap`
contains the line
`K: ` followed by the value as `formatValue` renders it: exactly as given when
the value is not one of the strings that are quoted, and between double quotes
when it is (a colon, as in a URL, makes it one). -/
theorem generateConfigMap_entry_line (config : Config) (envVars : List (Str × JsVal))
    (text key value : Str)
    (henv : config.envVars = .obj envVars) (hmem : (key, JsVal.str value) ∈ envVars)
    (hgen : generateConfigMap config = .ok text) :
    (key ++ ": ".data ++ rendered value ++ "\n".data) <:+: text ∧
    (¬ NeedsQuotes value → (key ++ ": ".data ++ value ++ "\n".data) <:+: text) ∧
    (NeedsQuotes value → (key ++ ": \"".data ++ value ++ "\"\n".data) <:+: text) := by
  unfold generateConfigMap toYAML configMapObject at hgen
  simp only at hgen
  rw [henv] at hgen
  obtain ⟨sub, hsub, hin⟩ := toYAMLProps_sub hgen "data".data envVars
    (List.mem_cons_of_mem _ (List.mem_cons_of_mem _ (List.mem_cons_of_mem _
      (List.mem_cons_self _ _))))
  have hline : (key ++ ": ".data ++ rendered value ++ "\n".data) <:+: text :=
    ((scalarLine_str_within 1 key value).trans (toYAMLProps_line hsub hmem)).trans hin
  refine ⟨hline, ?_, ?_⟩
  · intro hq
    simpa [rendered, hq] using hline
  · intro hq
    simpa [rendered, hq] using hline

/-- The line of the entry `LOG_LEVEL` of the config of the test. -/
theorem generateConfigMap_entry_line_witness :
    ∃ text, generateConfigMap configMapTestConfig = .ok text ∧
      ("LOG_LEVEL".data ++ ": ".data ++ rendered "info".data ++ "\n".data) <:+: text ∧
      (¬ NeedsQuotes "info".data →
        ("LOG_LEVEL".data ++ ": ".data ++ "info".data ++ "\n".data) <:+: text) ∧
      (NeedsQuotes "info".data →
        ("LOG_LEVEL".data ++ ": \"".data ++ "info".data ++ "\"\n".data) <:+: text) := by
  obtain ⟨text, hgen⟩ :=
    ok_of_toBool (rfl : (generateConfigMap configMapTestConfig).toBool = true)
  exact ⟨text, hgen,
    generateConfigMap_entry_line configMapTestConfig _ text "LOG_LEVEL".data "info".data
      rfl (List.mem_cons_self _ _) hgen⟩

end K8s

namespace K8s

/-- C9, counterexample: for the environment `qa`, `buildConfig` returns no
config at all: reading `healthCheckConfig` of the missing tier throws. -/
theorem buildConfig_qa_throws : buildConfig qaOptions = .error .typeError := rfl

/-- C9, amended: for every options whose environment is a string other than
dev, staging or production: when the string is empty, `buildConfig` uses the
dev tier (1 replica and requests 100m/256Mi, limits 200m/512Mi unless
overridden by a truthy value; liveness timing 10/30/5/5); when it is any other
string that is not the name of a member of `Object.prototype`, `buildConfig`
throws a `TypeError`. -/
theorem buildConfig_unrecognised_environment (options : Options) (env : Str)
    (henv : options.environment = .str env)
    (hdev : env ≠ "dev".data) (hstaging : env ≠ "staging".data)
    (hproduction : env ≠ "production".data) :
    (env = [] → ∃ config, buildConfig options = .ok config ∧
      config.replicas = truthyOr options.replicas (.num 1) ∧
      config.resources = truthyOr options.resources (resourcesOf "100m" "256Mi" "200m" "512Mi") ∧
      config.healthCheckConfig = timingOf 10 30 5 5) ∧
    (env ≠ [] → env ∉ objectPrototypeNames → buildConfig options = .error .typeError) := by
  constructor
  · intro he
    subst he
    have hl : lookupEnvironmentDefaults (jsOr options.environment (lit "dev"))
        = tierDefaults 1 "100m" "256Mi" "200m" "512Mi" 10 30 5 5 := by
      rw [henv]; rfl
    exact ⟨_, buildConfig_of_tier options _ hl, rfl, rfl, rfl⟩
  · intro hne hproto
    have htruthy : truthy (JsVal.str env) = true := by
      cases env with
      | nil => exact absurd rfl hne
      | cons c t => rfl
    apply buildConfig_of_undefined
    rw [henv]
    unfold jsOr
    rw [if_pos htruthy]
    exact lookupEnvironmentDefaults_unknown env hdev hstaging hproduction hproto

/-- Witness of C9 (amended): the empty environment and the environment `qa`. -/
theorem buildConfig_unrecognised_environment_witness :
    (∃ config, buildConfig { qaOptions with environment := lit "" } = .ok config ∧
      config.replicas = truthyOr qaOptions.replicas (.num 1) ∧
      config.resources
        = truthyOr qaOptions.resources (resourcesOf "100m" "256Mi" "200m" "512Mi") ∧
      config.healthCheckConfig = timingOf 10 30 5 5) ∧
    buildConfig qaOptions = .error .typeError :=
  ⟨(buildConfig_unrecognised_environment { qaOptions with environment := lit "" } []
      rfl (by decide) (by decide) (by decide)).1 rfl,
   (buildConfig_unrecognised_environment qaOptions "qa".data
      rfl (by decide) (by decide) (by decide)).2 (by decide) (by decide)⟩

end K8s

namespace K8s

/-- C10, counterexample: raw values that are present but falsy are not kept.
For production options with `replicas: 0`, `namespace: ''` and
`minReplicas: 0`, `buildConfig` returns 3 replicas, the namespace `default` and
`minReplicas` 2. -/
theorem buildConfig_zero_replaced :
    ∃ config, buildConfig zeroOptions = .ok config ∧
      config.replicas = .num 3 ∧ config.replicas ≠ zeroOptions.replicas ∧
      config.namespace_ = lit "default" ∧ config.namespace_ ≠ zeroOptions.namespace_ ∧
      config.minReplicas = .num 2 ∧ config.minReplicas ≠ zeroOptions.minReplicas :=
  ⟨_, rfl, rfl, fun h => absurd (JsVal.num.inj h) (by decide),
    rfl, fun h => absurd (JsVal.str.inj h) (by decide),
    rfl, fun h => absurd (JsVal.num.inj h) (by decide)⟩

/-- C10, amended: for every options with a recognised environment and every
optional field among replicas, namespace, serviceType, minReplicas,
maxReplicas, healthCheckPath, readinessCheckPath, resources, envVars and
secrets, `buildConfig` keeps the raw value when it is truthy (so not
`undefined`, `null`, `false`, `0` or the empty string) and otherwise resolves
to the tier default (replicas, resources) or the literal default (`default`,
`ClusterIP`, 2, 10, `/health`, `/ready`, empty maps). -/
theorem buildConfig_truthy_or_default (options : Options)
    (henv : RecognisedEnvironment options.environment) :
    ∃ config, buildConfig options = .ok config ∧ ResolvedByTruthiness options config := by
  rcases henv with h | h | h | h
  · have hl : lookupEnvironmentDefaults (jsOr options.environment (lit "dev"))
        = tierDefaults 1 "100m" "256Mi" "200m" "512Mi" 10 30 5 5 := by
      rw [h]; rfl
    refine ⟨_, buildConfig_of_tier options _ hl, ?_⟩
    unfold ResolvedByTruthiness
    rw [h]
    exact ⟨rfl, rfl, rfl, rfl, rfl, rfl, rfl, rfl, rfl, rfl⟩
  · have hl : lookupEnvironmentDefaults (jsOr options.environment (lit "dev"))
        = tierDefaults 1 "100m" "256Mi" "200m" "512Mi" 10 30 5 5 := by
      rw [h]; rfl
    refine ⟨_, buildConfig_of_tier options _ hl, ?_⟩
    unfold ResolvedByTruthiness
    rw [h]
    exact ⟨rfl, rfl, rfl, rfl, rfl, rfl, rfl, rfl, rfl, rfl⟩
  · have hl : lookupEnvironmentDefaults (jsOr options.environment (lit "dev"))
        = tierDefaults 2 "200m" "512Mi" "400m" "1Gi" 20 15 5 3 := by
      rw [h]; rfl
    refine ⟨_, buildConfig_of_tier options _ hl, ?_⟩
    unfold ResolvedByTruthiness
    rw [h]
    exact ⟨rfl, rfl, rfl, rfl, rfl, rfl, rfl, rfl, rfl, rfl⟩
  · have hl : lookupEnvironmentDefaults (jsOr options.environment (lit "dev"))
        = tierDefaults 3 "250m" "512Mi" "500m" "1Gi" 30 10 5 3 := by
      rw [h]; rfl
    refine ⟨_, buildConfig_of_tier options _ hl, ?_⟩
    unfold ResolvedByTruthiness
    rw [h]
    exact ⟨rfl, rfl, rfl, rfl, rfl, rfl, rfl, rfl, rfl, rfl⟩

/-- Witness of C10 (amended) on the production options with falsy values. -/
theorem buildConfig_truthy_or_default_witness :
    ∃ config, buildConfig zeroOptions = .ok config ∧ ResolvedByTruthiness zeroOptions config :=
  buildConfig_truthy_or_default zeroOptions (Or.inr (Or.inr (Or.inr rfl)))

end K8s

namespace K8s

/-- C11: for every options without an explicit replicas value and with a
recognised environment, `buildConfig` resolves replicas to the default of the
tier (3 for production, 2 for staging, 1 for dev or an absent environment), and
in every result of `generate` the summary and the line `replicas:` of the
Deployment, the first of its `spec:` block, carry that number. -/
theorem generate_tier_replicas (options : Options)
    (henv : RecognisedEnvironment options.environment)
    (hrep : isNullish options.replicas = true) :
    (∃ config, buildConfig options = .ok config ∧
      config.replicas = .num (tierReplicas options.environment)) ∧
    (options.environment = lit "production" → tierReplicas options.environment = 3) ∧
    (options.environment = lit "staging" → tierReplicas options.environment = 2) ∧
    (options.environment = lit "dev" ∨ options.environment = .undefined →
      tierReplicas options.environment = 1) ∧
    ∀ result, generate options = .ok result →
      result.summary.replicas = .num (tierReplicas options.environment) ∧
      ∃ deployment, result.manifests.lookup "deployment".data = some deployment ∧
        ("spec:\n  replicas: ".data ++ intToStr (tierReplicas options.environment)
          ++ "\n".data) <:+: deployment := by
  obtain ⟨config, hc, hr, _, _⟩ := buildConfig_recognised options henv
  have hfalsy : truthy options.replicas = false := by
    cases hv : options.replicas <;> rw [hv] at hrep <;> first | rfl | cases hrep
  have hr2 : config.replicas = .num (tierReplicas options.environment) := by
    rw [hr, jsOr, hfalsy]; rfl
  refine ⟨⟨config, hc, hr2⟩, ?_, ?_, ?_, ?_⟩
  · intro h; rw [h]; rfl
  · intro h; rw [h]; rfl
  · intro h; rcases h with h | h <;> rw [h] <;> rfl
  · intro result hgen
    obtain ⟨config2, deployment, service, configMap, secret, ingress, hpa, summary,
      hc2, hd, _, _, _, _, _, hsum, hres⟩ := generate_ok_parts hgen
    rw [hc] at hc2
    cases hc2
    have hs : result.summary = summary := by rw [hres]
    refine ⟨by rw [hs, (generateSummary_replicas hsum).1, hr2], deployment, by rw [hres]; rfl, ?_⟩
    obtain ⟨rest, sub, hsub, hsuf⟩ := generateDeployment_spec hd
    rw [hr2] at hsub
    obtain ⟨line, more, hl, _, rfl⟩ := toYAMLProps_cons_ok hsub
    rw [toYAMLEntry_num] at hl
    cases hl
    refine List.IsInfix.trans ?_ hsuf.isInfix
    refine ⟨[], more, ?_⟩
    simp [spaces]

/-- Witness of C11 on the options of the test `should apply environment
defaults`: production gives 3 replicas. -/
theorem generate_tier_replicas_witness :
    (∃ config, buildConfig productionOptions = .ok config ∧ config.replicas = .num 3) ∧
    ∃ result, generate productionOptions = .ok result ∧
      result.summary.replicas = .num 3 ∧
      ∃ deployment, result.manifests.lookup "deployment".data = some deployment ∧
        ("spec:\n  replicas: ".data ++ intToStr 3 ++ "\n".data) <:+: deployment := by
  have h := generate_tier_replicas productionOptions (Or.inr (Or.inr (Or.inr rfl))) rfl
  obtain ⟨result, hgen⟩ := ok_of_toBool (rfl : (generate productionOptions).toBool = true)
  exact ⟨h.1, result, hgen, h.2.2.2.2 result hgen⟩

end K8s

namespace K8s

/-- C12, counterexample: for options that set only `minReplicas: 20`,
`buildConfig` returns `minReplicas` 20 and `maxReplicas` 10, and the
autoscaler manifest `generate` returns carries both. -/
theorem buildConfig_bounds_unordered :
    (∃ config, buildConfig minOnlyOptions = .ok config ∧
      config.minReplicas = .num 20 ∧ config.maxReplicas = .num 10 ∧ ¬ BoundsOrdered config) ∧
    ∃ result hpa, generate minOnlyOptions = .ok result ∧
      result.manifests.lookup "hpa".data = some hpa ∧
      "  minReplicas: 20\n  maxReplicas: 10\n".data <:+: hpa := by
  constructor
  · refine ⟨_, rfl, rfl, rfl, ?_⟩
    rintro ⟨a, b, ha, hb, hab⟩
    have h1 : (20 : Int) = a := JsVal.num.inj ha
    have h2 : (10 : Int) = b := JsVal.num.inj hb
    omega
  · have h0 : (generate minOnlyOptions).map (fun r =>
        (r.manifests.lookup "hpa".data).any fun text =>
          decide ("  minReplicas: 20\n  maxReplicas: 10\n".data <:+: text)) = .ok true := by
      decide!
    obtain ⟨result, hgen, hp⟩ := exists_of_map_true h0
    cases hl : result.manifests.lookup "hpa".data with
    | none => rw [hl] at hp; cases hp
    | some hpa =>
      rw [hl] at hp
      exact ⟨result, hpa, hgen, hl, of_decide_eq_true hp⟩

/-- C12, amended: `buildConfig` does not compare the two bounds. It resolves
`minReplicas` to the raw value if truthy and to 2 otherwise, and `maxReplicas`
to the raw value if truthy and to 10 otherwise, each on its own; so the config
has `minReplicas <= maxReplicas` when neither is set, when only `minReplicas`
is set exactly if it is at most 10, when only `maxReplicas` is set exactly if
it is 0 or at least 2, and when both are set to non-zero numbers exactly if
they are ordered. The autoscaler manifest carries the two resolved bounds. -/
theorem buildConfig_bounds_unchecked (options : Options) (config : Config)
    (hcfg : buildConfig options = .ok config) :
    config.minReplicas = truthyOr options.minReplicas (.num 2) ∧
    config.maxReplicas = truthyOr options.maxReplicas (.num 10) ∧
    (isNullish options.minReplicas = true → isNullish options.maxReplicas = true →
      BoundsOrdered config) ∧
    (∀ a : Int, options.minReplicas = .num a → isNullish options.maxReplicas = true →
      (BoundsOrdered config ↔ a ≤ 10)) ∧
    (∀ b : Int, isNullish options.minReplicas = true → options.maxReplicas = .num b →
      (BoundsOrdered config ↔ b = 0 ∨ 2 ≤ b)) ∧
    (∀ a b : Int, a ≠ 0 → b ≠ 0 → options.minReplicas = .num a → options.maxReplicas = .num b →
      (BoundsOrdered config ↔ a ≤ b)) ∧
    (∀ (name text : Str) (a b : Int), config.appName = .str name →
      config.minReplicas = .num a → config.maxReplicas = .num b →
      generateHPA config = .ok text →
      ("  minReplicas: ".data ++ intToStr a ++ "\n  maxReplicas: ".data ++ intToStr b
        ++ "\n".data) <:+: text) := by
  obtain ⟨_, _, _, _, _, _, _, _, _, hmin, hmax, _⟩ := buildConfig_fields hcfg
  have hnull : ∀ v : JsVal, isNullish v = true → ∀ d : JsVal, jsOr v d = d := by
    intro v hv d
    cases v <;> first | rfl | cases hv
  have hnum : ∀ (n : Int) (d : Int), jsOr (.num n) (.num d) = .num (if n = 0 then d else n) := by
    intro n d
    by_cases hn : n = 0
    · subst hn; rfl
    · simp [jsOr, truthy, hn]
  have hord : ∀ a b : Int, config.minReplicas = .num a → config.maxReplicas = .num b →
      (BoundsOrdered config ↔ a ≤ b) := by
    intro a b ha hb
    constructor
    · rintro ⟨x, y, hx, hy, hxy⟩
      rw [ha] at hx
      rw [hb] at hy
      have h1 : a = x := JsVal.num.inj hx
      have h2 : b = y := JsVal.num.inj hy
      omega
    · intro hab
      exact ⟨a, b, ha, hb, hab⟩
  refine ⟨hmin, hmax, ?_, ?_, ?_, ?_, ?_⟩
  · intro h1 h2
    rw [hnull _ h1] at hmin
    rw [hnull _ h2] at hmax
    exact ⟨2, 10, hmin, hmax, by decide⟩
  · intro a ha h2
    rw [ha, hnum] at hmin
    rw [hnull _ h2] at hmax
    rw [hord _ _ hmin hmax]
    split <;> omega
  · intro b h1 hb
    rw [hnull _ h1] at hmin
    rw [hb, hnum] at hmax
    rw [hord _ _ hmin hmax]
    split <;> omega
  · intro a b ha0 hb0 ha hb
    rw [ha, hnum, if_neg ha0] at hmin
    rw [hb, hnum, if_neg hb0] at hmax
    exact hord _ _ hmin hmax
  · intro name text a b hname ha hb hgen
    have hsuf := generateHPA_spec hname ha hb hgen
    refine List.IsInfix.trans ?_ hsuf.isInfix
    refine ⟨"spec:\n  scaleTargetRef:\n    apiVersion: apps/v1\n    kind: Deployment\n    name: ".data
      ++ rendered name ++ "\n".data, hpaSpecTail, ?_⟩
    simp

/-- Witness of C12 (amended) on the options that set only `minReplicas`. -/
theorem buildConfig_bounds_unchecked_witness :
    ∃ config, buildConfig minOnlyOptions = .ok config ∧
      config.minReplicas = truthyOr minOnlyOptions.minReplicas (.num 2) ∧
      config.maxReplicas = truthyOr minOnlyOptions.maxReplicas (.num 10) ∧
      (BoundsOrdered config ↔ (20 : Int) ≤ 10) := by
  obtain ⟨config, hcfg⟩ := ok_of_toBool (rfl : (buildConfig minOnlyOptions).toBool = true)
  have h := buildConfig_bounds_unchecked minOnlyOptions config hcfg
  exact ⟨config, hcfg, h.1, h.2.1, h.2.2.2.1 20 rfl rfl⟩

end K8s

namespace K8s

/-- C13, counterexample: the Service texts for the names `123` and `"123"`
(the second with the two quotes in the name) are the same text, so no way of
reading a manifest back reconstructs `metadata.name` for every string name. -/
theorem manifest_name_not_recoverable :
    (∃ text, generateService { serviceTestConfig with appName := lit "123" } = .ok text ∧
      generateService { serviceTestConfig with appName := lit "\"123\"" } = .ok text) ∧
    ¬ ∃ read : Str → Str, ∀ name text : Str,
      generateService { serviceTestConfig with appName := .str name } = .ok text →
        read text = name := by
  have heq : generateService { serviceTestConfig with appName := lit "123" }
      = generateService { serviceTestConfig with appName := lit "\"123\"" } := by decide!
  obtain ⟨text, h1⟩ := ok_of_toBool
    (rfl : (generateService { serviceTestConfig with appName := lit "123" }).toBool = true)
  have h2 : generateService { serviceTestConfig with appName := lit "\"123\"" } = .ok text :=
    heq ▸ h1
  refine ⟨⟨text, h1, h2⟩, ?_⟩
  rintro ⟨read, hread⟩
  have ha : read text = "123".data := hread "123".data text h1
  have hb : read text = "\"123\"".data := hread "\"123\"".data text h2
  exact absurd (ha.symm.trans hb) (by decide)

/-- C13, amended: for every config with a string appName, each generated
manifest text begins with the lines `apiVersion: ...`, `kind: K` for the kind
requested, `metadata:` and `name:` followed by the rendered scalar of the name
(appName for deployment, service, ingress and hpa, `<appName>-config` for the
configMap, `<appName>-secrets` for the secret); removing the double quotes a
rendered scalar stands between gives the name back whenever the name does not
itself start with a double quote. -/
theorem manifests_head_lines (config : Config) (name : Str)
    (hname : config.appName = .str name) :
    ManifestHeads config name ∧
    ∀ other : Str, other.head? ≠ some '"' → unquote (rendered other) = other := by
  have r1 : rendered "apps/v1".data = "apps/v1".data := by decide
  have r2 : rendered "v1".data = "v1".data := by decide
  have r3 : rendered "networking.k8s.io/v1".data = "networking.k8s.io/v1".data := by decide
  have r4 : rendered "autoscaling/v2".data = "autoscaling/v2".data := by decide
  refine ⟨⟨?_, ?_, ?_, ?_, ?_, ?_⟩, unquote_rendered⟩
  · intro text h
    unfold generateDeployment deploymentObject at h
    obtain ⟨d, hd, h⟩ := bind_eq_ok h
    obtain ⟨env, henv, hd⟩ := bind_eq_ok hd
    cases hd
    unfold toYAML at h
    simp only at h
    rw [hname] at h
    exact manifest_head "apps/v1" "Deployment" name r1 (by decide) _ _ h
  · intro text h
    unfold generateService toYAML serviceObject at h
    simp only at h
    rw [hname] at h
    exact manifest_head "v1" "Service" name r2 (by decide) _ _ h
  · intro text h
    unfold generateConfigMap toYAML configMapObject withSuffix at h
    simp only at h
    rw [hname] at h
    exact manifest_head "v1" "ConfigMap" (name ++ "-config".data) r2 (by decide) _ _ h
  · intro text h
    unfold generateSecret toYAML secretObject withSuffix at h
    simp only at h
    rw [hname] at h
    exact manifest_head "v1" "Secret" (name ++ "-secrets".data) r2 (by decide) _ _ h
  · intro text h
    unfold generateIngress toYAML ingressObject at h
    simp only at h
    rw [hname] at h
    exact manifest_head "networking.k8s.io/v1" "Ingress" name r3 (by decide) _ _ h
  · intro text h
    unfold generateHPA toYAML hpaObject at h
    simp only at h
    rw [hname] at h
    exact manifest_head "autoscaling/v2" "HorizontalPodAutoscaler" name r4 (by decide) _ _ h

/-- Witness of C13 (amended) on the config with two values and a secret, whose
six manifests are all returned. -/
theorem manifests_head_lines_witness :
    ((generateDeployment configWithSecrets).toBool = true ∧
      (generateService configWithSecrets).toBool = true ∧
      (generateConfigMap configWithSecrets).toBool = true ∧
      (generateSecret configWithSecrets).toBool = true ∧
      (generateIngress configWithSecrets).toBool = true ∧
      (generateHPA configWithSecrets).toBool = true) ∧
    ManifestHeads configWithSecrets "web-api".data ∧
    ∀ other : Str, other.head? ≠ some '"' → unquote (rendered other) = other :=
  ⟨⟨rfl, rfl, rfl, rfl, rfl, rfl⟩, manifests_head_lines configWithSecrets "web-api".data rfl⟩

end K8s

namespace K8s

/-- The loop of `toYAML` over the items of an array agrees with the rendering
of a sequence the specification describes. -/
theorem toYAMLItems_eq_renderSequence (indent : Nat) (items : List JsVal)
    (h : ∀ item ∈ items, isScalar item = true ∨ isMapping item = true) :
    toYAMLItems items indent = renderSequence indent items := by
  induction items with
  | nil => rw [toYAMLItems, renderSequence]
  | cons item rest ih =>
    have hrest := ih (fun x hx => h x (List.mem_cons_of_mem _ hx))
    have hitem := h item (List.mem_cons_self _ _)
    cases item with
    | obj kvs =>
      rw [toYAMLItems_obj, renderSequence, hrest]
      show _ = ((toYAMLProps kvs (indent + 1)).map _ >>= _)
      cases toYAMLProps kvs (indent + 1) with
      | error e => rfl
      | ok sub =>
        show (renderSequence indent rest >>= _) = (renderSequence indent rest >>= _)
        cases renderSequence indent rest with
        | error e => rfl
        | ok more => simp [pure, Except.pure, bind, Except.bind]
    | str s => rw [toYAMLItems, renderSequence, hrest] <;> first | rfl | (intros; simp_all)
    | num n => rw [toYAMLItems, renderSequence, hrest] <;> first | rfl | (intros; simp_all)
    | bool b => rw [toYAMLItems, renderSequence, hrest] <;> first | rfl | (intros; simp_all)
    | undefined => rcases hitem with h1 | h1 <;> cases h1
    | null => rcases hitem with h1 | h1 <;> cases h1
    | arr xs => rcases hitem with h1 | h1 <;> cases h1

/-- C14: for every key holding a sequence of scalars and mappings, `toYAML`
at indentation level `indent` renders the key as `key:` at that level, each
scalar element as a `- value` line at that level, and each mapping element as a
`- ` marker line at that level followed by `toYAML(element, indent + 1)`. -/
theorem toYAML_sequence (key : Str) (items : List JsVal) (indent : Nat)
    (hitems : ∀ item ∈ items, isScalar item = true ∨ isMapping item = true) :
    toYAML (.obj [(key, .arr items)]) indent =
      (renderSequence indent items).map fun lines =>
        spaces indent ++ key ++ ":\n".data ++ lines := by
  show toYAMLProps [(key, .arr items)] indent = _
  rw [toYAMLProps_cons, toYAMLEntry_arr_eq, toYAMLProps_nil,
    toYAMLItems_eq_renderSequence indent items hitems]
  cases renderSequence indent items with
  | error e => rfl
  | ok lines => simp [pure, Except.pure, bind, Except.bind, Except.map]

/-- Witness of C14 on a sequence with a string, a number and a mapping. -/
theorem toYAML_sequence_witness :
    toYAML (.obj [("items".data, .arr mixedSequence)]) 1 =
        (renderSequence 1 mixedSequence).map (fun lines =>
          spaces 1 ++ "items".data ++ ":\n".data ++ lines) ∧
    toYAML (.obj [("items".data, .arr mixedSequence)]) 1 =
      .ok "  items:\n  - ALL\n  - 80\n  - \n    name: http\n    port: 80\n".data :=
  ⟨toYAML_sequence "items".data mixedSequence 1 (by decide), by decide⟩

end K8s

namespace K8s

/-- C15: for every config, the Deployment produced by `generateDeployment`
carries the same fixed settings: pod securityContext runAsNonRoot true with
runAsUser 1000, container securityContext allowPrivilegeEscalation false,
readOnlyRootFilesystem true and capabilities drop [ALL], and strategy
RollingUpdate with maxSurge 1 and maxUnavailable 0, the 0 being rendered. -/
theorem generateDeployment_hardening (config : Config) (text : Str)
    (hgen : generateDeployment config = .ok text) : Hardened config text := by
  have hgen2 := hgen
  unfold generateDeployment at hgen2
  obtain ⟨d, hd, h⟩ := bind_eq_ok hgen2
  have hd2 := hd
  unfold deploymentObject at hd2
  obtain ⟨env, henv, hd2⟩ := bind_eq_ok hd2
  cases hd2
  refine ⟨_, hd, h, rfl, rfl, rfl, ?_, ?_, ?_⟩
  · obtain ⟨s1, h1, i1⟩ := toYAMLProps_sub h "spec".data _
      (List.mem_cons_of_mem _ (List.mem_cons_of_mem _ (List.mem_cons_of_mem _
        (List.mem_cons_self _ _))))
    obtain ⟨line, hl, hin⟩ := toYAMLProps_mem h1
      (List.mem_cons_of_mem _ (List.mem_cons_self _ _))
    have hclosed : toYAMLEntry "strategy".data fixedStrategy 1 = .ok
        ("  strategy:\n    type: RollingUpdate\n    rollingUpdate:\n      maxSurge: 1\n"
          ++ "      maxUnavailable: 0\n").data := by decide
    have hl2 : toYAMLEntry "strategy".data fixedStrategy 1 = .ok line := hl
    rw [hclosed] at hl2
    cases hl2
    exact hin.trans i1
  · obtain ⟨s1, h1, i1⟩ := toYAMLProps_sub h "spec".data _
      (List.mem_cons_of_mem _ (List.mem_cons_of_mem _ (List.mem_cons_of_mem _
        (List.mem_cons_self _ _))))
    obtain ⟨s2, h2, i2⟩ := toYAMLProps_sub h1 "template".data _
      (List.mem_cons_of_mem _ (List.mem_cons_of_mem _ (List.mem_cons_of_mem _
        (List.mem_cons_self _ _))))
    obtain ⟨s3, h3, i3⟩ := toYAMLProps_sub h2 "spec".data _
      (List.mem_cons_of_mem _ (List.mem_cons_self _ _))
    obtain ⟨line, hl, hin⟩ := toYAMLProps_mem h3 (List.mem_cons_self _ _)
    have hclosed : toYAMLEntry "securityContext".data podSecurity 3 = .ok
        ("      securityContext:\n        runAsNonRoot: true\n        runAsUser: 1000\n"
          ++ "        fsGroup: 1000\n").data := by decide
    have hl2 : toYAMLEntry "securityContext".data podSecurity 3 = .ok line := hl
    rw [hclosed] at hl2
    cases hl2
    exact ((hin.trans i3).trans i2).trans i1
  · obtain ⟨line, hl, hsuf⟩ := toYAMLProps_last
      [prop "apiVersion" (lit "apps/v1"), prop "kind" (lit "Deployment"),
        prop "metadata" (.obj [prop "name" config.appName, prop "namespace" config.namespace_,
          prop "labels" (deploymentLabels config)])] "spec".data _ 0 h
    obtain ⟨s1, h1, rfl⟩ := toYAMLEntry_obj hl
    obtain ⟨l2, hl2, hsuf2⟩ := toYAMLProps_last
      [prop "replicas" config.replicas, prop "strategy" fixedStrategy,
        prop "selector" (.obj [prop "matchLabels" (.obj [prop "app" config.appName])])]
      "template".data _ 1 h1
    obtain ⟨s2, h2, rfl⟩ := toYAMLEntry_obj hl2
    obtain ⟨l3, hl3, hsuf3⟩ := toYAMLProps_last
      [prop "metadata" (.obj [prop "labels" (deploymentLabels config)])] "spec".data _ 2 h2
    obtain ⟨s3, h3, rfl⟩ := toYAMLEntry_obj hl3
    obtain ⟨l4, hl4, hsuf4⟩ := toYAMLProps_last [prop "securityContext" podSecurity]
      "containers".data _ 3 h3
    obtain ⟨items, hitems, rfl⟩ := toYAMLEntry_arr hl4
    rw [toYAMLItems_obj] at hitems
    obtain ⟨s4, h4, hitems⟩ := bind_eq_ok hitems
    rw [toYAMLItems_nil] at hitems
    cases hitems
    obtain ⟨l5, hl5, hsuf5⟩ := toYAMLProps_last ((containerProps config env).take 8)
      "securityContext".data containerSecurity 4 h4
    have hclosed : toYAMLEntry "securityContext".data containerSecurity 4 = .ok
        ("        securityContext:\n          allowPrivilegeEscalation: false\n"
          ++ "          readOnlyRootFilesystem: true\n          capabilities:\n"
          ++ "            drop:\n            - ALL\n").data := by decide!
    rw [hclosed] at hl5
    cases hl5
    have e1 : ∀ a b : Str, b <:+ a ++ b := fun a b => List.suffix_append a b
    have hs4 : s4 <:+ spaces 3 ++ "containers".data ++ ":\n".data
        ++ (spaces 3 ++ "- \n".data ++ s4 ++ []) := by
      refine ⟨spaces 3 ++ "containers".data ++ ":\n".data ++ (spaces 3 ++ "- \n".data), ?_⟩
      simp
    exact ((((hsuf5.trans hs4).trans hsuf4).trans (e1 _ _)).trans hsuf3
      |>.trans (e1 _ _) |>.trans hsuf2 |>.trans (e1 _ _) |>.trans hsuf)

/-- Witness of C15 on the basic config. -/
theorem generateDeployment_hardening_witness :
    ∃ text, generateDeployment basicConfig = .ok text ∧ Hardened basicConfig text := by
  obtain ⟨text, hgen⟩ := ok_of_toBool (rfl : (generateDeployment basicConfig).toBool = true)
  exact ⟨text, hgen, generateDeployment_hardening basicConfig text hgen⟩

end K8s

namespace K8s

theorem objectKeys_jsOr_ok (v : JsVal) : ∃ keys, objectKeys (jsOr v (.obj [])) = .ok keys := by
  unfold jsOr
  split
  · rename_i h
    cases v with
    | undefined => cases h
    | null => cases h
    | bool b => exact ⟨_, rfl⟩
    | num n => exact ⟨_, rfl⟩
    | str s => exact ⟨_, rfl⟩
    | arr xs => exact ⟨_, rfl⟩
    | obj kvs => exact ⟨_, rfl⟩
  · exact ⟨_, rfl⟩

/-- For a config `buildConfig` returned, the Deployment object is built. -/
theorem deploymentObject_of_built {options : Options} {config : Config}
    (h : buildConfig options = .ok config) :
    ∃ env deployment, buildEnvVars config = .ok env ∧
      deploymentObject config = .ok deployment ∧
      firstContainer deployment = .obj (containerProps config env) := by
  obtain ⟨_, _, _, _, _, _, _, _, _, _, _, henv, hsec, _⟩ := buildConfig_fields h
  obtain ⟨keys, hk⟩ := objectKeys_jsOr_ok options.envVars
  obtain ⟨secretKeys, hs⟩ := objectKeys_jsOr_ok options.secrets
  rw [← henv] at hk
  rw [← hsec] at hs
  have hb := buildEnvVars_ok hk hs
  have hd : ∃ deployment, deploymentObject config = .ok deployment ∧
      firstContainer deployment = .obj (containerProps config
        (keys.map (fun key => configMapRef config key)
          ++ secretKeys.map (fun key => secretRef config key))) := by
    unfold deploymentObject
    rw [hb]
    exact ⟨_, rfl, rfl⟩
  obtain ⟨deployment, hd1, hd2⟩ := hd
  exact ⟨_, deployment, hb, hd1, hd2⟩

/-- C16: for every tier and every config `buildConfig` builds for it, the
readiness probe of the Deployment has the timing (initialDelaySeconds 10,
periodSeconds 5, timeoutSeconds 3, failureThreshold 2), its liveness probe has
the timing of the tier (dev 10/30/5/5, staging 20/15/5/3, production
30/10/5/3), and every liveness field is at least the readiness field, one of
them strictly greater. -/
theorem deployment_probe_timings (options : Options)
    (henv : RecognisedEnvironment options.environment) :
    ProbesDiffer options ∧
    (options.environment = lit "dev" ∨ options.environment = .undefined →
      tierTiming options.environment = (10, 30, 5, 5)) ∧
    (options.environment = lit "staging" → tierTiming options.environment = (20, 15, 5, 3)) ∧
    (options.environment = lit "production" →
      tierTiming options.environment = (30, 10, 5, 3)) := by
  refine ⟨?_, ?_, ?_, ?_⟩
  · obtain ⟨config, hc, _, _, hcc⟩ := buildConfig_recognised options henv
    obtain ⟨env, deployment, _, hd, hfirst⟩ := deploymentObject_of_built hc
    refine ⟨config, deployment, hc, hd, ?_, ?_, ?_⟩
    · rw [hfirst]; rfl
    · rw [hfirst]
      show probeTiming (.obj (spreadInto _ config.healthCheckConfig)) = _
      rw [hcc]
      rfl
    · rcases henv with h | h | h | h <;> rw [h] <;> decide
  · intro h; rcases h with h | h <;> rw [h] <;> rfl
  · intro h; rw [h]; rfl
  · intro h; rw [h]; rfl

/-- Witness of C16 on the production options. -/
theorem deployment_probe_timings_witness :
    ProbesDiffer productionOptions ∧ tierTiming productionOptions.environment = (30, 10, 5, 3) :=
  ⟨(deployment_probe_timings productionOptions (Or.inr (Or.inr (Or.inr rfl)))).1,
   (deployment_probe_timings productionOptions (Or.inr (Or.inr (Or.inr rfl)))).2.2.2 rfl⟩

end K8s

namespace K8s

/-- C17: for every config, the Service produced by `generateService` has
type `config.serviceType`, exactly one port entry mapping port 80 to targetPort
`config.port` (the port the Deployment exposes as containerPort), and the
selector `app: <appName>`, equal to `spec.selector.matchLabels` of the
Deployment and contained in the labels of the pod template. -/
theorem generateService_matches (config : Config) : ServiceMatches config := by
  refine ⟨rfl, rfl, rfl, ?_, ?_⟩
  · intro deployment hd
    unfold deploymentObject at hd
    obtain ⟨env, _, hd⟩ := bind_eq_ok hd
    cases hd
    exact ⟨rfl, ⟨_, rfl, List.mem_cons_self _ _⟩, rfl⟩
  · intro type name text port htype hname hport h
    unfold generateService toYAML serviceObject at h
    simp only at h
    obtain ⟨line, hl, hsuf⟩ := toYAMLProps_last
      [prop "apiVersion" (lit "v1"), prop "kind" (lit "Service"),
        prop "metadata" (.obj [prop "name" config.appName, prop "namespace" config.namespace_,
          prop "labels" (.obj [prop "app" config.appName])])] "spec".data _ 0 h
    rw [htype, hname, hport] at hl
    have r1 : rendered "http".data = "http".data := by decide
    have r2 : rendered "TCP".data = "TCP".data := by decide
    have r3 : rendered "None".data = "None".data := by decide
    simp only [prop, lit, toYAMLEntry_obj_eq, toYAMLEntry_arr_eq, toYAMLItems_obj,
      toYAMLItems_nil, toYAMLProps_cons, toYAMLEntry_rendered, toYAMLEntry_num, ok_bind,
      toYAMLProps_nil, r1, r2, r3] at hl
    cases hl
    refine List.IsSuffix.trans ?_ hsuf
    refine ⟨[], ?_⟩
    simp only [spaces, pure, Except.pure]
    simp
    rfl

/-- The Service of the config of the test `should generate valid Service
YAML` is returned, and it matches. -/
theorem generateService_matches_witness :
    ServiceMatches serviceTestConfig ∧
    generateService serviceTestConfig = .ok ("apiVersion: v1\nkind: Service\nmetadata:\n"
      ++ "  name: test-app\n  namespace: default\n  labels:\n    app: test-app\n"
      ++ "spec:\n  type: ClusterIP\n  selector:\n    app: test-app\n  ports:\n  - \n"
      ++ "    name: http\n    port: 80\n    targetPort: 3000\n    protocol: TCP\n"
      ++ "  sessionAffinity: None\n").data :=
  ⟨generateService_matches serviceTestConfig, by decide!⟩

end K8s

namespace K8s

theorem truthy_jsAnd (a b : JsVal) :
    truthy (jsAnd a b) = true ↔ (truthy a = true ∧ truthy b = true) := by
  unfold jsAnd
  by_cases h : truthy a = true
  · simp [h]
  · simp [h]

/-- The `http` block of the rule of an Ingress, for a string name. -/
theorem ingress_http_rendering (name : Str) :
    toYAMLEntry "http".data (.obj [
      prop "paths" (.arr [.obj [
        prop "path" (lit "/"),
        prop "pathType" (lit "Prefix"),
        prop "backend" (.obj [
          prop "service" (.obj [
            prop "name" (.str name),
            prop "port" (.obj [prop "number" (.num 80)])])])]])]) 2 =
      .ok ("    http:\n      paths:\n      - \n        path: /\n        pathType: Prefix\n".data
        ++ "        backend:\n          service:\n            name: ".data ++ rendered name
        ++ "\n            port:\n              number: 80\n".data) := by
  have r1 : rendered "/".data = "/".data := by decide
  have r2 : rendered "Prefix".data = "Prefix".data := by decide
  simp only [prop, lit, toYAMLEntry_obj_eq, toYAMLEntry_arr_eq, toYAMLItems_obj,
    toYAMLItems_nil, toYAMLProps_cons, toYAMLEntry_rendered, toYAMLEntry_num, ok_bind,
    toYAMLProps_nil, r1, r2]
  simp only [spaces, pure, Except.pure]
  simp
  rfl

/-- C18: for every config, the Ingress produced by `generateIngress` has a
`tls` section, with hosts `[ingressHost]` and secretName `<appName>-tls`,
exactly when `enableTLS` is set and `ingressHost` is set; otherwise it has no
`tls` section. -/
theorem generateIngress_tls (config : Config) : IngressTls config := by
  have hcond := truthy_jsAnd config.enableTLS config.ingressHost
  refine ⟨?_, ?_, ?_, ?_, ?_⟩
  · by_cases hc : truthy (jsAnd config.enableTLS config.ingressHost) = true
    · unfold ingressObject
      rw [if_pos hc]
      refine ⟨_, rfl, ?_⟩
      rw [← hcond]
      simp [prop, hc]
    · unfold ingressObject
      rw [if_neg hc]
      refine ⟨_, rfl, ?_⟩
      rw [← hcond]
      simp [prop, hc]
  · intro h
    unfold ingressObject
    rw [if_pos (hcond.mpr h)]
    rfl
  · intro h
    unfold ingressObject
    rw [if_neg (fun hc => h (hcond.mp hc))]
    rfl
  · intro name host text hname hhost h1 h2 h
    unfold generateIngress toYAML ingressObject at h
    simp only at h
    rw [if_pos (hcond.mpr ⟨h1, h2⟩)] at h
    obtain ⟨line, hl, hsuf⟩ := toYAMLProps_last
      [prop "apiVersion" (lit "networking.k8s.io/v1"), prop "kind" (lit "Ingress"),
        prop "metadata" (.obj [prop "name" config.appName, prop "namespace" config.namespace_,
          prop "labels" (.obj [prop "app" config.appName]),
          prop "annotations" (ingressAnnotations config)])] "spec".data _ 0 h
    obtain ⟨sub, hsub, rfl⟩ := toYAMLEntry_obj hl
    obtain ⟨l2, hl2, hsuf2⟩ := toYAMLProps_last _ "tls".data _ 1 hsub
    rw [hname, hhost] at hl2
    have hs : withSuffix (.str name) "-tls" = .str (name ++ "-tls".data) := rfl
    simp only [hs, prop, toYAMLEntry_arr_eq, toYAMLItems_obj, toYAMLItems_str,
      toYAMLItems_nil, toYAMLProps_cons, toYAMLEntry_rendered, ok_bind,
      toYAMLProps_nil] at hl2
    cases hl2
    refine List.IsSuffix.trans ?_ (hsuf2.trans ((List.suffix_append _ _).trans hsuf))
    refine ⟨[], ?_⟩
    simp only [spaces, pure, Except.pure]
    simp
  · intro name text hname hnot h
    unfold generateIngress toYAML ingressObject at h
    simp only at h
    rw [if_neg (fun hc => hnot (hcond.mp hc)), List.append_nil] at h
    obtain ⟨line, hl, hsuf⟩ := toYAMLProps_last
      [prop "apiVersion" (lit "networking.k8s.io/v1"), prop "kind" (lit "Ingress"),
        prop "metadata" (.obj [prop "name" config.appName, prop "namespace" config.namespace_,
          prop "labels" (.obj [prop "app" config.appName]),
          prop "annotations" (ingressAnnotations config)])] "spec".data _ 0 h
    obtain ⟨sub, hsub, rfl⟩ := toYAMLEntry_obj hl
    obtain ⟨l2, hl2, hsuf2⟩ := toYAMLProps_last [prop "ingressClassName" (lit "nginx")]
      "rules".data _ 1 hsub
    obtain ⟨items, hitems, rfl⟩ := toYAMLEntry_arr hl2
    rw [toYAMLItems_obj] at hitems
    obtain ⟨s3, h3, hitems⟩ := bind_eq_ok hitems
    rw [toYAMLItems_nil] at hitems
    cases hitems
    obtain ⟨l4, hl4, hsuf4⟩ := toYAMLProps_last [prop "host" config.ingressHost]
      "http".data _ 2 h3
    rw [hname] at hl4
    have hhttp := ingress_http_rendering name
    rw [hhttp] at hl4
    cases hl4
    have hs3 : s3 <:+ spaces 1 ++ "rules".data ++ ":\n".data
        ++ (spaces 1 ++ "- \n".data ++ s3 ++ []) := by
      refine ⟨spaces 1 ++ "rules".data ++ ":\n".data ++ (spaces 1 ++ "- \n".data), ?_⟩
      simp
    exact (hsuf4.trans hs3).trans (hsuf2.trans ((List.suffix_append _ _).trans hsuf))

/-- The Ingress of the config of the test `should include TLS configuration
when enabled` is returned with its `tls:` block, and without it when
`enableTLS` is off. -/
theorem generateIngress_tls_witness :
    IngressTls tlsTestConfig ∧
    (∃ text, generateIngress tlsTestConfig = .ok text ∧
      "  tls:\n  - \n    hosts:\n    - secure.example.com\n    secretName: app-tls\n".data
        <:+ text) ∧
    (∃ text, generateIngress { tlsTestConfig with enableTLS := .bool false } = .ok text ∧
      ¬ "tls:".data <:+: text) :=
  ⟨generateIngress_tls tlsTestConfig, exists_of_map_decide (by decide!),
    exists_of_map_decide (by decide!)⟩

end K8s

namespace K8s

/-- C19: for every config, the autoscaler produced by `generateHPA` targets
the apps/v1 Deployment named appName, carries `config.minReplicas` and
`config.maxReplicas`, has exactly two Resource metrics (cpu at 70, memory at
80), a scaleDown behaviour with window 300 and the single policy Percent 50
per 60s, and a scaleUp behaviour with window 0, the policies Percent 100 per
30s and Pods 2 per 30s, and selectPolicy Max; the scaleDown window exceeds the
scaleUp window. -/
theorem generateHPA_shape (config : Config) : HpaShape config :=
  ⟨rfl, rfl, rfl, rfl, rfl, rfl, ⟨300, 0, rfl, rfl, by decide⟩,
    fun _ _ _ _ hname hmin hmax h => generateHPA_spec hname hmin hmax h⟩

/-- The autoscaler of the config of the test `should generate
HorizontalPodAutoscaler` is returned, with its bounds 2 and 10. -/
theorem generateHPA_shape_witness :
    HpaShape hpaTestConfig ∧
    ∃ text, generateHPA hpaTestConfig = .ok text ∧
      ("spec:\n  scaleTargetRef:\n    apiVersion: apps/v1\n    kind: Deployment\n    name: ".data
        ++ rendered "app".data ++ "\n  minReplicas: ".data ++ intToStr 2
        ++ "\n  maxReplicas: ".data ++ intToStr 10 ++ "\n".data ++ hpaSpecTail) <:+ text := by
  have hs := generateHPA_shape hpaTestConfig
  obtain ⟨text, hgen⟩ := ok_of_toBool (rfl : (generateHPA hpaTestConfig).toBool = true)
  exact ⟨hs, text, hgen, hs.2.2.2.2.2.2.2 "app".data text 2 10 rfl rfl rfl hgen⟩

end K8s

namespace K8s

theorem strictEqStr_iff (v : JsVal) (s : String) :
    strictEqStr v s.data = true ↔ v = lit s := by
  cases v with
  | str t =>
    show (t == s.data) = true ↔ JsVal.str t = JsVal.str s.data
    rw [beq_iff_eq]
    constructor
    · intro h; rw [h]
    · intro h; exact JsVal.str.inj h
  | undefined => constructor <;> intro h <;> cases h
  | null => constructor <;> intro h <;> cases h
  | bool b => constructor <;> intro h <;> cases h
  | num n => constructor <;> intro h <;> cases h
  | arr xs => constructor <;> intro h <;> cases h
  | obj kvs => constructor <;> intro h <;> cases h

/-- In a manifest set without empty texts, the test `manifests[resource]`
holds exactly for the keys of the set. -/
theorem hasManifest_iff (manifests : Manifests) (h : ∀ kv ∈ manifests, kv.2 ≠ [])
    (resource : Str) :
    hasManifest manifests resource = true ↔ resource ∈ manifests.map Prod.fst := by
  unfold hasManifest
  induction manifests with
  | nil => simp [List.lookup]
  | cons kv rest ih =>
    obtain ⟨k, text⟩ := kv
    have hrest := ih (fun x hx => h x (List.mem_cons_of_mem _ hx))
    have htext : text ≠ [] := h (k, text) (List.mem_cons_self _ _)
    by_cases hk : resource = k
    · subst hk
      simp [List.lookup, htext]
    · have hb : (resource == k) = false := beq_eq_false_iff_ne.mpr hk
      simp only [List.lookup, hb, List.map_cons, List.mem_cons, hk, false_or]
      exact hrest

theorem applyIfPresent_eq (manifests : Manifests) (h : ∀ kv ∈ manifests, kv.2 ≠ [])
    (resource : String) (rest : List Str) :
    (((resource.data :: rest).filter fun r => hasManifest manifests r).map fun r =>
        "kubectl apply -f ".data ++ r ++ ".yaml".data)
      = applyIfPresent manifests resource
        ++ ((rest.filter fun r => hasManifest manifests r).map fun r =>
          "kubectl apply -f ".data ++ r ++ ".yaml".data) := by
  unfold applyIfPresent
  by_cases hm : resource.data ∈ manifests.map Prod.fst
  · rw [List.filter_cons_of_pos ((hasManifest_iff manifests h _).mpr hm), if_pos hm]
    rfl
  · have hf : ¬ hasManifest manifests resource.data = true :=
      fun hc => hm ((hasManifest_iff manifests h _).mp hc)
    rw [List.filter_cons_of_neg hf, if_neg hm]
    rfl

/-- An apply command differs from every command whose word after `kubectl`
does not start with `a`. -/
theorem applyCommand_ne (resource : String) (c : Char) (tail : Str) (hc : c ≠ 'a') :
    applyCommand resource ≠ "kubectl ".data ++ c :: tail := by
  intro h
  have h2 : "kubectl ".data ++ ('a' :: ("pply -f ".data ++ resource.data ++ ".yaml".data))
      = "kubectl ".data ++ c :: tail := h
  have h3 := List.append_cancel_left h2
  exact hc (List.cons.inj h3).1.symm

theorem mem_applyIfPresent {manifests : Manifests} {resource : String} {x : Str}
    (h : x ∈ applyIfPresent manifests resource) : x = applyCommand resource := by
  unfold applyIfPresent at h
  split at h
  · simpa using h
  · cases h

/-- The commands from the Deployment on are the four apply commands and three
commands that are no apply command. -/
theorem mem_commandsFrom {config : Config} {manifests : Manifests} {x : Str}
    (h : x ∈ commandsFrom config manifests) :
    x = applyCommand "deployment" ∨ x = applyCommand "service" ∨ x = applyCommand "ingress"
      ∨ x = applyCommand "hpa" ∨ ∃ c tail, c ≠ 'a' ∧ x = "kubectl ".data ++ c :: tail := by
  unfold commandsFrom at h
  simp only [List.mem_append] at h
  rcases h with ((((h | h) | h) | h) | h) | h
  · exact Or.inl (mem_applyIfPresent h)
  · exact Or.inr (Or.inl (mem_applyIfPresent h))
  · exact Or.inr (Or.inr (Or.inl (mem_applyIfPresent h)))
  · exact Or.inr (Or.inr (Or.inr (Or.inl (mem_applyIfPresent h))))
  · refine Or.inr (Or.inr (Or.inr (Or.inr ?_)))
    rcases List.mem_cons.mp h with h | h
    · exact ⟨'r', _, by decide, h.trans rfl⟩
    · rcases List.mem_cons.mp h with h | h
      · exact ⟨'g', _, by decide, h.trans rfl⟩
      · cases h
  · refine Or.inr (Or.inr (Or.inr (Or.inr ?_)))
    split at h
    · rcases List.mem_cons.mp h with h | h
      · exact ⟨'g', _, by decide, h.trans rfl⟩
      · cases h
    · cases h

/-- C20: for every config and every manifest set (of non-empty texts),
`generateDeploymentCommands` returns exactly: `kubectl create namespace <ns>`
if the namespace is not `default`; then `kubectl apply -f <r>.yaml` for each r
of configMap, secret, deployment, service, ingress, hpa, in that order, that is
in the manifest set; then the rollout-status command; then the pod-listing
command; then the ingress-listing command if `enableIngress` is set. The
ConfigMap and Secret apply commands come before the cut at which the
Deployment apply command stands, and nowhere after it. -/
theorem generateDeploymentCommands_list (config : Config) (manifests : Manifests)
    (htexts : ∀ kv ∈ manifests, kv.2 ≠ []) :
    CommandsAsSpecified config manifests
      ((generateDeploymentCommands config manifests).map fun c => c.command) := by
  have happly : ((applyOrder.filter fun r => hasManifest manifests r).map fun r =>
      "kubectl apply -f ".data ++ r ++ ".yaml".data)
      = applyIfPresent manifests "configMap" ++ applyIfPresent manifests "secret"
        ++ applyIfPresent manifests "deployment" ++ applyIfPresent manifests "service"
        ++ applyIfPresent manifests "ingress" ++ applyIfPresent manifests "hpa" := by
    unfold applyOrder
    rw [applyIfPresent_eq manifests htexts, applyIfPresent_eq manifests htexts,
      applyIfPresent_eq manifests htexts, applyIfPresent_eq manifests htexts,
      applyIfPresent_eq manifests htexts, applyIfPresent_eq manifests htexts]
    simp
  have hcommands : (generateDeploymentCommands config manifests).map (fun c => c.command)
      = (if notDefault config.namespace_ = true then [namespaceCommand config] else [])
        ++ (commandsBefore manifests ++ commandsFrom config manifests) := by
    unfold generateDeploymentCommands commandsBefore commandsFrom namespaceCommand
    simp only [List.map_append, List.map_map, Function.comp_def, happly]
    by_cases hn : notDefault config.namespace_ = true <;>
    by_cases hi : truthy config.enableIngress = true <;> simp [hn, hi]
  refine ⟨?_, ?_, ?_, ?_, ?_, ?_⟩
  · intro hns
    have hd : notDefault config.namespace_ = false := by
      unfold notDefault
      rw [(strictEqStr_iff _ "default").mpr hns]
      rfl
    rw [hcommands, hd]
    rfl
  · intro hns
    have hd : notDefault config.namespace_ = true := by
      unfold notDefault
      cases hb : strictEqStr config.namespace_ "default".data with
      | false => rfl
      | true => exact absurd ((strictEqStr_iff _ "default").mp hb) hns
    rw [hcommands, hd]
    rfl
  · intro h
    rcases mem_commandsFrom h with h | h | h | h | ⟨c, tail, hc, h⟩
    · exact absurd h (by decide)
    · exact absurd h (by decide)
    · exact absurd h (by decide)
    · exact absurd h (by decide)
    · exact applyCommand_ne _ c tail hc h
  · intro h
    rcases mem_commandsFrom h with h | h | h | h | ⟨c, tail, hc, h⟩
    · exact absurd h (by decide)
    · exact absurd h (by decide)
    · exact absurd h (by decide)
    · exact absurd h (by decide)
    · exact applyCommand_ne _ c tail hc h
  · intro h
    unfold commandsBefore at h
    rcases List.mem_append.mp h with h | h
    · exact absurd (mem_applyIfPresent h) (by decide)
    · exact absurd (mem_applyIfPresent h) (by decide)
  · exact applyCommand_ne _ 'c' _ (by decide)

/-- Witness of C20 on the config of the test `should provide kubectl
commands`, with a ConfigMap in the manifest set. -/
theorem generateDeploymentCommands_list_witness :
    CommandsAsSpecified commandsTestConfig commandsTestManifests
      ((generateDeploymentCommands commandsTestConfig commandsTestManifests).map
        fun c => c.command) ∧
    (generateDeploymentCommands commandsTestConfig commandsTestManifests).map
        (fun c => c.command) =
      ["kubectl create namespace production".data, "kubectl apply -f configMap.yaml".data,
        "kubectl apply -f deployment.yaml".data, "kubectl apply -f service.yaml".data,
        "kubectl apply -f ingress.yaml".data,
        "kubectl rollout status deployment/app -n production".data,
        "kubectl get pods -n production -l app=app".data,
        "kubectl get ingress -n production".data] :=
  ⟨generateDeploymentCommands_list commandsTestConfig commandsTestManifests (by decide),
    by decide⟩

end K8s

namespace K8s

/-- C21, counterexample: `generateSummary` throws for a config whose
resources have no `requests`, and for a CPU request that is no number it
returns the cost text `$NaN-NaN/month`, which is not well-formed. -/
theorem generateSummary_fails_on_malformed :
    generateSummary limitsOnlyConfig summaryTestManifests = .error .typeError ∧
    (generateSummary malformedConfig summaryTestManifests).map (fun summary =>
      summary.estimatedCost) = .ok "$NaN-NaN/month".data ∧
    ¬ WellFormedCost "$NaN-NaN/month".data :=
  ⟨generateSummary_throws _ _ rfl, by decide!, nan_not_wellFormed⟩

/-- C21, amended: for every config whose resources have a `requests` value,
`generateSummary` returns a summary, and it throws a `TypeError` when they have
none. A request that cannot be parsed makes the estimate `NaN` and the text
`$NaN-NaN/month`. When both requests start with an integer, `replicas` is an
integer and the three are of modest size (requests up to a million, ten
thousand replicas), the estimate is a finite double within a
hundred-thousandth of the exact value and `estimatedCost` is a well-formed
`$<number>-<number>/month`. -/
theorem generateSummary_cost (config : Config) (manifests : Manifests) :
    SummaryCost config manifests := by
  refine ⟨generateSummary_throws config manifests, ?_, estimate_nan config⟩
  intro h
  refine ⟨_, generateSummary_returns config manifests h, ?_, ?_⟩
  · intro hnan
    have hcost : "$".data ++ Double.roundedText (estimateOf config) ++ "-".data
        ++ Double.roundedText (Double.mul (estimateOf config) (.finite 3)) ++ "/month".data
        = "$NaN-NaN/month".data := by
      rw [hnan]
      rfl
    exact ⟨hcost, hcost ▸ nan_not_wellFormed⟩
  · intro c m r hc hm hr hsize
    obtain ⟨q, q3, hq, hq3, herr, _, htext⟩ := estimate_modest config c m r hc hm hr hsize
    exact ⟨q, q3, hq, hq3, herr, htext, htext ▸ wellFormed_costRange _ _⟩

/-- The summary of the config of the test `should provide deployment summary`
is returned with a well-formed cost. -/
theorem generateSummary_cost_witness :
    SummaryCost summaryTestConfig summaryTestManifests ∧
    (generateSummary summaryTestConfig summaryTestManifests).map (fun summary =>
      summary.estimatedCost) = .ok "$38-113/month".data :=
  ⟨generateSummary_cost summaryTestConfig summaryTestManifests, by decide!⟩

/-- Beyond the modest sizes the text of the cost need not be made of digits:
for a CPU request of 24 digits the two amounts are printed with an exponent. -/
theorem generateSummary_exponent_text :
    (generateSummary hugeConfig summaryTestManifests).map (fun summary =>
      summary.estimatedCost) = .ok "$4e+21-1.2e+22/month".data := by
  decide!

end K8s

namespace K8s

/-- C22, the code at the config of the test `should provide deployment
summary`: `generateSummary` multiplies the number that
`parseInt` reads from a request by the price, whatever its unit. For three
replicas of 250 millicores and 512 mebibytes the estimate is the double 37.68,
where a price of $0.04 for a vCPU and $0.005 for a GB gives 0.0375 dollars; and
one vCPU with one gibibyte is estimated at 0.045 dollars when written `1` and
`1Gi` and at 45.12 dollars when written `1000m` and `1024Mi`. -/
theorem totalCost_ignores_units :
    parseInt (lit "250m") = some 250 ∧
    parseInt (lit "512Mi") = some 512 ∧
    estimateOf summaryTestConfig = Double.ofRat 37.68 ∧
    pricedEstimate 250 512 3 = 3 / 80 ∧
    estimateOf summaryTestConfig ≠ Double.ofRat (pricedEstimate 250 512 3) ∧
    (generateSummary summaryTestConfig summaryTestManifests).map (fun summary =>
      summary.estimatedCost) = .ok (costRange 38 113) ∧
    totalCost (lit "1") (lit "1Gi") (.num 1) = Double.ofRat 0.045 ∧
    totalCost (lit "1000m") (lit "1024Mi") (.num 1) = Double.ofRat 45.12 := by
  have hp : pricedEstimate 250 512 3 = 3 / 80 := by
    unfold pricedEstimate
    norm_num
  refine ⟨by decide, by decide, by decide!, hp, ?_, by decide!, by decide!, by decide!⟩
  rw [hp]
  decide!

end K8s

namespace K8s

/-- C23, counterexample: for the dev defaults (100 millicores, 256 mebibytes,
one replica) the estimate is the double 5.28, which rounds to 5, and the cost
text is `$5-16/month`, not `$5-15/month`. -/
theorem estimatedCost_upper_not_triple :
    estimateOf basicConfig = Double.ofRat 5.28 ∧
    Double.roundedText (estimateOf basicConfig) = "5".data ∧
    (generateSummary basicConfig []).map (fun summary => summary.estimatedCost)
      = .ok "$5-16/month".data ∧
    "$5-16/month".data ≠ costRange 5 (3 * 5) :=
  ⟨by decide!, by decide!, by decide!, by decide⟩

/-- C23, amended: for every config whose requests start with an integer and
whose replica count is an integer, the three of modest size, `estimatedCost`
has the form `$L-U/month` where `L` is `Math.round` of the unrounded estimate
and `U` is `Math.round` of three times the unrounded estimate (the product
rounded to a double); `U` is `3 * L - 1`, `3 * L` or `3 * L + 1`. -/
theorem generateSummary_range (config : Config) (manifests : Manifests) (c m r : Int)
    (hcpu : parseInt (requestOf config "cpu") = some c)
    (hmem : parseInt (requestOf config "memory") = some m)
    (hrep : config.replicas = .num r) (hsize : ModestSizes c m r) :
    ∃ summary q q3, generateSummary config manifests = .ok summary ∧
      estimateOf config = .finite q ∧
      Double.mul (.finite q) (.finite 3) = .finite q3 ∧
      summary.estimatedCost = costRange (nearestInteger q) (nearestInteger q3) ∧
      3 * nearestInteger q - 1 ≤ nearestInteger q3 ∧
      nearestInteger q3 ≤ 3 * nearestInteger q + 1 := by
  obtain ⟨q, q3, hq, hq3, _, _, htext⟩ := estimate_modest config c m r hcpu hmem hrep hsize
  obtain ⟨y, hy, hest⟩ := totalCost_rounded _ _ _ c m r hcpu hmem hrep hsize
  have hround : Double.ofRat y = .finite q := hest.symm.trans hq
  exact ⟨_, q, q3,
    generateSummary_returns config manifests (requests_of_parsed config "cpu" c hcpu),
    hq, hq3, htext, Double.round_triple y q q3 hy hround hq3⟩

/-- The summary of the config of the test `should provide deployment summary`:
the text is `$38-113/month`, and 113 is one below three times 38. -/
theorem generateSummary_range_witness :
    (∃ summary q q3, generateSummary summaryTestConfig summaryTestManifests = .ok summary ∧
      estimateOf summaryTestConfig = .finite q ∧
      Double.mul (.finite q) (.finite 3) = .finite q3 ∧
      summary.estimatedCost = costRange (nearestInteger q) (nearestInteger q3) ∧
      3 * nearestInteger q - 1 ≤ nearestInteger q3 ∧
      nearestInteger q3 ≤ 3 * nearestInteger q + 1) ∧
    (generateSummary summaryTestConfig summaryTestManifests).map (fun summary =>
      summary.estimatedCost) = .ok (costRange 38 113) :=
  ⟨generateSummary_range summaryTestConfig summaryTestManifests 250 512 3 (by decide) (by decide)
    rfl ⟨by decide, by decide, by decide⟩, by decide!⟩

/-- The two amounts are rounded from doubles: for five replicas of 60
millicores and 60 mebibytes the sum of the products is 13.499999999999998, not
13.5, and the text is `$13-40/month`. -/
theorem generateSummary_rounds_doubles :
    estimateOf sixtyConfig = .finite (7599824371187711 / 562949953421312) ∧
    (generateSummary sixtyConfig summaryTestManifests).map (fun summary =>
      summary.estimatedCost) = .ok "$13-40/month".data := by
  refine ⟨by decide!, by decide!⟩

end K8s

namespace K8s

/-- C24: for every config, `generateBestPractices` returns the same ten
recommendations in the same order. The PodDisruptionBudget and NetworkPolicy
items are always false; the Horizontal Pod Autoscaler item equals
`enableAutoscaling`; the Ingress-with-TLS item is true exactly when both
`enableIngress` and `enableTLS` are set; the remaining six items are always
true; and with boolean flags every `implemented` is a boolean. -/
theorem generateBestPractices_items (config : Config) : PracticesAsSpecified config := by
  refine ⟨rfl, ?_, ?_, rfl, ⟨_, rfl, ?_, ?_⟩, ?_⟩
  · intro title h
    simp only [List.mem_cons, List.mem_singleton, List.not_mem_nil, or_false] at h
    rcases h with h | h | h | h | h | h <;> subst h <;> rfl
  · intro title h
    simp only [List.mem_cons, List.mem_singleton, List.not_mem_nil, or_false] at h
    rcases h with h | h <;> subst h <;> rfl
  · unfold jsAnd
    cases h : truthy config.enableIngress <;> simp [h]
  · intro ingress tls hi ht
    rw [hi, ht]
    cases ingress <;> cases tls <;> rfl
  · intro autoscaling ingress tls ha hi ht p hp
    simp only [generateBestPractices, ha, hi, ht, List.mem_cons, List.mem_singleton,
      List.not_mem_nil, or_false] at hp
    rcases hp with h | h | h | h | h | h | h | h | h | h <;> subst h
    · exact ⟨true, rfl⟩
    · exact ⟨true, rfl⟩
    · exact ⟨true, rfl⟩
    · exact ⟨true, rfl⟩
    · exact ⟨autoscaling, rfl⟩
    · exact ⟨ingress && tls, by cases ingress <;> cases tls <;> rfl⟩
    · exact ⟨true, rfl⟩
    · exact ⟨true, rfl⟩
    · exact ⟨false, rfl⟩
    · exact ⟨false, rfl⟩

/-- The checklist of the config of the test `should list implemented best
practices`: both optional items are implemented. -/
theorem generateBestPractices_items_witness :
    PracticesAsSpecified practicesTestConfig ∧
    (generateBestPractices practicesTestConfig).map (fun p => truthy p.implemented)
      = [true, true, true, true, true, true, true, true, false, false] :=
  ⟨generateBestPractices_items practicesTestConfig, by decide⟩

end K8s

namespace K8s

/-- An object whose values are scalars is rendered as one line for each
property. -/
theorem toYAMLProps_scalars (kvs : List (Str × JsVal)) (indent : Nat)
    (h : ∀ kv ∈ kvs, isScalar kv.2 = true) :
    toYAMLProps kvs indent
      = .ok (kvs.map fun kv => scalarLine indent kv.1 kv.2).flatten := by
  induction kvs with
  | nil => rw [toYAMLProps_nil]; rfl
  | cons kv rest ih =>
    obtain ⟨key, value⟩ := kv
    have hv : isScalar value = true := h (key, value) (List.mem_cons_self _ _)
    have hentry : toYAMLEntry key value indent = .ok (scalarLine indent key value) := by
      cases value with
      | bool b => rw [toYAMLEntry]
      | num n => rw [toYAMLEntry]
      | str s => rw [toYAMLEntry]
      | undefined => cases hv
      | null => cases hv
      | arr xs => cases hv
      | obj inner => cases hv
    rw [toYAMLProps_cons, hentry, ih fun x hx => h x (List.mem_cons_of_mem _ hx)]
    rfl

/-- The `stringData` block of scalar secrets, as `toYAML` renders it. -/
theorem stringData_rendering (kvs : List (Str × JsVal))
    (h : ∀ kv ∈ kvs, isScalar kv.2 = true) :
    toYAMLEntry "stringData".data (.obj kvs) 0
      = .ok ("stringData:\n".data ++ clearLines kvs) := by
  rw [toYAMLEntry_obj_eq, toYAMLProps_scalars kvs (0 + 1) h]
  rfl

/-- C25: for every config whose secrets are scalar values, `generateSecret`
emits a `v1` Secret of type Opaque whose values are stored in a `stringData`
block, with one line for each key of `secrets` holding the value in clear, as
`formatValue` renders it; no value is encoded and there is no `data` block. -/
theorem generateSecret_cleartext (config : Config) (kvs : List (Str × JsVal))
    (hsecrets : config.secrets = .obj kvs) (hscalar : ∀ kv ∈ kvs, isScalar kv.2 = true) :
    SecretAsSpecified config kvs := by
  have r1 : rendered "v1".data = "v1".data := by decide
  have r2 : rendered "Secret".data = "Secret".data := by decide
  have r3 : rendered "Opaque".data = "Opaque".data := by decide
  refine ⟨rfl, rfl, rfl, ?_, rfl, rfl, ?_, ?_⟩
  · unfold secretObject
    rw [hsecrets]
    rfl
  · intro text h
    unfold generateSecret toYAML secretObject at h
    simp only at h
    rw [hsecrets] at h
    constructor
    · obtain ⟨l1, m1, h1, hm1, rfl⟩ := toYAMLProps_cons_ok h
      obtain ⟨l2, m2, h2, hm2, rfl⟩ := toYAMLProps_cons_ok hm1
      obtain ⟨l3, m3, h3, _, rfl⟩ := toYAMLProps_cons_ok hm2
      obtain ⟨sub, _, rfl⟩ := toYAMLEntry_obj h3
      rw [lit, toYAMLEntry_rendered, r1] at h1
      rw [lit, toYAMLEntry_rendered, r2] at h2
      cases h1
      cases h2
      refine ⟨sub ++ m3, ?_⟩
      simp [spaces]
    · obtain ⟨a, b, _, hb, rfl⟩ := toYAMLProps_append
        [prop "apiVersion" (lit "v1"), prop "kind" (lit "Secret"),
          prop "metadata" (.obj [prop "name" (withSuffix config.appName "-secrets"),
            prop "namespace" config.namespace_,
            prop "labels" (.obj [prop "app" config.appName])])]
        [prop "type" (lit "Opaque"), prop "stringData" (.obj kvs)] 0 h
      simp only [prop, lit, toYAMLProps_cons, toYAMLEntry_rendered, r3,
        stringData_rendering kvs hscalar, ok_bind, toYAMLProps_nil] at hb
      cases hb
      refine List.IsSuffix.trans ?_ (List.suffix_append a _)
      refine ⟨[], ?_⟩
      simp only [spaces, pure, Except.pure]
      simp
  · intro name ns hname hns
    unfold generateSecret toYAML secretObject
    simp only
    rw [hsecrets, hname, hns]
    have hs : withSuffix (.str name) "-secrets" = .str (name ++ "-secrets".data) := rfl
    simp only [hs, prop, lit, toYAMLProps_cons, toYAMLEntry_rendered, toYAMLEntry_obj_eq, r1, r2,
      r3, stringData_rendering kvs hscalar, ok_bind, toYAMLProps_nil]
    simp only [spaces, pure, Except.pure, headLines, bind, Except.bind]
    simp

/-- The Secret of the config of the test `should generate Secret manifest`:
both values stand in clear in the text. -/
theorem generateSecret_cleartext_witness :
    SecretAsSpecified secretTestConfig
      [prop "DB_PASSWORD" (lit "secret123"), prop "API_KEY" (lit "key456")] ∧
    generateSecret secretTestConfig = .ok ("apiVersion: v1\nkind: Secret\nmetadata:\n"
      ++ "  name: app-secrets\n  namespace: default\n  labels:\n    app: app\n"
      ++ "type: Opaque\nstringData:\n  DB_PASSWORD: secret123\n  API_KEY: key456\n").data :=
  ⟨generateSecret_cleartext secretTestConfig _ rfl (by decide), by decide!⟩

end K8s

namespace K8s

/-- In the text of an Ingress the annotation block is followed by `spec:`. -/
theorem ingress_annotations_then_spec {config : Config} {text : Str}
    (h : generateIngress config = .ok text) :
    ∃ line, toYAMLEntry "annotations".data (ingressAnnotations config) 1 = .ok line ∧
      (line ++ "spec:\n".data) <:+: text := by
  unfold generateIngress toYAML ingressObject at h
  simp only at h
  obtain ⟨l1, m1, _, h1, rfl⟩ := toYAMLProps_cons_ok h
  obtain ⟨l2, m2, _, h2, rfl⟩ := toYAMLProps_cons_ok h1
  obtain ⟨l3, m3, hl3, h3, rfl⟩ := toYAMLProps_cons_ok h2
  obtain ⟨l4, m4, hl4, _, rfl⟩ := toYAMLProps_cons_ok h3
  obtain ⟨sub3, hs3, rfl⟩ := toYAMLEntry_obj hl3
  obtain ⟨sub4, _, rfl⟩ := toYAMLEntry_obj hl4
  obtain ⟨line, hline, pre, rfl⟩ := toYAMLProps_last
    [prop "name" config.appName, prop "namespace" config.namespace_,
      prop "labels" (.obj [prop "app" config.appName])] "annotations".data _ 1 hs3
  refine ⟨line, hline, l1 ++ l2 ++ (spaces 0 ++ "metadata".data ++ ":\n".data ++ pre),
    sub4 ++ m4, ?_⟩
  simp only [spaces, List.append_assoc]
  rfl

/-- C26: for every config with `enableTLS` set, the Ingress produced by
`generateIngress` carries the annotation `cert-manager.io/cluster-issuer`,
with the value `letsencrypt-prod` exactly when `config.environment` is
`production` and `letsencrypt-staging` for every other environment; when
`enableTLS` is not set the annotation is absent. -/
theorem generateIngress_issuer (config : Config) : IssuerAnnotation config := by
  have hprod : config.environment = lit "production" →
      strictEqStr config.environment "production".data = true :=
    fun h => (strictEqStr_iff _ _).2 h
  have hother : config.environment ≠ lit "production" →
      strictEqStr config.environment "production".data = false := by
    intro h
    cases hs : strictEqStr config.environment "production".data with
    | false => rfl
    | true => exact absurd ((strictEqStr_iff _ _).1 hs) h
  refine ⟨?_, ?_, ?_, ?_, ?_⟩
  · cases ht : truthy config.enableTLS with
    | true =>
      refine ⟨_, by unfold ingressObject ingressAnnotations; rw [ht]; rfl, ?_⟩
      simp [prop]
    | false =>
      refine ⟨_, by unfold ingressObject ingressAnnotations; rw [ht]; rfl, ?_⟩
      simp [prop]
  · intro ht he
    unfold issuerOf ingressObject ingressAnnotations
    rw [ht, hprod he]
    rfl
  · intro ht he
    unfold issuerOf ingressObject ingressAnnotations
    rw [ht, hother he]
    rfl
  · intro ht
    unfold issuerOf ingressObject ingressAnnotations
    rw [ht]
    rfl
  · intro text h
    obtain ⟨line, hline, hin⟩ := ingress_annotations_then_spec h
    unfold ingressAnnotations at hline
    refine ⟨?_, ?_, ?_⟩
    · intro ht he
      rw [ht, hprod he] at hline
      have hl : Except.ok line = (.ok (annotationLines
          ++ "    cert-manager.io/cluster-issuer: letsencrypt-prod\n".data) :
            Except JsError Str) :=
        hline.symm.trans (by decide!)
      rw [Except.ok.inj hl, List.append_assoc] at hin
      exact hin
    · intro ht he
      rw [ht, hother he] at hline
      have hl : Except.ok line = (.ok (annotationLines
          ++ "    cert-manager.io/cluster-issuer: letsencrypt-staging\n".data) :
            Except JsError Str) :=
        hline.symm.trans (by decide!)
      rw [Except.ok.inj hl, List.append_assoc] at hin
      exact hin
    · intro ht
      rw [ht] at hline
      simp only [Bool.false_eq_true, if_false] at hline
      have hl : Except.ok line = (.ok annotationLines : Except JsError Str) :=
        hline.symm.trans (by decide!)
      rw [Except.ok.inj hl] at hin
      exact hin

/-- The Ingress of the config of the test `should include TLS configuration
when enabled` names the production issuer, and the same config for staging
names the staging issuer. -/
theorem generateIngress_issuer_witness :
    IssuerAnnotation tlsTestConfig ∧
    (generateIngress tlsTestConfig).map (fun text => decide ((annotationLines
      ++ "    cert-manager.io/cluster-issuer: letsencrypt-prod\nspec:\n".data) <:+: text))
      = .ok true ∧
    (generateIngress stagingTlsConfig).map (fun text => decide ((annotationLines
      ++ "    cert-manager.io/cluster-issuer: letsencrypt-staging\nspec:\n".data) <:+: text))
      = .ok true :=
  ⟨generateIngress_issuer tlsTestConfig, by decide!, by decide!⟩

end K8s

namespace K8s

theorem isNum_eq {v : JsVal} {n : Int} (h : isNum v n = true) : v = .num n := by
  cases v with
  | num m =>
    have hm : m = n := by simpa [isNum] using h
    rw [hm]
  | undefined => cases h
  | null => cases h
  | bool b => cases h
  | str s => cases h
  | arr xs => cases h
  | obj kvs => cases h

theorem isImplemented_eq {v : Option JsVal} (h : isImplemented v = true) :
    v = some (.bool true) := by
  cases v with
  | none => cases h
  | some w =>
    cases w with
    | bool b =>
      cases b with
      | true => rfl
      | false => cases h
    | undefined => cases h
    | null => cases h
    | num n => cases h
    | str s => cases h
    | arr xs => cases h
    | obj kvs => cases h

/-- C27: `generate` applied to the options of the integration example (the
app `web-api` for production with ingress, TLS, autoscaling from 3 to 10, one
environment variable and one secret) yields all six manifest kinds,
`summary.replicas` 3, six entries in `summary.resourcesGenerated`, a command
list with the step that lists the ingress, and a checklist whose autoscaling
and TLS-ingress items are implemented. -/
theorem generate_integration :
    ∃ result, generate optionsFull = .ok result ∧ IntegrationResult result := by
  have hcheck : (generate optionsFull).map (fun result =>
      decide (result.manifests.map (fun kv => String.mk kv.1) = manifestKinds.map Prod.fst) &&
      decide (∀ entry ∈ manifestKinds, ∃ text ∈ result.manifests.lookup entry.1.data,
        ("\nkind: " ++ entry.2 ++ "\n").data <:+: text) &&
      isNum result.summary.replicas 3 &&
      decide (result.summary.resourcesGenerated.length = 6) &&
      decide (∃ step ∈ result.deploymentCommands, step.description = "Get ingress".data ∧
        step.command = "kubectl get ingress -n default".data) &&
      isImplemented (implementedOf result.bestPractices
        "Horizontal Pod Autoscaler for dynamic scaling") &&
      isImplemented (implementedOf result.bestPractices
        "Ingress with TLS for secure external access")) = .ok true := by decide!
  obtain ⟨result, hresult, h⟩ := exists_of_map_true hcheck
  simp only [Bool.and_eq_true, decide_eq_true_eq] at h
  obtain ⟨⟨⟨⟨⟨⟨h1, h2⟩, h3⟩, h4⟩, h5⟩, h6⟩, h7⟩ := h
  refine ⟨result, hresult, h1, ?_, isNum_eq h3, h4, h5, isImplemented_eq h6,
    isImplemented_eq h7⟩
  intro entry hentry
  obtain ⟨text, htext, hin⟩ := h2 entry hentry
  exact ⟨text, Option.mem_def.1 htext, hin⟩

end K8s

namespace LogAnalyzer

open K8s (Str JsVal JsError)

theorem callMethod_parseLogslog (bodies : Bodies) (args : List JsVal) :
    callMethod bodies "parseLogslog" args = .error .typeError := rfl

/-- C28, the code at every input: `analyze` returns no analysis object. It
calls a method
`parseLogslog`, and the class has no method of that name (the parser is
`parseLog`), so for every log text and every options object, whatever the other
methods compute, the call throws a `TypeError`; so it does for the log text and
the three options objects of the tests of the repository. -/
theorem analyze_throws (bodies : Bodies) (logs options : JsVal) :
    analyze bodies logs options = .error .typeError ∧
    analyze bodies sampleLogs (.obj []) = .error .typeError ∧
    analyze bodies sampleLogs (.obj [K8s.prop "includeTimeline" (.bool true)])
      = .error .typeError ∧
    analyze bodies sampleLogs (.obj [K8s.prop "logFormat" (K8s.lit "auto")])
      = .error .typeError := by
  have key : ∀ logs options, analyze bodies logs options = .error .typeError := by
    intro logs options
    unfold analyze
    simp only [callMethod_parseLogslog, bind, Except.bind, pure, Except.pure]
    split
    · rename_i e _; cases e; rfl
    · split
      · split
        · rename_i e _; cases e; rfl
        · rfl
      · rfl
  exact ⟨key _ _, key _ _, key _ _, key _ _⟩

end LogAnalyzer

namespace SecurityScanner

open K8s (Str JsVal JsError)

/-- C29: for all integer counts, `calculateSecurityScore` returns
`100 - (30*critical + 15*high + 5*medium + 1*low)` clamped to the range from 0
to 100: the score is never below 0 and never above 100, it is 100 when all
counts are 0, and it does not grow when counts grow. -/
theorem calculateSecurityScore_clamped (critical high medium low : Int) :
    calculateSecurityScore { critical := critical, high := high, medium := medium, low := low }
      = max 0 (min 100 (100 - (30 * critical + 15 * high + 5 * medium + 1 * low))) ∧
    0 ≤ calculateSecurityScore
      { critical := critical, high := high, medium := medium, low := low } ∧
    calculateSecurityScore
      { critical := critical, high := high, medium := medium, low := low } ≤ 100 ∧
    calculateSecurityScore { critical := 0, high := 0, medium := 0, low := 0 } = 100 ∧
    ∀ critical2 high2 medium2 low2 : Int,
      critical ≤ critical2 → high ≤ high2 → medium ≤ medium2 → low ≤ low2 →
      calculateSecurityScore
        { critical := critical2, high := high2, medium := medium2, low := low2 }
      ≤ calculateSecurityScore
        { critical := critical, high := high, medium := medium, low := low } := by
  simp only [calculateSecurityScore]
  refine ⟨by ring_nf, by omega, by omega, by decide, ?_⟩
  intro c h m l hc hh hm hl
  omega

/-- The counts of the tests: one critical issue gives 70, ten issues of every
severity give 0, a negative count gives 100, and the score of one issue of each
severity is not below the score of two of each. -/
theorem calculateSecurityScore_clamped_witness :
    calculateSecurityScore { critical := 1, high := 0, medium := 0, low := 0 } = 70 ∧
    calculateSecurityScore { critical := 10, high := 10, medium := 10, low := 10 } = 0 ∧
    calculateSecurityScore { critical := -5, high := 0, medium := 0, low := 0 } = 100 ∧
    calculateSecurityScore { critical := 2, high := 2, medium := 2, low := 2 }
      ≤ calculateSecurityScore { critical := 1, high := 1, medium := 1, low := 1 } :=
  ⟨by decide, by decide, by decide,
    (calculateSecurityScore_clamped 1 1 1 1).2.2.2.2 2 2 2 2 (by decide) (by decide) (by decide)
      (by decide)⟩

end SecurityScanner

namespace SecurityScanner

open K8s (Str JsVal JsError)

/-- C30: for every source text, the findings `scan` returns are sorted by
severity from the highest to the lowest (of two consecutive findings the first
has at least the weight of the second), and `totalIssues` is the length of the
list and the sum of the counts of `issuesBySeverity`. -/
theorem scan_sorted_and_counted (code : Str) (options : JsVal) (hopt : options ≠ .null) :
    ∃ result, scan code options = .ok result ∧
      List.Chain' (fun f g => severityWeight f.severity ≥ severityWeight g.severity)
        result.findings ∧
      result.totalIssues = result.findings.length ∧
      (result.totalIssues : Int) = result.issuesBySeverity.critical
        + result.issuesBySeverity.high + result.issuesBySeverity.medium
        + result.issuesBySeverity.low := by
  obtain ⟨language, h⟩ := scan_ok code options hopt
  refine ⟨_, h, sortFindings_chain _, ?_, ?_⟩
  · exact (List.length_insertionSort _ _).symm
  · exact grouped_total _ (finding_severity code)

/-- The source text of the test `should sort findings by severity`, scanned
without options: three findings, the critical one first though it is on the
last line. -/
theorem scan_sorted_and_counted_witness :
    JsVal.undefined ≠ JsVal.null ∧
    (∃ result, scan sortTestCode .undefined = .ok result ∧
      List.Chain' (fun f g => severityWeight f.severity ≥ severityWeight g.severity)
        result.findings ∧
      result.totalIssues = result.findings.length ∧
      (result.totalIssues : Int) = result.issuesBySeverity.critical
        + result.issuesBySeverity.high + result.issuesBySeverity.medium
        + result.issuesBySeverity.low) ∧
    (scan sortTestCode .undefined).map (fun result =>
      (result.findings.map fun f => (f.severity, f.lineNumber), result.totalIssues))
      = .ok ([("CRITICAL".data, 4), ("HIGH".data, 3), ("MEDIUM".data, 2)], 3) :=
  ⟨fun h => JsVal.noConfusion h,
    scan_sorted_and_counted sortTestCode .undefined (fun h => JsVal.noConfusion h),
    by decide!⟩

end SecurityScanner

namespace SecurityScanner

open K8s (Str JsVal JsError)

/-- The pattern of the entry `commandInjection` matches at a call of
`os.system`, whatever stands before it, and reads the ten characters. -/
theorem matchHead_call (prev : Option Char) (rest : Str) :
    matchHead (.alt (text "os.system(")
        (seq [text "subprocess", anything, text "shell", spacesOpt, text "=", spacesOpt,
          text "True"])) prev ("os.system(".data ++ rest) = some rest := by
  unfold matchHead
  have hfuel : ∀ size len : Nat, 30 ≤ size + 1 → ∃ m, (len + 2) * (size + 1) = m + 30 := by
    intro size len hsize
    have hle : 30 ≤ (len + 2) * (size + 1) :=
      le_trans hsize (Nat.le_mul_of_pos_left _ (Nat.succ_pos _))
    exact ⟨(len + 2) * (size + 1) - 30, (Nat.sub_add_cancel hle).symm⟩
  obtain ⟨m, hm⟩ := hfuel _ ("os.system(".data ++ rest).length
    (by decide : 30 ≤ (Regex.alt (text "os.system(")
      (seq [text "subprocess", anything, text "shell", spacesOpt, text "=", spacesOpt,
        text "True"])).size + 1)
  rw [hm]
  simp [run, text]

/-- The scan passes over the characters of a match without looking at them. -/
theorem scanFrom_skip (r : Regex) (rest : Str) :
    ∀ (pre : Str) (prev : Option Char) (idx : Nat), pre ≠ [] →
      ∃ prev2, scanFrom r prev idx pre.length (pre ++ rest)
        = scanFrom r prev2 (idx + pre.length) 0 rest := by
  intro pre
  induction pre with
  | nil => intro prev idx h; exact absurd rfl h
  | cons c t ih =>
    intro prev idx _
    cases t with
    | nil =>
      refine ⟨some c, ?_⟩
      show scanFrom r prev idx 1 (c :: rest) = _
      rw [scanFrom]
      simp
    | cons d t2 =>
      obtain ⟨prev2, h2⟩ := ih (some c) (idx + 1) (List.cons_ne_nil _ _)
      refine ⟨prev2, ?_⟩
      show scanFrom r prev idx ((d :: t2).length + 1) (c :: ((d :: t2) ++ rest)) = _
      rw [scanFrom]
      simp only [Nat.add_sub_cancel, gt_iff_lt, Nat.zero_lt_succ, if_true]
      rw [h2]
      congr 1
      simp only [List.length_cons]
      omega

/-- In a text of `n` calls of `os.system` the pattern of `commandInjection`
matches `n` times. -/
theorem scanFrom_calls (n : Nat) :
    ∀ (prev : Option Char) (idx : Nat),
      (scanFrom (.alt (text "os.system(")
        (seq [text "subprocess", anything, text "shell", spacesOpt, text "=", spacesOpt,
          text "True"])) prev idx 0 (List.replicate n "os.system(".data).flatten).length
        = n := by
  induction n with
  | zero => intro prev idx; rfl
  | succ n ih =>
    intro prev idx
    have hrep : (List.replicate (n + 1) "os.system(".data).flatten
        = 'o' :: ("s.system(".data ++ (List.replicate n "os.system(".data).flatten) := by
      rw [List.replicate_succ, List.flatten_cons]
      rfl
    rw [hrep, scanFrom]
    simp only [gt_iff_lt, Nat.lt_irrefl, if_false]
    have hm := matchHead_call prev (List.replicate n "os.system(".data).flatten
    have hcons : "os.system(".data ++ (List.replicate n "os.system(".data).flatten
        = 'o' :: ("s.system(".data ++ (List.replicate n "os.system(".data).flatten) := rfl
    rw [hcons] at hm
    rw [hm]
    simp only [List.length_cons]
    obtain ⟨prev2, hskip⟩ := scanFrom_skip (.alt (text "os.system(")
        (seq [text "subprocess", anything, text "shell", spacesOpt, text "=", spacesOpt,
          text "True"])) (List.replicate n "os.system(".data).flatten "s.system(".data
      (some 'o') (idx + 1) (by decide)
    have hlen : ("s.system(".data ++ (List.replicate n "os.system(".data).flatten).length + 1
        - (List.replicate n "os.system(".data).flatten.length - 1 = "s.system(".data.length := by
      rw [List.length_append]
      omega
    rw [hlen, hskip, ih]

theorem matchAll_calls (n : Nat) :
    (matchAll (.alt (text "os.system(")
      (seq [text "subprocess", anything, text "shell", spacesOpt, text "=", spacesOpt,
        text "True"])) (List.replicate n "os.system(".data).flatten).length = n :=
  scanFrom_calls n none 0

/-- The matches of the entry `commandInjection` are among the matches of the
loops of `scan`. -/
theorem hits_ge_calls (code : Str) :
    (matchAll (.alt (text "os.system(")
      (seq [text "subprocess", anything, text "shell", spacesOpt, text "=", spacesOpt,
        text "True"])) code).length ≤ (hits code).length := by
  simp only [hits, patterns, List.flatMap_cons, List.flatMap_nil, List.length_append,
    List.length_map, List.append_nil]
  omega

/-- The text of a thousand calls has at least a thousand matches. -/
theorem thousandCalls_hits : 1000 ≤ (hits thousandCalls).length := by
  unfold thousandCalls
  exact le_trans (le_of_eq (matchAll_calls 1000).symm) (hits_ge_calls _)

/-- C31, counterexample: in the result of `scan` for a source text with a
thousand calls of `os.system` one finding has the id `SEC-1000`, which has four
digits. -/
theorem scan_id_four_digits :
    ∃ result, scan thousandCalls .undefined = .ok result ∧
      ∃ f ∈ result.findings, f.id = "SEC-1000".data ∧ isThreeDigitId f.id = false := by
  obtain ⟨result, h, f, hf, hid⟩ := scan_finding_with_id thousandCalls .undefined
    (fun h => JsVal.noConfusion h) 1000 (by decide) thousandCalls_hits
  have hfour : idOf 1000 = "SEC-1000".data := by decide
  refine ⟨result, h, f, hf, hid.trans hfour, ?_⟩
  rw [hid, hfour]
  decide

/-- C31, amended: for every source text, every finding `scan` returns has the
id `SEC-` followed by the decimal form of its counter value, padded with zeros
to three digits, so exactly three digits for the first 999 findings pushed; the
counter values are those from 1 to the number of findings, and no two findings
share an id. -/
theorem scan_ids (code : Str) (options : JsVal) (hopt : options ≠ .null) :
    ∃ result, scan code options = .ok result ∧ IdsAsSpecified result := by
  obtain ⟨language, h⟩ := scan_ok code options hopt
  have hmem : ∀ f, f ∈ sortFindings (collectFindings code) ↔
      ∃ i, i < (hits code).length ∧ f.id = idOf (i + 1) ∧ f ∈ collectFindings code := by
    intro f
    rw [sortFindings, List.mem_insertionSort]
    constructor
    · intro hf
      have hf2 := hf
      unfold collectFindings at hf2
      obtain ⟨numbered, hn, hfn⟩ := List.mem_map.1 hf2
      obtain ⟨hlt, _⟩ := List.mem_enum (i := numbered.1) hn
      exact ⟨numbered.1, hlt, by rw [← hfn]; rfl, hf⟩
    · rintro ⟨_, _, _, hf⟩
      exact hf
  have hthree := idOf_three_digits
  refine ⟨_, h, ?_, ?_, ?_, hthree, ?_⟩
  · show ((sortFindings (collectFindings code)).map fun f => f.id).Nodup
    rw [(sortFindings_ids_perm _).nodup_iff, collectFindings_ids]
    exact List.Nodup.map (fun a b hab => Nat.succ_injective (idOf_injective hab))
      (List.nodup_range _)
  · intro f hf
    obtain ⟨i, hlt, hid, _⟩ := (hmem f).1 hf
    refine ⟨i + 1, Nat.succ_le_succ (Nat.zero_le i), ?_, hid⟩
    show i + 1 ≤ (collectFindings code).length
    rw [collectFindings_length]
    exact hlt
  · intro k hk1 hk2
    have hk3 : k ≤ (hits code).length := by
      rw [← collectFindings_length]
      exact hk2
    have hlt : k - 1 < (hits code).length := by omega
    refine ⟨findingOf code k ((hits code).get ⟨k - 1, hlt⟩), ?_, rfl⟩
    show _ ∈ sortFindings (collectFindings code)
    rw [sortFindings, List.mem_insertionSort]
    unfold collectFindings
    refine List.mem_map.2 ⟨(k - 1, (hits code).get ⟨k - 1, hlt⟩), ?_, ?_⟩
    · rw [List.mk_mem_enum_iff_getElem?]
      exact List.getElem?_eq_getElem hlt
    · show findingOf code (k - 1 + 1) _ = findingOf code k _
      rw [Nat.sub_add_cancel hk1]
  · intro hsmall f hf
    obtain ⟨i, hlt, hid, _⟩ := (hmem f).1 hf
    rw [hid]
    have hn : (collectFindings code).length < 1000 := hsmall
    rw [collectFindings_length] at hn
    exact hthree (i + 1) (by omega)

/-- The source text of the test `should format finding IDs correctly`: three
findings, with the ids `SEC-001`, `SEC-002` and `SEC-003`. -/
theorem scan_ids_witness :
    JsVal.undefined ≠ JsVal.null ∧
    (∃ result, scan idTestCode .undefined = .ok result ∧ IdsAsSpecified result) ∧
    (scan idTestCode .undefined).map (fun result => result.findings.map fun f => f.id)
      = .ok ["SEC-001".data, "SEC-002".data, "SEC-003".data] :=
  ⟨fun h => JsVal.noConfusion h, scan_ids idTestCode .undefined (fun h => JsVal.noConfusion h),
    by decide!⟩

end SecurityScanner

namespace PromptOptimizer

open K8s (Str)

/-! ## C33 and C34: the scores of a prompt -/

/-- The clamp `Math.max(0, Math.min(100, score))` stays in the range. -/
theorem clamp_range (score : Int) : 0 ≤ max 0 (min 100 score) ∧ max 0 (min 100 score) ≤ 100 := by
  omega

theorem countIncluded_nonneg (toLowerCase : Str → Str) (prompt : Str) (terms : List String) :
    0 ≤ countIncluded toLowerCase prompt terms := by
  unfold countIncluded
  exact Int.ofNat_nonneg _

/-- The clarity score never exceeds 85. -/
theorem analyzeClarity_le (toLowerCase : Str → Str) (prompt : Str) :
    analyzeClarity toLowerCase prompt ≤ 85 := by
  unfold analyzeClarity
  have h := countIncluded_nonneg toLowerCase prompt
    ["something", "anything", "stuff", "things", "somehow", "kind of", "sort of"]
  simp only
  split <;> split <;> split <;> omega

/-- The product of a score in the range and a weight below 1, as a double. -/
theorem weighted_near (score : Int) (weight : ℚ) (h0 : 0 ≤ score) (h1 : score ≤ 100)
    (hw0 : 0 ≤ weight) (hw1 : weight ≤ 1) :
    Double.Near (Double.mul (.ofInt score) (.ofRat weight)) (score * weight)
      (1 / 1000000000000) := by
  have hs0 : (0 : ℚ) ≤ score := by exact_mod_cast h0
  have hs1 : (score : ℚ) ≤ 100 := by exact_mod_cast h1
  have hsa : |(score : ℚ)| ≤ 100 := by rw [abs_of_nonneg hs0]; exact hs1
  have hwa : |weight| ≤ 1 := by rw [abs_of_nonneg hw0]; exact hw1
  have ns := Double.near_ofRat (score : ℚ) 7 (by norm_num) (le_trans hsa (by norm_num))
  have nw := Double.near_ofRat weight 0 (by norm_num) (le_trans hwa (by norm_num))
  exact (Double.Near.mul 7 (by norm_num) ns nw hsa hwa (by norm_num)).mono (by norm_num)

/-- The overall score of scores in the range is a finite double next to the
exact weighted sum. -/
theorem calculateOverallScore_near (scores : Scores) (h : InRange scores) :
    Double.Near (calculateOverallScore scores) (exactOverallScore scores)
      (1 / 100000000000) := by
  obtain ⟨⟨c0, c1⟩, ⟨n0, n1⟩, ⟨t0, t1⟩, ⟨s0, s1⟩, ⟨x0, x1⟩⟩ := h
  have qc0 : (0 : ℚ) ≤ scores.clarity := by exact_mod_cast c0
  have qc1 : (scores.clarity : ℚ) ≤ 100 := by exact_mod_cast c1
  have qn0 : (0 : ℚ) ≤ scores.conciseness := by exact_mod_cast n0
  have qn1 : (scores.conciseness : ℚ) ≤ 100 := by exact_mod_cast n1
  have qt0 : (0 : ℚ) ≤ scores.tone := by exact_mod_cast t0
  have qt1 : (scores.tone : ℚ) ≤ 100 := by exact_mod_cast t1
  have qs0 : (0 : ℚ) ≤ scores.specificity := by exact_mod_cast s0
  have qs1 : (scores.specificity : ℚ) ≤ 100 := by exact_mod_cast s1
  have qx0 : (0 : ℚ) ≤ scores.context := by exact_mod_cast x0
  have qx1 : (scores.context : ℚ) ≤ 100 := by exact_mod_cast x1
  have w1 : weights.clarity = 3 / 10 := by unfold weights; norm_num
  have w2 : weights.specificity = 1 / 4 := by unfold weights; norm_num
  have w3 : weights.context = 1 / 5 := by unfold weights; norm_num
  have w4 : weights.conciseness = 3 / 20 := by unfold weights; norm_num
  have w5 : weights.tone = 1 / 10 := by unfold weights; norm_num
  have p1 := weighted_near scores.clarity weights.clarity c0 c1 (by rw [w1]; norm_num)
    (by rw [w1]; norm_num)
  have p2 := weighted_near scores.specificity weights.specificity s0 s1 (by rw [w2]; norm_num)
    (by rw [w2]; norm_num)
  have p3 := weighted_near scores.context weights.context x0 x1 (by rw [w3]; norm_num)
    (by rw [w3]; norm_num)
  have p4 := weighted_near scores.conciseness weights.conciseness n0 n1 (by rw [w4]; norm_num)
    (by rw [w4]; norm_num)
  have p5 := weighted_near scores.tone weights.tone t0 t1 (by rw [w5]; norm_num)
    (by rw [w5]; norm_num)
  rw [w1] at p1
  rw [w2] at p2
  rw [w3] at p3
  rw [w4] at p4
  rw [w5] at p5
  have a1 : |(scores.clarity : ℚ) * (3 / 10)| ≤ 30 := by
    rw [abs_of_nonneg (by positivity)]; linarith
  have a2 : |(scores.specificity : ℚ) * (1 / 4)| ≤ 25 := by
    rw [abs_of_nonneg (by positivity)]; linarith
  have a3 : |(scores.context : ℚ) * (1 / 5)| ≤ 20 := by
    rw [abs_of_nonneg (by positivity)]; linarith
  have a4 : |(scores.conciseness : ℚ) * (3 / 20)| ≤ 15 := by
    rw [abs_of_nonneg (by positivity)]; linarith
  have a5 : |(scores.tone : ℚ) * (1 / 10)| ≤ 10 := by
    rw [abs_of_nonneg (by positivity)]; linarith
  have s12 := (Double.Near.add 7 (by norm_num) p1 p2 (by norm_num; linarith)).mono
    (show _ ≤ (3 / 1000000000000 : ℚ) by norm_num)
  have b12 : |(scores.clarity : ℚ) * (3 / 10) + (scores.specificity : ℚ) * (1 / 4)| ≤ 55 :=
    le_trans (abs_add _ _) (by linarith)
  have s123 := (Double.Near.add 7 (by norm_num) s12 p3 (by norm_num; linarith)).mono
    (show _ ≤ (5 / 1000000000000 : ℚ) by norm_num)
  have b123 : |(scores.clarity : ℚ) * (3 / 10) + (scores.specificity : ℚ) * (1 / 4)
      + (scores.context : ℚ) * (1 / 5)| ≤ 75 :=
    le_trans (abs_add _ _) (by linarith)
  have s1234 := (Double.Near.add 7 (by norm_num) s123 p4 (by norm_num; linarith)).mono
    (show _ ≤ (7 / 1000000000000 : ℚ) by norm_num)
  have b1234 : |(scores.clarity : ℚ) * (3 / 10) + (scores.specificity : ℚ) * (1 / 4)
      + (scores.context : ℚ) * (1 / 5) + (scores.conciseness : ℚ) * (3 / 20)| ≤ 90 :=
    le_trans (abs_add _ _) (by linarith)
  have s12345 := (Double.Near.add 7 (by norm_num) s1234 p5 (by norm_num; linarith)).mono
    (show _ ≤ (1 / 100000000000 : ℚ) by norm_num)
  unfold calculateOverallScore exactOverallScore
  rw [w1, w2, w3, w4, w5]
  exact s12345

/-- The exact weighted sum of scores in the range is in the range. -/
theorem exactOverallScore_range (scores : Scores) (h : InRange scores) :
    0 ≤ exactOverallScore scores ∧ exactOverallScore scores ≤ 100 := by
  obtain ⟨⟨c0, c1⟩, ⟨n0, n1⟩, ⟨t0, t1⟩, ⟨s0, s1⟩, ⟨x0, x1⟩⟩ := h
  have qc0 : (0 : ℚ) ≤ scores.clarity := by exact_mod_cast c0
  have qc1 : (scores.clarity : ℚ) ≤ 100 := by exact_mod_cast c1
  have qn0 : (0 : ℚ) ≤ scores.conciseness := by exact_mod_cast n0
  have qn1 : (scores.conciseness : ℚ) ≤ 100 := by exact_mod_cast n1
  have qt0 : (0 : ℚ) ≤ scores.tone := by exact_mod_cast t0
  have qt1 : (scores.tone : ℚ) ≤ 100 := by exact_mod_cast t1
  have qs0 : (0 : ℚ) ≤ scores.specificity := by exact_mod_cast s0
  have qs1 : (scores.specificity : ℚ) ≤ 100 := by exact_mod_cast s1
  have qx0 : (0 : ℚ) ≤ scores.context := by exact_mod_cast x0
  have qx1 : (scores.context : ℚ) ≤ 100 := by exact_mod_cast x1
  unfold exactOverallScore weights
  norm_num
  constructor <;> linarith

/-- The scores the analysers give are in the range. -/
theorem scores_in_range (toLowerCase : Str → Str) (prompt : Str) :
    InRange {
      clarity := analyzeClarity toLowerCase prompt
      conciseness := analyzeConciseness toLowerCase prompt
      tone := analyzeTone toLowerCase prompt
      specificity := analyzeSpecificity toLowerCase prompt
      context := analyzeContext toLowerCase prompt } :=
  ⟨clamp_range _, clamp_range _, clamp_range _, clamp_range _, clamp_range _⟩

/-- C33: for every prompt string, `analyze` reports a strictly positive
`scoreImprovement`: the clarity score is at most 85, so the refined clarity
score is at least 15 higher, no other refined score is lower, the exact
weighted difference is at least 4.5, and the rounding of the products and sums
to doubles moves it by less than a hundred-millionth. -/
theorem analyze_improves (toLowerCase : Str → Str) (prompt : Str) :
    ∃ n : Int, (analyze toLowerCase prompt).scoreImprovement = .finite n ∧ 0 < n := by
  have hrange := scores_in_range toLowerCase prompt
  have hc := analyzeClarity_le toLowerCase prompt
  obtain ⟨⟨c0, c1⟩, ⟨n0, n1⟩, ⟨t0, t1⟩, ⟨s0, s1⟩, ⟨x0, x1⟩⟩ := hrange
  simp only at c0 c1 n0 n1 t0 t1 s0 s1 x0 x1
  have hrefined : InRange {
      clarity := min 100 (analyzeClarity toLowerCase prompt + 20)
      conciseness := min 100 (analyzeConciseness toLowerCase prompt + 10)
      tone := analyzeTone toLowerCase prompt
      specificity := min 100 (analyzeSpecificity toLowerCase prompt + 30)
      context := min 100 (analyzeContext toLowerCase prompt + 25) } := by
    refine ⟨⟨?_, ?_⟩, ⟨?_, ?_⟩, ⟨t0, t1⟩, ⟨?_, ?_⟩, ⟨?_, ?_⟩⟩ <;> simp only <;> omega
  have hO := calculateOverallScore_near _ (scores_in_range toLowerCase prompt)
  have hR := calculateOverallScore_near _ hrefined
  have bO := exactOverallScore_range _ (scores_in_range toLowerCase prompt)
  have bR := exactOverallScore_range _ hrefined
  have hdiff := Double.Near.sub 8 (by norm_num) hR hO (by
    rw [abs_of_nonneg bR.1, abs_of_nonneg bO.1]
    norm_num
    linarith)
  obtain ⟨n, hn, hlow, _⟩ := hdiff.mathRound
  refine ⟨n, hn, ?_⟩
  have hgap : exactOverallScore {
        clarity := min 100 (analyzeClarity toLowerCase prompt + 20)
        conciseness := min 100 (analyzeConciseness toLowerCase prompt + 10)
        tone := analyzeTone toLowerCase prompt
        specificity := min 100 (analyzeSpecificity toLowerCase prompt + 30)
        context := min 100 (analyzeContext toLowerCase prompt + 25) }
      - exactOverallScore {
        clarity := analyzeClarity toLowerCase prompt
        conciseness := analyzeConciseness toLowerCase prompt
        tone := analyzeTone toLowerCase prompt
        specificity := analyzeSpecificity toLowerCase prompt
        context := analyzeContext toLowerCase prompt } ≥ 9 / 2 := by
    have e1 : analyzeClarity toLowerCase prompt + 15
        ≤ min 100 (analyzeClarity toLowerCase prompt + 20) := by omega
    have e2 : analyzeConciseness toLowerCase prompt
        ≤ min 100 (analyzeConciseness toLowerCase prompt + 10) := by omega
    have e3 : analyzeSpecificity toLowerCase prompt
        ≤ min 100 (analyzeSpecificity toLowerCase prompt + 30) := by omega
    have e4 : analyzeContext toLowerCase prompt
        ≤ min 100 (analyzeContext toLowerCase prompt + 25) := by omega
    generalize min 100 (analyzeClarity toLowerCase prompt + 20) = rc at e1 ⊢
    generalize min 100 (analyzeConciseness toLowerCase prompt + 10) = rn at e2 ⊢
    generalize min 100 (analyzeSpecificity toLowerCase prompt + 30) = rs at e3 ⊢
    generalize min 100 (analyzeContext toLowerCase prompt + 25) = rx at e4 ⊢
    have q1 : (analyzeClarity toLowerCase prompt : ℚ) + 15 ≤ rc := by exact_mod_cast e1
    have q2 : (analyzeConciseness toLowerCase prompt : ℚ) ≤ rn := by exact_mod_cast e2
    have q3 : (analyzeSpecificity toLowerCase prompt : ℚ) ≤ rs := by exact_mod_cast e3
    have q4 : (analyzeContext toLowerCase prompt : ℚ) ≤ rx := by exact_mod_cast e4
    unfold exactOverallScore weights
    norm_num
    linarith
  have hpos : (0 : ℚ) < n := by
    norm_num at hlow
    linarith
  exact_mod_cast hpos

/-- C34: for every prompt string each of the five category scores lies in
[0, 100], the five weights sum to 1, and the `overallScore` that `analyze`
returns is an integer that lies in [0, 100]. -/
theorem analyze_scores_in_range (toLowerCase : Str → Str) (prompt : Str) :
    (0 ≤ analyzeClarity toLowerCase prompt ∧ analyzeClarity toLowerCase prompt ≤ 100) ∧
    (0 ≤ analyzeConciseness toLowerCase prompt ∧ analyzeConciseness toLowerCase prompt ≤ 100) ∧
    (0 ≤ analyzeTone toLowerCase prompt ∧ analyzeTone toLowerCase prompt ≤ 100) ∧
    (0 ≤ analyzeSpecificity toLowerCase prompt ∧ analyzeSpecificity toLowerCase prompt ≤ 100) ∧
    (0 ≤ analyzeContext toLowerCase prompt ∧ analyzeContext toLowerCase prompt ≤ 100) ∧
    weights.clarity + weights.specificity + weights.context + weights.conciseness
      + weights.tone = 1 ∧
    ∃ n : Int, (analyze toLowerCase prompt).overallScore = .finite n ∧ 0 ≤ n ∧ n ≤ 100 := by
  have hrange := scores_in_range toLowerCase prompt
  have hO := calculateOverallScore_near _ hrange
  have bO := exactOverallScore_range _ hrange
  obtain ⟨n, hn, hlow, hhigh⟩ := hO.mathRound
  refine ⟨clamp_range _, clamp_range _, clamp_range _, clamp_range _, clamp_range _, ?_,
    n, hn, ?_, ?_⟩
  · unfold weights
    norm_num
  · have h1 : (-1 : ℚ) < n := by linarith
    have h2 : (-1 : Int) < n := by exact_mod_cast h1
    omega
  · have h1 : (n : ℚ) < 101 := by linarith
    have h2 : n < 101 := by exact_mod_cast h1
    omega

/-- The analysis of the prompt of the test `should improve score with refined
prompt`. -/
theorem analyze_fixPrompt :
    analyze lowerCaseAscii fixPrompt =
      { overallScore := .finite 51
        scores := { clarity := 40, conciseness := 86, tone := 80, specificity := 42,
                    context := 40 }
        scoreImprovement := .finite 20 } := by
  decide!

/-- The improvement is rounded from a difference of doubles: for this prompt
the difference is 18.499999999999993 and the improvement 18, where exact
arithmetic gives 18.5. -/
theorem analyze_createPrompt :
    (analyze lowerCaseAscii createPrompt).scoreImprovement = .finite 18 ∧
    (analyze lowerCaseAscii createPrompt).scores
      = { clarity := 85, conciseness := 84, tone := 80, specificity := 34, context := 40 } := by
  decide!

end PromptOptimizer

namespace RecruiterAssistant

open K8s (Str)
open PromptOptimizer (lowerCaseAscii)

/-! ## C32: the skills score when every required skill is matched -/

/-- C32, counterexample: on the input of the test `should score 100 for all
required skills matched`, where both required skills are among the extracted
ones, `calculateSkillsMatch` returns 40. -/
theorem calculateSkillsMatch_below_hundred :
    testRequirements.requiredSkills = some ["Python".data, "Django".data] ∧
    hasSkill lowerCaseAscii testSkills "Python".data = true ∧
    hasSkill lowerCaseAscii testSkills "Django".data = true ∧
    calculateSkillsMatch lowerCaseAscii testSkills testRequirements = 40 := by
  decide!

/-- C32, amended: when every required skill is among the extracted ones (in
any letter case), `calculateSkillsMatch` returns 20 for each required skill
plus 10 for each preferred skill the candidate has, capped at 100; so it
returns 100 exactly when that sum reaches 100. -/
theorem calculateSkillsMatch_all_required (toLowerCase : Str → Str) (extractedSkills : List Str)
    (jobRequirements : JobRequirements) (requiredSkills : List Str)
    (hrequired : jobRequirements.requiredSkills = some requiredSkills)
    (hall : ∀ required ∈ requiredSkills, hasSkill toLowerCase extractedSkills required = true) :
    calculateSkillsMatch toLowerCase extractedSkills jobRequirements
      = min 100 (20 * (requiredSkills.length : Int)
          + 10 * (preferredMatched toLowerCase extractedSkills jobRequirements : Int)) ∧
    (calculateSkillsMatch toLowerCase extractedSkills jobRequirements = 100 ↔
      100 ≤ 20 * requiredSkills.length
        + 10 * preferredMatched toLowerCase extractedSkills jobRequirements) := by
  have hfilter : requiredSkills.filter (fun required =>
      hasSkill toLowerCase extractedSkills required) = requiredSkills :=
    List.filter_eq_self.2 hall
  have heq : calculateSkillsMatch toLowerCase extractedSkills jobRequirements
      = max 0 (min 100 (20 * (requiredSkills.length : Int)
          + 10 * (preferredMatched toLowerCase extractedSkills jobRequirements : Int)
          - ((requiredSkills.length : Int) - requiredSkills.length) * 15)) := by
    unfold calculateSkillsMatch preferredMatched
    rw [hrequired]
    simp only [hfilter]
  rw [heq]
  constructor
  · omega
  · omega

/-- Witness of C32 on the input of the test: two required skills, both
matched, and no preferred skill give 40. -/
theorem calculateSkillsMatch_all_required_witness :
    calculateSkillsMatch lowerCaseAscii testSkills testRequirements = min 100 (20 * 2 + 10 * 0) :=
  (calculateSkillsMatch_all_required lowerCaseAscii testSkills testRequirements
    ["Python".data, "Django".data] rfl (by decide!)).1

end RecruiterAssistant

namespace RecruiterAssistant

open K8s (Str)

/-! ## C35: the years of experience -/

/-- The fold of `min` gives an element of the list that is below every other. -/
theorem foldl_min_spec (rest : List Int) : ∀ y : Int,
    rest.foldl min y ∈ y :: rest ∧ ∀ z ∈ y :: rest, rest.foldl min y ≤ z := by
  induction rest with
  | nil =>
    intro y
    exact ⟨List.mem_singleton.2 rfl, fun z hz => by rw [List.mem_singleton.1 hz]; exact le_refl _⟩
  | cons x rest ih =>
    intro y
    obtain ⟨hmem, hle⟩ := ih (min y x)
    constructor
    · rcases List.mem_cons.1 hmem with h | h
      · rw [List.foldl_cons, h]
        rcases min_choice y x with hc | hc
        · rw [hc]; exact List.mem_cons_self _ _
        · rw [hc]; exact List.mem_cons_of_mem _ (List.mem_cons_self _ _)
      · exact List.mem_cons_of_mem _ (List.mem_cons_of_mem _ h)
    · intro z hz
      rw [List.foldl_cons]
      have hfirst := hle (min y x) (List.mem_cons_self _ _)
      rcases List.mem_cons.1 hz with h | h
      · rw [h]; exact le_trans hfirst (min_le_left _ _)
      · rcases List.mem_cons.1 h with h2 | h2
        · rw [h2]; exact le_trans hfirst (min_le_right _ _)
        · exact hle z (List.mem_cons_of_mem _ h2)

/-- The call `Math.min(...years)` gives the least element of a list that is
not empty. -/
theorem mathMin_spec (years : List Int) (h : years ≠ []) :
    mathMin years ∈ years ∧ ∀ z ∈ years, mathMin years ≤ z := by
  cases years with
  | nil => exact absurd rfl h
  | cons y rest => exact foldl_min_spec rest y

/-- C35, counterexample: for a contact line with a postal code and a
telephone number the matches of four digits are 9810 and 9876, so in the year
2025 `extractYearsExperience` returns -7785, which is below 0. -/
theorem extractYearsExperience_negative :
    matchYears contactLine = ["9810".data, "9876".data] ∧
    extractYearsExperience 2025 contactLine = -7785 := by
  decide!

/-- C35, amended: `extractYearsExperience` never returns more than 30; it
returns 0 when `/\d{4}/g` has fewer than two matches in the text; otherwise it
returns the current year minus the least matched number, capped at 30, which
is at least 0 exactly when that number is not above the current year. -/
theorem extractYearsExperience_bounds (currentYear : Int) (resumeText : Str) :
    extractYearsExperience currentYear resumeText ≤ 30 ∧
    ((matchYears resumeText).length < 2 → extractYearsExperience currentYear resumeText = 0) ∧
    (2 ≤ (matchYears resumeText).length →
      ∃ earliest ∈ matchYears resumeText,
        (∀ y ∈ matchYears resumeText, K8s.digitsValue earliest ≤ K8s.digitsValue y) ∧
        extractYearsExperience currentYear resumeText
          = min (currentYear - K8s.digitsValue earliest) 30 ∧
        (0 ≤ extractYearsExperience currentYear resumeText ↔
          (K8s.digitsValue earliest : Int) ≤ currentYear)) := by
  refine ⟨?_, ?_, ?_⟩
  · unfold extractYearsExperience
    simp only
    split
    · decide
    · exact min_le_right _ _
  · intro h
    unfold extractYearsExperience
    simp only
    rw [if_pos h]
  · intro h
    have hne : (matchYears resumeText).map (fun y => (K8s.digitsValue y : Int)) ≠ [] := by
      intro hnil
      have hlen := congrArg List.length hnil
      rw [List.length_map] at hlen
      rw [hlen] at h
      exact absurd h (by decide)
    obtain ⟨hmem, hle⟩ := mathMin_spec _ hne
    obtain ⟨earliest, hin, hval⟩ := List.mem_map.1 hmem
    have heq : extractYearsExperience currentYear resumeText
        = min (currentYear - K8s.digitsValue earliest) 30 := by
      unfold extractYearsExperience
      simp only
      rw [if_neg (by omega), hval]
    refine ⟨earliest, hin, ?_, heq, ?_⟩
    · intro y hy
      have := hle _ (List.mem_map.2 ⟨y, hy, rfl⟩)
      rw [← hval] at this
      exact_mod_cast this
    · rw [heq]
      omega

/-- Witness of C35: the years 2018 and 2020 give 7 years in 2025, and a text
without digits gives 0. -/
theorem extractYearsExperience_bounds_witness :
    extractYearsExperience 2025 twoYearsText ≤ 30 ∧
    extractYearsExperience 2025 twoYearsText = 7 ∧
    extractYearsExperience 2025 "Engineer".data = 0 :=
  ⟨(extractYearsExperience_bounds 2025 twoYearsText).1, by decide!,
    (extractYearsExperience_bounds 2025 "Engineer".data).2.1 (by decide!)⟩

end RecruiterAssistant

namespace K8s

/-! ## When `generate` returns -/

/-- The fields of a config that the builders render, typed as the data model
types them. -/
theorem config_typed {options : Options} {config : Config}
    (h : buildConfig options = .ok config) (ht : TypedOptions options) :
    isLeaf config.appName = true ∧ isLeaf config.image = true ∧ isLeaf config.port = true ∧
    isLeaf config.namespace_ = true ∧ isLeaf config.serviceType = true ∧
    isLeaf config.ingressHost = true ∧ isLeaf config.minReplicas = true ∧
    isLeaf config.maxReplicas = true ∧ isLeaf config.healthCheckPath = true ∧
    isLeaf config.readinessCheckPath = true ∧ renderable config.envVars = true ∧
    renderable config.secrets = true := by
  obtain ⟨h1, h2, h3, _, h5, h6, _, h8, _, h10, h11, h12, h13, h14, h15⟩ := buildConfig_fields h
  obtain ⟨t1, t2, t3, t4, _, t6, t7, t8, t9, t10, t11, t12, t13⟩ := ht
  rw [h1, h2, h3, h5, h6, h8, h10, h11, h12, h13, h14, h15]
  exact ⟨t1, t2, t3, isLeaf_jsOr t4 rfl, isLeaf_jsOr t6 rfl, t7, isLeaf_jsOr t8 rfl,
    isLeaf_jsOr t9 rfl, isLeaf_jsOr t10 rfl, isLeaf_jsOr t11 rfl, renderable_jsOr t12 rfl,
    renderable_jsOr t13 rfl⟩

theorem generateService_total (config : Config) (h1 : isLeaf config.appName = true)
    (h2 : isLeaf config.namespace_ = true) (h3 : isLeaf config.serviceType = true)
    (h4 : isLeaf config.port = true) : ∃ text, generateService config = .ok text := by
  apply toYAML_total
  simp [renderableProps, renderable, renderableItems, prop, lit, renderable_of_leaf h1,
    renderable_of_leaf h2, renderable_of_leaf h3, renderable_of_leaf h4]

theorem generateConfigMap_total (config : Config) (h1 : isLeaf config.appName = true)
    (h2 : isLeaf config.namespace_ = true) (h3 : renderable config.envVars = true) :
    ∃ text, generateConfigMap config = .ok text := by
  apply toYAML_total
  simp [renderableProps, renderable, prop, lit, withSuffix, renderable_of_leaf h1,
    renderable_of_leaf h2, h3]

theorem generateSecret_total (config : Config) (h1 : isLeaf config.appName = true)
    (h2 : isLeaf config.namespace_ = true) (h3 : renderable config.secrets = true) :
    ∃ text, generateSecret config = .ok text := by
  apply toYAML_total
  simp [renderableProps, renderable, prop, lit, withSuffix, renderable_of_leaf h1,
    renderable_of_leaf h2, h3]

theorem generateHPA_total (config : Config) (h1 : isLeaf config.appName = true)
    (h2 : isLeaf config.namespace_ = true) (h3 : isLeaf config.minReplicas = true)
    (h4 : isLeaf config.maxReplicas = true) : ∃ text, generateHPA config = .ok text := by
  apply toYAML_total
  simp [renderableProps, renderable, renderableItems, prop, lit, resourceMetric, scalingPolicy,
    renderable_of_leaf h1, renderable_of_leaf h2, renderable_of_leaf h3, renderable_of_leaf h4]

theorem generateIngress_total (config : Config) (h1 : isLeaf config.appName = true)
    (h2 : isLeaf config.namespace_ = true) (h3 : isLeaf config.ingressHost = true) :
    ∃ text, generateIngress config = .ok text := by
  unfold generateIngress ingressObject
  apply toYAML_total
  have hann : renderable (ingressAnnotations config) = true := by
    cases htls : truthy config.enableTLS <;>
      cases hp : strictEqStr config.environment "production".data <;>
      simp [ingressAnnotations, htls, hp, renderable, renderableProps, prop, lit]
  cases ht : truthy (jsAnd config.enableTLS config.ingressHost)
  · simp [renderableProps, renderable_obj, renderable_arr, renderable_str, renderable_num,
      renderableItems, prop, lit, hann, renderable_of_leaf h1, renderable_of_leaf h2, renderable_of_leaf h3]
  · have htruthy := ((truthy_jsAnd _ _).1 ht).2
    have hname := renderable_of_leaf h1
    have hns := renderable_of_leaf h2
    clear ht
    generalize config.ingressHost = host at h3 htruthy ⊢
    cases host with
    | arr xs => cases h3
    | obj kvs => cases h3
    | undefined => cases htruthy
    | null => cases htruthy
    | bool b =>
      simp [renderableProps, renderable_obj, renderable_arr, renderable_str, renderable_num,
        renderable_bool, renderableItems, prop, lit, withSuffix, hann, hname, hns]
    | num n =>
      simp [renderableProps, renderable_obj, renderable_arr, renderable_str, renderable_num,
        renderable_bool, renderableItems, prop, lit, withSuffix, hann, hname, hns]
    | str s =>
      simp [renderableProps, renderable_obj, renderable_arr, renderable_str, renderable_num,
        renderable_bool, renderableItems, prop, lit, withSuffix, hann, hname, hns]

theorem spreadInto_timing (path port : JsVal) (a b c d : Int) :
    spreadInto [prop "httpGet" (.obj [prop "path" path, prop "port" port])] (timingOf a b c d)
      = [prop "httpGet" (.obj [prop "path" path, prop "port" port]),
         prop "initialDelaySeconds" (.num a), prop "periodSeconds" (.num b),
         prop "timeoutSeconds" (.num c), prop "failureThreshold" (.num d)] := by
  rfl

theorem isLeaf_recognised {v : JsVal} (h : RecognisedEnvironment v) : isLeaf v = true := by
  rcases h with h | h | h | h <;> rw [h] <;> rfl

theorem renderable_tierResources (v : JsVal) : renderable (tierResources v) = true := by
  unfold tierResources
  split
  · rfl
  · split <;> rfl

/-- The Deployment of a config built from typed options with a recognised
environment and no resources of their own is rendered. -/
theorem generateDeployment_total {options : Options} {config : Config}
    (h : buildConfig options = .ok config) (ht : TypedOptions options)
    (henv : RecognisedEnvironment options.environment)
    (hreplicas : ∃ n, config.replicas = jsOr options.replicas (.num n))
    (hresources : ∃ v, config.resources = tierResources v)
    (htiming : ∃ a b c d, config.healthCheckConfig = timingOf a b c d) :
    ∃ text, generateDeployment config = .ok text := by
  obtain ⟨t1, t2, t3, t4, _, _, _, _, t9, t10, _, _⟩ := config_typed h ht
  obtain ⟨_, _, _, henvironment, _, _, _, _, _, _, _, henvVars, hsecrets, _⟩ :=
    buildConfig_fields h
  have t5 : isLeaf config.environment = true := by
    rw [henvironment]
    exact isLeaf_jsOr (isLeaf_recognised henv) rfl
  have t6 : isLeaf config.replicas = true := by
    obtain ⟨n, hn⟩ := hreplicas
    rw [hn]
    exact isLeaf_jsOr ht.2.2.2.2.1 rfl
  have t7 : renderable config.resources = true := by
    obtain ⟨v, hv⟩ := hresources
    rw [hv]
    exact renderable_tierResources v
  obtain ⟨a, b, c, d, htime⟩ := htiming
  obtain ⟨keys, hk⟩ := objectKeys_jsOr_ok options.envVars
  obtain ⟨secretKeys, hs⟩ := objectKeys_jsOr_ok options.secrets
  rw [← henvVars] at hk
  rw [← hsecrets] at hs
  unfold generateDeployment deploymentObject
  rw [buildEnvVars_ok hk hs]
  simp only [ok_bind]
  apply toYAML_total
  have hrefs := renderableItems_refs config keys secretKeys
  simp [renderableProps, renderable, renderableItems, prop, lit, containerProps, deploymentLabels,
    htime, spreadInto_timing, hrefs, t7, renderable_of_leaf t1, renderable_of_leaf t2,
    renderable_of_leaf t3, renderable_of_leaf t4, renderable_of_leaf t5, renderable_of_leaf t6,
    renderable_of_leaf t9, renderable_of_leaf t10]

/-- For typed options with a recognised environment and no resources of their
own, `generate` returns, with the Deployment and the Service among the
manifests. -/
theorem generate_total (options : Options) (ht : TypedOptions options)
    (henv : RecognisedEnvironment options.environment)
    (hres : options.resources = .undefined) :
    ∃ config result deployment service others,
      buildConfig options = .ok config ∧ generate options = .ok result ∧
      generateDeployment config = .ok deployment ∧ generateService config = .ok service ∧
      result.manifests = ("deployment".data, deployment) :: ("service".data, service) :: others ∧
      result.deploymentCommands = generateDeploymentCommands config result.manifests ∧
      result.bestPractices = generateBestPractices config := by
  obtain ⟨config, hc, hrep, hresources, htime⟩ := buildConfig_recognised options henv
  rw [hres] at hresources
  have hresources2 : config.resources = tierResources options.environment := hresources
  obtain ⟨t1, t2, t3, t4, t5, t6, t7, t8, _, _, t11, t12⟩ := config_typed hc ht
  obtain ⟨_, _, _, _, _, _, _, _, _, _, _, henvVars, hsecrets, _⟩ := buildConfig_fields hc
  obtain ⟨deployment, hd⟩ := generateDeployment_total hc ht henv ⟨_, hrep⟩ ⟨_, hresources2⟩
    ⟨_, _, _, _, htime⟩
  obtain ⟨service, hsv⟩ := generateService_total config t1 t4 t5 t3
  obtain ⟨configMapText, hcm⟩ := generateConfigMap_total config t1 t4 t11
  obtain ⟨secretText, hse⟩ := generateSecret_total config t1 t4 t12
  obtain ⟨ingressText, hin⟩ := generateIngress_total config t1 t4 t6
  obtain ⟨hpaText, hh⟩ := generateHPA_total config t1 t4 t7 t8
  have hsummary := fun manifests => generateSummary_returns config manifests (by
    rw [hresources2]
    unfold tierResources
    split
    · rfl
    · split <;> rfl)
  unfold generate
  rw [hc]
  simp only [ok_bind]
  rw [hd, hsv, henvVars, hsecrets, hasKeys_jsOr, hasKeys_jsOr]
  simp only [ok_bind]
  rw [hcm, hse, hin, hh]
  simp only [optionalManifest_of_ok, ok_bind]
  rw [hsummary]
  exact ⟨config, _, deployment, service, _, rfl, rfl, hd, hsv, rfl, rfl, rfl⟩

end K8s

namespace K8s

/-! ## C36: no validation of required fields -/

/-- An object that starts with `apiVersion`, `kind` and a `metadata` whose
`name` is absent is rendered with the `namespace` line right after `metadata:`. -/
theorem manifest_head_absent (apiVersion kind : String) (ns : JsVal) (hns : isScalar ns = true)
    (hv : rendered apiVersion.data = apiVersion.data) (hk : rendered kind.data = kind.data)
    (metadata rest : List (Str × JsVal)) {text : Str}
    (h : toYAMLProps (prop "apiVersion" (lit apiVersion) :: prop "kind" (lit kind)
      :: prop "metadata" (.obj (prop "name" .undefined :: prop "namespace" ns :: metadata))
      :: rest) 0 = .ok text) :
    headWithoutName apiVersion kind ns <+: text := by
  obtain ⟨l1, m1, h1, hm1, rfl⟩ := toYAMLProps_cons_ok h
  obtain ⟨l2, m2, h2, hm2, rfl⟩ := toYAMLProps_cons_ok hm1
  obtain ⟨l3, m3, h3, _, rfl⟩ := toYAMLProps_cons_ok hm2
  obtain ⟨sub, hsub, rfl⟩ := toYAMLEntry_obj h3
  obtain ⟨l4, m4, h4, hm4, rfl⟩ := toYAMLProps_cons_ok hsub
  obtain ⟨l5, m5, h5, _, rfl⟩ := toYAMLProps_cons_ok hm4
  rw [lit, toYAMLEntry_rendered, hv] at h1
  rw [lit, toYAMLEntry_rendered, hk] at h2
  rw [toYAMLEntry_of_scalar _ _ hns] at h5
  cases h1
  cases h2
  cases h4
  cases h5
  refine ⟨m5 ++ m3, ?_⟩
  simp [headWithoutName, spaces, prop]

/-- The Deployment without a name. -/
theorem generateDeployment_head_absent {config : Config} {text : Str}
    (h : generateDeployment config = .ok text) (hname : config.appName = .undefined)
    (hns : isScalar config.namespace_ = true) :
    headWithoutName "apps/v1" "Deployment" config.namespace_ <+: text := by
  unfold generateDeployment deploymentObject at h
  obtain ⟨d, hd, h⟩ := bind_eq_ok h
  obtain ⟨env, _, hd⟩ := bind_eq_ok hd
  cases hd
  rw [hname] at h
  exact manifest_head_absent "apps/v1" "Deployment" _ hns (by decide) (by decide) _ _ h

/-- The Service without a name. -/
theorem generateService_head_absent {config : Config} {text : Str}
    (h : generateService config = .ok text) (hname : config.appName = .undefined)
    (hns : isScalar config.namespace_ = true) :
    headWithoutName "v1" "Service" config.namespace_ <+: text := by
  unfold generateService serviceObject at h
  rw [hname] at h
  exact manifest_head_absent "v1" "Service" _ hns (by decide) (by decide) _ _ h

/-- The container without an image: `imagePullPolicy` follows the name entry. -/
theorem generateDeployment_image_absent {config : Config} {text : Str}
    (h : generateDeployment config = .ok text) (himage : config.image = .undefined) :
    ∃ nameLine, toYAMLEntry "name".data config.appName 4 = .ok nameLine ∧
      (nameLine ++ "        imagePullPolicy: IfNotPresent\n".data) <:+: text := by
  obtain ⟨env, sub, _, hsub, hin⟩ := generateDeployment_container h
  unfold containerProps at hsub
  obtain ⟨l1, m1, h1, hm1, rfl⟩ := toYAMLProps_cons_ok hsub
  obtain ⟨l2, m2, h2, hm2, rfl⟩ := toYAMLProps_cons_ok hm1
  obtain ⟨l3, m3, h3, _, rfl⟩ := toYAMLProps_cons_ok hm2
  rw [himage] at h2
  cases h2
  have hpolicy : toYAMLEntry "imagePullPolicy".data (lit "IfNotPresent") 4
      = .ok "        imagePullPolicy: IfNotPresent\n".data := by decide
  rw [hpolicy] at h3
  cases h3
  refine ⟨l1, h1, List.IsInfix.trans ?_ hin⟩
  refine ⟨[], m3, ?_⟩
  simp

/-- The container without a port: the port item has no `containerPort` line. -/
theorem generateDeployment_port_absent {config : Config} {text : Str}
    (h : generateDeployment config = .ok text) (hport : config.port = .undefined) :
    portsWithoutPort <:+: text := by
  obtain ⟨env, sub, _, hsub, hin⟩ := generateDeployment_container h
  obtain ⟨line, hl, hline⟩ := toYAMLProps_mem hsub
    (show ("ports".data, JsVal.arr [.obj [prop "containerPort" config.port,
      prop "name" (lit "http"), prop "protocol" (lit "TCP")]]) ∈ containerProps config env from
      List.mem_cons_of_mem _ (List.mem_cons_of_mem _ (List.mem_cons_of_mem _
        (List.mem_cons_self _ _))))
  rw [hport] at hl
  have hports : toYAMLEntry "ports".data (.arr [.obj [prop "containerPort" .undefined,
      prop "name" (lit "http"), prop "protocol" (lit "TCP")]]) 4 = .ok portsWithoutPort := by
    decide!
  rw [hports] at hl
  cases hl
  exact hline.trans hin

/-- The Service without a port: the port item has no `targetPort` line. -/
theorem generateService_port_absent {config : Config} {text : Str}
    (h : generateService config = .ok text) (hport : config.port = .undefined) :
    servicePortsWithoutTarget <:+: text := by
  unfold generateService serviceObject at h
  obtain ⟨s1, h1, i1⟩ := toYAMLProps_sub h "spec".data _
    (List.mem_cons_of_mem _ (List.mem_cons_of_mem _ (List.mem_cons_of_mem _
      (List.mem_cons_self _ _))))
  obtain ⟨line, hl, hline⟩ := toYAMLProps_mem h1
    (show ("ports".data, JsVal.arr [.obj [prop "name" (lit "http"), prop "port" (.num 80),
      prop "targetPort" config.port, prop "protocol" (lit "TCP")]]) ∈ _ from
      List.mem_cons_of_mem _ (List.mem_cons_of_mem _ (List.mem_cons_self _ _)))
  rw [hport] at hl
  have hports : toYAMLEntry "ports".data (.arr [.obj [prop "name" (lit "http"),
      prop "port" (.num 80), prop "targetPort" .undefined, prop "protocol" (lit "TCP")]]) 1
      = .ok servicePortsWithoutTarget := by
    decide!
  rw [hports] at hl
  cases hl
  exact hline.trans i1

/-- C36: `generate` validates no required field. For every options object
typed as the data model types it, whose environment is absent or one of dev,
staging and production and whose resources are absent, `generate` returns a
complete result (the Deployment and the Service among the manifests, the
summary, the command list, the ten best practices), also when `appName`,
`image` or `port` is absent; the lines of an absent field are missing from the
manifests. -/
theorem generate_without_validation (options : Options) (ht : TypedOptions options)
    (henv : RecognisedEnvironment options.environment)
    (hres : options.resources = .undefined) : NoValidation options := by
  obtain ⟨config, result, deployment, service, others, hc, hg, hd, hsv, hm, hcmd, hbp⟩ :=
    generate_total options ht henv hres
  obtain ⟨hname, himage, hport, _, hns, _⟩ := buildConfig_fields hc
  have hscalar : isScalar config.namespace_ = true := by
    rw [hns]
    exact isScalar_jsOr ht.2.2.2.1 rfl
  refine ⟨result, deployment, service, hg, ?_, ?_, ?_, ?_, ?_, ?_, ?_⟩
  · rw [hm]; rfl
  · rw [hm]; rfl
  · rw [hbp]; rfl
  · rw [hcmd]
    unfold generateDeploymentCommands
    simp
  · intro h
    rw [← hname] at h
    rw [← hns]
    exact ⟨generateDeployment_head_absent hd h hscalar,
      generateService_head_absent hsv h hscalar⟩
  · intro h
    rw [← himage] at h
    rw [← hname]
    exact generateDeployment_image_absent hd h
  · intro h
    rw [← hport] at h
    exact ⟨generateDeployment_port_absent hd h, generateService_port_absent hsv h⟩

/-- Witness of C36: options that give only the tier. -/
theorem generate_without_validation_witness : NoValidation bareOptions :=
  generate_without_validation bareOptions
    ⟨rfl, rfl, rfl, rfl, rfl, rfl, rfl, rfl, rfl, rfl, rfl, rfl, rfl⟩
    (Or.inr (Or.inr (Or.inl rfl))) rfl

end K8s

namespace K8s

/-- C37, the code at options that switch the Ingress on and give no host:
`generate` returns, the item `Ingress with TLS` of the checklist is implemented
(`enableIngress && enableTLS`, where `enableTLS` is true by default), and the
Ingress manifest of the same result has no `tls:` section, which
`generateIngress` writes only when `enableTLS && ingressHost`; the autoscaler
item is false and there is no autoscaler manifest. -/
theorem checklist_tls_without_section :
    ∃ result, generate ingressNoHostOptions = .ok result ∧
      implementedOf result.bestPractices "Ingress with TLS for secure external access"
        = some (.bool true) ∧
      (∃ text, result.manifests.lookup "ingress".data = some text ∧
        ¬ "tls:".data <:+: text) ∧
      isImplemented (implementedOf result.bestPractices
        "Horizontal Pod Autoscaler for dynamic scaling") = false ∧
      result.manifests.lookup "hpa".data = none := by
  have hcheck : (generate ingressNoHostOptions).map (fun result =>
      isImplemented (implementedOf result.bestPractices
        "Ingress with TLS for secure external access") &&
      decide (∃ text ∈ result.manifests.lookup "ingress".data, ¬ "tls:".data <:+: text) &&
      !isImplemented (implementedOf result.bestPractices
        "Horizontal Pod Autoscaler for dynamic scaling") &&
      decide (result.manifests.lookup "hpa".data = none)) = .ok true := by decide!
  obtain ⟨result, hresult, h⟩ := exists_of_map_true hcheck
  simp only [Bool.and_eq_true, decide_eq_true_eq, Bool.not_eq_true'] at h
  obtain ⟨⟨⟨h1, text, htext, hno⟩, h3⟩, h4⟩ := h
  exact ⟨result, hresult, isImplemented_eq h1, ⟨text, Option.mem_def.1 htext, hno⟩, h3, h4⟩

end K8s

namespace RecruiterAssistant

open K8s (Str)
open PromptOptimizer (lowerCaseAscii)

/-! ## C39: the recommendation and the reported score -/

/-- The rounded score reaches a whole threshold exactly when the score is at
most a half below it. -/
theorem threshold_le_round (threshold : Int) (score : ℚ) :
    (threshold : ℚ) ≤ ((⌊score + 1 / 2⌋ : Int) : ℚ) ↔ (threshold : ℚ) - 1 / 2 ≤ score := by
  rw [Int.cast_le, Int.le_floor]
  constructor <;> intro h <;> linarith

/-- The method `getRecommendation` on a finite number. -/
theorem getRecommendation_finite (q : ℚ) :
    getRecommendation (.finite q) =
      if 85 ≤ q then "STRONG_HIRE".data
      else if 70 ≤ q then "INTERVIEW".data
      else if 50 ≤ q then "MAYBE".data
      else "PASS".data := by
  have hge : ∀ bound : ℚ, Double.ge (.finite q) (.finite bound) = decide (bound ≤ q) := by
    intro bound
    show (!decide (q < bound)) = decide (bound ≤ q)
    by_cases h : q < bound
    · simp [h, not_le.2 h]
    · simp [h, not_lt.1 h]
  unfold getRecommendation
  simp only [hge, decide_eq_true_eq]

/-- The recommendation for the rounded score is that for the score itself,
except just below a threshold. -/
theorem getRecommendation_round (score : Double) :
    getRecommendation (Double.mathRound score) = getRecommendation score ↔
      ¬ JustBelowThreshold score := by
  cases score with
  | nan => exact ⟨fun _ h => h, fun _ => rfl⟩
  | infinity negative => exact ⟨fun _ h => h, fun _ => rfl⟩
  | finite score =>
    have h85 := threshold_le_round 85 score
    have h70 := threshold_le_round 70 score
    have h50 := threshold_le_round 50 score
    norm_num at h85 h70 h50
    show getRecommendation (.finite ((⌊score + 1 / 2⌋ : Int) : ℚ))
      = getRecommendation (.finite score) ↔ ¬ ((84.5 ≤ score ∧ score < 85)
        ∨ (69.5 ≤ score ∧ score < 70) ∨ (49.5 ≤ score ∧ score < 50))
    rw [getRecommendation_finite, getRecommendation_finite]
    by_cases a85 : (85 : ℚ) ≤ score
    · have b85 : (169 : ℚ) / 2 ≤ score := by linarith
      rw [if_pos a85, if_pos (h85.2 b85)]
      simp only [true_iff]
      rintro (⟨_, h⟩ | ⟨_, h⟩ | ⟨_, h⟩) <;> linarith
    · rw [if_neg a85]
      by_cases b85 : (169 : ℚ) / 2 ≤ score
      · rw [if_pos (h85.2 b85)]
        have hpos : (84.5 ≤ score ∧ score < 85) ∨ (69.5 ≤ score ∧ score < 70)
            ∨ (49.5 ≤ score ∧ score < 50) := Or.inl ⟨by norm_num; linarith, by linarith⟩
        simp only [hpos, not_true_eq_false, iff_false]
        split_ifs <;> decide
      · rw [if_neg (fun h => b85 (h85.1 h))]
        by_cases a70 : (70 : ℚ) ≤ score
        · have b70 : (139 : ℚ) / 2 ≤ score := by linarith
          rw [if_pos a70, if_pos (h70.2 b70)]
          simp only [true_iff]
          rintro (⟨h, _⟩ | ⟨_, h⟩ | ⟨_, h⟩)
          · norm_num at h; linarith
          · linarith
          · linarith
        · rw [if_neg a70]
          by_cases b70 : (139 : ℚ) / 2 ≤ score
          · rw [if_pos (h70.2 b70)]
            have hpos : (84.5 ≤ score ∧ score < 85) ∨ (69.5 ≤ score ∧ score < 70)
                ∨ (49.5 ≤ score ∧ score < 50) :=
              Or.inr (Or.inl ⟨by norm_num; linarith, by linarith⟩)
            simp only [hpos, not_true_eq_false, iff_false]
            split_ifs <;> decide
          · rw [if_neg (fun h => b70 (h70.1 h))]
            by_cases a50 : (50 : ℚ) ≤ score
            · have b50 : (99 : ℚ) / 2 ≤ score := by linarith
              rw [if_pos a50, if_pos (h50.2 b50)]
              simp only [true_iff]
              rintro (⟨h, _⟩ | ⟨h, _⟩ | ⟨_, h⟩)
              · norm_num at h; linarith
              · norm_num at h; linarith
              · linarith
            · rw [if_neg a50]
              by_cases b50 : (99 : ℚ) / 2 ≤ score
              · rw [if_pos (h50.2 b50)]
                have hpos : (84.5 ≤ score ∧ score < 85) ∨ (69.5 ≤ score ∧ score < 70)
                    ∨ (49.5 ≤ score ∧ score < 50) :=
                  Or.inr (Or.inr ⟨by norm_num; linarith, by linarith⟩)
                simp only [hpos, not_true_eq_false, iff_false]
                decide
              · rw [if_neg (fun h => b50 (h50.1 h))]
                simp only [true_iff]
                rintro (⟨h, _⟩ | ⟨h, _⟩ | ⟨h, _⟩) <;> norm_num at h <;> linarith

/-- C39, counterexample: for a résumé that names the five required skills and
no degree, the scores are 100, 100, 30 and 100, the weighted score is the
double 84.5, the reported `overallFitScore` is 85 and the recommendation is
`INTERVIEW`, while `getRecommendation(85)` is `STRONG_HIRE`. -/
theorem analyzeCandidate_recommendation_differs :
    overallFitScore (scoresOf lowerCaseAscii 2025 fiveSkillsText fiveSkillsRequirements)
      = .finite (169 / 2) ∧
    (analyzeCandidate lowerCaseAscii 2025 fiveSkillsText fiveSkillsRequirements).overallFitScore
      = .finite 85 ∧
    (analyzeCandidate lowerCaseAscii 2025 fiveSkillsText fiveSkillsRequirements).recommendation
      = "INTERVIEW".data ∧
    getRecommendation (.finite 85) = "STRONG_HIRE".data := by
  refine ⟨by decide!, by decide!, by decide!, by decide!⟩

/-- C39, amended: the recommendation of `analyzeCandidate` is
`getRecommendation` of the unrounded weighted score, and the reported
`overallFitScore` is that score rounded; the recommendation agrees with the
thresholds read on the reported score exactly when the unrounded score is not
within a half below 85, 70 or 50. -/
theorem analyzeCandidate_recommendation (toLowerCase : Str → Str) (currentYear : Int)
    (resumeText : Str) (jobRequirements : JobRequirements) :
    (analyzeCandidate toLowerCase currentYear resumeText jobRequirements).recommendation
      = getRecommendation (overallFitScore
          (scoresOf toLowerCase currentYear resumeText jobRequirements)) ∧
    (analyzeCandidate toLowerCase currentYear resumeText jobRequirements).overallFitScore
      = Double.mathRound (overallFitScore
          (scoresOf toLowerCase currentYear resumeText jobRequirements)) ∧
    (getRecommendation
        (analyzeCandidate toLowerCase currentYear resumeText jobRequirements).overallFitScore
      = (analyzeCandidate toLowerCase currentYear resumeText jobRequirements).recommendation ↔
      ¬ JustBelowThreshold (overallFitScore
          (scoresOf toLowerCase currentYear resumeText jobRequirements))) :=
  ⟨rfl, rfl, getRecommendation_round _⟩

/-- The reported score is rounded from a double: for a résumé with one of three
required skills the weighted score is 30.499999999999996, reported as 30, where
exact arithmetic gives 30.5. -/
theorem analyzeCandidate_rounds_double :
    (scoresOf lowerCaseAscii 2025 oneSkillText threeSkillsRequirements).skillsMatch = .finite 0 ∧
    (scoresOf lowerCaseAscii 2025 oneSkillText threeSkillsRequirements).educationMatch
      = .finite 30 ∧
    (scoresOf lowerCaseAscii 2025 oneSkillText threeSkillsRequirements).yearsExperience
      = .finite 40 ∧
    (analyzeCandidate lowerCaseAscii 2025 oneSkillText threeSkillsRequirements).overallFitScore
      = .finite 30 ∧
    (analyzeCandidate lowerCaseAscii 2025 oneSkillText threeSkillsRequirements).recommendation
      = "PASS".data := by
  refine ⟨by decide!, by decide!, by decide!, by decide!, by decide!⟩

end RecruiterAssistant

namespace RecruiterAssistant

/-! ## C40: the weights of the overall score -/

/-- C40, counterexample: component scores of 100 give an overall score of 95. -/
theorem calculateOverallScore_of_hundreds :
    calculateOverallScore {
      skillsMatch := 100
      experienceRelevance := 100
      educationMatch := 100
      yearsExperience := 100 } = 95 := by
  decide!

/-- C40, amended: the five weights of the table sum to 1, but
`calculateOverallScore` applies only four of them, which sum to 0.95 (the
weight 0.05 of `location` is not applied); when the four component scores all
equal `v` the overall score is `0.95 * v`. -/
theorem calculateOverallScore_of_equal (v : ℚ) :
    weights.skillsMatch + weights.experienceRelevance + weights.educationMatch
      + weights.yearsExperience + weights.location = 1 ∧
    weights.skillsMatch + weights.experienceRelevance + weights.educationMatch
      + weights.yearsExperience = 0.95 ∧
    calculateOverallScore {
      skillsMatch := v
      experienceRelevance := v
      educationMatch := v
      yearsExperience := v } = 0.95 * v := by
  unfold calculateOverallScore weights
  refine ⟨?_, ?_, ?_⟩
  · norm_num
  · norm_num
  · norm_num
    ring

/-- The sum as the code computes it, in doubles, at component scores of 100:
the four products 40, 30, 15 and 10 and their sums are exact, and the result is
95. -/
theorem overallFitScore_of_hundreds :
    overallFitScore {
      skillsMatch := .finite 100
      experienceRelevance := .finite 100
      educationMatch := .finite 100
      yearsExperience := .finite 100 } = .finite 95 := by
  decide!

end RecruiterAssistant

namespace DependencyUpgradeAssistant

open K8s (Str JsError)

/-! ## C38: the entries of `checkOutdated` -/

/-- The comparison of the code with a finite latest component. -/
theorem exceeds_finite (parts : List Double) (position : Nat) (x : Int) :
    exceeds (some (.finite x)) (parts.get? position) = componentBelow parts position x := by
  unfold exceeds componentBelow
  cases parts.get? position with
  | none => rfl
  | some part =>
    cases part with
    | finite q => rfl
    | infinity negative => rfl
    | nan => rfl

/-- The update type against a latest version of three integers. -/
theorem getUpdateType_of_latest (current latest : Str) (x y z : Int)
    (hl : numberParts latest = [.finite x, .finite y, .finite z]) :
    getUpdateType current latest =
      (if componentBelow (numberParts current) 0 x then "major".data
       else if componentBelow (numberParts current) 1 y then "minor".data
       else "patch".data) := by
  unfold getUpdateType
  simp only [hl]
  rw [show ([Double.finite (x : ℚ), Double.finite (y : ℚ), Double.finite (z : ℚ)].get? 0)
      = some (Double.finite (x : ℚ)) from rfl,
    show ([Double.finite (x : ℚ), Double.finite (y : ℚ), Double.finite (z : ℚ)].get? 1)
      = some (Double.finite (y : ℚ)) from rfl,
    exceeds_finite, exceeds_finite]
  split_ifs <;> rfl

/-- For a lower current version of three integers the type is the first
component in which the versions differ. -/
theorem type_of_lower (parts : List Double) (a b c x y z : Int)
    (hparts : parts = [.finite a, .finite b, .finite c])
    (h : lowerVersion (a, b, c) (x, y, z)) :
    (if componentBelow parts 0 x then "major".data
     else if componentBelow parts 1 y then "minor".data
     else "patch".data) = firstDifference (a, b, c) (x, y, z) := by
  subst hparts
  have h0 : componentBelow [Double.finite (a : ℚ), .finite b, .finite c] 0 x = decide (a < x) := by
    show decide ((a : ℚ) < x) = decide (a < x)
    simp
  have h1 : componentBelow [Double.finite (a : ℚ), .finite b, .finite c] 1 y = decide (b < y) := by
    show decide ((b : ℚ) < y) = decide (b < y)
    simp
  rw [h0, h1]
  unfold firstDifference
  unfold lowerVersion at h
  simp only [decide_eq_true_eq]
  by_cases p1 : a < x
  · have n1 : x ≠ a := by omega
    simp only [if_pos p1, if_pos n1]
  · have e1 : ¬ x ≠ a := by
      simp only at h
      omega
    by_cases p2 : b < y
    · have n2 : y ≠ b := by omega
      simp only [if_neg p1, if_neg e1, if_pos p2, if_pos n2]
    · have e2 : ¬ y ≠ b := by
        simp only at h
        omega
      simp only [if_neg p1, if_neg e1, if_neg p2, if_neg e2]

/-- Every version of the table reads as three integers. -/
theorem latest_parts (name latest : Str)
    (h : (latestVersions.map fun row => (row.1.data, row.2.data)).lookup name = some latest) :
    ∃ x y z : Int, numberParts latest = [.finite x, .finite y, .finite z] := by
  have hmem : latest ∈ (latestVersions.map fun row => row.2.data) := by
    have hgen : ∀ rows : List (Str × Str), rows.lookup name = some latest →
        latest ∈ rows.map fun row => row.2 := by
      intro rows
      induction rows with
      | nil => intro hl; cases hl
      | cons row rest ih =>
        intro hl
        obtain ⟨key, value⟩ := row
        rw [List.lookup_cons] at hl
        split at hl
        · cases hl
          exact List.mem_cons_self _ _
        · exact List.mem_cons_of_mem _ (ih hl)
    have := hgen _ h
    simpa [List.map_map] using this
  simp only [latestVersions, List.map_cons, List.map_nil, List.mem_cons, List.mem_singleton,
    List.not_mem_nil, or_false] at hmem
  rcases hmem with rfl | rfl | rfl | rfl | rfl
  · exact ⟨4, 17, 21, by decide!⟩
  · exact ⟨0, 27, 2, by decide!⟩
  · exact ⟨18, 2, 0, by decide!⟩
  · exact ⟨4, 18, 2, by decide!⟩
  · exact ⟨29, 5, 0, by decide!⟩

/-- The entry of one dependency. -/
theorem checkOne_entry (dep : Dependency) (entries : List Outdated)
    (h : checkOne dep = .ok entries) : ∀ entry ∈ entries, EntryAsSpecified [dep] entry := by
  unfold checkOne at h
  split at h
  · rename_i latest hlookup
    split at h
    · rename_i hne
      cases h
      intro entry hentry
      rw [List.mem_singleton.1 hentry]
      obtain ⟨x, y, z, hl⟩ := latest_parts dep.name latest hlookup
      refine ⟨⟨dep, List.mem_singleton.2 rfl, rfl, rfl⟩, hlookup, fun heq => hne heq.symm,
        x, y, z, hl, getUpdateType_of_latest dep.version latest x y z hl, ?_⟩
      intro a b c hc hlow
      exact (getUpdateType_of_latest dep.version latest x y z hl).trans
        (type_of_lower _ a b c x y z hc hlow)
    · cases h
      intro entry hentry
      cases hentry
  · split at h
    · cases h
    · cases h
      intro entry hentry
      cases hentry

theorem entry_of_sublist {dependencies more : List Dependency} {entry : Outdated}
    (h : EntryAsSpecified dependencies entry) (hsub : ∀ dep ∈ dependencies, dep ∈ more) :
    EntryAsSpecified more entry := by
  obtain ⟨⟨dep, hdep, h1⟩, h2⟩ := h
  exact ⟨⟨dep, hsub dep hdep, h1⟩, h2⟩

/-- The call returns when no name is one that objects inherit. -/
theorem checkOne_returns (dep : Dependency) (h : dep.name ∉ K8s.objectPrototypeNames) :
    ∃ entries, checkOne dep = .ok entries := by
  unfold checkOne
  split
  · split
    · exact ⟨_, rfl⟩
    · exact ⟨_, rfl⟩
  · rw [if_neg h]
    exact ⟨_, rfl⟩

/-- C38, counterexample: for react at 19.0.0, above the 18.2.0 of the table,
`checkOutdated` returns an entry, with update type `minor`. -/
theorem checkOutdated_newer_version :
    checkOutdated newerReact = .ok [{
      package := "react".data
      current := "19.0.0".data
      latest := "18.2.0".data
      updateType := "minor".data
      breakingChanges := false }] ∧
    numberParts "19.0.0".data = [.finite 19, .finite 0, .finite 0] ∧
    numberParts "18.2.0".data = [.finite 18, .finite 2, .finite 0] ∧
    ¬ lowerVersion (19, 0, 0) (18, 2, 0) := by
  refine ⟨by decide!, by decide!, by decide!, ?_⟩
  unfold lowerVersion
  decide

/-- C38, amended: for every dependency list without a name inherited from
`Object.prototype`, `checkOutdated` returns, and every entry stands for a
dependency whose name is in the table and whose version is not the same text
as the latest one (no order of versions is tested); its `updateType` is `major`
when the first component of the current version is a number below the first of
the latest, else `minor` when the second is a number below the second, else
`patch`; that is the highest-order component in which the versions differ when
the current version reads as three integers and is the lower one. -/
theorem checkOutdated_entries (dependencies : List Dependency)
    (hnames : ∀ dep ∈ dependencies, dep.name ∉ K8s.objectPrototypeNames) :
    ∃ result, checkOutdated dependencies = .ok result ∧
      ∀ entry ∈ result, EntryAsSpecified dependencies entry := by
  induction dependencies with
  | nil => exact ⟨[], rfl, fun entry hentry => by cases hentry⟩
  | cons dep rest ih =>
    obtain ⟨entries, hone⟩ := checkOne_returns dep (hnames dep (List.mem_cons_self _ _))
    obtain ⟨more, hmore, hspec⟩ := ih fun d hd => hnames d (List.mem_cons_of_mem _ hd)
    refine ⟨entries ++ more, ?_, ?_⟩
    · rw [checkOutdated, hone, hmore]
      rfl
    · intro entry hentry
      rcases List.mem_append.1 hentry with h | h
      · exact entry_of_sublist (checkOne_entry dep entries hone entry h) fun d hd => by
          rw [List.mem_singleton.1 hd]
          exact List.mem_cons_self _ _
      · exact entry_of_sublist (hspec entry h) fun d hd => List.mem_cons_of_mem _ hd

/-- Witness of C38 on the dependencies of the demo. -/
theorem checkOutdated_entries_witness :
    ∃ result, checkOutdated demoDependencies = .ok result ∧
      ∀ entry ∈ result, EntryAsSpecified demoDependencies entry :=
  checkOutdated_entries demoDependencies (by decide)

/-- The result for the dependencies of the demo. -/
theorem checkOutdated_demo :
    checkOutdated demoDependencies = .ok [
      { package := "lodash".data, current := "4.17.20".data, latest := "4.17.21".data,
        updateType := "patch".data, breakingChanges := false },
      { package := "react".data, current := "17.0.2".data, latest := "18.2.0".data,
        updateType := "major".data, breakingChanges := true },
      { package := "express".data, current := "4.17.1".data, latest := "4.18.2".data,
        updateType := "minor".data, breakingChanges := false }] := by
  decide!

/-- The components are read by `Number`: a binary literal, an exponent and
blanks are numbers, a text with a letter is `NaN` and is below nothing. -/
theorem getUpdateType_reads_numbers :
    getUpdateType "18.0b1".data "18.2.0".data = "minor".data ∧
    getUpdateType "1e1.0.0".data "18.2.0".data = "major".data ∧
    getUpdateType "18. 1 .0".data "18.2.0".data = "minor".data ∧
    getUpdateType "18.2-beta.0".data "18.2.0".data = "patch".data ∧
    getUpdateType "18".data "18.2.0".data = "patch".data := by
  decide!

end DependencyUpgradeAssistant
